import Mathlib

/-! # MyScheduler: a shallow embedding of `myscheduler.c`

The C program keeps its whole simulation in global variables.  Here the globals
are the fields of one record `Sim`, every C function is a function on `Sim`,
and the locals of `execute_commands` live in the record `Loop`.

Conventions of the embedding

* C `int` is `Int`.  The header of the source states that all times fit in a
  32-bit `int`, so sums of times are not reduced modulo `2^32`.
* A C array is a total map `Int → α`; an element count such as `nready` is a
  separate field, exactly as in the source.  Cells outside the declared bounds
  are ordinary cells of the map; the theorems state the bounds they need.
* `verbose` is `false` (the environment variable `VERBOSE` is unset), so
  `DEBUG` and `flush_DEBUG` do nothing and `advance_time` takes its `else`
  branch.
* `exit(EXIT_FAILURE)` is the `Except.error` result.
* The loop `while(nprocesses > 0)` is given a bound on its passes; a run that
  needs more ends in `Error.out_of_fuel`.  The loops of `unblock_WAITING` and
  `unblock_SLEEPING` are bounded by the length of their queue, which they never
  exceed (`unblock_WAITING_loop_fuel`, `unblock_SLEEPING_loop_fuel`).
* The `double` arithmetic of `start_pending_IO` is modelled on the rationals,
  with the rounding of a 53-bit significand.
* The parsing of the two input files is not modelled: a device table, a time
  quantum and a catalog of commands are given (`load`).
-/

namespace MyScheduler

/-! ## Constants -/

def MAX_DEVICES : Int := 4
def MAX_SYSCALLS_PER_PROCESS : Int := 40
def MAX_RUNNING_PROCESSES : Nat := 50

def DEFAULT_TIME_QUANTUM : Int := 100
def TIME_CONTEXT_SWITCH : Int := 5
def TIME_CORE_STATE_TRANSITIONS : Int := 10
def TIME_ACQUIRE_BUS : Int := 20

def UNKNOWN : Int := -1

def STATE_READY : Int := 0
def STATE_RUNNING : Int := 1
def STATE_SLEEPING : Int := 2
def STATE_WAITING : Int := 3
def STATE_IO_BLOCKED : Int := 4
def STATE_TERMINATED : Int := 5

def SYS_SPAWN : Int := 0
def SYS_READ : Int := 1
def SYS_WRITE : Int := 2
def SYS_SLEEP : Int := 3
def SYS_WAIT : Int := 4
def SYS_EXIT : Int := 5

/-! ## Data model -/

/-- One entry of `commands[c].syscalls[]`. -/
structure Syscall where
  when : Int
  which : Int
  arg0 : Int
  arg1 : Int

/-- One entry of `commands[]`. -/
structure Command where
  syscalls : Int → Syscall
  nsyscalls : Int

/-- One entry of `processes[]`. -/
structure Process where
  state : Int
  pid : Int
  ppid : Int
  time_on_CPU : Int
  command : Int
  next_syscall : Int
  nchildren : Int

/-- One entry of `devices[d].blocked[]`. -/
structure Blocked where
  proc : Int
  syscall : Int
  nbytes : Int

/-- One entry of `devices[]`. -/
structure Device where
  read_speed : Int
  write_speed : Int
  blocked : Int → Blocked
  nblocked : Int

/-- One entry of `SLEEPING_queue[]`; `until_` is the field `until` of the source. -/
structure Sleeper where
  proc : Int
  until_ : Int
  deriving DecidableEq

/-- The global variables of the program. -/
structure Sim where
  USECS_SINCE_REBOOT : Int
  timequantum : Int
  commands : Int → Command
  ncommands : Int
  processes : Int → Process
  nprocesses : Int
  next_pid : Int
  devices : Int → Device
  ndevices : Int
  device_owning_databus : Int
  databus_inuse_until : Int
  nblocked : Int
  READY_queue : Int → Int
  nready : Int
  WAITING_queue : Int → Int
  nwaiting : Int
  SLEEPING_queue : Int → Sleeper
  nsleeping : Int

/-- The ways a run can stop without reaching the end of `execute_commands`. -/
inductive Error where
  | process_limit
  | unknown_syscall
  | out_of_fuel
  deriving DecidableEq, Repr

/-- Assignment `a[i] = v` on an array. -/
def store {α : Type} (a : Int → α) (i : Int) (v : α) : Int → α :=
  fun j => if j = i then v else a j

/-- The C loop `for (i = lo; i < lo + n; ++i) body`, for a body that does not
assign to `i`. -/
def for_loop {σ : Type} (body : Int → σ → σ) : Nat → Int → σ → σ
  | 0, _, s => s
  | n + 1, i, s => for_loop body n (i + 1) (body i s)

/-- The loop `for (t = from; t < n - 1; ++t) a[t] = a[t+1];` that slides the
cells after `from` left by one. -/
def slide_left {α : Type} (a : Int → α) (start n : Int) : Int → α :=
  for_loop (fun t q => store q t (q (t + 1))) (n - 1 - start).toNat start a

/-- With `verbose` false, `advance_time` is `USECS_SINCE_REBOOT += inc`. -/
def advance_time (s : Sim) (inc : Int) : Sim :=
  { s with USECS_SINCE_REBOOT := s.USECS_SINCE_REBOOT + inc }

/-! ## Processes -/

def PROCESS_SLOT_UNUSED (s : Sim) (p : Int) : Prop :=
  (s.processes p).pid = UNKNOWN

instance (s : Sim) (p : Int) : Decidable (PROCESS_SLOT_UNUSED s p) := by
  unfold PROCESS_SLOT_UNUSED
  exact inferInstance

/-- The loop of `init_processes`, marking the slots from `p` on as unused. -/
def init_processes_loop (s : Sim) (n : Nat) (p : Int) : Sim :=
  { s with
    processes := for_loop
      (fun q procs => store procs q { procs q with pid := UNKNOWN }) n p s.processes }

def init_processes (s : Sim) : Sim :=
  { init_processes_loop s MAX_RUNNING_PROCESSES 0 with nprocesses := 0 }

def append_to_READY_queue (s : Sim) (proc : Int) : Sim :=
  { s with
    processes := store s.processes proc { s.processes proc with state := STATE_READY }
    READY_queue := store s.READY_queue s.nready proc
    nready := s.nready + 1 }

/-- The body of the `if(PROCESS_SLOT_UNUSED(p))` block of `spawn_process`. -/
def spawn_in_slot (s : Sim) (p command ppid : Int) : Sim :=
  let s1 : Sim :=
    { s with
      processes := store s.processes p
        { state := STATE_READY
          pid := s.next_pid
          ppid := ppid
          command := command
          next_syscall := 0
          time_on_CPU := 0
          nchildren := 0 }
      next_pid := s.next_pid + 1
      nprocesses := s.nprocesses + 1 }
  append_to_READY_queue s1 p

/-- The `FOREACH_PROCESS` loop of `spawn_process`, from slot `p`, with `n` slots
left to look at; falling out of the loop is the process-limit error. -/
def spawn_scan (s : Sim) (command ppid : Int) : Nat → Int → Except Error Sim
  | 0, _ => .error .process_limit
  | n + 1, p =>
    if PROCESS_SLOT_UNUSED s p then .ok (spawn_in_slot s p command ppid)
    else spawn_scan s command ppid n (p + 1)

def spawn_process (s : Sim) (command ppid : Int) : Except Error Sim :=
  spawn_scan s command ppid MAX_RUNNING_PROCESSES 0

/-- The `FOREACH_PROCESS` loop of `exit_process`, from slot `p`, with `n` slots
left to look at: the first live slot whose pid is the parent id loses a child. -/
def exit_scan (s : Sim) (proc_on_CPU : Int) : Nat → Int → Sim
  | 0, _ => s
  | n + 1, p =>
    if PROCESS_SLOT_UNUSED s p then exit_scan s proc_on_CPU n (p + 1)
    else if (s.processes p).pid = (s.processes proc_on_CPU).ppid then
      { s with
        processes := store s.processes p
          { s.processes p with nchildren := (s.processes p).nchildren - 1 } }
    else exit_scan s proc_on_CPU n (p + 1)

def exit_process (s : Sim) (proc_on_CPU : Int) : Sim :=
  let s1 := exit_scan s proc_on_CPU MAX_RUNNING_PROCESSES 0
  { s1 with
    processes := store s1.processes proc_on_CPU
      { s1.processes proc_on_CPU with pid := UNKNOWN, state := STATE_TERMINATED }
    nprocesses := s1.nprocesses - 1 }

/-! ## Devices and the data bus -/

/-- The loop of `init_devices_and_IO_BLOCKED_queues`. -/
def init_devices_loop (s : Sim) : Sim :=
  { s with
    devices := for_loop
      (fun d devs => store devs d { devs d with nblocked := 0 }) s.ndevices.toNat 0 s.devices }

def init_devices_and_IO_BLOCKED_queues (s : Sim) : Sim :=
  { init_devices_loop s with
    device_owning_databus := UNKNOWN
    databus_inuse_until := UNKNOWN
    nblocked := 0 }

/-- The device name is not part of the model.  The source makes no test against
`MAX_DEVICES`; the cell `ndevices` of the model stands for `devices[ndevices]`,
which is a cell of the array of the source only while `ndevices < MAX_DEVICES`. -/
def add_device (s : Sim) (read_speed write_speed : Int) : Sim :=
  { s with
    devices := store s.devices s.ndevices
      { s.devices s.ndevices with read_speed := read_speed, write_speed := write_speed }
    ndevices := s.ndevices + 1 }

def append_to_IO_BLOCKED_queue (s : Sim) (proc_on_CPU syscall device nbytes : Int) : Sim :=
  let s1 := advance_time s TIME_CORE_STATE_TRANSITIONS
  let nb := (s1.devices device).nblocked
  { s1 with
    devices := store s1.devices device
      { s1.devices device with
        blocked := store (s1.devices device).blocked nb
          { proc := proc_on_CPU, syscall := syscall, nbytes := nbytes }
        nblocked := nb + 1 }
    nblocked := s1.nblocked + 1 }

def unblock_completed_IO (s : Sim) : Sim :=
  if s.device_owning_databus ≠ UNKNOWN ∧ s.databus_inuse_until ≤ s.USECS_SINCE_REBOOT then
    let proc := ((s.devices s.device_owning_databus).blocked 0).proc
    let s1 := append_to_READY_queue s proc
    let s2 := advance_time s1 TIME_CORE_STATE_TRANSITIONS
    let nb := (s2.devices s2.device_owning_databus).nblocked
    { s2 with
      devices := store s2.devices s2.device_owning_databus
        { s2.devices s2.device_owning_databus with
          blocked := slide_left (s2.devices s2.device_owning_databus).blocked 0 nb
          nblocked := nb - 1 }
      nblocked := s2.nblocked - 1
      device_owning_databus := UNKNOWN
      databus_inuse_until := UNKNOWN }
  else s

/-- The body of the `FOREACH_DEVICE` loop of `find_fastest_ready_device`; the
pair is `(fastest_ready_device, fastest_speed)`. -/
def fastest_step (s : Sim) (d : Int) (acc : Int × Int) : Int × Int :=
  if (s.devices d).nblocked > 0 ∧ (s.devices d).read_speed > acc.2 then
    (d, (s.devices d).read_speed)
  else acc

def find_fastest_ready_device (s : Sim) : Int :=
  (for_loop (fastest_step s) s.ndevices.toNat 0 (UNKNOWN, -1)).1

/-! ### The `double` arithmetic of `start_pending_IO`

`double` is IEEE-754 binary64: a 53-bit significand, rounding to nearest with
ties to even.  The exponent range is not modelled (the finite values that occur
are far from overflow and underflow).  The source stores the result in an `int`:
the conversion keeps a value inside the range of `int`; for a value outside it,
and for the infinity or NaN that a division by a `speed` of zero gives, the C
standard leaves the result undefined, and the model takes the value that the
conversion instruction of x86-64 delivers, `INT_MIN`. -/

/-- Rounding to the nearest integer, ties to the even one. -/
def round_half_even (x : ℚ) : Int :=
  if x - ⌊x⌋ < 1 / 2 then ⌊x⌋
  else if 1 / 2 < x - ⌊x⌋ then ⌊x⌋ + 1
  else if ⌊x⌋ % 2 = 0 then ⌊x⌋
  else ⌊x⌋ + 1

/-- The `double` nearest to the rational `x`: `x` is scaled so that its integer
part has exactly 53 bits, rounded, and scaled back. -/
def to_double (x : ℚ) : ℚ :=
  if x = 0 then 0
  else (round_half_even (x / 2 ^ (Int.log 2 |x| - 52)) : ℚ) * 2 ^ (Int.log 2 |x| - 52)

/-- The conversion to `int` of a `double` without fraction, given as the integer
`x`: `x` itself inside the range of `int`, `INT_MIN` outside it. -/
def double_to_int (x : Int) : Int :=
  if -2 ^ 31 ≤ x ∧ x < 2 ^ 31 then x else -2 ^ 31

/-- The initialiser of `int usecs`: the expression
`ceil(1000000.0*(double)nbytes / (double)speed)`, converted to `int`. -/
def transfer_usecs (nbytes speed : Int) : Int :=
  if speed = 0 then -2 ^ 31
  else double_to_int ⌈to_double (to_double (1000000 * to_double nbytes) / to_double speed)⌉

def start_pending_IO (s : Sim) : Sim :=
  if s.device_owning_databus = UNKNOWN ∧ s.nblocked > 0 then
    let owner := find_fastest_ready_device s
    let sc := ((s.devices owner).blocked 0).syscall
    let nbytes := ((s.devices owner).blocked 0).nbytes
    let speed := if sc = SYS_READ then (s.devices owner).read_speed
      else (s.devices owner).write_speed
    let usecs := transfer_usecs nbytes speed
    { s with
      device_owning_databus := owner
      databus_inuse_until := s.USECS_SINCE_REBOOT + TIME_ACQUIRE_BUS + usecs }
  else s

/-! ## The READY, WAITING and SLEEPING queues -/

def init_READY_queue (s : Sim) : Sim :=
  { s with nready := 0 }

/-- The result is the pair of the returned slot and the new globals. -/
def dequeue_READY_queue (s : Sim) : Int × Sim :=
  if s.nready > 0 then
    let proc := s.READY_queue 0
    let s1 := advance_time s TIME_CONTEXT_SWITCH
    (proc,
      { s1 with
        READY_queue := slide_left s1.READY_queue 0 s1.nready
        nready := s1.nready - 1 })
  else (UNKNOWN, s)

def init_WAITING_queue (s : Sim) : Sim :=
  { s with nwaiting := 0 }

def append_to_WAITING_queue (s : Sim) (proc_on_CPU : Int) : Sim :=
  { s with
    WAITING_queue := store s.WAITING_queue s.nwaiting proc_on_CPU
    processes := store s.processes proc_on_CPU
      { s.processes proc_on_CPU with state := STATE_WAITING }
    nwaiting := s.nwaiting + 1 }

/-- The `FOREACH_WAITING` loop of `unblock_WAITING` from index `w`.  Its body
changes both `w` and `nwaiting`; every pass lowers `nwaiting - w` by one, so the
first argument bounds the number of passes. -/
def unblock_WAITING_loop : Nat → Int → Sim → Sim
  | 0, _, s => s
  | n + 1, w, s =>
    if w < s.nwaiting then
      let proc := s.WAITING_queue w
      if (s.processes proc).state = STATE_WAITING ∧ (s.processes proc).nchildren = 0 then
        let s1 := append_to_READY_queue s proc
        let s2 := advance_time s1 TIME_CORE_STATE_TRANSITIONS
        let s3 : Sim :=
          { s2 with
            WAITING_queue := slide_left s2.WAITING_queue w s2.nwaiting
            nwaiting := s2.nwaiting - 1 }
        unblock_WAITING_loop n (w - 1 + 1) s3
      else unblock_WAITING_loop n (w + 1) s
    else s

def unblock_WAITING (s : Sim) : Sim :=
  unblock_WAITING_loop s.nwaiting.toNat 0 s

def init_SLEEPING_queue (s : Sim) : Sim :=
  { s with nsleeping := 0 }

def append_to_SLEEPING_queue (s : Sim) (proc_on_CPU duration : Int) : Sim :=
  { s with
    processes := store s.processes proc_on_CPU
      { s.processes proc_on_CPU with state := STATE_SLEEPING }
    SLEEPING_queue := store s.SLEEPING_queue s.nsleeping
      { proc := proc_on_CPU, until_ := s.USECS_SINCE_REBOOT + duration + 1 }
    nsleeping := s.nsleeping + 1 }

/-- The `FOREACH_SLEEPER` loop of `unblock_SLEEPING` from index `i` (the `s` of
the source); the first argument bounds the number of passes as in
`unblock_WAITING_loop`. -/
def unblock_SLEEPING_loop (ORIG_USECS : Int) : Nat → Int → Sim → Sim
  | 0, _, s => s
  | n + 1, i, s =>
    if i < s.nsleeping then
      if (s.SLEEPING_queue i).until_ ≤ ORIG_USECS then
        let s1 := append_to_READY_queue s (s.SLEEPING_queue i).proc
        let s2 := advance_time s1 TIME_CORE_STATE_TRANSITIONS
        let s3 : Sim :=
          { s2 with
            SLEEPING_queue := slide_left s2.SLEEPING_queue i s2.nsleeping
            nsleeping := s2.nsleeping - 1 }
        unblock_SLEEPING_loop ORIG_USECS n (i - 1 + 1) s3
      else unblock_SLEEPING_loop ORIG_USECS n (i + 1) s
    else s

def unblock_SLEEPING (s : Sim) : Sim :=
  unblock_SLEEPING_loop s.USECS_SINCE_REBOOT s.nsleeping.toNat 0 s

/-! ## The scheduler loop -/

/-- The local variables of `execute_commands` next to the globals.  The field
`expired` is not a variable of the source: it records, for every pass through
the `timequantum expired` branch, the slot that lost the CPU and its
`time_on_CPU` at that moment. -/
structure Loop where
  sim : Sim
  proc_on_CPU : Int
  total_time_on_CPU : Int
  timequantum_expires : Int
  expired : List (Int × Int)

/-- The statement `++processes[p].next_syscall`. -/
def incr_next_syscall (s : Sim) (p : Int) : Sim :=
  { s with
    processes := store s.processes p
      { s.processes p with next_syscall := (s.processes p).next_syscall + 1 } }

/-- The statement `++processes[p].nchildren`. -/
def incr_nchildren (s : Sim) (p : Int) : Sim :=
  { s with
    processes := store s.processes p
      { s.processes p with nchildren := (s.processes p).nchildren + 1 } }

/-- The statement `++processes[p].time_on_CPU`. -/
def incr_time_on_CPU (s : Sim) (p : Int) : Sim :=
  { s with
    processes := store s.processes p
      { s.processes p with time_on_CPU := (s.processes p).time_on_CPU + 1 } }

/-- The statement `processes[p].state = st`. -/
def set_state (s : Sim) (p st : Int) : Sim :=
  { s with processes := store s.processes p { s.processes p with state := st } }

/-- The `switch (which)` statement, for the process on the CPU, running
command `c` at its syscall number `i` (the `s` of the source). -/
def dispatch (l : Loop) (c i which : Int) : Except Error Loop :=
  let p := l.proc_on_CPU
  let sc := (l.sim.commands c).syscalls i
  if which = SYS_SPAWN then
    match spawn_process l.sim sc.arg0 (l.sim.processes p).pid with
    | .error e => .error e
    | .ok s1 =>
      let s2 := incr_nchildren s1 p
      let s3 := append_to_READY_queue s2 p
      .ok { l with sim := advance_time s3 TIME_CORE_STATE_TRANSITIONS }
  else if which = SYS_READ ∨ which = SYS_WRITE then
    let s1 := append_to_IO_BLOCKED_queue l.sim p which sc.arg0 sc.arg1
    .ok { l with sim := set_state s1 p STATE_IO_BLOCKED }
  else if which = SYS_SLEEP then
    let s1 := append_to_SLEEPING_queue l.sim p sc.arg0
    .ok { l with sim := advance_time s1 TIME_CORE_STATE_TRANSITIONS }
  else if which = SYS_WAIT then
    let s1 :=
      if (l.sim.processes p).nchildren = 0 then append_to_READY_queue l.sim p
      else append_to_WAITING_queue l.sim p
    .ok { l with sim := advance_time s1 TIME_CORE_STATE_TRANSITIONS }
  else if which = SYS_EXIT then
    .ok { l with
          total_time_on_CPU := l.total_time_on_CPU + (l.sim.processes p).time_on_CPU
          sim := exit_process l.sim p }
  else .error .unknown_syscall

/-- The block run when `time_on_CPU` equals the `when` of the next syscall: the
cursor moves on, the syscall is dispatched, the process leaves the CPU. -/
def issue_syscall (l : Loop) (c i : Int) : Except Error Loop :=
  let which := ((l.sim.commands c).syscalls i).which
  let l1 : Loop := { l with sim := incr_next_syscall l.sim l.proc_on_CPU }
  match dispatch l1 c i which with
  | .error e => .error e
  | .ok l2 => .ok { l2 with proc_on_CPU := UNKNOWN }

/-- The block `IF A PROCESS IS ON THE CPU...`: one microsecond of computation,
then the test of the time quantum. -/
def consume_CPU (l : Loop) : Loop :=
  let p := l.proc_on_CPU
  let s1 := incr_time_on_CPU l.sim p
  if s1.USECS_SINCE_REBOOT ≥ l.timequantum_expires then
    let s2 := append_to_READY_queue s1 p
    { l with
      sim := advance_time s2 TIME_CORE_STATE_TRANSITIONS
      proc_on_CPU := UNKNOWN
      expired := l.expired ++ [(p, (s1.processes p).time_on_CPU)] }
  else { l with sim := s1 }

/-- The block `IS A PROCESS RUNNING ON THE CPU?`. -/
def on_CPU (l : Loop) : Except Error Loop :=
  if l.proc_on_CPU ≠ UNKNOWN then
    let c := (l.sim.processes l.proc_on_CPU).command
    let i := (l.sim.processes l.proc_on_CPU).next_syscall
    let r :=
      if (l.sim.processes l.proc_on_CPU).time_on_CPU = ((l.sim.commands c).syscalls i).when then
        issue_syscall l c i
      else .ok l
    match r with
    | .error e => .error e
    | .ok l1 => if l1.proc_on_CPU ≠ UNKNOWN then .ok (consume_CPU l1) else .ok l1
  else .ok l

/-- The block `IF CPU IS NOW IDLE AND PROCESSES REMAIN....`. -/
def idle_CPU (l : Loop) : Loop :=
  if l.proc_on_CPU = UNKNOWN ∧ l.sim.nprocesses > 0 then
    let s1 := unblock_SLEEPING l.sim
    let s2 := unblock_WAITING s1
    let s3 := unblock_completed_IO s2
    let s4 := start_pending_IO s3
    if s4.nready > 0 then
      let r := dequeue_READY_queue s4
      { l with
        sim := r.2
        proc_on_CPU := r.1
        timequantum_expires := r.2.USECS_SINCE_REBOOT + r.2.timequantum }
    else { l with sim := s4 }
  else l

/-- One pass through the body of `while(nprocesses > 0)`. -/
def loop_body (l : Loop) : Except Error Loop :=
  match on_CPU { l with sim := advance_time l.sim 1 } with
  | .error e => .error e
  | .ok l1 => .ok (idle_CPU l1)

/-- The loop `while(nprocesses > 0)`, allowed at most `fuel` passes. -/
def while_loop : Nat → Loop → Except Error Loop
  | 0, l => if l.sim.nprocesses > 0 then .error .out_of_fuel else .ok l
  | fuel + 1, l =>
    if l.sim.nprocesses > 0 then
      match loop_body l with
      | .error e => .error e
      | .ok l1 => while_loop fuel l1
    else .ok l

/-- The first `n` passes of the loop, stopping early when it ends. -/
def passes : Nat → Loop → Except Error Loop
  | 0, l => .ok l
  | n + 1, l =>
    if l.sim.nprocesses > 0 then
      match loop_body l with
      | .error e => .error e
      | .ok l1 => passes n l1
    else .ok l

/-- The statements of `execute_commands` before the loop. -/
def enter_loop (s : Sim) (first : Int) : Except Error Loop :=
  match spawn_process { s with USECS_SINCE_REBOOT := 0 } first UNKNOWN with
  | .error e => .error e
  | .ok s1 =>
    .ok { sim := { s1 with USECS_SINCE_REBOOT := -1 }
          proc_on_CPU := UNKNOWN
          total_time_on_CPU := 0
          timequantum_expires := UNKNOWN
          expired := [] }

/-- All of `execute_commands`, with the locals at the end of the loop. -/
def run (fuel : Nat) (s : Sim) (first : Int) : Except Error Loop :=
  match enter_loop s first with
  | .error e => .error e
  | .ok l => while_loop fuel l

/-- The result is the returned `total_time_on_CPU` and the globals left behind. -/
def execute_commands (fuel : Nat) (s : Sim) (first : Int) : Except Error (Int × Sim) :=
  match run fuel s first with
  | .error e => .error e
  | .ok l => .ok (l.total_time_on_CPU, l.sim)

/-! ## Start-up -/

/-- The globals as the C runtime initialises them before `main`: zero, or the
initialiser written in the source; `next_pid` is the static local of
`spawn_process`. -/
def startup : Sim :=
  { USECS_SINCE_REBOOT := 0
    timequantum := DEFAULT_TIME_QUANTUM
    commands := fun _ => { syscalls := fun _ => ⟨0, 0, 0, 0⟩, nsyscalls := 0 }
    ncommands := 0
    processes := fun _ => ⟨0, 0, 0, 0, 0, 0, 0⟩
    nprocesses := 0
    next_pid := 0
    devices := fun _ => { read_speed := 0, write_speed := 0, blocked := fun _ => ⟨0, 0, 0⟩, nblocked := 0 }
    ndevices := 0
    device_owning_databus := UNKNOWN
    databus_inuse_until := UNKNOWN
    nblocked := 0
    READY_queue := fun _ => 0
    nready := 0
    WAITING_queue := fun _ => 0
    nwaiting := 0
    SLEEPING_queue := fun _ => ⟨0, 0⟩
    nsleeping := 0 }

/-- What `read_sysconfig` and `read_commands` leave behind: the devices of the
list registered in order, the time quantum, and the catalog of commands. -/
def load (devs : List (Int × Int)) (timequantum : Int) (commands : Int → Command)
    (ncommands : Int) : Sim :=
  { devs.foldl (fun s d => add_device s d.1 d.2) startup with
    timequantum := timequantum
    commands := commands
    ncommands := ncommands }

/-- The five `init_` calls of `main`. -/
def init_all (s : Sim) : Sim :=
  init_devices_and_IO_BLOCKED_queues
    (init_WAITING_queue (init_SLEEPING_queue (init_READY_queue (init_processes s))))

/-- A command given by the list of its syscalls; the cells after the list are
zero, as in a C global. -/
def command_of (l : List Syscall) : Command :=
  { syscalls := fun i => if 0 ≤ i then l.getD i.toNat ⟨0, 0, 0, 0⟩ else ⟨0, 0, 0, 0⟩
    nsyscalls := l.length }

/-- A catalog given by the list of its commands. -/
def catalog_of (l : List (List Syscall)) : Int → Command :=
  fun c => if 0 ≤ c then command_of (l.getD c.toNat []) else command_of []

/-! ## Vocabulary of the statements -/

/-- The expression `100*total_time_on_CPU / USECS_SINCE_REBOOT` of `main`: the
product is reduced to 32 bits, the division truncates. -/
def utilization (total_time_on_CPU usecs : Int) : Int :=
  Int.tdiv ((100 * total_time_on_CPU + 2 ^ 31) % 2 ^ 32 - 2 ^ 31) usecs

/-- The cells `0 .. n-1` of an array, as a list. -/
def view {α : Type} (a : Int → α) (n : Int) : List α :=
  (List.range n.toNat).map (fun (k : Nat) => a (k : Int))

/-- Setting `state = STATE_READY` for the slots of a list, in order. -/
def mark_ready (procs : Int → Process) (l : List Int) : Int → Process :=
  l.foldl (fun f p => store f p { f p with state := STATE_READY }) procs

/-- The sleepers that a drain at clock value `now` moves to READY. -/
def due (now : Int) (e : Sleeper) : Bool := decide (e.until_ ≤ now)

/-- Scenario A: no device, quantum 100, and a catalog whose only command is the
single event `{0, exit}`; `main` starts it as command 0. -/
def scenario_A : Sim :=
  init_all (load [] 100 (catalog_of [[⟨0, SYS_EXIT, 0, 0⟩]]) 1)

/-- Scenario B: as scenario A, with the single event `{250, exit}`. -/
def scenario_B : Sim :=
  init_all (load [] 100 (catalog_of [[⟨250, SYS_EXIT, 0, 0⟩]]) 1)

/-- Scenario C: two devices, given as (read speed, write speed) in their order
of registration, each holding one queued write of 1000 bytes, for the processes
of slots 0 and 1. -/
def scenario_C (first second : Int × Int) : Sim :=
  append_to_IO_BLOCKED_queue
    (append_to_IO_BLOCKED_queue (init_all (load [first, second] 100 (catalog_of []) 0))
      0 SYS_WRITE 0 1000)
    1 SYS_WRITE 1 1000

/-- Scenario C at clock 20, with the bus held by device 0 until 20. -/
def scenario_C_owned : Sim :=
  { scenario_C (2000000, 100000) (500000, 4000000) with
    device_owning_databus := 0
    databus_inuse_until := 20 }

/-- Scenario D: the root command spawns command 1, waits and exits, each as soon
as it is on the CPU; command 1 is the single event `{child_exit, exit}`. -/
def scenario_D (child_exit : Int) : Sim :=
  init_all (load [] 100
    (catalog_of [[⟨0, SYS_SPAWN, 1, 0⟩, ⟨0, SYS_WAIT, 0, 0⟩, ⟨0, SYS_EXIT, 0, 0⟩],
      [⟨child_exit, SYS_EXIT, 0, 0⟩]]) 2)

/-- The loop state that pass `n + 1` of the run from `s` hands to `on_CPU`: the
state after `n` passes, one tick later. -/
def before_on_CPU (n : Nat) (s : Sim) : Loop :=
  match enter_loop s 0 with
  | .error _ => ⟨s, UNKNOWN, 0, UNKNOWN, []⟩
  | .ok l0 =>
    match passes n l0 with
    | .error _ => ⟨s, UNKNOWN, 0, UNKNOWN, []⟩
    | .ok l => { l with sim := advance_time l.sim 1 }

/-- The sum of the queue lengths of the registered devices. -/
def total_blocked (s : Sim) : Int :=
  ((view s.devices s.ndevices).map Device.nblocked).sum

/-- The operation from `s` to `s2` touches neither the catalog and the time
quantum nor anything of the devices and the bus. -/
def same_io (s s2 : Sim) : Prop :=
  s2.commands = s.commands ∧ s2.ncommands = s.ncommands ∧ s2.timequantum = s.timequantum ∧
  s2.devices = s.devices ∧ s2.ndevices = s.ndevices ∧
  s2.device_owning_databus = s.device_owning_databus ∧
  s2.databus_inuse_until = s.databus_inuse_until ∧ s2.nblocked = s.nblocked

/-- One operation of the scheduler loop on the globals: a call of one of the
functions that `execute_commands` calls, or one of its own assignments to a
global.  A request is queued only at a registered device: the device of a read
or write event is the result of `find_device_byname`. -/
inductive Step : Sim → Sim → Prop
  | tick (s : Sim) (inc : Int) : Step s (advance_time s inc)
  | clock (s : Sim) (v : Int) : Step s { s with USECS_SINCE_REBOOT := v }
  | spawn (s s2 : Sim) (c pp : Int) : spawn_process s c pp = .ok s2 → Step s s2
  | exit (s : Sim) (p : Int) : Step s (exit_process s p)
  | cursor (s : Sim) (p : Int) : Step s (incr_next_syscall s p)
  | child (s : Sim) (p : Int) : Step s (incr_nchildren s p)
  | cpu_time (s : Sim) (p : Int) : Step s (incr_time_on_CPU s p)
  | state (s : Sim) (p : Int) : Step s (set_state s p STATE_IO_BLOCKED)
  | ready (s : Sim) (p : Int) : Step s (append_to_READY_queue s p)
  | dequeue (s : Sim) : Step s (dequeue_READY_queue s).2
  | io_block (s : Sim) (p sc d n : Int) :
      0 ≤ d → d < s.ndevices → Step s (append_to_IO_BLOCKED_queue s p sc d n)
  | io_done (s : Sim) : Step s ( unblock_completed_IO s)
  | io_start (s : Sim) : Step s ( start_pending_IO s)
  | wait (s : Sim) (p : Int) : Step s (append_to_WAITING_queue s p)
  | wait_drain (s : Sim) : Step s (unblock_WAITING s)
  | sleep (s : Sim) (p d : Int) : Step s (append_to_SLEEPING_queue s p d)
  | sleep_drain (s : Sim) : Step s (unblock_SLEEPING s)

/-- The states of the globals that the simulation reaches: the state in which
`main` calls `execute_commands`, for any device table, time quantum and
catalog, and every state that an operation of the scheduler loop leaves. -/
inductive Reachable : Sim → Prop
  | init (devs : List (Int × Int)) (timequantum : Int) (commands : Int → Command)
      (ncommands : Int) : Reachable (init_all (load devs timequantum commands ncommands))
  | step (s s2 : Sim) : Reachable s → Step s s2 → Reachable s2

/-- The global counter of blocked requests equals the sum of the queue lengths. -/
def conserved (s : Sim) : Prop :=
  s.nblocked = total_blocked s

/-- The bus is free, or its owner is a registered device with a request queued. -/
def bus_ok (s : Sim) : Prop :=
  s.device_owning_databus = UNKNOWN ∨
    (0 ≤ s.device_owning_databus ∧ s.device_owning_databus < s.ndevices ∧
      0 < (s.devices s.device_owning_databus).nblocked)

/-- The read and write events of the catalog name registered devices: their
`arg0` is a result of `find_device_byname`. -/
def devices_known (s : Sim) : Prop :=
  ∀ c i : Int,
    ((s.commands c).syscalls i).which = SYS_READ ∨ ((s.commands c).syscalls i).which = SYS_WRITE →
    0 ≤ ((s.commands c).syscalls i).arg0 ∧ ((s.commands c).syscalls i).arg0 < s.ndevices

/-- Some operations of the scheduler loop, one after the other. -/
def Steps : Sim → Sim → Prop :=
  Relation.ReflTransGen Step

/-- The operation from `s` to `s2` leaves the SLEEPING queue alone. -/
def same_sleeping (s s2 : Sim) : Prop :=
  s2.SLEEPING_queue = s.SLEEPING_queue ∧ s2.nsleeping = s.nsleeping

/-- The sleep scenario: at quantum 100 and without devices, the root command
sleeps for 50 as soon as it is on the CPU, then exits. -/
def scenario_sleep : Sim :=
  init_all (load [] 100 (catalog_of [[⟨0, SYS_SLEEP, 50, 0⟩, ⟨0, SYS_EXIT, 0, 0⟩]]) 1)

/-- The three queue counters are not negative. -/
def counters_ok (s : Sim) : Prop :=
  0 ≤ s.nready ∧ 0 ≤ s.nsleeping ∧ 0 ≤ s.nwaiting

/-- The only live process sits in slot 0 and is on the CPU with `time_on_CPU = t`;
it has no parent, and its next event is the first of command 0, an `exit` at
`W`.  Every queue is empty, the bus is free, and the time quantum is `Q`. -/
def solo (Q W : Int) (l : Loop) (t : Int) : Prop :=
  l.proc_on_CPU = 0 ∧ l.sim.nprocesses = 1 ∧ l.sim.nready = 0 ∧ l.sim.nsleeping = 0 ∧
  l.sim.nwaiting = 0 ∧ l.sim.nblocked = 0 ∧ l.sim.device_owning_databus = UNKNOWN ∧
  l.sim.timequantum = Q ∧ (l.sim.processes 0).time_on_CPU = t ∧
  (l.sim.processes 0).command = 0 ∧ (l.sim.processes 0).next_syscall = 0 ∧
  (l.sim.processes 0).ppid = UNKNOWN ∧ (l.sim.processes 0).pid ≠ UNKNOWN ∧
  ((l.sim.commands 0).syscalls 0).when = W ∧ ((l.sim.commands 0).syscalls 0).which = SYS_EXIT

/-- A device table with as many devices as `MAX_DEVICES` allows. -/
def four_devices : List (Int × Int) :=
  [(100, 100), (200, 200), (300, 300), (400, 400)]

/-- No process record has the state RUNNING. -/
def no_running (s : Sim) : Prop :=
  ∀ r : Int, (s.processes r).state ≠ STATE_RUNNING

/-- The operation from `s` to `s2` creates and ends no process: the ids of the
table, the parent ids, `next_pid` and `nprocesses` are as before. -/
def same_ids (s s2 : Sim) : Prop :=
  s2.next_pid = s.next_pid ∧ s2.nprocesses = s.nprocesses ∧
  ∀ r : Int, (s2.processes r).pid = (s.processes r).pid ∧
    (s2.processes r).ppid = (s.processes r).ppid

/-- The ids of the table are below `next_pid`, and two live slots of the table
never hold the same id. -/
def pids_ok (s : Sim) : Prop :=
  0 ≤ s.next_pid ∧
  (∀ r : Int, 0 ≤ r → r < MAX_RUNNING_PROCESSES → (s.processes r).pid < s.next_pid) ∧
  ∀ a b : Int, 0 ≤ a → a < MAX_RUNNING_PROCESSES → 0 ≤ b → b < MAX_RUNNING_PROCESSES →
    (s.processes a).pid ≠ UNKNOWN → (s.processes b).pid ≠ UNKNOWN →
    (s.processes a).pid = (s.processes b).pid → a = b

/-- The loop state after `n` passes of the run from `s`. -/
def after_passes (n : Nat) (s : Sim) : Loop :=
  match enter_loop s 0 with
  | .error _ => ⟨s, UNKNOWN, 0, UNKNOWN, []⟩
  | .ok l0 =>
    match passes n l0 with
    | .error _ => ⟨s, UNKNOWN, 0, UNKNOWN, []⟩
    | .ok l => l

/-- A long computation: no device, quantum 100, and a catalog whose only command
is the single event `{30000000, exit}`: thirty seconds of computation. -/
def scenario_long : Sim :=
  init_all (load [] 100 (catalog_of [[⟨30000000, SYS_EXIT, 0, 0⟩]]) 1)

/-- The test of `unblock_WAITING`: the process waits and has no child left. -/
def ready_to_go (procs : Int → Process) (p : Int) : Bool :=
  decide ((procs p).state = STATE_WAITING ∧ (procs p).nchildren = 0)

/-- The number of occurrences of the slot `r` in a list of slots. -/
def cnt (r : Int) (l : List Int) : Int :=
  (l.count r : Int)

/-- The sum `f 0 + ... + f (n-1)`. -/
def range_sum (n : Int) (f : Int → Int) : Int :=
  ((List.range n.toNat).map (fun (k : Nat) => f (k : Int))).sum

/-- The slots queued at a device, in the order of its queue. -/
def blocked_list (dev : Device) : List Int :=
  (view dev.blocked dev.nblocked).map Blocked.proc

/-- The number of occurrences of the slot `r` in the READY, SLEEPING and WAITING
queues and in the queues of the registered devices. -/
def queued (s : Sim) (r : Int) : Int :=
  cnt r (view s.READY_queue s.nready)
    + cnt r ((view s.SLEEPING_queue s.nsleeping).map Sleeper.proc)
    + cnt r (view s.WAITING_queue s.nwaiting)
    + range_sum s.ndevices (fun d => cnt r (blocked_list (s.devices d)))

/-- One if the slot `r` is on the CPU, zero otherwise. -/
def on_cpu (proc_on_CPU r : Int) : Int :=
  if proc_on_CPU ≠ UNKNOWN ∧ proc_on_CPU = r then 1 else 0

/-- The slot `r` of the process table holds a live process. -/
def live (s : Sim) (r : Int) : Prop :=
  0 ≤ r ∧ r < MAX_RUNNING_PROCESSES ∧ (s.processes r).pid ≠ UNKNOWN

instance (s : Sim) (r : Int) : Decidable (live s r) := by
  unfold live
  exact inferInstance

/-- The number of live processes of the table whose parent id is `x`. -/
def live_children (s : Sim) (x : Int) : Int :=
  range_sum MAX_RUNNING_PROCESSES
    (fun r => if (s.processes r).pid ≠ UNKNOWN ∧ (s.processes r).ppid = x then 1 else 0)

/-- The number of live processes of the table. -/
def live_count (s : Sim) : Int :=
  range_sum MAX_RUNNING_PROCESSES (fun r => if (s.processes r).pid ≠ UNKNOWN then 1 else 0)

/-- The invariant of the process table and the queues, for the globals `s` and
the local `proc_on_CPU`: a live process has a parent id below its own id and
counts its live children; every live slot is in exactly one place (on the CPU or
once in one queue) and no other slot is anywhere; `nprocesses` counts the live
slots; the entries of the WAITING queue have the state WAITING; no device queue
has a negative length. -/
structure core_inv (s : Sim) (proc_on_CPU : Int) : Prop where
  parent : ∀ r : Int, live s r → (s.processes r).ppid < (s.processes r).pid
  children : ∀ r : Int, live s r →
    (s.processes r).nchildren = live_children s (s.processes r).pid
  placed : ∀ r : Int, on_cpu proc_on_CPU r + queued s r = if live s r then 1 else 0
  count : s.nprocesses = live_count s
  waiting : ∀ p ∈ view s.WAITING_queue s.nwaiting, (s.processes p).state = STATE_WAITING
  device_counts : ∀ d : Int, 0 ≤ d → d < s.ndevices → 0 ≤ (s.devices d).nblocked

/-- The operation from `s` to `s2` leaves every queue alone. -/
def same_queues (s s2 : Sim) : Prop :=
  s2.READY_queue = s.READY_queue ∧ s2.nready = s.nready ∧
  s2.SLEEPING_queue = s.SLEEPING_queue ∧ s2.nsleeping = s.nsleeping ∧
  s2.WAITING_queue = s.WAITING_queue ∧ s2.nwaiting = s.nwaiting ∧
  s2.devices = s.devices ∧ s2.ndevices = s.ndevices

/-- The invariant of the scheduler loop: the globals are reachable, the catalog
names registered devices only, and the process table and the queues are
consistent. -/
def loop_inv (l : Loop) : Prop :=
  Reachable l.sim ∧ devices_known l.sim ∧ core_inv l.sim l.proc_on_CPU

/-- The loop states at the boundaries of the passes of a run: the state in which
the loop is entered, for any device table, time quantum and first command and
any catalog whose read and write events name registered devices, and the state
after every pass made while `nprocesses > 0`. -/
inductive Boundary : Loop → Prop
  | enter (devs : List (Int × Int)) (timequantum : Int) (commands : Int → Command)
      (ncommands first : Int) (l : Loop) :
      devices_known (init_all (load devs timequantum commands ncommands)) →
      enter_loop (init_all (load devs timequantum commands ncommands)) first = .ok l →
      Boundary l
  | pass (l l2 : Loop) : Boundary l → 0 < l.sim.nprocesses → loop_body l = .ok l2 → Boundary l2

/-- From `s` to `s2` every record keeps its id, and its cursor and its time on
the CPU do not decrease. -/
def grows (s s2 : Sim) : Prop :=
  ∀ r : Int, (s2.processes r).pid = (s.processes r).pid ∧
    (s.processes r).next_syscall ≤ (s2.processes r).next_syscall ∧
    (s.processes r).time_on_CPU ≤ (s2.processes r).time_on_CPU

/-- From `s` to `s2` every slot that is live before and after holds the same
process, whose cursor and time on the CPU have not decreased. -/
def progress (s s2 : Sim) : Prop :=
  ∀ r : Int, (s.processes r).pid ≠ UNKNOWN → (s2.processes r).pid ≠ UNKNOWN →
    (s2.processes r).pid = (s.processes r).pid ∧
    (s.processes r).next_syscall ≤ (s2.processes r).next_syscall ∧
    (s.processes r).time_on_CPU ≤ (s2.processes r).time_on_CPU

/-- A state with two sleepers at clock 100: slot 0 wakes at 100, slot 1 at 105. -/
def two_sleepers : Sim :=
  append_to_SLEEPING_queue (append_to_SLEEPING_queue (advance_time startup 100) 0 (-1)) 1 4

/-- A state with the slots 0, 1 and 2 in the WAITING queue; slot 1 has one live
child, the slots 0 and 2 have none. -/
def three_waiting : Sim :=
  append_to_WAITING_queue
    (append_to_WAITING_queue (append_to_WAITING_queue (incr_nchildren startup 1) 0) 1) 2

/-- No queue holds more entries than the table has slots: the counters of the
READY, SLEEPING and WAITING queues and of the queue of every registered device
lie between 0 and `MAX_RUNNING_PROCESSES`. -/
def queues_within (s : Sim) : Prop :=
  (0 ≤ s.nready ∧ s.nready ≤ MAX_RUNNING_PROCESSES) ∧
  (0 ≤ s.nsleeping ∧ s.nsleeping ≤ MAX_RUNNING_PROCESSES) ∧
  (0 ≤ s.nwaiting ∧ s.nwaiting ≤ MAX_RUNNING_PROCESSES) ∧
  ∀ d : Int, 0 ≤ d → d < s.ndevices →
    0 ≤ (s.devices d).nblocked ∧ (s.devices d).nblocked ≤ MAX_RUNNING_PROCESSES

/-- From `s` to `s2` the catalog is the same, the clock has not gone back, and
every record keeps its id, its command, its cursor and its time on the CPU. -/
def same_work (s s2 : Sim) : Prop :=
  s2.commands = s.commands ∧ s.USECS_SINCE_REBOOT ≤ s2.USECS_SINCE_REBOOT ∧
  ∀ r : Int, (s2.processes r).pid = (s.processes r).pid ∧
    (s2.processes r).command = (s.processes r).command ∧
    (s2.processes r).next_syscall = (s.processes r).next_syscall ∧
    (s2.processes r).time_on_CPU = (s.processes r).time_on_CPU

/-- The event that the loop reads for the process on the CPU:
`commands[c].syscalls[s]` for its command `c` and its cursor `s`. -/
def next_event (l : Loop) : Syscall :=
  (l.sim.commands (l.sim.processes l.proc_on_CPU).command).syscalls
    (l.sim.processes l.proc_on_CPU).next_syscall

/-- A process is on the CPU and its time on the CPU equals the `when` of the
event at its cursor: the pass dispatches that event. -/
def event_due (l : Loop) : Prop :=
  l.proc_on_CPU ≠ UNKNOWN ∧ (l.sim.processes l.proc_on_CPU).time_on_CPU = (next_event l).when

instance (l : Loop) : Decidable (event_due l) := by
  unfold event_due
  exact inferInstance

/-- What a step from `l` to `l2` does to the catalog, the clock, the running total
and the records: the catalog stays, the clock does not go back, the total gains the time of an exiting process; a slot in use keeps its
command, its cursor moves on by one exactly if it is the process on the CPU and
its event is dispatched, its time grows by one exactly if it is the process on
the CPU and computes, and it is freed exactly if it exits; a free slot stays
free, or takes the child of a dispatched spawn, with the command named by the
event, cursor 0 and no time on the CPU. -/
def records_step (l l2 : Loop) : Prop :=
  l2.sim.commands = l.sim.commands ∧
  l.sim.USECS_SINCE_REBOOT ≤ l2.sim.USECS_SINCE_REBOOT ∧
  l2.total_time_on_CPU = l.total_time_on_CPU
    + (if event_due l ∧ (next_event l).which = SYS_EXIT then
        (l.sim.processes l.proc_on_CPU).time_on_CPU else 0) ∧
  (∀ r : Int, (l.sim.processes r).pid ≠ UNKNOWN →
    (l2.sim.processes r).command = (l.sim.processes r).command ∧
    (l2.sim.processes r).next_syscall = (l.sim.processes r).next_syscall
      + (if event_due l ∧ r = l.proc_on_CPU then 1 else 0) ∧
    (l2.sim.processes r).time_on_CPU = (l.sim.processes r).time_on_CPU
      + (if l.proc_on_CPU ≠ UNKNOWN ∧ ¬ event_due l ∧ r = l.proc_on_CPU then 1 else 0) ∧
    (l2.sim.processes r).pid
      = (if event_due l ∧ (next_event l).which = SYS_EXIT ∧ r = l.proc_on_CPU then UNKNOWN
         else (l.sim.processes r).pid)) ∧
  (∀ r : Int, (l.sim.processes r).pid = UNKNOWN →
    (l2.sim.processes r).pid = UNKNOWN ∨
    (event_due l ∧ (next_event l).which = SYS_SPAWN ∧
      (l2.sim.processes r).command = (next_event l).arg0 ∧
      (l2.sim.processes r).next_syscall = 0 ∧ (l2.sim.processes r).time_on_CPU = 0))

/-- The time on the CPU accounted for at a point of the loop: the running total
`total_time_on_CPU` plus the `time_on_CPU` of the slots in use. -/
def cpu_time (l : Loop) : Int :=
  l.total_time_on_CPU
    + range_sum MAX_RUNNING_PROCESSES
        (fun r => if (l.sim.processes r).pid ≠ UNKNOWN then (l.sim.processes r).time_on_CPU else 0)

/-- Every command of the catalog contains an `exit` event. -/
def exits_present (commands : Int → Command) (ncommands : Int) : Prop :=
  ∀ c : Int, 0 ≤ c → c < ncommands →
    ∃ e : Int, 0 ≤ e ∧ e < (commands c).nsyscalls ∧ ((commands c).syscalls e).which = SYS_EXIT

/-- The spawn events of the catalog name commands of the catalog: their `arg0`
is a result of `find_command_byname`, as `patch_commands` leaves it. -/
def commands_known (commands : Int → Command) (ncommands : Int) : Prop :=
  ∀ c i : Int, 0 ≤ c → c < ncommands → 0 ≤ i → i < (commands c).nsyscalls →
    ((commands c).syscalls i).which = SYS_SPAWN →
    0 ≤ ((commands c).syscalls i).arg0 ∧ ((commands c).syscalls i).arg0 < ncommands

/-- The index `e` is that of the first `exit` event of the command. -/
def first_exit (cmd : Command) (e : Int) : Prop :=
  0 ≤ e ∧ e < cmd.nsyscalls ∧ (cmd.syscalls e).which = SYS_EXIT ∧
  ∀ j : Int, 0 ≤ j → j < e → (cmd.syscalls j).which ≠ SYS_EXIT

instance (cmd : Command) (e : Int) : Decidable (first_exit cmd e) := by
  unfold first_exit
  exact inferInstance

/-- The cursors of the live processes, for the catalog `commands` of `ncommands`
commands: the catalog is in place, every live process runs a command of the
catalog, and no event before its cursor is an `exit`. -/
def cursors_ok (commands : Int → Command) (ncommands : Int) (l : Loop) : Prop :=
  l.sim.commands = commands ∧
  ∀ r : Int, live l.sim r →
    0 ≤ (l.sim.processes r).command ∧ (l.sim.processes r).command < ncommands ∧
    0 ≤ (l.sim.processes r).next_syscall ∧
    ∀ j : Int, 0 ≤ j → j < (l.sim.processes r).next_syscall →
      ((commands (l.sim.processes r).command).syscalls j).which ≠ SYS_EXIT

/-- The state in which `main` calls `execute_commands` after a command file
without commands: no device, no command, and the zero-initialised array
`commands`. -/
def scenario_empty : Sim :=
  init_all (load [] 100 (catalog_of []) 0)

/-! # Properties -/

/-! ## Arrays, loops and views -/

@[simp] theorem store_same {α : Type} (a : Int → α) (i : Int) (v : α) : store a i v i = v := by
  simp [store]

theorem store_other {α : Type} (a : Int → α) (i j : Int) (v : α) (h : j ≠ i) :
    store a i v j = a j := by
  simp [store, h]

theorem store_apply {α : Type} (a : Int → α) (i j : Int) (v : α) :
    store a i v j = if j = i then v else a j := rfl

/-- What the sliding loop computes, cell by cell. -/
theorem slide_loop_apply {α : Type} (k : Nat) (i : Int) (a : Int → α) (j : Int) :
    for_loop (fun t q => store q t (q (t + 1))) k i a j
      = if i ≤ j ∧ j < i + k then a (j + 1) else a j := by
  induction k generalizing i a with
  | zero =>
    have h2 : ¬ (i ≤ j ∧ j < i + ((0 : Nat) : Int)) := by push_cast; omega
    rw [for_loop, if_neg h2]
  | succ k ih =>
    rw [for_loop, ih]
    by_cases h1 : i + 1 ≤ j ∧ j < i + 1 + k
    · have h2 : i ≤ j ∧ j < i + ((k + 1 : Nat) : Int) := by push_cast; omega
      rw [if_pos h1, if_pos h2, store_other]
      omega
    · rw [if_neg h1]
      by_cases h3 : j = i
      · subst h3
        have h2 : j ≤ j ∧ j < j + ((k + 1 : Nat) : Int) := by push_cast; omega
        rw [if_pos h2, store_same]
      · have h2 : ¬ (i ≤ j ∧ j < i + ((k + 1 : Nat) : Int)) := by push_cast; omega
        rw [if_neg h2, store_other _ _ _ _ h3]

theorem slide_left_apply {α : Type} (a : Int → α) (start n j : Int) :
    slide_left a start n j = if start ≤ j ∧ j < n - 1 then a (j + 1) else a j := by
  unfold slide_left
  rw [slide_loop_apply]
  by_cases h : start ≤ j ∧ j < n - 1
  · rw [if_pos h, if_pos]
    omega
  · rw [if_neg h, if_neg]
    omega

@[simp] theorem view_length {α : Type} (a : Int → α) (n : Int) : (view a n).length = n.toNat := by
  simp [view]

theorem view_getElem {α : Type} (a : Int → α) (n : Int) (k : Nat) (h : k < (view a n).length) :
    (view a n)[k] = a k := by
  simp [view]

theorem view_congr {α : Type} (a b : Int → α) (n : Int)
    (h : ∀ j, 0 ≤ j → j < n → a j = b j) : view a n = view b n := by
  apply List.ext_getElem
  · simp
  · intro k h1 h2
    rw [view_getElem, view_getElem]
    simp at h1
    apply h <;> omega

theorem view_nonpos {α : Type} (a : Int → α) (n : Int) (h : n ≤ 0) : view a n = [] := by
  apply List.eq_nil_of_length_eq_zero
  simp
  omega

/-- Writing outside the first `n` cells does not change their view. -/
theorem view_store_out {α : Type} (a : Int → α) (n i : Int) (v : α) (h : i < 0 ∨ n ≤ i) :
    view (store a i v) n = view a n := by
  apply view_congr
  intro j h0 h1
  apply store_other
  omega

/-- Writing cell `n` and counting it appends to the view. -/
theorem view_store_append {α : Type} (a : Int → α) (n : Int) (v : α) (h : 0 ≤ n) :
    view (store a n v) (n + 1) = view a n ++ [v] := by
  apply List.ext_getElem
  · simp
    omega
  · intro k h1 h2
    rw [view_getElem]
    simp at h1
    by_cases hk : k < n.toNat
    · rw [List.getElem_append_left (by simpa using hk), view_getElem, store_other]
      omega
    · have hk2 : (k : Int) = n := by omega
      rw [List.getElem_append_right (by simp; omega)]
      simp [hk2]

/-- Sliding left from `i` and dropping the count by one erases entry `i`. -/
theorem view_slide_left {α : Type} (a : Int → α) (i n : Int) (h0 : 0 ≤ i) (h1 : i < n) :
    view (slide_left a i n) (n - 1) = (view a n).eraseIdx i.toNat := by
  apply List.ext_getElem
  · rw [List.length_eraseIdx_of_lt]
    · simp
    · simp
      omega
  · intro k h2 h3
    rw [view_getElem, slide_left_apply, List.getElem_eraseIdx]
    simp at h2
    by_cases hk : k < i.toNat
    · rw [dif_pos hk, view_getElem, if_neg]
      omega
    · rw [dif_neg hk, view_getElem, if_pos]
      · congr 1
      · omega

theorem view_slide_left_zero {α : Type} (a : Int → α) (n : Int) (h1 : 0 < n) :
    view (slide_left a 0 n) (n - 1) = (view a n).tail := by
  rw [view_slide_left a 0 n (le_refl 0) h1]
  cases view a n <;> simp

/-- A property of all slots `0 .. n-1`, from its instances. -/
theorem forall_below (n : Nat) (P : Int → Prop) (h : ∀ k : Fin n, P ((k : Nat) : Int)) :
    ∀ r : Int, 0 ≤ r → r < n → P r := by
  intro r h0 h1
  obtain ⟨k, rfl⟩ := Int.eq_ofNat_of_zero_le h0
  exact h ⟨k, by exact_mod_cast h1⟩

/-! ## The drain of the SLEEPING queue -/

theorem eraseIdx_append_cons {α : Type} (pre : List α) (e : α) (rest : List α) :
    (pre ++ e :: rest).eraseIdx pre.length = pre ++ rest := by
  induction pre with
  | nil => simp
  | cons x xs ih => simp [ih]

/-- From a view split at index `i`, the cell `i` is the head of the second part. -/
theorem view_split_cell {α : Type} (a : Int → α) (n i : Int) (pre rest : List α) (e : α)
    (hv : view a n = pre ++ e :: rest) (hi : (pre.length : Int) = i) :
    a i = e ∧ i < n := by
  have hl : (view a n).length = pre.length + (rest.length + 1) := by simp [hv]
  rw [view_length] at hl
  have h1 : pre.length < (view a n).length := by rw [view_length]; omega
  have h2 := view_getElem a n pre.length h1
  constructor
  · rw [← hi, ← h2]
    exact List.getElem_of_append hv rfl
  · omega

theorem unblock_SLEEPING_loop_spec (now : Int) (rest : List Sleeper) :
    ∀ (pre : List Sleeper) (fuel : Nat) (i : Int) (s : Sim),
      view s.SLEEPING_queue s.nsleeping = pre ++ rest →
      (pre.length : Int) = i → rest.length ≤ fuel → 0 ≤ s.nready →
      let s' := unblock_SLEEPING_loop now fuel i s
      view s'.SLEEPING_queue s'.nsleeping = pre ++ rest.filter (fun e => !due now e) ∧
      view s'.READY_queue s'.nready
        = view s.READY_queue s.nready ++ (rest.filter (due now)).map Sleeper.proc ∧
      s' = { s with
             USECS_SINCE_REBOOT := s.USECS_SINCE_REBOOT
               + TIME_CORE_STATE_TRANSITIONS * ((rest.filter (due now)).length : Int)
             processes := mark_ready s.processes ((rest.filter (due now)).map Sleeper.proc)
             READY_queue := s'.READY_queue
             nready := s.nready + ((rest.filter (due now)).length : Int)
             SLEEPING_queue := s'.SLEEPING_queue
             nsleeping := s.nsleeping - ((rest.filter (due now)).length : Int) } := by
  induction rest with
  | nil =>
    intro pre fuel i s hv hi _ _
    have hn : ¬ i < s.nsleeping := by
      have hl : (view s.SLEEPING_queue s.nsleeping).length = pre.length := by simp [hv]
      rw [view_length] at hl
      omega
    have hs : unblock_SLEEPING_loop now fuel i s = s := by
      cases fuel with
      | zero => rfl
      | succ n => rw [unblock_SLEEPING_loop, if_neg hn]
    simp only [hs]
    simp [hv, mark_ready]
  | cons e rest ih =>
    intro pre fuel i s hv hi hf hr
    obtain ⟨hcell, hlt⟩ := view_split_cell _ _ _ _ _ _ hv hi
    cases fuel with
    | zero => simp at hf
    | succ n =>
      have hf2 : rest.length ≤ n := by simpa using hf
      have hi0 : 0 ≤ i := by omega
      by_cases hd : (s.SLEEPING_queue i).until_ ≤ now
      · -- the entry is due: it moves to READY and the loop stays at index `i`
        have hde : due now e = true := by simp [due, ← hcell, hd]
        have key := ih pre n i
          { advance_time (append_to_READY_queue s (s.SLEEPING_queue i).proc)
              TIME_CORE_STATE_TRANSITIONS with
            SLEEPING_queue := slide_left s.SLEEPING_queue i s.nsleeping
            nsleeping := s.nsleeping - 1 }
          (by
            show view (slide_left s.SLEEPING_queue i s.nsleeping) (s.nsleeping - 1) = pre ++ rest
            rw [view_slide_left _ _ _ hi0 hlt, hv, ← hi]
            simpa using eraseIdx_append_cons pre e rest)
          hi hf2
          (by show 0 ≤ s.nready + 1; omega)
        rw [unblock_SLEEPING_loop, if_pos hlt, if_pos hd]
        have hii : i - 1 + 1 = i := by omega
        simp only [hii]
        simp only [advance_time, append_to_READY_queue] at key ⊢
        obtain ⟨k1, k2, k3⟩ := key
        refine ⟨?_, ?_, ?_⟩
        · rw [k1]
          simp [hde]
        · rw [k2, view_store_append _ _ _ hr]
          simp [hde, hcell]
        · rw [k3]
          simp only [List.filter_cons, hde, if_true, List.map_cons, List.length_cons, mark_ready,
            List.foldl_cons, hcell]
          congr 1
          · push_cast
            ring
          · push_cast
            ring
          · push_cast
            ring
      · -- the entry stays: the loop moves on to index `i + 1`
        have hde : due now e = false := by simp [due, ← hcell, hd]
        have key := ih (pre ++ [e]) n (i + 1) s (by simpa using hv) (by simp; omega) hf2 hr
        rw [unblock_SLEEPING_loop, if_pos hlt, if_neg hd]
        simp only at key ⊢
        obtain ⟨k1, k2, k3⟩ := key
        refine ⟨?_, ?_, ?_⟩
        · rw [k1]
          simp [hde]
        · rw [k2]
          simp [hde]
        · rw [k3]
          simp [hde]


/-! ## Runs -/

/-- A loop that ends within `n` passes ends in the same state within `n + k`. -/
theorem while_loop_more_fuel (k : Nat) (r : Loop) :
    ∀ (n : Nat) (l : Loop), while_loop n l = .ok r → while_loop (n + k) l = .ok r := by
  intro n
  induction n with
  | zero =>
    intro l h
    by_cases hp : l.sim.nprocesses > 0
    · simp [while_loop, hp] at h
    · have hl : l = r := by simpa [while_loop, hp] using h
      subst hl
      cases k with
      | zero => simp [while_loop, hp]
      | succ k => simp [while_loop, hp]
  | succ n ih =>
    intro l h
    rw [Nat.succ_add]
    by_cases hp : l.sim.nprocesses > 0
    · rw [while_loop, if_pos hp] at h ⊢
      cases hb : loop_body l with
      | error e => simp [hb] at h
      | ok l1 =>
        rw [hb] at h
        exact ih l1 h
    · rw [while_loop, if_neg hp] at h ⊢
      exact h

theorem run_more_fuel (n k : Nat) (s : Sim) (first : Int) (r : Loop)
    (h : run n s first = .ok r) : run (n + k) s first = .ok r := by
  unfold run at h ⊢
  cases he : enter_loop s first with
  | error e => simp [he] at h
  | ok l =>
    rw [he] at h
    exact while_loop_more_fuel k r n l h

/-! ## Device selection -/

/-- The loop of `find_fastest_ready_device` over the devices `i .. i+k-1`, entered
with the pair `acc`: either no device beats `acc` and the pair is unchanged, or
the pair names the first device of the greatest read speed among the queued
ones, and that speed beats `acc`. -/
theorem fastest_loop_spec (s : Sim) (k : Nat) :
    ∀ (i : Int) (acc : Int × Int),
      let r := for_loop (fastest_step s) k i acc
      (r = acc ∧ ∀ d, i ≤ d → d < i + k →
          ¬ ((s.devices d).nblocked > 0 ∧ (s.devices d).read_speed > acc.2)) ∨
      (i ≤ r.1 ∧ r.1 < i + k ∧ (s.devices r.1).nblocked > 0 ∧
        r.2 = (s.devices r.1).read_speed ∧ r.2 > acc.2 ∧
        (∀ d, i ≤ d → d < i + k → (s.devices d).nblocked > 0 →
          (s.devices d).read_speed ≤ r.2) ∧
        (∀ d, i ≤ d → d < r.1 → (s.devices d).nblocked > 0 →
          (s.devices d).read_speed < r.2)) := by
  induction k with
  | zero =>
    intro i acc
    left
    refine ⟨rfl, ?_⟩
    intro d h1 h2
    simp at h2
    omega
  | succ k ih =>
    intro i acc
    simp only [for_loop]
    have key := ih (i + 1) (fastest_step s i acc)
    simp only at key
    by_cases hc : (s.devices i).nblocked > 0 ∧ (s.devices i).read_speed > acc.2
    · have hstep : fastest_step s i acc = (i, (s.devices i).read_speed) := by
        simp only [fastest_step, if_pos hc]
      rw [hstep] at key ⊢
      right
      rcases key with ⟨hr, hno⟩ | ⟨h1, h2, h3, h4, h5, h6, h7⟩
      · rw [hr]
        refine ⟨le_refl _, by push_cast; omega, hc.1, rfl, hc.2, ?_, ?_⟩
        · intro d hd1 hd2 hd3
          by_cases hdi : d = i
          · rw [hdi]
          · have := hno d (by omega) (by push_cast at hd2; omega)
            simp only [not_and, not_lt] at this
            exact this hd3
        · intro d hd1 hd2 _
          simp only at hd2
          omega
      · simp only at h5
        refine ⟨by omega, by push_cast; omega, h3, h4, by omega, ?_, ?_⟩
        · intro d hd1 hd2 hd3
          by_cases hdi : d = i
          · rw [hdi]; omega
          · exact h6 d (by omega) (by push_cast at hd2; omega) hd3
        · intro d hd1 hd2 hd3
          by_cases hdi : d = i
          · rw [hdi]; omega
          · exact h7 d (by omega) hd2 hd3
    · have hstep : fastest_step s i acc = acc := by
        simp only [fastest_step, if_neg hc]
      rw [hstep] at key ⊢
      rcases key with ⟨hr, hno⟩ | ⟨h1, h2, h3, h4, h5, h6, h7⟩
      · left
        refine ⟨hr, ?_⟩
        intro d hd1 hd2
        by_cases hdi : d = i
        · rw [hdi]; exact hc
        · exact hno d (by omega) (by push_cast at hd2; omega)
      · right
        have hi : (s.devices i).nblocked > 0 → (s.devices i).read_speed ≤ acc.2 := by
          intro h
          by_contra hlt
          exact hc ⟨h, by omega⟩
        refine ⟨by omega, by push_cast; omega, h3, h4, h5, ?_, ?_⟩
        · intro d hd1 hd2 hd3
          by_cases hdi : d = i
          · rw [hdi]; have := hi (hdi ▸ hd3); omega
          · exact h6 d (by omega) (by push_cast at hd2; omega) hd3
        · intro d hd1 hd2 hd3
          by_cases hdi : d = i
          · rw [hdi]; have := hi (hdi ▸ hd3); omega
          · exact h7 d (by omega) hd2 hd3

/-- Two loops whose bodies agree on the indices they visit agree. -/
theorem for_loop_congr {σ : Type} (f g : Int → σ → σ) (k : Nat) :
    ∀ (i : Int) (a : σ), (∀ d, i ≤ d → d < i + k → ∀ x, f d x = g d x) →
      for_loop f k i a = for_loop g k i a := by
  induction k with
  | zero => intro i a _; rfl
  | succ k ih =>
    intro i a h
    simp only [for_loop]
    rw [h i (le_refl _) (by push_cast; omega) a]
    apply ih
    intro d h1 h2 x
    exact h d (by omega) (by push_cast; omega) x

/-- C3 (device selection). When read rates are non-negative and some registered
device has a non-empty blocked queue, `find_fastest_ready_device` returns a
registered device with a non-empty queue whose `read_speed` no queued device
exceeds, and it is the first such device: every queued device before it is
strictly slower.  The result is a function of `ndevices`, the read speeds and
the queue lengths alone, whatever the write speeds and the queued requests.
With `fast` (read 2,000,000) and `slow` (read 500,000, but the faster writer),
each holding one queued 1000-byte write, `fast` is chosen in either order of
registration. -/
theorem find_fastest_ready_device_spec (s : Sim)
    (hrate : ∀ d, 0 ≤ d → d < s.ndevices → 0 ≤ (s.devices d).read_speed)
    (hq : ∃ d, 0 ≤ d ∧ d < s.ndevices ∧ 0 < (s.devices d).nblocked) :
    (0 ≤ find_fastest_ready_device s ∧ find_fastest_ready_device s < s.ndevices ∧
      0 < (s.devices ( find_fastest_ready_device s)).nblocked ∧
      (∀ d, 0 ≤ d → d < s.ndevices → 0 < (s.devices d).nblocked →
        (s.devices d).read_speed ≤ (s.devices ( find_fastest_ready_device s)).read_speed) ∧
      (∀ d, 0 ≤ d → d < find_fastest_ready_device s → 0 < (s.devices d).nblocked →
        (s.devices d).read_speed < (s.devices ( find_fastest_ready_device s)).read_speed)) ∧
    (∀ s2 : Sim, s2.ndevices = s.ndevices →
      (∀ d, 0 ≤ d → d < s.ndevices →
        (s2.devices d).read_speed = (s.devices d).read_speed ∧
        (s2.devices d).nblocked = (s.devices d).nblocked) →
      find_fastest_ready_device s2 = find_fastest_ready_device s) ∧
    find_fastest_ready_device (scenario_C (2000000, 100000) (500000, 4000000)) = 0 ∧
    find_fastest_ready_device (scenario_C (500000, 4000000) (2000000, 100000)) = 1 := by
  obtain ⟨d0, hd0, hd1, hd2⟩ := hq
  have hn : ((s.ndevices.toNat : Nat) : Int) = s.ndevices := Int.toNat_of_nonneg (by omega)
  refine ⟨?_, ?_, by decide!, by decide!⟩
  · have key := fastest_loop_spec s s.ndevices.toNat 0 (UNKNOWN, -1)
    simp only [hn, zero_add] at key
    rcases key with ⟨_, hno⟩ | ⟨h1, h2, h3, h4, _, h6, h7⟩
    · exfalso
      apply hno d0 hd0 hd1
      have := hrate d0 hd0 hd1
      exact ⟨hd2, by show (s.devices d0).read_speed > -1; omega⟩
    · unfold find_fastest_ready_device
      rw [← h4]
      exact ⟨h1, h2, h3, h6, h7⟩
  · intro s2 hnd hsame
    unfold find_fastest_ready_device
    rw [hnd]
    apply congrArg Prod.fst
    apply for_loop_congr
    intro d h1 h2 x
    rw [hn, zero_add] at h2
    obtain ⟨e1, e2⟩ := hsame d h1 h2
    simp only [fastest_step, e1, e2]

theorem find_fastest_ready_device_spec_witness :
    0 ≤ find_fastest_ready_device (scenario_C (2000000, 100000) (500000, 4000000)) ∧
    find_fastest_ready_device (scenario_C (2000000, 100000) (500000, 4000000)) < 2 :=
  have h := (find_fastest_ready_device_spec (scenario_C (2000000, 100000) (500000, 4000000))
    (by
      intro d h0 h1
      have h2 : d < 2 := h1
      have hd : d = 0 ∨ d = 1 := by omega
      rcases hd with rfl | rfl <;> decide!)
    ⟨0, by decide, by decide!, by decide!⟩).1
  ⟨h.1, h.2.1⟩

/-! ## Completion of a transfer -/

/-- C9 (completion of a transfer, and bus serialization). If the bus is owned,
`databus_inuse_until <= USECS_SINCE_REBOOT`, and the owner's queue is not empty,
`unblock_completed_IO` removes the head request of the owning device and keeps
the others in order, appends the process of that request to the READY queue
with state READY, adds 10 to the clock, lowers the queue length of the device
and the global `nblocked` by one, leaves every other device alone and frees the
bus.  If the bus is free or `databus_inuse_until > USECS_SINCE_REBOOT` the call
changes nothing.  While the bus is owned `start_pending_IO` changes nothing. -/
theorem unblock_completed_IO_spec (s : Sim) :
    (s.device_owning_databus ≠ UNKNOWN → s.databus_inuse_until ≤ s.USECS_SINCE_REBOOT →
      0 ≤ s.nready → 0 < (s.devices s.device_owning_databus).nblocked →
      view (( unblock_completed_IO s).devices s.device_owning_databus).blocked
          (( unblock_completed_IO s).devices s.device_owning_databus).nblocked
        = (view (s.devices s.device_owning_databus).blocked
            (s.devices s.device_owning_databus).nblocked).tail ∧
      (view (s.devices s.device_owning_databus).blocked
          (s.devices s.device_owning_databus).nblocked).head?
        = some ((s.devices s.device_owning_databus).blocked 0) ∧
      (( unblock_completed_IO s).devices s.device_owning_databus).nblocked
        = (s.devices s.device_owning_databus).nblocked - 1 ∧
      ( unblock_completed_IO s).nblocked = s.nblocked - 1 ∧
      (∀ d, d ≠ s.device_owning_databus → ( unblock_completed_IO s).devices d = s.devices d) ∧
      view ( unblock_completed_IO s).READY_queue ( unblock_completed_IO s).nready
        = view s.READY_queue s.nready
            ++ [((s.devices s.device_owning_databus).blocked 0).proc] ∧
      (( unblock_completed_IO s).processes
          ((s.devices s.device_owning_databus).blocked 0).proc).state = STATE_READY ∧
      ( unblock_completed_IO s).USECS_SINCE_REBOOT
        = s.USECS_SINCE_REBOOT + TIME_CORE_STATE_TRANSITIONS ∧
      TIME_CORE_STATE_TRANSITIONS = 10 ∧
      ( unblock_completed_IO s).device_owning_databus = UNKNOWN) ∧
    ((s.device_owning_databus = UNKNOWN ∨ s.USECS_SINCE_REBOOT < s.databus_inuse_until) →
      unblock_completed_IO s = s) ∧
    (s.device_owning_databus ≠ UNKNOWN → start_pending_IO s = s) := by
  refine ⟨?_, ?_, ?_⟩
  · intro ho hu hr hq
    have hc : s.device_owning_databus ≠ UNKNOWN ∧ s.databus_inuse_until ≤ s.USECS_SINCE_REBOOT :=
      ⟨ho, hu⟩
    simp only [ unblock_completed_IO, if_pos hc, advance_time, append_to_READY_queue, store_same]
    refine ⟨?_, ?_, trivial, trivial, ?_, ?_, trivial, trivial, rfl, trivial⟩
    · exact view_slide_left_zero _ _ hq
    · have hlen : 0 < (view (s.devices s.device_owning_databus).blocked
          (s.devices s.device_owning_databus).nblocked).length := by
        rw [view_length]; omega
      rw [List.head?_eq_getElem?, List.getElem?_eq_getElem hlen, view_getElem]
      rfl
    · intro d hd
      exact store_other _ _ _ _ hd
    · exact view_store_append _ _ _ hr
  · intro h
    have hc : ¬ (s.device_owning_databus ≠ UNKNOWN ∧
        s.databus_inuse_until ≤ s.USECS_SINCE_REBOOT) := by
      rintro ⟨h1, h2⟩
      rcases h with h | h
      · exact h1 h
      · omega
    simp only [ unblock_completed_IO, if_neg hc]
  · intro h
    have hc : ¬ (s.device_owning_databus = UNKNOWN ∧ s.nblocked > 0) := fun hh => h hh.1
    simp only [ start_pending_IO, if_neg hc]

theorem unblock_completed_IO_spec_witness :
    ( unblock_completed_IO scenario_C_owned).nblocked = scenario_C_owned.nblocked - 1 ∧
    ( unblock_completed_IO scenario_C_owned).device_owning_databus = UNKNOWN ∧
    unblock_completed_IO (scenario_C (2000000, 100000) (500000, 4000000))
      = scenario_C (2000000, 100000) (500000, 4000000) ∧
    start_pending_IO scenario_C_owned = scenario_C_owned :=
  have h1 := (unblock_completed_IO_spec scenario_C_owned).1
    (by decide) (by decide!) (by decide!) (by decide!)
  ⟨h1.2.2.2.1, h1.2.2.2.2.2.2.2.2.2,
    (unblock_completed_IO_spec (scenario_C (2000000, 100000) (500000, 4000000))).2.1
      (Or.inl (by decide!)),
    (unblock_completed_IO_spec scenario_C_owned).2.2 (by decide)⟩

/-! ## Dispatch of spawn -/

/-- The scan of `spawn_process` over the slots `p .. p+n-1` takes the first
unused one. -/
theorem spawn_scan_spec (s : Sim) (command ppid : Int) (n : Nat) :
    ∀ p : Int, (∃ q, p ≤ q ∧ q < p + n ∧ PROCESS_SLOT_UNUSED s q) →
      ∃ q, p ≤ q ∧ q < p + n ∧ PROCESS_SLOT_UNUSED s q ∧
        (∀ r, p ≤ r → r < q → ¬ PROCESS_SLOT_UNUSED s r) ∧
        spawn_scan s command ppid n p = .ok (spawn_in_slot s q command ppid) := by
  induction n with
  | zero =>
    rintro p ⟨q, h1, h2, _⟩
    simp at h2
    omega
  | succ n ih =>
    rintro p ⟨q, h1, h2, h3⟩
    by_cases hu : PROCESS_SLOT_UNUSED s p
    · refine ⟨p, le_refl _, by push_cast; omega, hu, ?_, ?_⟩
      · intro r hr1 hr2
        omega
      · rw [spawn_scan, if_pos hu]
    · have hq : q ≠ p := fun h => hu (h ▸ h3)
      obtain ⟨q2, g1, g2, g3, g4, g5⟩ := ih (p + 1) ⟨q, by omega, by push_cast at h2; omega, h3⟩
      refine ⟨q2, by omega, by push_cast; omega, g3, ?_, ?_⟩
      · intro r hr1 hr2
        by_cases hrp : r = p
        · rw [hrp]; exact hu
        · exact g4 r (by omega) hr2
      · rw [spawn_scan, if_neg hu, g5]

/-- Without an unused slot among `p .. p+n-1` the scan ends in the process-limit
error. -/
theorem spawn_scan_full (s : Sim) (command ppid : Int) (n : Nat) :
    ∀ p : Int, (∀ q, p ≤ q → q < p + n → ¬ PROCESS_SLOT_UNUSED s q) →
      spawn_scan s command ppid n p = .error .process_limit := by
  induction n with
  | zero => intro p _; rfl
  | succ n ih =>
    intro p h
    rw [spawn_scan, if_neg (h p (le_refl _) (by push_cast; omega))]
    apply ih
    intro q h1 h2
    exact h q (by omega) (by push_cast; omega)

/-- A process that issues a syscall leaves the CPU. -/
theorem issue_syscall_leaves_CPU (l l2 : Loop) (c i : Int)
    (h : issue_syscall l c i = .ok l2) : l2.proc_on_CPU = UNKNOWN := by
  unfold issue_syscall at h
  simp only at h
  split at h
  · cases h
  · cases h
    rfl

/-- With a process on the CPU that is due for its next syscall, the block
`on_CPU` is the issue of that syscall. -/
theorem on_CPU_due (l : Loop) (hcpu : l.proc_on_CPU ≠ UNKNOWN)
    (hdue : (l.sim.processes l.proc_on_CPU).time_on_CPU
      = ((l.sim.commands (l.sim.processes l.proc_on_CPU).command).syscalls
          (l.sim.processes l.proc_on_CPU).next_syscall).when) :
    on_CPU l = issue_syscall l (l.sim.processes l.proc_on_CPU).command
      (l.sim.processes l.proc_on_CPU).next_syscall := by
  unfold on_CPU
  simp only [if_pos hcpu, if_pos hdue]
  cases h : issue_syscall l (l.sim.processes l.proc_on_CPU).command
      (l.sim.processes l.proc_on_CPU).next_syscall with
  | error e => rfl
  | ok l2 =>
    have := issue_syscall_leaves_CPU l l2 _ _ h
    simp [this]

/-- The issue of a `spawn` whose `spawn_process` succeeds. -/
theorem issue_spawn (l : Loop) (c i : Int) (s1 : Sim)
    (hw : ((l.sim.commands c).syscalls i).which = SYS_SPAWN)
    (hs : spawn_process ( incr_next_syscall l.sim l.proc_on_CPU)
      ((l.sim.commands c).syscalls i).arg0 (l.sim.processes l.proc_on_CPU).pid = .ok s1) :
    issue_syscall l c i = .ok
      { l with
        sim := advance_time
          (append_to_READY_queue (incr_nchildren s1 l.proc_on_CPU) l.proc_on_CPU)
          TIME_CORE_STATE_TRANSITIONS
        proc_on_CPU := UNKNOWN } := by
  have hpid : (( incr_next_syscall l.sim l.proc_on_CPU).processes l.proc_on_CPU).pid
      = (l.sim.processes l.proc_on_CPU).pid := by
    simp [incr_next_syscall]
  have hcmd : ( incr_next_syscall l.sim l.proc_on_CPU).commands = l.sim.commands := rfl
  simp only [issue_syscall, dispatch, hw, if_true, hpid, hcmd, hs]

/-- C10 (dispatch of spawn). Let the live process in slot `p` be on the CPU, due
for a `spawn` of command `arg0`, with an unused slot available.  Then `on_CPU`
succeeds and, for the first unused slot `q`: slot `q` holds a new record with
pid `next_pid` (different from every pid in the table when all of them are
below `next_pid`), ppid the pid of `p`, state READY, cursor 0, CPU time 0 and no
children; the record of `p` has one child more, its cursor moved on by one and
state READY, and is otherwise unchanged; no other record changes; the READY
queue grows by `q` and then `p` at its tail; no process is on the CPU; the
clock is 10 later. -/
theorem spawn_dispatch (l : Loop)
    (hcpu : l.proc_on_CPU ≠ UNKNOWN)
    (hlive : (l.sim.processes l.proc_on_CPU).pid ≠ UNKNOWN)
    (hdue : (l.sim.processes l.proc_on_CPU).time_on_CPU
      = ((l.sim.commands (l.sim.processes l.proc_on_CPU).command).syscalls
          (l.sim.processes l.proc_on_CPU).next_syscall).when)
    (hspawn : ((l.sim.commands (l.sim.processes l.proc_on_CPU).command).syscalls
          (l.sim.processes l.proc_on_CPU).next_syscall).which = SYS_SPAWN)
    (hfree : ∃ q : Int, 0 ≤ q ∧ q < MAX_RUNNING_PROCESSES ∧ (l.sim.processes q).pid = UNKNOWN)
    (hready : 0 ≤ l.sim.nready)
    (hpids : ∀ r : Int, 0 ≤ r → r < MAX_RUNNING_PROCESSES → (l.sim.processes r).pid < l.sim.next_pid) :
    ∃ (l2 : Loop) (q : Int),
      on_CPU l = .ok l2 ∧
      (0 ≤ q ∧ q < MAX_RUNNING_PROCESSES ∧ (l.sim.processes q).pid = UNKNOWN ∧
        ∀ r, 0 ≤ r → r < q → (l.sim.processes r).pid ≠ UNKNOWN) ∧
      l2.sim.processes q =
        { state := STATE_READY
          pid := l.sim.next_pid
          ppid := (l.sim.processes l.proc_on_CPU).pid
          time_on_CPU := 0
          command := ((l.sim.commands (l.sim.processes l.proc_on_CPU).command).syscalls
            (l.sim.processes l.proc_on_CPU).next_syscall).arg0
          next_syscall := 0
          nchildren := 0 } ∧
      (∀ r : Int, 0 ≤ r → r < MAX_RUNNING_PROCESSES →
        (l.sim.processes r).pid ≠ (l2.sim.processes q).pid) ∧
      l2.sim.next_pid = l.sim.next_pid + 1 ∧
      l2.sim.nprocesses = l.sim.nprocesses + 1 ∧
      l2.sim.processes l.proc_on_CPU =
        { l.sim.processes l.proc_on_CPU with
          nchildren := (l.sim.processes l.proc_on_CPU).nchildren + 1
          next_syscall := (l.sim.processes l.proc_on_CPU).next_syscall + 1
          state := STATE_READY } ∧
      (∀ r, r ≠ q → r ≠ l.proc_on_CPU → l2.sim.processes r = l.sim.processes r) ∧
      view l2.sim.READY_queue l2.sim.nready
        = view l.sim.READY_queue l.sim.nready ++ [q, l.proc_on_CPU] ∧
      l2.proc_on_CPU = UNKNOWN ∧
      l2.sim.USECS_SINCE_REBOOT = l.sim.USECS_SINCE_REBOOT + 10 := by
  obtain ⟨q0, hq0, hq1, hq2⟩ := hfree
  have hq0p : q0 ≠ l.proc_on_CPU := by
    intro h
    rw [h] at hq2
    exact hlive hq2
  have hunused : ∀ r, PROCESS_SLOT_UNUSED ( incr_next_syscall l.sim l.proc_on_CPU) r
      ↔ (l.sim.processes r).pid = UNKNOWN := by
    intro r
    unfold PROCESS_SLOT_UNUSED incr_next_syscall
    by_cases hr : r = l.proc_on_CPU
    · rw [hr]; simp
    · simp [store_other _ _ _ _ hr]
  obtain ⟨q, g1, g2, g3, g4, g5⟩ := spawn_scan_spec ( incr_next_syscall l.sim l.proc_on_CPU)
    ((l.sim.commands (l.sim.processes l.proc_on_CPU).command).syscalls
      (l.sim.processes l.proc_on_CPU).next_syscall).arg0
    (l.sim.processes l.proc_on_CPU).pid MAX_RUNNING_PROCESSES 0
    ⟨q0, hq0, by omega, (hunused q0).2 hq2⟩
  rw [hunused] at g3
  have hqp : q ≠ l.proc_on_CPU := by
    intro h
    rw [h] at g3
    exact hlive g3
  have hpq : l.proc_on_CPU ≠ q := fun h => hqp h.symm
  have hq50 : q < MAX_RUNNING_PROCESSES := by omega
  have hon := (on_CPU_due l hcpu hdue).trans (issue_spawn l _ _ _ hspawn g5)
  refine ⟨_, q, hon, ⟨g1, hq50, g3, ?_⟩, ?_⟩
  · intro r hr1 hr2
    exact fun h => g4 r hr1 hr2 ((hunused r).2 h)
  · simp only [spawn_in_slot, append_to_READY_queue, advance_time, incr_nchildren,
      incr_next_syscall, store_same, store_other _ _ _ _ hqp, store_other _ _ _ _ hpq]
    refine ⟨trivial, ?_, trivial, trivial, trivial, ?_, ?_, trivial, ?_⟩
    · intro r hr1 hr2
      have := hpids r hr1 hr2
      omega
    · intro r hrq hrp
      rw [store_other _ _ _ _ hrp, store_other _ _ _ _ hrp, store_other _ _ _ _ hrq,
        store_other _ _ _ _ hrq, store_other _ _ _ _ hrp]
    · rw [view_store_append _ _ _ (by omega : (0 : Int) ≤ l.sim.nready + 1),
        view_store_append _ _ _ hready]
      simp
    · simp [TIME_CORE_STATE_TRANSITIONS]

theorem spawn_dispatch_witness :
    ∃ (l2 : Loop) (q : Int), on_CPU (before_on_CPU 1 (scenario_D 0)) = .ok l2 ∧
      q = 1 ∧ (l2.sim.processes q).pid = 1 ∧ (l2.sim.processes q).ppid = 0 ∧
      l2.sim.nprocesses = 2 := by
  obtain ⟨l2, q, h1, ⟨hq0, hq1, hq2, hq3⟩, h3, _, _, h6, _⟩ :=
    spawn_dispatch (before_on_CPU 1 (scenario_D 0)) (by decide!) (by decide!) (by decide!)
      (by decide!) ⟨1, by decide, by decide, by decide!⟩ (by decide!)
      (forall_below 50 _ (by decide!))
  have hq : q = 1 := by
    have h0 : ((before_on_CPU 1 (scenario_D 0)).sim.processes 0).pid ≠ UNKNOWN := by decide!
    have h1 : ((before_on_CPU 1 (scenario_D 0)).sim.processes 1).pid = UNKNOWN := by decide!
    have hle : q ≤ 1 := by
      by_contra hgt
      exact hq3 1 (by decide) (by omega) h1
    have hne : q ≠ 0 := fun h => h0 (h ▸ hq2)
    omega
  refine ⟨l2, q, h1, hq, ?_, ?_, ?_⟩
  · rw [h3]; decide!
  · rw [h3]; decide!
  · rw [h6]; decide!

/-! ## Dispatch of wait -/

/-- The issue of a `wait`. -/
theorem issue_wait (l : Loop) (c i : Int)
    (hw : ((l.sim.commands c).syscalls i).which = SYS_WAIT) :
    issue_syscall l c i = .ok
      { l with
        sim := advance_time
          (if (l.sim.processes l.proc_on_CPU).nchildren = 0 then
            append_to_READY_queue ( incr_next_syscall l.sim l.proc_on_CPU) l.proc_on_CPU
          else append_to_WAITING_queue ( incr_next_syscall l.sim l.proc_on_CPU) l.proc_on_CPU)
          TIME_CORE_STATE_TRANSITIONS
        proc_on_CPU := UNKNOWN } := by
  have hn : (( incr_next_syscall l.sim l.proc_on_CPU).processes l.proc_on_CPU).nchildren
      = (l.sim.processes l.proc_on_CPU).nchildren := by
    simp [incr_next_syscall]
  have hcmd : ( incr_next_syscall l.sim l.proc_on_CPU).commands = l.sim.commands := rfl
  simp only [issue_syscall, dispatch, hw, hn, hcmd]
  simp [SYS_WAIT, SYS_SPAWN, SYS_READ, SYS_WRITE, SYS_SLEEP]

/-- C6 (wait without children does not block). Let the process in slot `p` be on
the CPU and due for a `wait`.  If it has no live child, `on_CPU` appends
`p` to the tail of the READY queue with state READY, leaves `WAITING_queue` and
`nwaiting` as they are and adds 10 to the clock.  If its count of live children
is positive, `on_CPU` appends `p` to the tail of the WAITING queue with state
WAITING, leaves `READY_queue` and `nready` as they are, and adds 10 to the
clock.  Either way `p` leaves the CPU. -/
theorem wait_dispatch (l : Loop)
    (hcpu : l.proc_on_CPU ≠ UNKNOWN)
    (hdue : (l.sim.processes l.proc_on_CPU).time_on_CPU
      = ((l.sim.commands (l.sim.processes l.proc_on_CPU).command).syscalls
          (l.sim.processes l.proc_on_CPU).next_syscall).when)
    (hwait : ((l.sim.commands (l.sim.processes l.proc_on_CPU).command).syscalls
          (l.sim.processes l.proc_on_CPU).next_syscall).which = SYS_WAIT)
    (hready : 0 ≤ l.sim.nready) (hwaiting : 0 ≤ l.sim.nwaiting) :
    ((l.sim.processes l.proc_on_CPU).nchildren = 0 →
      ∃ l2 : Loop, on_CPU l = .ok l2 ∧
        view l2.sim.READY_queue l2.sim.nready
          = view l.sim.READY_queue l.sim.nready ++ [l.proc_on_CPU] ∧
        (l2.sim.processes l.proc_on_CPU).state = STATE_READY ∧
        l2.sim.WAITING_queue = l.sim.WAITING_queue ∧
        l2.sim.nwaiting = l.sim.nwaiting ∧
        l2.sim.USECS_SINCE_REBOOT = l.sim.USECS_SINCE_REBOOT + 10 ∧
        l2.proc_on_CPU = UNKNOWN) ∧
    (0 < (l.sim.processes l.proc_on_CPU).nchildren →
      ∃ l2 : Loop, on_CPU l = .ok l2 ∧
        view l2.sim.WAITING_queue l2.sim.nwaiting
          = view l.sim.WAITING_queue l.sim.nwaiting ++ [l.proc_on_CPU] ∧
        (l2.sim.processes l.proc_on_CPU).state = STATE_WAITING ∧
        l2.sim.READY_queue = l.sim.READY_queue ∧
        l2.sim.nready = l.sim.nready ∧
        l2.sim.USECS_SINCE_REBOOT = l.sim.USECS_SINCE_REBOOT + 10 ∧
        l2.proc_on_CPU = UNKNOWN) := by
  have hon := (on_CPU_due l hcpu hdue).trans (issue_wait l _ _ hwait)
  constructor
  · intro h0
    rw [if_pos h0] at hon
    refine ⟨_, hon, ?_⟩
    simp only [advance_time, append_to_READY_queue, incr_next_syscall, store_same]
    refine ⟨view_store_append _ _ _ hready, trivial, trivial, trivial, ?_, trivial⟩
    simp [TIME_CORE_STATE_TRANSITIONS]
  · intro h1
    have hne : ¬ (l.sim.processes l.proc_on_CPU).nchildren = 0 := by omega
    rw [if_neg hne] at hon
    refine ⟨_, hon, ?_⟩
    simp only [advance_time, append_to_WAITING_queue, incr_next_syscall, store_same]
    refine ⟨view_store_append _ _ _ hwaiting, trivial, trivial, trivial, ?_, trivial⟩
    simp [TIME_CORE_STATE_TRANSITIONS]

theorem wait_dispatch_witness :
    (∃ l2 : Loop, on_CPU (before_on_CPU 3 (scenario_D 0)) = .ok l2 ∧
      (l2.sim.processes 0).state = STATE_READY ∧
      l2.sim.nwaiting = (before_on_CPU 3 (scenario_D 0)).sim.nwaiting) ∧
    (∃ l2 : Loop, on_CPU (before_on_CPU 102 (scenario_D 500)) = .ok l2 ∧
      (l2.sim.processes 0).state = STATE_WAITING ∧
      l2.sim.nready = (before_on_CPU 102 (scenario_D 500)).sim.nready) := by
  constructor
  · obtain ⟨l2, h1, _, h3, _, h5, _⟩ :=
      (wait_dispatch (before_on_CPU 3 (scenario_D 0)) (by decide!) (by decide!) (by decide!)
        (by decide!) (by decide!)).1 (by decide!)
    exact ⟨l2, h1, h3, h5⟩
  · obtain ⟨l2, h1, _, h3, _, h5, _⟩ :=
      (wait_dispatch (before_on_CPU 102 (scenario_D 500)) (by decide!) (by decide!) (by decide!)
        (by decide!) (by decide!)).2 (by decide!)
    exact ⟨l2, h1, h3, h5⟩

/-! ## Operations that leave the devices alone -/

/-- What a loop computes that rewrites the cells `i .. i+k-1` one by one. -/
theorem for_loop_store_apply {α : Type} (f : α → α) (k : Nat) :
    ∀ (i : Int) (a : Int → α) (j : Int),
      for_loop (fun d q => store q d (f (q d))) k i a j
        = if i ≤ j ∧ j < i + k then f (a j) else a j := by
  induction k with
  | zero =>
    intro i a j
    have h2 : ¬ (i ≤ j ∧ j < i + ((0 : Nat) : Int)) := by push_cast; omega
    rw [for_loop, if_neg h2]
  | succ k ih =>
    intro i a j
    rw [for_loop, ih]
    by_cases h1 : i + 1 ≤ j ∧ j < i + 1 + k
    · have h2 : i ≤ j ∧ j < i + ((k + 1 : Nat) : Int) := by push_cast; omega
      have h3 : j ≠ i := by omega
      rw [if_pos h1, if_pos h2, store_other _ _ _ _ h3]
    · rw [if_neg h1]
      by_cases h3 : j = i
      · subst h3
        have h2 : j ≤ j ∧ j < j + ((k + 1 : Nat) : Int) := by push_cast; omega
        rw [if_pos h2, store_same]
      · have h2 : ¬ (i ≤ j ∧ j < i + ((k + 1 : Nat) : Int)) := by push_cast; omega
        rw [if_neg h2, store_other _ _ _ _ h3]

theorem same_io_refl (s : Sim) : same_io s s :=
  ⟨rfl, rfl, rfl, rfl, rfl, rfl, rfl, rfl⟩

theorem same_io_trans {s s2 s3 : Sim} (h1 : same_io s s2) (h2 : same_io s2 s3) : same_io s s3 := by
  obtain ⟨a1, a2, a3, a4, a5, a6, a7, a8⟩ := h1
  obtain ⟨b1, b2, b3, b4, b5, b6, b7, b8⟩ := h2
  exact ⟨b1.trans a1, b2.trans a2, b3.trans a3, b4.trans a4, b5.trans a5, b6.trans a6,
    b7.trans a7, b8.trans a8⟩

theorem same_io_advance_time (s : Sim) (inc : Int) : same_io s (advance_time s inc) :=
  ⟨rfl, rfl, rfl, rfl, rfl, rfl, rfl, rfl⟩

theorem same_io_append_to_READY_queue (s : Sim) (p : Int) :
    same_io s (append_to_READY_queue s p) :=
  ⟨rfl, rfl, rfl, rfl, rfl, rfl, rfl, rfl⟩

theorem same_io_spawn_process (s s2 : Sim) (c pp : Int) (h : spawn_process s c pp = .ok s2) :
    same_io s s2 := by
  have key : ∀ (n : Nat) (p : Int), spawn_scan s c pp n p = .ok s2 → same_io s s2 := by
    intro n
    induction n with
    | zero => intro p h; cases h
    | succ n ih =>
      intro p h
      rw [spawn_scan] at h
      split at h
      · cases h
        exact ⟨rfl, rfl, rfl, rfl, rfl, rfl, rfl, rfl⟩
      · exact ih _ h
  exact key _ _ h

theorem same_io_exit_scan (s : Sim) (p : Int) (n : Nat) :
    ∀ i : Int, same_io s (exit_scan s p n i) := by
  induction n with
  | zero => intro i; exact same_io_refl s
  | succ n ih =>
    intro i
    rw [exit_scan]
    split
    · exact ih _
    · split
      · exact ⟨rfl, rfl, rfl, rfl, rfl, rfl, rfl, rfl⟩
      · exact ih _

theorem same_io_exit_process (s : Sim) (p : Int) : same_io s (exit_process s p) := by
  have h := same_io_exit_scan s p MAX_RUNNING_PROCESSES 0
  exact same_io_trans h ⟨rfl, rfl, rfl, rfl, rfl, rfl, rfl, rfl⟩

theorem same_io_dequeue_READY_queue (s : Sim) : same_io s (dequeue_READY_queue s).2 := by
  unfold dequeue_READY_queue
  split
  · exact ⟨rfl, rfl, rfl, rfl, rfl, rfl, rfl, rfl⟩
  · exact same_io_refl s

theorem same_io_append_to_WAITING_queue (s : Sim) (p : Int) :
    same_io s (append_to_WAITING_queue s p) :=
  ⟨rfl, rfl, rfl, rfl, rfl, rfl, rfl, rfl⟩

theorem same_io_append_to_SLEEPING_queue (s : Sim) (p d : Int) :
    same_io s (append_to_SLEEPING_queue s p d) :=
  ⟨rfl, rfl, rfl, rfl, rfl, rfl, rfl, rfl⟩

theorem same_io_unblock_WAITING_loop (n : Nat) :
    ∀ (w : Int) (s : Sim), same_io s (unblock_WAITING_loop n w s) := by
  induction n with
  | zero => intro w s; exact same_io_refl s
  | succ n ih =>
    intro w s
    rw [unblock_WAITING_loop]
    split
    · simp only
      split
      · exact same_io_trans ⟨rfl, rfl, rfl, rfl, rfl, rfl, rfl, rfl⟩ (ih _ _)
      · exact ih _ _
    · exact same_io_refl s

theorem same_io_unblock_WAITING (s : Sim) : same_io s (unblock_WAITING s) :=
  same_io_unblock_WAITING_loop _ _ _

theorem same_io_unblock_SLEEPING_loop (now : Int) (n : Nat) :
    ∀ (i : Int) (s : Sim), same_io s (unblock_SLEEPING_loop now n i s) := by
  induction n with
  | zero => intro i s; exact same_io_refl s
  | succ n ih =>
    intro i s
    rw [unblock_SLEEPING_loop]
    split
    · split
      · exact same_io_trans ⟨rfl, rfl, rfl, rfl, rfl, rfl, rfl, rfl⟩ (ih _ _)
      · exact ih _ _
    · exact same_io_refl s

theorem same_io_unblock_SLEEPING (s : Sim) : same_io s (unblock_SLEEPING s) :=
  same_io_unblock_SLEEPING_loop _ _ _ _

/-! ## Conservation and the bus invariant -/

theorem view_succ {α : Type} (a : Int → α) (m : Nat) :
    view a ((m : Int) + 1) = view a m ++ [a m] := by
  have h : ((m : Int) + 1).toNat = m + 1 := by omega
  simp [view, h, List.range_succ]

/-- Replacing the record of one registered device changes the sum of the queue
lengths by the change of that device's queue length. -/
theorem blocked_sum_store (a : Int → Device) (d : Int) (v : Device) (hd : 0 ≤ d) (m : Nat) :
    ((view (store a d v) (m : Int)).map Device.nblocked).sum
      = ((view a (m : Int)).map Device.nblocked).sum
        + (if d < m then v.nblocked - (a d).nblocked else 0) := by
  induction m with
  | zero => simp [view]; omega
  | succ m ih =>
    push_cast
    rw [view_succ, view_succ, List.map_append, List.map_append, List.sum_append,
      List.sum_append, ih]
    simp only [List.map_cons, List.map_nil, List.sum_cons, List.sum_nil, add_zero]
    by_cases h1 : d = m
    · rw [← h1, store_same]
      have h2 : ¬ d < d := by omega
      have h3 : d < d + 1 := by omega
      rw [if_neg h2, if_pos h3]
      ring
    · rw [store_other _ _ _ _ (fun h => h1 h.symm)]
      by_cases h2 : d < m
      · have h3 : d < (m : Int) + 1 := by omega
        rw [if_pos h2, if_pos h3]
        ring
      · have h3 : ¬ d < (m : Int) + 1 := by omega
        rw [if_neg h2, if_neg h3]
        ring

theorem total_blocked_store (s s2 : Sim) (d : Int) (v : Device) (h0 : 0 ≤ d)
    (h1 : d < s.ndevices) (hn : s2.ndevices = s.ndevices)
    (hd : s2.devices = store s.devices d v) :
    total_blocked s2 = total_blocked s + (v.nblocked - (s.devices d).nblocked) := by
  unfold total_blocked
  rw [hn, hd]
  have hm : s.ndevices = (s.ndevices.toNat : Int) := by omega
  rw [hm, blocked_sum_store _ _ _ h0, if_pos (by omega)]

theorem total_blocked_same (s s2 : Sim) (hn : s2.ndevices = s.ndevices)
    (hd : s2.devices = s.devices) : total_blocked s2 = total_blocked s := by
  unfold total_blocked
  rw [hn, hd]

/-- The device that `find_fastest_ready_device` returns is `UNKNOWN` or a
registered device with a request queued. -/
theorem find_fastest_ready_device_range (s : Sim) :
    find_fastest_ready_device s = UNKNOWN ∨
      (0 ≤ find_fastest_ready_device s ∧ find_fastest_ready_device s < s.ndevices ∧
        0 < (s.devices ( find_fastest_ready_device s)).nblocked) := by
  have key := fastest_loop_spec s s.ndevices.toNat 0 (UNKNOWN, -1)
  simp only at key
  unfold find_fastest_ready_device
  rcases key with ⟨hr, _⟩ | ⟨h1, h2, h3, _⟩
  · left
    rw [hr]
  · right
    exact ⟨h1, by omega, h3⟩

theorem inv_of_same_io (s s2 : Sim) (h : same_io s s2) (hi : conserved s ∧ bus_ok s) :
    conserved s2 ∧ bus_ok s2 := by
  obtain ⟨_, _, _, a4, a5, a6, _, a8⟩ := h
  constructor
  · unfold conserved
    rw [a8, total_blocked_same s s2 a5 a4]
    exact hi.1
  · unfold bus_ok
    rw [a4, a5, a6]
    exact hi.2

theorem init_all_io (s : Sim) :
    (init_all s).ndevices = s.ndevices ∧ (init_all s).nblocked = 0 ∧
    (init_all s).device_owning_databus = UNKNOWN ∧
    (init_all s).devices
      = for_loop (fun d devs => store devs d { devs d with nblocked := 0 })
          s.ndevices.toNat 0 s.devices := by
  simp only [init_all, init_devices_and_IO_BLOCKED_queues, init_devices_loop,
    init_WAITING_queue, init_SLEEPING_queue, init_READY_queue, init_processes,
    init_processes_loop, and_self]

theorem inv_init (s : Sim) : conserved (init_all s) ∧ bus_ok (init_all s) := by
  obtain ⟨h1, h2, h3, h4⟩ := init_all_io s
  constructor
  · unfold conserved total_blocked
    rw [h2, h1, h4]
    symm
    apply List.sum_eq_zero
    intro x hx
    obtain ⟨dev, hdev, rfl⟩ := List.mem_map.1 hx
    unfold view at hdev
    obtain ⟨k, hk, rfl⟩ := List.mem_map.1 hdev
    rw [List.mem_range] at hk
    rw [for_loop_store_apply (fun dev : Device => { dev with nblocked := 0 }),
      if_pos (by omega)]
  · left
    exact h3

theorem inv_step (s s2 : Sim) (h : Step s s2) (hi : conserved s ∧ bus_ok s) :
    conserved s2 ∧ bus_ok s2 := by
  cases h with
  | tick inc => exact inv_of_same_io _ _ (same_io_advance_time s inc) hi
  | clock v => exact inv_of_same_io _ _ ⟨rfl, rfl, rfl, rfl, rfl, rfl, rfl, rfl⟩ hi
  | spawn _ _ _ hs => exact inv_of_same_io _ _ (same_io_spawn_process _ _ _ _ hs) hi
  | exit p => exact inv_of_same_io _ _ (same_io_exit_process s p) hi
  | cursor p => exact inv_of_same_io _ _ ⟨rfl, rfl, rfl, rfl, rfl, rfl, rfl, rfl⟩ hi
  | child p => exact inv_of_same_io _ _ ⟨rfl, rfl, rfl, rfl, rfl, rfl, rfl, rfl⟩ hi
  | cpu_time p => exact inv_of_same_io _ _ ⟨rfl, rfl, rfl, rfl, rfl, rfl, rfl, rfl⟩ hi
  | state p => exact inv_of_same_io _ _ ⟨rfl, rfl, rfl, rfl, rfl, rfl, rfl, rfl⟩ hi
  | ready p => exact inv_of_same_io _ _ (same_io_append_to_READY_queue s p) hi
  | dequeue => exact inv_of_same_io _ _ (same_io_dequeue_READY_queue s) hi
  | wait p => exact inv_of_same_io _ _ (same_io_append_to_WAITING_queue s p) hi
  | wait_drain => exact inv_of_same_io _ _ (same_io_unblock_WAITING s) hi
  | sleep p d => exact inv_of_same_io _ _ (same_io_append_to_SLEEPING_queue s p d) hi
  | sleep_drain => exact inv_of_same_io _ _ (same_io_unblock_SLEEPING s) hi
  | io_block p sc d n h0 h1 =>
    obtain ⟨hc, hb⟩ := hi
    constructor
    · unfold conserved at hc ⊢
      rw [total_blocked_store s (append_to_IO_BLOCKED_queue s p sc d n) d _ h0 h1 rfl rfl]
      simp only [append_to_IO_BLOCKED_queue, advance_time]
      rw [hc]
      ring
    · unfold bus_ok at hb ⊢
      rcases hb with hb | ⟨b1, b2, b3⟩
      · left; exact hb
      · right
        refine ⟨b1, b2, ?_⟩
        simp only [append_to_IO_BLOCKED_queue, advance_time]
        by_cases hd : s.device_owning_databus = d
        · rw [hd, store_same]
          rw [hd] at b3
          show 0 < (s.devices d).nblocked + 1
          omega
        · rw [store_other _ _ _ _ hd]
          exact b3
  | io_done =>
    obtain ⟨hc, hb⟩ := hi
    by_cases hcond : s.device_owning_databus ≠ UNKNOWN ∧
        s.databus_inuse_until ≤ s.USECS_SINCE_REBOOT
    · have hown : 0 ≤ s.device_owning_databus ∧ s.device_owning_databus < s.ndevices := by
        rcases hb with hb | ⟨b1, b2, _⟩
        · exact absurd hb hcond.1
        · exact ⟨b1, b2⟩
      constructor
      · unfold conserved at hc ⊢
        rw [total_blocked_store s ( unblock_completed_IO s) s.device_owning_databus
          { s.devices s.device_owning_databus with
            blocked := slide_left (s.devices s.device_owning_databus).blocked 0
              (s.devices s.device_owning_databus).nblocked
            nblocked := (s.devices s.device_owning_databus).nblocked - 1 }
          hown.1 hown.2
          (by simp only [ unblock_completed_IO, if_pos hcond]; rfl)
          (by simp only [ unblock_completed_IO, if_pos hcond]; rfl)]
        simp only [ unblock_completed_IO, if_pos hcond, advance_time, append_to_READY_queue]
        rw [hc]
        ring
      · left
        simp only [ unblock_completed_IO, if_pos hcond]
    · simp only [ unblock_completed_IO, if_neg hcond]
      exact ⟨hc, hb⟩
  | io_start =>
    obtain ⟨hc, hb⟩ := hi
    by_cases hcond : s.device_owning_databus = UNKNOWN ∧ s.nblocked > 0
    · constructor
      · unfold conserved at hc ⊢
        rw [total_blocked_same s _
          (by simp only [ start_pending_IO, if_pos hcond])
          (by simp only [ start_pending_IO, if_pos hcond])]
        simp only [ start_pending_IO, if_pos hcond]
        exact hc
      · unfold bus_ok
        simp only [ start_pending_IO, if_pos hcond]
        exact find_fastest_ready_device_range s
    · simp only [ start_pending_IO, if_neg hcond]
      exact ⟨hc, hb⟩

theorem inv_reachable (s : Sim) (h : Reachable s) : conserved s ∧ bus_ok s := by
  induction h with
  | init devs tq commands ncommands => exact inv_init _
  | step s s2 _ hs ih => exact inv_step s s2 hs ih

/-! ## The loop as a sequence of operations -/

theorem steps_refl (s : Sim) : Steps s s :=
  Relation.ReflTransGen.refl

theorem steps_one {s s2 : Sim} (h : Step s s2) : Steps s s2 :=
  Relation.ReflTransGen.single h

theorem steps_trans {s s2 s3 : Sim} (h1 : Steps s s2) (h2 : Steps s2 s3) : Steps s s3 :=
  Relation.ReflTransGen.trans h1 h2

theorem steps_then {s s2 s3 : Sim} (h1 : Steps s s2) (h2 : Step s2 s3) : Steps s s3 :=
  Relation.ReflTransGen.tail h1 h2

theorem reachable_steps {s s2 : Sim} (h : Reachable s) (hs : Steps s s2) : Reachable s2 := by
  induction hs with
  | refl => exact h
  | tail _ hstep ih => exact Reachable.step _ _ ih hstep

/-- No operation changes the catalog or the number of devices. -/
theorem step_static {s s2 : Sim} (h : Step s s2) :
    s2.commands = s.commands ∧ s2.ndevices = s.ndevices := by
  have of_same : ∀ {a b : Sim}, same_io a b → b.commands = a.commands ∧ b.ndevices = a.ndevices :=
    fun h => ⟨h.1, h.2.2.2.2.1⟩
  cases h with
  | tick inc => exact ⟨rfl, rfl⟩
  | clock v => exact ⟨rfl, rfl⟩
  | spawn _ _ _ hs => exact of_same (same_io_spawn_process _ _ _ _ hs)
  | exit p => exact of_same (same_io_exit_process s p)
  | cursor p => exact ⟨rfl, rfl⟩
  | child p => exact ⟨rfl, rfl⟩
  | cpu_time p => exact ⟨rfl, rfl⟩
  | state p => exact ⟨rfl, rfl⟩
  | ready p => exact ⟨rfl, rfl⟩
  | dequeue => exact of_same (same_io_dequeue_READY_queue s)
  | wait p => exact ⟨rfl, rfl⟩
  | wait_drain => exact of_same (same_io_unblock_WAITING s)
  | sleep p d => exact ⟨rfl, rfl⟩
  | sleep_drain => exact of_same (same_io_unblock_SLEEPING s)
  | io_block p sc d n h0 h1 => exact ⟨rfl, rfl⟩
  | io_done =>
    unfold unblock_completed_IO
    split
    · exact ⟨rfl, rfl⟩
    · exact ⟨rfl, rfl⟩
  | io_start =>
    unfold start_pending_IO
    split
    · exact ⟨rfl, rfl⟩
    · exact ⟨rfl, rfl⟩

theorem steps_static {s s2 : Sim} (h : Steps s s2) :
    s2.commands = s.commands ∧ s2.ndevices = s.ndevices := by
  induction h with
  | refl => exact ⟨rfl, rfl⟩
  | tail _ hstep ih =>
    obtain ⟨a, b⟩ := step_static hstep
    exact ⟨a.trans ih.1, b.trans ih.2⟩

theorem devices_known_steps {s s2 : Sim} (h : Steps s s2) (hk : devices_known s) :
    devices_known s2 := by
  obtain ⟨a, b⟩ := steps_static h
  unfold devices_known
  rw [a, b]
  exact hk

/-- The `switch` is a sequence of operations of the loop. -/
theorem steps_dispatch (l l2 : Loop) (c i : Int) (hk : devices_known l.sim)
    (h : dispatch l c i ((l.sim.commands c).syscalls i).which = .ok l2) :
    Steps l.sim l2.sim := by
  unfold dispatch at h
  simp only at h
  split at h
  · split at h
    · cases h
    · rename_i s1 hs
      cases h
      exact steps_then (steps_then (steps_then (steps_one (Step.spawn _ _ _ _ hs))
        (Step.child _ _)) (Step.ready _ _)) (Step.tick _ _)
  · split at h
    · rename_i hrw
      cases h
      obtain ⟨h0, h1⟩ := hk c i hrw
      exact steps_then (steps_one (Step.io_block _ _ _ _ _ h0 h1)) (Step.state _ _)
    · split at h
      · cases h
        exact steps_then (steps_one (Step.sleep _ _ _)) (Step.tick _ _)
      · split at h
        · cases h
          simp only
          split
          · exact steps_then (steps_one (Step.ready _ _)) (Step.tick _ _)
          · exact steps_then (steps_one (Step.wait _ _)) (Step.tick _ _)
        · split at h
          · cases h
            exact steps_one (Step.exit _ _)
          · cases h

theorem steps_issue_syscall (l l2 : Loop) (c i : Int) (hk : devices_known l.sim)
    (h : issue_syscall l c i = .ok l2) : Steps l.sim l2.sim := by
  unfold issue_syscall at h
  simp only at h
  split at h
  · cases h
  · rename_i l3 hd
    cases h
    have h1 : Steps l.sim ( incr_next_syscall l.sim l.proc_on_CPU) := steps_one (Step.cursor _ _)
    exact steps_trans h1
      (steps_dispatch { l with sim := incr_next_syscall l.sim l.proc_on_CPU } l3 c i
        (devices_known_steps h1 hk) hd)

theorem steps_consume_CPU (l : Loop) : Steps l.sim (consume_CPU l).sim := by
  unfold consume_CPU
  simp only
  split
  · exact steps_then (steps_then (steps_one (Step.cpu_time _ _)) (Step.ready _ _)) (Step.tick _ _)
  · exact steps_one (Step.cpu_time _ _)

theorem steps_on_CPU (l l2 : Loop) (hk : devices_known l.sim) (h : on_CPU l = .ok l2) :
    Steps l.sim l2.sim := by
  unfold on_CPU at h
  split at h
  · simp only at h
    split at h
    · cases h
    · rename_i l1 hr
      have h1 : Steps l.sim l1.sim := by
        split at hr
        · exact steps_issue_syscall l l1 _ _ hk hr
        · cases hr
          exact steps_refl _
      split at h
      · cases h
        exact steps_trans h1 (steps_consume_CPU l1)
      · cases h
        exact h1
  · cases h
    exact steps_refl _

theorem steps_idle_CPU (l : Loop) : Steps l.sim (idle_CPU l).sim := by
  unfold idle_CPU
  split
  · simp only
    have h4 : Steps l.sim ( start_pending_IO ( unblock_completed_IO
        (unblock_WAITING (unblock_SLEEPING l.sim)))) :=
      steps_then (steps_then (steps_then (steps_one (Step.sleep_drain _)) (Step.wait_drain _))
        (Step.io_done _)) (Step.io_start _)
    split
    · exact steps_then h4 (Step.dequeue _)
    · exact h4
  · exact steps_refl _

theorem steps_loop_body (l l2 : Loop) (hk : devices_known l.sim) (h : loop_body l = .ok l2) :
    Steps l.sim l2.sim := by
  unfold loop_body at h
  split at h
  · cases h
  · rename_i l1 h1
    cases h
    have ht : Steps l.sim (advance_time l.sim 1) := steps_one (Step.tick _ _)
    exact steps_trans ht (steps_trans
      (steps_on_CPU { l with sim := advance_time l.sim 1 } l1 (devices_known_steps ht hk) h1)
      (steps_idle_CPU l1))

theorem steps_passes (n : Nat) :
    ∀ (l l2 : Loop), devices_known l.sim → passes n l = .ok l2 → Steps l.sim l2.sim := by
  induction n with
  | zero =>
    intro l l2 _ h
    cases h
    exact steps_refl _
  | succ n ih =>
    intro l l2 hk h
    rw [passes] at h
    split at h
    · split at h
      · cases h
      · rename_i l1 h1
        have hs := steps_loop_body l l1 hk h1
        exact steps_trans hs (ih l1 l2 (devices_known_steps hs hk) h)
    · cases h
      exact steps_refl _

theorem steps_enter_loop (s : Sim) (first : Int) (l : Loop) (h : enter_loop s first = .ok l) :
    Steps s l.sim := by
  unfold enter_loop at h
  split at h
  · cases h
  · rename_i s1 hs
    cases h
    exact steps_then (steps_then (steps_one (Step.clock s 0)) (Step.spawn _ _ _ _ hs))
      (Step.clock _ _)

/-- Every state of the globals between two passes of the loop of
`execute_commands`, started by `main`, is reachable. -/
theorem reachable_passes (devs : List (Int × Int)) (timequantum : Int)
    (commands : Int → Command) (ncommands first : Int) (n : Nat) (l0 l : Loop)
    (hk : devices_known (init_all (load devs timequantum commands ncommands)))
    (h0 : enter_loop (init_all (load devs timequantum commands ncommands)) first = .ok l0)
    (h : passes n l0 = .ok l) : Reachable l.sim := by
  have s0 := steps_enter_loop _ _ _ h0
  exact reachable_steps (Reachable.init devs timequantum commands ncommands)
    (steps_trans s0 (steps_passes n l0 l (devices_known_steps s0 hk) h))

/-! ## Reachable states -/

theorem list_sum_nonpos (l : List Int) (h : ∀ x ∈ l, x ≤ 0) : l.sum ≤ 0 := by
  induction l with
  | nil => simp
  | cons a l ih =>
    have ha := h a (List.mem_cons_self a l)
    have hl := ih (fun x hx => h x (List.mem_cons_of_mem a hx))
    simp only [List.sum_cons]
    omega

/-- A positive global counter that equals the sum of the queue lengths means
that some registered device has a request queued. -/
theorem exists_queued (s : Sim) (hc : conserved s) (hp : 0 < s.nblocked) :
    ∃ d : Int, 0 ≤ d ∧ d < s.ndevices ∧ 0 < (s.devices d).nblocked := by
  by_contra hno
  have hle : ((view s.devices s.ndevices).map Device.nblocked).sum ≤ 0 := by
    apply list_sum_nonpos
    intro x hx
    obtain ⟨dev, hdev, rfl⟩ := List.mem_map.1 hx
    unfold view at hdev
    obtain ⟨k, hk, rfl⟩ := List.mem_map.1 hdev
    rw [List.mem_range] at hk
    by_contra hpos
    exact hno ⟨k, by omega, by omega, by omega⟩
  unfold conserved total_blocked at hc
  omega

/-- C7 (conservation). In every state that the simulation reaches from its
initialisation by the operations of the scheduler loop, the global counter
`nblocked` equals the sum of `devices[d].nblocked` over the registered
devices. -/
theorem conservation (s : Sim) (h : Reachable s) :
    s.nblocked = total_blocked s := by
  -- conservation is proved together with the bus invariant: a transfer completes at
  -- the owner of the bus, which has to be a registered device
  have key : conserved s ∧ bus_ok s := by
    induction h with
    | init devs tq commands ncommands => exact inv_init _
    | step s s2 _ hs ih => exact inv_step s s2 hs ih
  exact key.1

theorem conservation_witness :
    (scenario_C (2000000, 100000) (500000, 4000000)).nblocked
      = total_blocked (scenario_C (2000000, 100000) (500000, 4000000)) :=
  conservation _
    (Reachable.step _ _
      (Reachable.step _ _ (Reachable.init _ _ _ _)
        (Step.io_block _ 0 SYS_WRITE 0 1000 (by decide) (by decide!)))
      (Step.io_block _ 1 SYS_WRITE 1 1000 (by decide) (by decide!)))

/-- C8 (bus invariant). In every reachable state the bus is free
(`device_owning_databus = UNKNOWN`) or owned by exactly one registered device,
whose blocked queue is then not empty.  With non-negative read rates the
acquisition of the free bus by `start_pending_IO`, which happens when
`nblocked > 0`, names such a device too. -/
theorem bus_invariant (s : Sim) (h : Reachable s)
    (hrate : ∀ d : Int, 0 ≤ d → d < s.ndevices → 0 ≤ (s.devices d).read_speed) :
    (s.device_owning_databus = UNKNOWN ∨
      ((∃! d : Int, 0 ≤ d ∧ d < s.ndevices ∧ s.device_owning_databus = d) ∧
        0 < (s.devices s.device_owning_databus).nblocked)) ∧
    (s.device_owning_databus = UNKNOWN → 0 < s.nblocked →
      0 ≤ ( start_pending_IO s).device_owning_databus ∧
      ( start_pending_IO s).device_owning_databus < s.ndevices ∧
      0 < (( start_pending_IO s).devices ( start_pending_IO s).device_owning_databus).nblocked) := by
  obtain ⟨hc, hb⟩ := inv_reachable s h
  constructor
  · rcases hb with hb | ⟨b1, b2, b3⟩
    · left; exact hb
    · right
      refine ⟨⟨s.device_owning_databus, ⟨b1, b2, rfl⟩, ?_⟩, b3⟩
      rintro d ⟨_, _, hd⟩
      exact hd.symm
  · intro hfree hpos
    obtain ⟨d0, hd0, hd1, hd2⟩ := exists_queued s hc hpos
    have hcond : s.device_owning_databus = UNKNOWN ∧ s.nblocked > 0 := ⟨hfree, hpos⟩
    simp only [ start_pending_IO, if_pos hcond]
    rcases find_fastest_ready_device_range s with hu | hv
    · exfalso
      have key := fastest_loop_spec s s.ndevices.toNat 0 (UNKNOWN, -1)
      simp only at key
      unfold find_fastest_ready_device at hu
      rcases key with ⟨_, hno⟩ | ⟨h1, _⟩
      · apply hno d0 hd0 (by omega)
        have := hrate d0 hd0 hd1
        exact ⟨hd2, by show (s.devices d0).read_speed > -1; omega⟩
      · rw [hu] at h1
        exact absurd h1 (by decide)
    · exact hv

theorem bus_invariant_witness :
    ( start_pending_IO (scenario_C (2000000, 100000) (500000, 4000000))).device_owning_databus
        = UNKNOWN ∨
      ((∃! d : Int, 0 ≤ d ∧
          d < ( start_pending_IO (scenario_C (2000000, 100000) (500000, 4000000))).ndevices ∧
          ( start_pending_IO
            (scenario_C (2000000, 100000) (500000, 4000000))).device_owning_databus = d) ∧
        0 < (( start_pending_IO (scenario_C (2000000, 100000) (500000, 4000000))).devices
          ( start_pending_IO
            (scenario_C (2000000, 100000) (500000, 4000000))).device_owning_databus).nblocked) :=
  (bus_invariant ( start_pending_IO (scenario_C (2000000, 100000) (500000, 4000000)))
    (Reachable.step _ _
      (Reachable.step _ _
        (Reachable.step _ _ (Reachable.init _ _ _ _)
          (Step.io_block _ 0 SYS_WRITE 0 1000 (by decide) (by decide!)))
        (Step.io_block _ 1 SYS_WRITE 1 1000 (by decide) (by decide!)))
      (Step.io_start _))
    (forall_below 2 _ (by decide!))).1

/-! ## The SLEEPING queue -/

/-- The drain of the SLEEPING queue, on the views of the queues: the sleepers
due at the clock value of the call leave the SLEEPING queue, the others stay in
their order; the processes of the sleepers that leave join the READY queue in
that order; each of them costs 10. -/
theorem unblock_SLEEPING_spec (s : Sim) (hr : 0 ≤ s.nready) :
    view (unblock_SLEEPING s).SLEEPING_queue (unblock_SLEEPING s).nsleeping
      = (view s.SLEEPING_queue s.nsleeping).filter (fun e => !due s.USECS_SINCE_REBOOT e) ∧
    view (unblock_SLEEPING s).READY_queue (unblock_SLEEPING s).nready
      = view s.READY_queue s.nready
        ++ ((view s.SLEEPING_queue s.nsleeping).filter (due s.USECS_SINCE_REBOOT)).map
            Sleeper.proc ∧
    (unblock_SLEEPING s).USECS_SINCE_REBOOT
      = s.USECS_SINCE_REBOOT + TIME_CORE_STATE_TRANSITIONS
        * (((view s.SLEEPING_queue s.nsleeping).filter (due s.USECS_SINCE_REBOOT)).length : Int) := by
  have key := unblock_SLEEPING_loop_spec s.USECS_SINCE_REBOOT (view s.SLEEPING_queue s.nsleeping)
    [] s.nsleeping.toNat 0 s (by simp) (by simp) (by simp) hr
  simp only [List.nil_append] at key
  obtain ⟨k1, k2, k3⟩ := key
  refine ⟨k1, k2, ?_⟩
  unfold unblock_SLEEPING
  rw [k3]

theorem same_sleeping_spawn_process (s s2 : Sim) (c pp : Int)
    (h : spawn_process s c pp = .ok s2) : same_sleeping s s2 := by
  have key : ∀ (n : Nat) (p : Int), spawn_scan s c pp n p = .ok s2 → same_sleeping s s2 := by
    intro n
    induction n with
    | zero => intro p h; cases h
    | succ n ih =>
      intro p h
      rw [spawn_scan] at h
      split at h
      · cases h
        exact ⟨rfl, rfl⟩
      · exact ih _ h
  exact key _ _ h

theorem same_sleeping_exit_process (s : Sim) (p : Int) : same_sleeping s (exit_process s p) := by
  have key : ∀ (n : Nat) (i : Int), same_sleeping s (exit_scan s p n i) := by
    intro n
    induction n with
    | zero => intro i; exact ⟨rfl, rfl⟩
    | succ n ih =>
      intro i
      rw [exit_scan]
      split
      · exact ih _
      · split
        · exact ⟨rfl, rfl⟩
        · exact ih _
  obtain ⟨a, b⟩ := key MAX_RUNNING_PROCESSES 0
  exact ⟨a, b⟩

theorem same_sleeping_unblock_WAITING (s : Sim) : same_sleeping s (unblock_WAITING s) := by
  have key : ∀ (n : Nat) (w : Int) (s : Sim), same_sleeping s (unblock_WAITING_loop n w s) := by
    intro n
    induction n with
    | zero => intro w s; exact ⟨rfl, rfl⟩
    | succ n ih =>
      intro w s
      rw [unblock_WAITING_loop]
      split
      · simp only
        split
        · obtain ⟨a, b⟩ := ih (w - 1 + 1)
            { advance_time (append_to_READY_queue s (s.WAITING_queue w))
                TIME_CORE_STATE_TRANSITIONS with
              WAITING_queue := slide_left s.WAITING_queue w s.nwaiting
              nwaiting := s.nwaiting - 1 }
          exact ⟨a, b⟩
        · exact ih _ _
      · exact ⟨rfl, rfl⟩
  exact key _ _ _

/-- How one operation of the loop changes the view of the SLEEPING queue. -/
theorem step_sleeping (s s2 : Sim) (h : Step s s2) (hr : 0 ≤ s.nready) (hs : 0 ≤ s.nsleeping) :
    view s2.SLEEPING_queue s2.nsleeping = view s.SLEEPING_queue s.nsleeping ∨
    (∃ p D : Int, s2 = append_to_SLEEPING_queue s p D ∧
      view s2.SLEEPING_queue s2.nsleeping
        = view s.SLEEPING_queue s.nsleeping ++ [⟨p, s.USECS_SINCE_REBOOT + D + 1⟩]) ∨
    (s2 = unblock_SLEEPING s ∧
      view s2.SLEEPING_queue s2.nsleeping
        = (view s.SLEEPING_queue s.nsleeping).filter (fun e => !due s.USECS_SINCE_REBOOT e)) := by
  have of_same : ∀ {b : Sim}, same_sleeping s b →
      view b.SLEEPING_queue b.nsleeping = view s.SLEEPING_queue s.nsleeping := by
    intro b hb
    rw [hb.1, hb.2]
  cases h with
  | tick inc => exact Or.inl rfl
  | clock v => exact Or.inl rfl
  | spawn _ _ _ hsp => exact Or.inl (of_same (same_sleeping_spawn_process _ _ _ _ hsp))
  | exit p => exact Or.inl (of_same (same_sleeping_exit_process s p))
  | cursor p => exact Or.inl rfl
  | child p => exact Or.inl rfl
  | cpu_time p => exact Or.inl rfl
  | state p => exact Or.inl rfl
  | ready p => exact Or.inl rfl
  | dequeue =>
    left
    unfold dequeue_READY_queue
    split
    · rfl
    · rfl
  | wait p => exact Or.inl rfl
  | wait_drain => exact Or.inl (of_same (same_sleeping_unblock_WAITING s))
  | sleep p d =>
    right; left
    exact ⟨p, d, rfl, view_store_append _ _ _ hs⟩
  | sleep_drain =>
    right; right
    exact ⟨rfl, (unblock_SLEEPING_spec s hr).1⟩
  | io_block p sc d n h0 h1 => exact Or.inl rfl
  | io_done =>
    left
    unfold unblock_completed_IO
    split
    · rfl
    · rfl
  | io_start =>
    left
    unfold start_pending_IO
    split
    · rfl
    · rfl

/-- The issue of a `sleep`. -/
theorem issue_sleep (l : Loop) (c i : Int)
    (hw : ((l.sim.commands c).syscalls i).which = SYS_SLEEP) :
    issue_syscall l c i = .ok
      { l with
        sim := advance_time
          (append_to_SLEEPING_queue ( incr_next_syscall l.sim l.proc_on_CPU) l.proc_on_CPU
            ((l.sim.commands c).syscalls i).arg0)
          TIME_CORE_STATE_TRANSITIONS
        proc_on_CPU := UNKNOWN } := by
  have hcmd : ( incr_next_syscall l.sim l.proc_on_CPU).commands = l.sim.commands := rfl
  simp only [issue_syscall, dispatch, hw, hcmd]
  simp [SYS_SPAWN, SYS_READ, SYS_WRITE, SYS_SLEEP]

/-- C5 (sleep strictness).
Dispatch: a process on the CPU that is due for `sleep D` when the clock reads
`T` is appended to the SLEEPING queue with wake time `T + D + 1`; the 10 of the
transition are charged after that.
Drain: for an entry `e` of the SLEEPING queue with wake time `T + D + 1`, a call
of `unblock_SLEEPING` at a clock value `<= T + D` keeps `e` in the queue and
does not move it to READY; if the call moves `e` to READY, the clock at the
start of the call, and so the clock after it, is `> T + D`.  The entries moved
are those appended to the READY queue.
Runs: an operation of the scheduler loop leaves the entries of the SLEEPING
queue as they are, or appends one entry with wake time clock `+ D + 1`, or is
such a drain. -/
theorem sleep_strictness (l : Loop) (s s2 : Sim) (e : Sleeper) (T D : Int) :
    (l.proc_on_CPU ≠ UNKNOWN →
      (l.sim.processes l.proc_on_CPU).time_on_CPU
        = ((l.sim.commands (l.sim.processes l.proc_on_CPU).command).syscalls
            (l.sim.processes l.proc_on_CPU).next_syscall).when →
      ((l.sim.commands (l.sim.processes l.proc_on_CPU).command).syscalls
            (l.sim.processes l.proc_on_CPU).next_syscall).which = SYS_SLEEP →
      0 ≤ l.sim.nsleeping →
      ∃ l2 : Loop, on_CPU l = .ok l2 ∧
        view l2.sim.SLEEPING_queue l2.sim.nsleeping
          = view l.sim.SLEEPING_queue l.sim.nsleeping
            ++ [⟨l.proc_on_CPU, l.sim.USECS_SINCE_REBOOT
                + ((l.sim.commands (l.sim.processes l.proc_on_CPU).command).syscalls
                    (l.sim.processes l.proc_on_CPU).next_syscall).arg0 + 1⟩] ∧
        (l2.sim.processes l.proc_on_CPU).state = STATE_SLEEPING ∧
        l2.sim.USECS_SINCE_REBOOT = l.sim.USECS_SINCE_REBOOT + 10 ∧
        l2.proc_on_CPU = UNKNOWN) ∧
    (0 ≤ s.nready → e ∈ view s.SLEEPING_queue s.nsleeping → e.until_ = T + D + 1 →
      view (unblock_SLEEPING s).READY_queue (unblock_SLEEPING s).nready
        = view s.READY_queue s.nready
          ++ ((view s.SLEEPING_queue s.nsleeping).filter (due s.USECS_SINCE_REBOOT)).map
              Sleeper.proc ∧
      (s.USECS_SINCE_REBOOT ≤ T + D →
        e ∈ view (unblock_SLEEPING s).SLEEPING_queue (unblock_SLEEPING s).nsleeping ∧
        e ∉ (view s.SLEEPING_queue s.nsleeping).filter (due s.USECS_SINCE_REBOOT)) ∧
      (e ∈ (view s.SLEEPING_queue s.nsleeping).filter (due s.USECS_SINCE_REBOOT) →
        T + D < s.USECS_SINCE_REBOOT ∧ T + D < (unblock_SLEEPING s).USECS_SINCE_REBOOT)) ∧
    (Step s s2 → 0 ≤ s.nready → 0 ≤ s.nsleeping →
      view s2.SLEEPING_queue s2.nsleeping = view s.SLEEPING_queue s.nsleeping ∨
      (∃ p d : Int, s2 = append_to_SLEEPING_queue s p d ∧
        view s2.SLEEPING_queue s2.nsleeping
          = view s.SLEEPING_queue s.nsleeping ++ [⟨p, s.USECS_SINCE_REBOOT + d + 1⟩]) ∨
      (s2 = unblock_SLEEPING s ∧
        view s2.SLEEPING_queue s2.nsleeping
          = (view s.SLEEPING_queue s.nsleeping).filter
              (fun x => !due s.USECS_SINCE_REBOOT x))) := by
  refine ⟨?_, ?_, ?_⟩
  · intro hcpu hdue hsleep hns
    have hon := (on_CPU_due l hcpu hdue).trans (issue_sleep l _ _ hsleep)
    refine ⟨_, hon, ?_⟩
    simp only [advance_time, append_to_SLEEPING_queue, incr_next_syscall, store_same]
    refine ⟨view_store_append _ _ _ hns, trivial, ?_, trivial⟩
    simp [TIME_CORE_STATE_TRANSITIONS]
  · intro hr he hu
    obtain ⟨k1, k2, k3⟩ := unblock_SLEEPING_spec s hr
    refine ⟨k2, ?_, ?_⟩
    · intro hclock
      have hnd : due s.USECS_SINCE_REBOOT e = false := by
        simp only [due, decide_eq_false_iff_not]
        omega
      constructor
      · rw [k1, List.mem_filter]
        exact ⟨he, by simp [hnd]⟩
      · intro hm
        rw [List.mem_filter] at hm
        rw [hnd] at hm
        exact absurd hm.2 (by decide)
    · intro hm
      rw [List.mem_filter] at hm
      have hd : e.until_ ≤ s.USECS_SINCE_REBOOT := by simpa [due] using hm.2
      have hlen : (0 : Int) ≤ (((view s.SLEEPING_queue s.nsleeping).filter
          (due s.USECS_SINCE_REBOOT)).length : Int) := Int.natCast_nonneg _
      constructor
      · omega
      · rw [k3]
        simp only [TIME_CORE_STATE_TRANSITIONS]
        omega
  · intro hstep hr hs
    exact step_sleeping s s2 hstep hr hs

theorem sleep_strictness_witness :
    (∃ l2 : Loop, on_CPU (before_on_CPU 1 scenario_sleep) = .ok l2 ∧
      view l2.sim.SLEEPING_queue l2.sim.nsleeping = [⟨0, 57⟩] ∧
      l2.sim.USECS_SINCE_REBOOT = 16) ∧
    (⟨0, 57⟩ : Sleeper) ∈ view (unblock_SLEEPING (before_on_CPU 2 scenario_sleep).sim).SLEEPING_queue
      (unblock_SLEEPING (before_on_CPU 2 scenario_sleep).sim).nsleeping ∧
    (6 : Int) + 50 < (before_on_CPU 42 scenario_sleep).sim.USECS_SINCE_REBOOT := by
  refine ⟨?_, ?_, ?_⟩
  · obtain ⟨l2, h1, h2, _, h4, _⟩ :=
      (sleep_strictness (before_on_CPU 1 scenario_sleep) scenario_sleep scenario_sleep
        ⟨0, 57⟩ 6 50).1 (by decide!) (by decide!) (by decide!) (by decide!)
    refine ⟨l2, h1, ?_, ?_⟩
    · rw [h2]; decide!
    · rw [h4]; decide!
  · exact (((sleep_strictness (before_on_CPU 1 scenario_sleep)
      (before_on_CPU 2 scenario_sleep).sim scenario_sleep ⟨0, 57⟩ 6 50).2.1
        (by decide!) (by decide!) (by decide!)).2.1 (by decide!)).1
  · exact (((sleep_strictness (before_on_CPU 1 scenario_sleep)
      (before_on_CPU 42 scenario_sleep).sim scenario_sleep ⟨0, 57⟩ 6 50).2.1
        (by decide!) (by decide!) (by decide!)).2.2 (by decide!)).1

/-! ## The double arithmetic of the transfer time -/

/-- The bound on the passes of the loop of `unblock_SLEEPING` is never reached
with work left: more passes allowed give the same result. -/
theorem unblock_SLEEPING_loop_fuel (now : Int) (k : Nat) (n : Nat) :
    ∀ (i : Int) (s : Sim), (s.nsleeping - i).toNat ≤ n →
      unblock_SLEEPING_loop now (n + k) i s = unblock_SLEEPING_loop now n i s := by
  induction n with
  | zero =>
    intro i s h
    have hn : ¬ i < s.nsleeping := by omega
    cases k with
    | zero => rfl
    | succ k =>
      simp only [Nat.zero_add, unblock_SLEEPING_loop, if_neg hn]
  | succ n ih =>
    intro i s h
    rw [Nat.succ_add, unblock_SLEEPING_loop, unblock_SLEEPING_loop]
    by_cases hlt : i < s.nsleeping
    · rw [if_pos hlt, if_pos hlt]
      by_cases hd : (s.SLEEPING_queue i).until_ ≤ now
      · rw [if_pos hd, if_pos hd]
        apply ih
        show (s.nsleeping - 1 - (i - 1 + 1)).toNat ≤ n
        omega
      · rw [if_neg hd, if_neg hd]
        apply ih
        omega
    · rw [if_neg hlt, if_neg hlt]

/-- The same for the loop of `unblock_WAITING`. -/
theorem unblock_WAITING_loop_fuel (k : Nat) (n : Nat) :
    ∀ (w : Int) (s : Sim), (s.nwaiting - w).toNat ≤ n →
      unblock_WAITING_loop (n + k) w s = unblock_WAITING_loop n w s := by
  induction n with
  | zero =>
    intro w s h
    have hn : ¬ w < s.nwaiting := by omega
    cases k with
    | zero => rfl
    | succ k =>
      simp only [Nat.zero_add, unblock_WAITING_loop, if_neg hn]
  | succ n ih =>
    intro w s h
    rw [Nat.succ_add, unblock_WAITING_loop, unblock_WAITING_loop]
    by_cases hlt : w < s.nwaiting
    · rw [if_pos hlt, if_pos hlt]
      simp only
      by_cases hd : (s.processes (s.WAITING_queue w)).state = STATE_WAITING ∧
          (s.processes (s.WAITING_queue w)).nchildren = 0
      · rw [if_pos hd, if_pos hd]
        apply ih
        show (s.nwaiting - 1 - (w - 1 + 1)).toNat ≤ n
        omega
      · rw [if_neg hd, if_neg hd]
        apply ih
        omega
    · rw [if_neg hlt, if_neg hlt]

/-! ## The queue counters -/

theorem counters_init (s : Sim) : counters_ok (init_all s) := by
  simp only [counters_ok, init_all, init_devices_and_IO_BLOCKED_queues, init_devices_loop,
    init_WAITING_queue, init_SLEEPING_queue, init_READY_queue, init_processes,
    init_processes_loop, le_refl, and_self]

theorem counters_spawn_process (s s2 : Sim) (c pp : Int) (h : spawn_process s c pp = .ok s2)
    (hc : counters_ok s) : counters_ok s2 := by
  have key : ∀ (n : Nat) (p : Int), spawn_scan s c pp n p = .ok s2 → counters_ok s2 := by
    intro n
    induction n with
    | zero => intro p h; cases h
    | succ n ih =>
      intro p h
      rw [spawn_scan] at h
      split at h
      · cases h
        obtain ⟨h1, h2, h3⟩ := hc
        exact ⟨by show 0 ≤ s.nready + 1; omega, h2, h3⟩
      · exact ih _ h
  exact key _ _ h

theorem counters_exit_process (s : Sim) (p : Int) (hc : counters_ok s) :
    counters_ok (exit_process s p) := by
  have key : ∀ (n : Nat) (i : Int), counters_ok (exit_scan s p n i) := by
    intro n
    induction n with
    | zero => intro i; exact hc
    | succ n ih =>
      intro i
      rw [exit_scan]
      split
      · exact ih _
      · split
        · exact hc
        · exact ih _
  exact key MAX_RUNNING_PROCESSES 0

theorem counters_unblock_WAITING_loop (n : Nat) :
    ∀ (w : Int) (s : Sim), 0 ≤ w → counters_ok s → counters_ok (unblock_WAITING_loop n w s) := by
  induction n with
  | zero => intro w s _ hc; exact hc
  | succ n ih =>
    intro w s hw hc
    rw [unblock_WAITING_loop]
    split
    · rename_i hlt
      simp only
      split
      · apply ih _ _ (by omega)
        obtain ⟨h1, h2, h3⟩ := hc
        exact ⟨by show 0 ≤ s.nready + 1; omega, h2, by show 0 ≤ s.nwaiting - 1; omega⟩
      · exact ih _ _ (by omega) hc
    · exact hc

theorem counters_unblock_SLEEPING_loop (now : Int) (n : Nat) :
    ∀ (i : Int) (s : Sim), 0 ≤ i → counters_ok s →
      counters_ok (unblock_SLEEPING_loop now n i s) := by
  induction n with
  | zero => intro i s _ hc; exact hc
  | succ n ih =>
    intro i s hi hc
    rw [unblock_SLEEPING_loop]
    split
    · rename_i hlt
      split
      · apply ih _ _ (by omega)
        obtain ⟨h1, h2, h3⟩ := hc
        exact ⟨by show 0 ≤ s.nready + 1; omega, by show 0 ≤ s.nsleeping - 1; omega, h3⟩
      · exact ih _ _ (by omega) hc
    · exact hc

theorem counters_step (s s2 : Sim) (h : Step s s2) (hc : counters_ok s) : counters_ok s2 := by
  obtain ⟨h1, h2, h3⟩ := hc
  cases h with
  | tick inc => exact ⟨h1, h2, h3⟩
  | clock v => exact ⟨h1, h2, h3⟩
  | spawn _ _ _ hs => exact counters_spawn_process _ _ _ _ hs ⟨h1, h2, h3⟩
  | exit p => exact counters_exit_process s p ⟨h1, h2, h3⟩
  | cursor p => exact ⟨h1, h2, h3⟩
  | child p => exact ⟨h1, h2, h3⟩
  | cpu_time p => exact ⟨h1, h2, h3⟩
  | state p => exact ⟨h1, h2, h3⟩
  | ready p => exact ⟨by show 0 ≤ s.nready + 1; omega, h2, h3⟩
  | dequeue =>
    unfold dequeue_READY_queue
    split
    · rename_i hpos
      exact ⟨by show 0 ≤ s.nready - 1; omega, h2, h3⟩
    · exact ⟨h1, h2, h3⟩
  | wait p => exact ⟨h1, h2, by show 0 ≤ s.nwaiting + 1; omega⟩
  | wait_drain => exact counters_unblock_WAITING_loop _ _ _ (le_refl 0) ⟨h1, h2, h3⟩
  | sleep p d => exact ⟨h1, by show 0 ≤ s.nsleeping + 1; omega, h3⟩
  | sleep_drain => exact counters_unblock_SLEEPING_loop _ _ _ _ (le_refl 0) ⟨h1, h2, h3⟩
  | io_block p sc d n _ _ => exact ⟨h1, h2, h3⟩
  | io_done =>
    unfold unblock_completed_IO
    split
    · exact ⟨by show 0 ≤ s.nready + 1; omega, h2, h3⟩
    · exact ⟨h1, h2, h3⟩
  | io_start =>
    unfold start_pending_IO
    split
    · exact ⟨h1, h2, h3⟩
    · exact ⟨h1, h2, h3⟩

/-- In every reachable state the counters `nready`, `nsleeping` and `nwaiting`
are not negative. -/
theorem reachable_counters (s : Sim) (h : Reachable s) :
    0 ≤ s.nready ∧ 0 ≤ s.nsleeping ∧ 0 ≤ s.nwaiting := by
  induction h with
  | init devs tq commands ncommands => exact counters_init _
  | step s s2 _ hs ih => exact counters_step s s2 hs ih

/-! ## A process alone on the CPU -/

/-- A process without a parent finds no parent in the scan of `exit_process`. -/
theorem exit_scan_no_parent (s : Sim) (p : Int) (h : (s.processes p).ppid = UNKNOWN) (n : Nat) :
    ∀ i : Int, exit_scan s p n i = s := by
  induction n with
  | zero => intro i; rfl
  | succ n ih =>
    intro i
    rw [exit_scan]
    by_cases hu : PROCESS_SLOT_UNUSED s i
    · rw [if_pos hu]
      exact ih _
    · rw [if_neg hu]
      have hne : ¬ (s.processes i).pid = (s.processes p).ppid := by
        rw [h]
        exact hu
      rw [if_neg hne]
      exact ih _

/-- With a process on the CPU, or none left, the idle block does nothing. -/
theorem idle_CPU_skip (l : Loop) (h : l.proc_on_CPU ≠ UNKNOWN ∨ l.sim.nprocesses ≤ 0) :
    idle_CPU l = l := by
  unfold idle_CPU
  have hc : ¬ (l.proc_on_CPU = UNKNOWN ∧ l.sim.nprocesses > 0) := by
    rintro ⟨h1, h2⟩
    rcases h with h | h
    · exact h h1
    · omega
  rw [if_neg hc]

/-- A pass in which the process on the CPU only computes. -/
theorem solo_compute (Q W : Int) (l : Loop) (t : Int) (hs : solo Q W l t) (ht : t ≠ W)
    (hq : l.sim.USECS_SINCE_REBOOT + 1 < l.timequantum_expires) :
    ∃ l2 : Loop, loop_body l = .ok l2 ∧ solo Q W l2 (t + 1) ∧
      l2.sim.USECS_SINCE_REBOOT = l.sim.USECS_SINCE_REBOOT + 1 ∧
      l2.timequantum_expires = l.timequantum_expires ∧
      l2.expired = l.expired ∧ l2.total_time_on_CPU = l.total_time_on_CPU := by
  obtain ⟨h1, h2, h3, h4, h5, h6, h7, h8, h9, h10, h11, h12, h13, h14, h15⟩ := hs
  have hw : ¬ t = W := ht
  have hge : ¬ l.sim.USECS_SINCE_REBOOT + 1 ≥ l.timequantum_expires := by omega
  refine ⟨{ l with sim := incr_time_on_CPU (advance_time l.sim 1) 0 }, ?_, ?_, rfl, rfl, rfl, rfl⟩
  · simp [loop_body, on_CPU, idle_CPU, consume_CPU, advance_time, incr_time_on_CPU,
      h1, h9, h10, h11, h14, hw, hge, UNKNOWN]
  · simp [solo, incr_time_on_CPU, advance_time, h1, h2, h3, h4, h5, h6, h7, h8, h9, h10, h11,
      h12, h13, h14, h15]

/-- A pass in which the process on the CPU computes, loses the CPU to the time
quantum and, alone in the READY queue, is put back on the CPU. -/
theorem solo_preempt (Q W : Int) (l : Loop) (t : Int) (hs : solo Q W l t) (ht : t ≠ W)
    (hq : l.timequantum_expires ≤ l.sim.USECS_SINCE_REBOOT + 1) :
    ∃ l2 : Loop, loop_body l = .ok l2 ∧ solo Q W l2 (t + 1) ∧
      l2.sim.USECS_SINCE_REBOOT = l.sim.USECS_SINCE_REBOOT + 1
        + TIME_CORE_STATE_TRANSITIONS + TIME_CONTEXT_SWITCH ∧
      l2.timequantum_expires = l2.sim.USECS_SINCE_REBOOT + Q ∧
      l2.expired = l.expired ++ [(0, t + 1)] ∧
      l2.total_time_on_CPU = l.total_time_on_CPU := by
  obtain ⟨h1, h2, h3, h4, h5, h6, h7, h8, h9, h10, h11, h12, h13, h14, h15⟩ := hs
  have hw : ¬ t = W := ht
  have hge : l.sim.USECS_SINCE_REBOOT + 1 ≥ l.timequantum_expires := by omega
  have hon : on_CPU { l with sim := advance_time l.sim 1 } = .ok
      { l with
        sim := advance_time
          (append_to_READY_queue (incr_time_on_CPU (advance_time l.sim 1) 0) 0)
          TIME_CORE_STATE_TRANSITIONS
        proc_on_CPU := UNKNOWN
        expired := l.expired ++ [(0, t + 1)] } := by
    simp [on_CPU, consume_CPU, advance_time, incr_time_on_CPU,
      h1, h9, h10, h11, h14, hw, hge, UNKNOWN]
  simp only [loop_body, hon]
  refine ⟨_, rfl, ?_⟩
  simp [solo, idle_CPU, unblock_SLEEPING, unblock_SLEEPING_loop, unblock_WAITING,
    unblock_WAITING_loop, unblock_completed_IO, start_pending_IO, dequeue_READY_queue,
    slide_left, for_loop, append_to_READY_queue, incr_time_on_CPU, advance_time, store,
    h1, h2, h3, h4, h5, h6, h7, h8, h9, h10, h11, h12, h13, h14, h15,
    TIME_CORE_STATE_TRANSITIONS, TIME_CONTEXT_SWITCH]

/-- The pass in which the process on the CPU exits. -/
theorem solo_exit (Q W : Int) (l : Loop) (hs : solo Q W l W) :
    ∃ l2 : Loop, loop_body l = .ok l2 ∧ l2.sim.nprocesses = 0 ∧
      l2.sim.USECS_SINCE_REBOOT = l.sim.USECS_SINCE_REBOOT + 1 ∧
      l2.expired = l.expired ∧ l2.total_time_on_CPU = l.total_time_on_CPU + W := by
  obtain ⟨h1, h2, h3, h4, h5, h6, h7, h8, h9, h10, h11, h12, h13, h14, h15⟩ := hs
  have hscan : exit_scan ( incr_next_syscall (advance_time l.sim 1) 0) 0 MAX_RUNNING_PROCESSES 0
      = incr_next_syscall (advance_time l.sim 1) 0 :=
    exit_scan_no_parent _ _ (by simp [incr_next_syscall, advance_time, h12]) _ _
  have hon : on_CPU { l with sim := advance_time l.sim 1 } = .ok
      { l with
        sim := exit_process ( incr_next_syscall (advance_time l.sim 1) 0) 0
        total_time_on_CPU := l.total_time_on_CPU + W
        proc_on_CPU := UNKNOWN } := by
    simp [on_CPU, issue_syscall, dispatch, advance_time, incr_next_syscall,
      h1, h9, h10, h11, h14, h15, UNKNOWN, SYS_EXIT, SYS_SPAWN, SYS_READ, SYS_WRITE, SYS_SLEEP,
      SYS_WAIT]
  have hn : (exit_process ( incr_next_syscall (advance_time l.sim 1) 0) 0).nprocesses = 0 := by
    unfold exit_process
    rw [hscan]
    simp [incr_next_syscall, advance_time, h2]
  have hc : (exit_process ( incr_next_syscall (advance_time l.sim 1) 0) 0).USECS_SINCE_REBOOT
      = l.sim.USECS_SINCE_REBOOT + 1 := by
    unfold exit_process
    rw [hscan]
    rfl
  simp only [loop_body, hon]
  refine ⟨_, rfl, ?_⟩
  rw [idle_CPU_skip _ (Or.inr (by show (exit_process _ 0).nprocesses ≤ 0; rw [hn]))]
  exact ⟨hn, hc, rfl, rfl⟩

/-- Passes of the loop compose. -/
theorem passes_append (a b : Nat) (l2 : Loop) :
    ∀ l l1 : Loop, passes a l = .ok l1 → passes b l1 = .ok l2 → passes (a + b) l = .ok l2 := by
  induction a with
  | zero =>
    intro l l1 h1 h2
    cases h1
    rw [Nat.zero_add]
    exact h2
  | succ a ih =>
    intro l l1 h1 h2
    rw [Nat.succ_add, passes]
    rw [passes] at h1
    by_cases hp : l.sim.nprocesses > 0
    · rw [if_pos hp] at h1 ⊢
      cases hb : loop_body l with
      | error e => simp [hb] at h1
      | ok l3 =>
        rw [hb] at h1
        exact ih l3 l1 h1 h2
    · rw [if_neg hp] at h1 ⊢
      cases h1
      cases b with
      | zero => exact h2
      | succ b =>
        rw [passes, if_neg hp] at h2
        exact h2

/-- Passes that end with no process left are a complete run of the loop. -/
theorem while_loop_of_passes (n : Nat) (l2 : Loop) (hend : l2.sim.nprocesses ≤ 0) :
    ∀ l : Loop, passes n l = .ok l2 → while_loop n l = .ok l2 := by
  induction n with
  | zero =>
    intro l h
    have hl : l = l2 := by
      rw [passes] at h
      exact Except.ok.inj h
    rw [hl, while_loop, if_neg (not_lt.2 hend)]
  | succ n ih =>
    intro l h
    rw [passes] at h
    rw [while_loop]
    by_cases hp : l.sim.nprocesses > 0
    · rw [if_pos hp] at h ⊢
      cases hb : loop_body l with
      | error e => simp [hb] at h
      | ok l3 =>
        rw [hb] at h
        exact ih l3 h
    · rw [if_neg hp] at h ⊢
      exact h

theorem passes_one (l l2 : Loop) (hp : l.sim.nprocesses > 0) (h : loop_body l = .ok l2) :
    passes 1 l = .ok l2 := by
  rw [passes, if_pos hp, h]
  rfl

/-- Some passes in a row in which the process on the CPU only computes. -/
theorem solo_computes (Q W : Int) (k : Nat) :
    ∀ (l : Loop) (t : Int), solo Q W l t → t + k ≤ W →
      l.sim.USECS_SINCE_REBOOT + k < l.timequantum_expires →
      ∃ l2 : Loop, passes k l = .ok l2 ∧ solo Q W l2 (t + k) ∧
        l2.sim.USECS_SINCE_REBOOT = l.sim.USECS_SINCE_REBOOT + k ∧
        l2.timequantum_expires = l.timequantum_expires ∧
        l2.expired = l.expired ∧ l2.total_time_on_CPU = l.total_time_on_CPU := by
  induction k with
  | zero =>
    intro l t hs _ _
    exact ⟨l, rfl, by simpa using hs, by simp, rfl, rfl, rfl⟩
  | succ k ih =>
    intro l t hs ht hq
    push_cast at ht hq
    obtain ⟨l1, b1, s1, c1, q1, e1, t1⟩ := solo_compute Q W l t hs (by omega) (by omega)
    obtain ⟨l2, b2, s2, c2, q2, e2, t2⟩ := ih l1 (t + 1) s1 (by omega) (by rw [c1, q1]; omega)
    have hp : l.sim.nprocesses > 0 := by rw [hs.2.1]; decide
    refine ⟨l2, ?_, ?_, ?_, ?_, ?_, ?_⟩
    · rw [passes, if_pos hp, b1]
      exact b2
    · have : t + ((k + 1 : Nat) : Int) = t + 1 + k := by push_cast; ring
      rw [this]
      exact s2
    · rw [c2, c1]
      push_cast
      ring
    · rw [q2, q1]
    · rw [e2, e1]
    · rw [t2, t1]

/-- Registering devices leaves `next_pid` alone. -/
theorem foldl_add_device_next_pid (devs : List (Int × Int)) :
    ∀ s : Sim, (devs.foldl (fun s d => add_device s d.1 d.2) s).next_pid = s.next_pid := by
  induction devs with
  | nil => intro s; rfl
  | cons d devs ih =>
    intro s
    rw [List.foldl_cons, ih]
    rfl

set_option maxHeartbeats 4000000 in
set_option maxRecDepth 100000 in
/-- The start of a run whose root command begins with an `exit` at `W`, for any
device table and any other commands: after the first pass the root process is
on the CPU, alone, and the clock reads 5. -/
theorem solo_start (devs : List (Int × Int)) (Q W : Int) (commands : Int → Command)
    (ncommands : Int) (hwhen : ((commands 0).syscalls 0).when = W)
    (hwhich : ((commands 0).syscalls 0).which = SYS_EXIT) :
    ∃ l0 l1 : Loop,
      enter_loop (init_all (load devs Q commands ncommands)) 0 = .ok l0 ∧
      l0.sim.nprocesses > 0 ∧ loop_body l0 = .ok l1 ∧ solo Q W l1 0 ∧
      l1.sim.USECS_SINCE_REBOOT = 5 ∧ l1.timequantum_expires = 5 + Q ∧
      l1.expired = [] ∧ l1.total_time_on_CPU = 0 := by
  have hp : (List.foldl (fun s d => add_device s d.1 d.2) startup devs).next_pid = 0 :=
    foldl_add_device_next_pid devs startup
  simp [solo, loop_body, on_CPU, idle_CPU,
    unblock_SLEEPING, unblock_SLEEPING_loop, unblock_WAITING, unblock_WAITING_loop,
    unblock_completed_IO, start_pending_IO, dequeue_READY_queue, slide_left, advance_time,
    enter_loop, spawn_process, spawn_scan, MAX_RUNNING_PROCESSES, PROCESS_SLOT_UNUSED,
    init_all, init_devices_and_IO_BLOCKED_queues, init_devices_loop,
    init_WAITING_queue, init_SLEEPING_queue, init_READY_queue, init_processes,
    init_processes_loop, for_loop, store, UNKNOWN, load, spawn_in_slot, append_to_READY_queue,
    hwhen, hwhich, hp, TIME_CONTEXT_SWITCH]

/-! ## Scenarios A and B -/

theorem run_of_passes (s : Sim) (first : Int) (n k : Nat) (l0 l : Loop)
    (h0 : enter_loop s first = .ok l0) (hp : passes n l0 = .ok l)
    (hend : l.sim.nprocesses ≤ 0) : run (n + k) s first = .ok l := by
  unfold run
  rw [h0]
  exact while_loop_more_fuel k l n l0 (while_loop_of_passes n l hend l0 hp)

/-- C1 (scenario A). With context-switch cost 5 and transition cost 10, for any
device table and any catalog whose root command is the single event
`{0, exit}`, at quantum 100: `execute_commands`, given fuel for at least two
passes of the loop, ends with `USECS_SINCE_REBOOT = 6` and returns a total CPU
time of 0; the utilization that `main` prints is then 0. -/
theorem scenario_A_minimal_exit (devs : List (Int × Int)) (commands : Int → Command)
    (ncommands : Int) (fuel : Nat)
    (hroot : commands 0 = command_of [⟨0, SYS_EXIT, 0, 0⟩]) (hfuel : 2 ≤ fuel) :
    ∃ final : Sim,
      execute_commands fuel (init_all (load devs 100 commands ncommands)) 0 = .ok (0, final) ∧
      final.USECS_SINCE_REBOOT = 6 ∧
      utilization 0 final.USECS_SINCE_REBOOT = 0 ∧
      TIME_CONTEXT_SWITCH = 5 ∧ TIME_CORE_STATE_TRANSITIONS = 10 := by
  obtain ⟨l0, l1, h0, hp0, hb1, s1, c1, _, _, t1⟩ :=
    solo_start devs 100 0 commands ncommands (by rw [hroot]; rfl) (by rw [hroot]; rfl)
  obtain ⟨l2, hb2, n2, c2, _, t2⟩ := solo_exit 100 0 l1 s1
  have hp1 : l1.sim.nprocesses > 0 := by rw [s1.2.1]; decide
  have hpasses : passes 2 l0 = .ok l2 :=
    passes_append 1 1 l2 l0 l1 (passes_one l0 l1 hp0 hb1) (passes_one l1 l2 hp1 hb2)
  obtain ⟨k, rfl⟩ := Nat.exists_eq_add_of_le hfuel
  have hrun := run_of_passes _ 0 2 k l0 l2 h0 hpasses (by omega)
  have hc : l2.sim.USECS_SINCE_REBOOT = 6 := by rw [c2, c1]; rfl
  have ht : l2.total_time_on_CPU = 0 := by rw [t2, t1]; rfl
  refine ⟨l2.sim, ?_, hc, ?_, rfl, rfl⟩
  · simp [execute_commands, hrun, ht]
  · rw [hc]
    decide

theorem scenario_A_minimal_exit_witness :
    ∃ final : Sim,
      execute_commands 2 scenario_A 0 = .ok (0, final) ∧
      final.USECS_SINCE_REBOOT = 6 ∧
      utilization 0 final.USECS_SINCE_REBOOT = 0 ∧
      TIME_CONTEXT_SWITCH = 5 ∧ TIME_CORE_STATE_TRANSITIONS = 10 :=
  scenario_A_minimal_exit [] (catalog_of [[⟨0, SYS_EXIT, 0, 0⟩]]) 1 2 rfl (by decide)

/-- C2 (scenario B). With context-switch cost 5 and transition cost 10, for any
device table and any catalog whose root command is the single event
`{250, exit}`, at quantum 100: the root process loses the CPU to the time
quantum exactly twice, with `time_on_CPU` 100 and 200.  The pass of the loop in
which that happens takes the clock from 104 to 120, and from 219 to 235: one
tick, 10 for the transition and 5 for the context switch that puts the process
back on the CPU.  Given fuel for at least 252 passes the run ends with a total
CPU time of 250 and `USECS_SINCE_REBOOT = 286 = 5 + 250 + 2 * (10 + 5) + 1`. -/
theorem scenario_B_quantum_preemption (devs : List (Int × Int)) (commands : Int → Command)
    (ncommands : Int) (fuel : Nat)
    (hroot : commands 0 = command_of [⟨250, SYS_EXIT, 0, 0⟩]) (hfuel : 252 ≤ fuel) :
    (∃ l : Loop,
      run fuel (init_all (load devs 100 commands ncommands)) 0 = .ok l ∧
      l.expired = [(0, 100), (0, 200)] ∧
      l.total_time_on_CPU = 250 ∧
      l.sim.USECS_SINCE_REBOOT = 286 ∧
      execute_commands fuel (init_all (load devs 100 commands ncommands)) 0
        = .ok (250, l.sim)) ∧
    (286 : Int) = TIME_CONTEXT_SWITCH + 250
      + 2 * (TIME_CORE_STATE_TRANSITIONS + TIME_CONTEXT_SWITCH) + 1 ∧
    TIME_CONTEXT_SWITCH = 5 ∧ TIME_CORE_STATE_TRANSITIONS = 10 ∧
    (∃ l0 l1 l2 l3 l4 : Loop,
      enter_loop (init_all (load devs 100 commands ncommands)) 0 = .ok l0 ∧
      passes 100 l0 = .ok l1 ∧ passes 101 l0 = .ok l2 ∧
      passes 200 l0 = .ok l3 ∧ passes 201 l0 = .ok l4 ∧
      (l1.sim.USECS_SINCE_REBOOT = 104 ∧ l1.proc_on_CPU = 0 ∧
        (l1.sim.processes 0).time_on_CPU = 99 ∧ l1.expired = []) ∧
      (l2.sim.USECS_SINCE_REBOOT = 120 ∧ l2.proc_on_CPU = 0 ∧
        (l2.sim.processes 0).time_on_CPU = 100 ∧ l2.expired = [(0, 100)]) ∧
      (l3.sim.USECS_SINCE_REBOOT = 219 ∧ l3.proc_on_CPU = 0 ∧
        (l3.sim.processes 0).time_on_CPU = 199 ∧ l3.expired = [(0, 100)]) ∧
      (l4.sim.USECS_SINCE_REBOOT = 235 ∧ l4.proc_on_CPU = 0 ∧
        (l4.sim.processes 0).time_on_CPU = 200 ∧ l4.expired = [(0, 100), (0, 200)])) := by
  -- pass 1 puts the root process on the CPU at clock 5, with the quantum until 105
  obtain ⟨l0, la, h0, hp0, hba, sa, ca, qa, ea, ta⟩ :=
    solo_start devs 100 250 commands ncommands (by rw [hroot]; rfl) (by rw [hroot]; rfl)
  have pa : passes 1 l0 = .ok la := passes_one l0 la hp0 hba
  -- passes 2 .. 100 compute
  obtain ⟨lb, pb, sb, cb, qb, eb, tb⟩ :=
    solo_computes 100 250 99 la 0 sa (by decide) (by rw [ca, qa]; decide)
  have pb2 : passes 100 l0 = .ok lb := passes_append 1 99 lb l0 la pa pb
  -- pass 101 computes and preempts
  obtain ⟨lc, hbc, sc, cc, qc, ec, tc⟩ :=
    solo_preempt 100 250 lb (0 + (99 : Nat)) sb (by decide) (by rw [cb, qb, ca, qa]; decide)
  have pc : passes 101 l0 = .ok lc :=
    passes_append 100 1 lc l0 lb pb2 (passes_one lb lc (by rw [sb.2.1]; decide) hbc)
  have cc2 : lc.sim.USECS_SINCE_REBOOT = 120 := by rw [cc, cb, ca]; decide
  have qc2 : lc.timequantum_expires = 220 := by rw [qc, cc2]; decide
  -- passes 102 .. 200 compute
  obtain ⟨ld, pd, sd, cd, qd, ed, td⟩ :=
    solo_computes 100 250 99 lc _ sc (by decide) (by rw [cc2, qc2]; decide)
  have pd2 : passes 200 l0 = .ok ld := passes_append 101 99 ld l0 lc pc pd
  have cd2 : ld.sim.USECS_SINCE_REBOOT = 219 := by rw [cd, cc2]; decide
  -- pass 201 computes and preempts
  obtain ⟨le, hbe, se, ce, qe, ee, te⟩ :=
    solo_preempt 100 250 ld _ sd (by decide) (by rw [cd2, qd, qc2]; decide)
  have pe : passes 201 l0 = .ok le :=
    passes_append 200 1 le l0 ld pd2 (passes_one ld le (by rw [sd.2.1]; decide) hbe)
  have ce2 : le.sim.USECS_SINCE_REBOOT = 235 := by rw [ce, cd2]; decide
  have qe2 : le.timequantum_expires = 335 := by rw [qe, ce2]; decide
  -- passes 202 .. 251 compute, pass 252 exits
  obtain ⟨lf, pf, sf, cf, qf, ef, tf⟩ :=
    solo_computes 100 250 50 le _ se (by decide) (by rw [ce2, qe2]; decide)
  have pf2 : passes 251 l0 = .ok lf := passes_append 201 50 lf l0 le pe pf
  obtain ⟨lg, hbg, ng, cg, eg, tg⟩ := solo_exit 100 250 lf sf
  have pg : passes 252 l0 = .ok lg :=
    passes_append 251 1 lg l0 lf pf2 (passes_one lf lg (by rw [sf.2.1]; decide) hbg)
  have eb2 : lb.expired = [] := by rw [eb, ea]
  have ec2 : lc.expired = [(0, 100)] := by rw [ec, eb2]; rfl
  have ed2 : ld.expired = [(0, 100)] := by rw [ed, ec2]
  have ee2 : le.expired = [(0, 100), (0, 200)] := by rw [ee, ed2]; rfl
  have eg2 : lg.expired = [(0, 100), (0, 200)] := by rw [eg, ef, ee2]
  have tg2 : lg.total_time_on_CPU = 250 := by rw [tg, tf, te, td, tc, tb, ta]; rfl
  have cg2 : lg.sim.USECS_SINCE_REBOOT = 286 := by rw [cg, cf, ce2]; decide
  refine ⟨?_, by decide, rfl, rfl, ?_⟩
  · obtain ⟨k, rfl⟩ := Nat.exists_eq_add_of_le hfuel
    have hrun := run_of_passes _ 0 252 k l0 lg h0 pg (by omega)
    refine ⟨lg, hrun, eg2, tg2, cg2, ?_⟩
    simp [execute_commands, hrun, tg2]
  · exact ⟨l0, lb, lc, ld, le, h0, pb2, pc, pd2, pe,
      ⟨by rw [cb, ca]; decide, sb.1, sb.2.2.2.2.2.2.2.2.1, eb2⟩,
      ⟨cc2, sc.1, sc.2.2.2.2.2.2.2.2.1, ec2⟩,
      ⟨cd2, sd.1, sd.2.2.2.2.2.2.2.2.1, ed2⟩,
      ⟨ce2, se.1, se.2.2.2.2.2.2.2.2.1, ee2⟩⟩

theorem scenario_B_quantum_preemption_witness :
    ∃ l : Loop,
      run 252 scenario_B 0 = .ok l ∧
      l.expired = [(0, 100), (0, 200)] ∧
      l.total_time_on_CPU = 250 ∧
      l.sim.USECS_SINCE_REBOOT = 286 ∧
      execute_commands 252 scenario_B 0 = .ok (250, l.sim) :=
  (scenario_B_quantum_preemption [] (catalog_of [[⟨250, SYS_EXIT, 0, 0⟩]]) 1 252 rfl
    (by decide)).1

/-! ## The READY queue -/

/-- C17 (Ready Queue strict FIFO). With `nready` not negative:
`append_to_READY_queue` adds the process after the last entry of the READY queue
and sets its state to READY, leaving the other process records and the clock
alone.  `dequeue_READY_queue` on a non-empty queue returns its first entry (the
one queued longest), the queue before the call is that entry followed by the
queue after it (only the head is removed, the order of the rest is kept), and
the clock advances by exactly `TIME_CONTEXT_SWITCH = 5`; on an empty queue it
returns `UNKNOWN` and changes nothing. -/
theorem ready_queue_fifo (s : Sim) (p : Int) (hr : 0 ≤ s.nready) :
    (view (append_to_READY_queue s p).READY_queue (append_to_READY_queue s p).nready
        = view s.READY_queue s.nready ++ [p] ∧
      ((append_to_READY_queue s p).processes p).state = STATE_READY ∧
      (∀ r, r ≠ p → (append_to_READY_queue s p).processes r = s.processes r) ∧
      (append_to_READY_queue s p).USECS_SINCE_REBOOT = s.USECS_SINCE_REBOOT) ∧
    (0 < s.nready →
      (dequeue_READY_queue s).1 = s.READY_queue 0 ∧
      view s.READY_queue s.nready
        = (dequeue_READY_queue s).1
          :: view (dequeue_READY_queue s).2.READY_queue (dequeue_READY_queue s).2.nready ∧
      (dequeue_READY_queue s).2.nready = s.nready - 1 ∧
      (dequeue_READY_queue s).2.USECS_SINCE_REBOOT = s.USECS_SINCE_REBOOT + 5 ∧
      (dequeue_READY_queue s).2.processes = s.processes) ∧
    (s.nready = 0 → dequeue_READY_queue s = (UNKNOWN, s)) := by
  refine ⟨⟨view_store_append _ _ _ hr, ?_, ?_, rfl⟩, ?_, ?_⟩
  · simp [append_to_READY_queue]
  · intro r hrp
    simp [append_to_READY_queue, store_other _ _ _ _ hrp]
  · intro hpos
    have hd : dequeue_READY_queue s
        = (s.READY_queue 0,
            { advance_time s TIME_CONTEXT_SWITCH with
              READY_queue := slide_left s.READY_queue 0 s.nready
              nready := s.nready - 1 }) := by
      unfold dequeue_READY_queue
      rw [if_pos hpos]
      rfl
    rw [hd]
    refine ⟨rfl, ?_, rfl, rfl, rfl⟩
    show view s.READY_queue s.nready
      = s.READY_queue 0 :: view (slide_left s.READY_queue 0 s.nready) (s.nready - 1)
    rw [view_slide_left_zero _ _ hpos]
    obtain ⟨m, hm⟩ : ∃ m : Nat, s.nready = (m : Int) + 1 := ⟨(s.nready - 1).toNat, by omega⟩
    rw [hm]
    have : ((m : Int) + 1).toNat = m + 1 := by omega
    simp [view, this, List.range_succ_eq_map]
  · intro h0
    unfold dequeue_READY_queue
    rw [if_neg (by omega)]

theorem ready_queue_fifo_witness :
    0 < (append_to_READY_queue (append_to_READY_queue startup 7) 3).nready ∧
    (dequeue_READY_queue (append_to_READY_queue (append_to_READY_queue startup 7) 3)).1 = 7 ∧
    (dequeue_READY_queue
      (dequeue_READY_queue (append_to_READY_queue (append_to_READY_queue startup 7) 3)).2).1 = 3 ∧
    (dequeue_READY_queue
      (append_to_READY_queue (append_to_READY_queue startup 7) 3)).2.USECS_SINCE_REBOOT = 5 :=
  ⟨by decide,
    ((ready_queue_fifo (append_to_READY_queue (append_to_READY_queue startup 7) 3) 0
      (by decide)).2.1 (by decide)).1.trans (by decide),
    by decide, by decide⟩

/-! ## Registration of devices -/

/-- Registering devices one after the other: the count and the cells. -/
theorem foldl_add_device_spec (devs : List (Int × Int)) :
    ∀ s : Sim, 0 ≤ s.ndevices →
      (devs.foldl (fun s d => add_device s d.1 d.2) s).ndevices = s.ndevices + devs.length ∧
      (∀ (k : Nat) (h : k < devs.length),
        ((devs.foldl (fun s d => add_device s d.1 d.2) s).devices (s.ndevices + k)).read_speed
            = (devs.get ⟨k, h⟩).1 ∧
        ((devs.foldl (fun s d => add_device s d.1 d.2) s).devices (s.ndevices + k)).write_speed
            = (devs.get ⟨k, h⟩).2) ∧
      (∀ d, d < s.ndevices →
        (devs.foldl (fun s d => add_device s d.1 d.2) s).devices d = s.devices d) := by
  induction devs with
  | nil =>
    intro s _
    exact ⟨by simp, fun k h => absurd h (by simp), fun _ _ => rfl⟩
  | cons e devs ih =>
    intro s h0
    rw [List.foldl_cons]
    obtain ⟨h1, h2, h3⟩ := ih (add_device s e.1 e.2) (by show 0 ≤ s.ndevices + 1; omega)
    have hn : (add_device s e.1 e.2).ndevices = s.ndevices + 1 := rfl
    refine ⟨?_, ?_, ?_⟩
    · rw [h1, hn, List.length_cons]
      push_cast
      ring
    · intro k h
      cases k with
      | zero =>
        have := h3 s.ndevices (by rw [hn]; omega)
        simp only [Nat.cast_zero, add_zero, this, List.get_cons_zero]
        simp [add_device]
      | succ k =>
        have hk : k < devs.length := by simpa using h
        have := h2 k hk
        rw [hn] at this
        have he : s.ndevices + ((k + 1 : Nat) : Int) = s.ndevices + 1 + k := by
          push_cast
          ring
        rw [he]
        exact this
    · intro d hd
      rw [h3 d (by rw [hn]; omega)]
      simp only [add_device]
      exact store_other _ _ _ _ (by omega)

/-- C19 (device limit).  `add_device` has no error result and makes no test
against `MAX_DEVICES`, where the claim has a fatal error: it stores the two
speeds in the cell `devices[ndevices]` and increments `ndevices`, whatever
`ndevices` is.  Called with fewer than `MAX_DEVICES = 4` devices registered,
that cell is inside the array and nothing else changes, so that a configuration
of at most `MAX_DEVICES` devices leaves `ndevices` equal to their number, with
the speeds of the `k`-th device in cell `k`.  With `MAX_DEVICES` devices
registered the same store is to `devices[MAX_DEVICES]`, outside the array of the
source; the statement does not cover it. -/
theorem device_registration (devs : List (Int × Int)) (timequantum : Int)
    (commands : Int → Command) (ncommands : Int) (hlen : (devs.length : Int) ≤ MAX_DEVICES) :
    (load devs timequantum commands ncommands).ndevices = devs.length ∧
    (load devs timequantum commands ncommands).ndevices ≤ MAX_DEVICES ∧
    (∀ (k : Nat) (h : k < devs.length),
      ((load devs timequantum commands ncommands).devices k).read_speed = (devs.get ⟨k, h⟩).1 ∧
      ((load devs timequantum commands ncommands).devices k).write_speed = (devs.get ⟨k, h⟩).2) ∧
    (∀ (s : Sim) (r w : Int), 0 ≤ s.ndevices → s.ndevices < MAX_DEVICES →
      (add_device s r w).ndevices = s.ndevices + 1 ∧
      (add_device s r w).ndevices ≤ MAX_DEVICES ∧
      ((add_device s r w).devices s.ndevices).read_speed = r ∧
      ((add_device s r w).devices s.ndevices).write_speed = w ∧
      (∀ d, d ≠ s.ndevices → (add_device s r w).devices d = s.devices d) ∧
      add_device s r w
        = { s with devices := (add_device s r w).devices, ndevices := s.ndevices + 1 }) := by
  obtain ⟨h1, h2, _⟩ := foldl_add_device_spec devs startup (le_refl _)
  have hn : (load devs timequantum commands ncommands).ndevices = devs.length := by
    show (devs.foldl (fun s d => add_device s d.1 d.2) startup).ndevices = _
    rw [h1]
    show (0 : Int) + _ = _
    omega
  refine ⟨hn, by rw [hn]; exact hlen, ?_, ?_⟩
  · intro k h
    have := h2 k h
    have h0 : startup.ndevices + (k : Int) = k := by
      show (0 : Int) + _ = _
      omega
    rw [h0] at this
    exact this
  · intro s r w _ hlt
    refine ⟨rfl, ?_, ?_, ?_, ?_, rfl⟩
    · show s.ndevices + 1 ≤ MAX_DEVICES
      omega
    · simp [add_device]
    · simp [add_device]
    · intro d hd
      simp [add_device, store_other _ _ _ _ hd]

theorem device_registration_witness :
    (load four_devices 100 (catalog_of []) 0).ndevices = 4 ∧
    ((load four_devices 100 (catalog_of []) 0).devices 3).read_speed = 400 :=
  ⟨(device_registration four_devices 100 (catalog_of []) 0 (by decide)).1,
    ((device_registration four_devices 100 (catalog_of []) 0 (by decide)).2.2.1 3
      (by decide)).1⟩

/-! ## The state RUNNING -/

/-- A successful scan of `spawn_process` has used the first unused slot. -/
theorem spawn_scan_ok (s s2 : Sim) (command ppid : Int) (n : Nat) :
    ∀ p : Int, spawn_scan s command ppid n p = .ok s2 →
      ∃ q, p ≤ q ∧ q < p + n ∧ PROCESS_SLOT_UNUSED s q ∧
        (∀ r, p ≤ r → r < q → ¬ PROCESS_SLOT_UNUSED s r) ∧
        s2 = spawn_in_slot s q command ppid := by
  induction n with
  | zero => intro p h; cases h
  | succ n ih =>
    intro p h
    rw [spawn_scan] at h
    by_cases hu : PROCESS_SLOT_UNUSED s p
    · rw [if_pos hu] at h
      refine ⟨p, le_refl _, by push_cast; omega, hu, fun r h1 h2 => by omega, ?_⟩
      exact (Except.ok.inj h).symm
    · rw [if_neg hu] at h
      obtain ⟨q, g1, g2, g3, g4, g5⟩ := ih (p + 1) h
      refine ⟨q, by omega, by push_cast; omega, g3, ?_, g5⟩
      intro r hr1 hr2
      by_cases hrp : r = p
      · rw [hrp]; exact hu
      · exact g4 r (by omega) hr2

/-- A successful `spawn_process` has used the first unused slot of the table. -/
theorem spawn_process_ok (s s2 : Sim) (command ppid : Int)
    (h : spawn_process s command ppid = .ok s2) :
    ∃ q : Int, 0 ≤ q ∧ q < MAX_RUNNING_PROCESSES ∧ (s.processes q).pid = UNKNOWN ∧
      (∀ r : Int, 0 ≤ r → r < q → (s.processes r).pid ≠ UNKNOWN) ∧
      s2 = spawn_in_slot s q command ppid := by
  obtain ⟨q, g1, g2, g3, g4, g5⟩ := spawn_scan_ok s s2 command ppid _ 0 h
  exact ⟨q, g1, by simpa using g2, g3, g4, g5⟩

/-- The scan of `exit_process` over the slots `i .. i+n-1`: it changes nothing
when no live slot there has the parent id, and otherwise takes one child from
the first such slot. -/
theorem exit_scan_spec (s : Sim) (p : Int) (n : Nat) :
    ∀ i : Int,
      ((∀ r, i ≤ r → r < i + n →
          ¬ ((s.processes r).pid ≠ UNKNOWN ∧ (s.processes r).pid = (s.processes p).ppid)) ∧
        exit_scan s p n i = s) ∨
      (∃ q, i ≤ q ∧ q < i + n ∧ (s.processes q).pid ≠ UNKNOWN ∧
        (s.processes q).pid = (s.processes p).ppid ∧
        (∀ r, i ≤ r → r < q →
          ¬ ((s.processes r).pid ≠ UNKNOWN ∧ (s.processes r).pid = (s.processes p).ppid)) ∧
        exit_scan s p n i
          = { s with
              processes := store s.processes q
                { s.processes q with nchildren := (s.processes q).nchildren - 1 } }) := by
  induction n with
  | zero =>
    intro i
    exact Or.inl ⟨fun r h1 h2 => by simp at h2; omega, rfl⟩
  | succ n ih =>
    intro i
    rw [exit_scan]
    by_cases hu : PROCESS_SLOT_UNUSED s i
    · rw [if_pos hu]
      rcases ih (i + 1) with ⟨h1, h2⟩ | ⟨q, h1, h2, h3, h4, h5, h6⟩
      · refine Or.inl ⟨?_, h2⟩
        intro r hr1 hr2
        by_cases hri : r = i
        · rw [hri]
          exact fun h => h.1 hu
        · exact h1 r (by omega) (by push_cast at hr2; omega)
      · refine Or.inr ⟨q, by omega, by push_cast; omega, h3, h4, ?_, h6⟩
        intro r hr1 hr2
        by_cases hri : r = i
        · rw [hri]
          exact fun h => h.1 hu
        · exact h5 r (by omega) hr2
    · rw [if_neg hu]
      by_cases hm : (s.processes i).pid = (s.processes p).ppid
      · rw [if_pos hm]
        exact Or.inr ⟨i, le_refl _, by push_cast; omega, hu, hm, fun r h1 h2 => by omega, rfl⟩
      · rw [if_neg hm]
        rcases ih (i + 1) with ⟨h1, h2⟩ | ⟨q, h1, h2, h3, h4, h5, h6⟩
        · refine Or.inl ⟨?_, h2⟩
          intro r hr1 hr2
          by_cases hri : r = i
          · rw [hri]
            exact fun h => hm h.2
          · exact h1 r (by omega) (by push_cast at hr2; omega)
        · refine Or.inr ⟨q, by omega, by push_cast; omega, h3, h4, ?_, h6⟩
          intro r hr1 hr2
          by_cases hri : r = i
          · rw [hri]
            exact fun h => hm h.2
          · exact h5 r (by omega) hr2

/-- A store of a record that is not RUNNING keeps the table free of RUNNING. -/
theorem no_running_store (procs : Int → Process) (i : Int) (v : Process)
    (h : ∀ r : Int, (procs r).state ≠ STATE_RUNNING) (hv : v.state ≠ STATE_RUNNING) :
    ∀ r : Int, (store procs i v r).state ≠ STATE_RUNNING := by
  intro r
  rw [store_apply]
  split
  · exact hv
  · exact h r

theorem no_running_append_to_READY_queue (s : Sim) (p : Int) (h : no_running s) :
    no_running (append_to_READY_queue s p) :=
  no_running_store _ _ _ h (by simp [STATE_READY, STATE_RUNNING, STATE_TERMINATED, STATE_IO_BLOCKED, STATE_WAITING, STATE_SLEEPING])

theorem no_running_exit_process (s : Sim) (p : Int) (h : no_running s) :
    no_running (exit_process s p) := by
  have h1 : no_running (exit_scan s p MAX_RUNNING_PROCESSES 0) := by
    rcases exit_scan_spec s p MAX_RUNNING_PROCESSES 0 with ⟨_, e⟩ | ⟨q, _, _, _, _, _, e⟩
    · rw [e]
      exact h
    · rw [e]
      exact no_running_store _ _ _ h (h q)
  exact no_running_store _ _ _ h1 (by simp [STATE_READY, STATE_RUNNING, STATE_TERMINATED, STATE_IO_BLOCKED, STATE_WAITING, STATE_SLEEPING])

theorem no_running_unblock_WAITING_loop (n : Nat) :
    ∀ (w : Int) (s : Sim), no_running s → no_running (unblock_WAITING_loop n w s) := by
  induction n with
  | zero => intro w s h; exact h
  | succ n ih =>
    intro w s h
    rw [unblock_WAITING_loop]
    split
    · simp only
      split
      · exact ih _ _ (no_running_append_to_READY_queue s _ h)
      · exact ih _ _ h
    · exact h

theorem no_running_unblock_SLEEPING_loop (now : Int) (n : Nat) :
    ∀ (i : Int) (s : Sim), no_running s → no_running (unblock_SLEEPING_loop now n i s) := by
  induction n with
  | zero => intro i s h; exact h
  | succ n ih =>
    intro i s h
    rw [unblock_SLEEPING_loop]
    split
    · split
      · exact ih _ _ (no_running_append_to_READY_queue s _ h)
      · exact ih _ _ h
    · exact h

/-- No operation of the loop writes the state RUNNING. -/
theorem no_running_step (s s2 : Sim) (h : Step s s2) (hn : no_running s) : no_running s2 := by
  cases h with
  | tick inc => exact hn
  | clock v => exact hn
  | spawn _ _ _ hs =>
    obtain ⟨q, _, _, _, _, e⟩ := spawn_process_ok _ _ _ _ hs
    rw [e]
    exact no_running_store _ _ _ (no_running_store _ _ _ hn (by simp [STATE_READY, STATE_RUNNING, STATE_TERMINATED, STATE_IO_BLOCKED, STATE_WAITING, STATE_SLEEPING])) (by simp [STATE_READY, STATE_RUNNING, STATE_TERMINATED, STATE_IO_BLOCKED, STATE_WAITING, STATE_SLEEPING])
  | exit p => exact no_running_exit_process s p hn
  | cursor p => exact no_running_store _ _ _ hn (hn p)
  | child p => exact no_running_store _ _ _ hn (hn p)
  | cpu_time p => exact no_running_store _ _ _ hn (hn p)
  | state p => exact no_running_store _ _ _ hn (by simp [STATE_READY, STATE_RUNNING, STATE_TERMINATED, STATE_IO_BLOCKED, STATE_WAITING, STATE_SLEEPING])
  | ready p => exact no_running_append_to_READY_queue s p hn
  | dequeue =>
    unfold dequeue_READY_queue
    split
    · exact hn
    · exact hn
  | io_block p sc d n _ _ => exact hn
  | io_done =>
    unfold unblock_completed_IO
    split
    · exact no_running_append_to_READY_queue s _ hn
    · exact hn
  | io_start =>
    unfold start_pending_IO
    split
    · exact hn
    · exact hn
  | wait p => exact no_running_store _ _ _ hn (by simp [STATE_READY, STATE_RUNNING, STATE_TERMINATED, STATE_IO_BLOCKED, STATE_WAITING, STATE_SLEEPING])
  | wait_drain => exact no_running_unblock_WAITING_loop _ _ _ hn
  | sleep p d => exact no_running_store _ _ _ hn (by simp [STATE_READY, STATE_RUNNING, STATE_TERMINATED, STATE_IO_BLOCKED, STATE_WAITING, STATE_SLEEPING])
  | sleep_drain => exact no_running_unblock_SLEEPING_loop _ _ _ _ hn

/-- The start-up values of the process table survive the `init_` calls of
`main`, except for the pids. -/
theorem init_all_processes (s : Sim) (r : Int) :
    (init_all s).processes r
      = if 0 ≤ r ∧ r < MAX_RUNNING_PROCESSES then { s.processes r with pid := UNKNOWN }
        else s.processes r := by
  have h := for_loop_store_apply (fun v : Process => { v with pid := UNKNOWN })
    MAX_RUNNING_PROCESSES 0 s.processes r
  simp only [zero_add] at h
  simp only [init_all, init_devices_and_IO_BLOCKED_queues, init_devices_loop,
    init_WAITING_queue, init_SLEEPING_queue, init_READY_queue, init_processes,
    init_processes_loop]
  exact h

theorem foldl_add_device_processes (devs : List (Int × Int)) :
    ∀ s : Sim, (devs.foldl (fun s d => add_device s d.1 d.2) s).processes = s.processes := by
  induction devs with
  | nil => intro s; rfl
  | cons d devs ih =>
    intro s
    rw [List.foldl_cons, ih]
    rfl

theorem no_running_reachable (s : Sim) (h : Reachable s) : no_running s := by
  induction h with
  | init devs tq commands ncommands =>
    intro r
    rw [init_all_processes]
    have hp : (load devs tq commands ncommands).processes = startup.processes :=
      foldl_add_device_processes devs startup
    rw [hp]
    split <;> simp [startup, STATE_RUNNING]
  | step s s2 _ hs ih => exact no_running_step s s2 hs ih

/-- C15, the code at concrete runs.  `dequeue_READY_queue` does not touch the
process table, and no statement of the program assigns `STATE_RUNNING`: after
the first pass of scenario A the root process is on the CPU (slot 0) and its
state field still reads `STATE_READY`; in scenario B it still reads
`STATE_READY` after 50 passes, in the middle of its first time quantum. -/
theorem dequeue_keeps_state_ready :
    (∀ s : Sim, (dequeue_READY_queue s).2.processes = s.processes) ∧
    (before_on_CPU 1 scenario_A).proc_on_CPU = 0 ∧
    ((before_on_CPU 1 scenario_A).sim.processes 0).state = STATE_READY ∧
    (before_on_CPU 50 scenario_B).proc_on_CPU = 0 ∧
    ((before_on_CPU 50 scenario_B).sim.processes 0).time_on_CPU = 49 ∧
    ((before_on_CPU 50 scenario_B).sim.processes 0).state = STATE_READY ∧
    STATE_READY ≠ STATE_RUNNING := by
  refine ⟨?_, by decide!, by decide!, by decide!, by decide!, by decide!, by decide⟩
  intro s
  unfold dequeue_READY_queue
  split <;> rfl

/-! ## Process ids -/

theorem same_ids_refl (s : Sim) : same_ids s s :=
  ⟨rfl, rfl, fun _ => ⟨rfl, rfl⟩⟩

theorem same_ids_trans {s s2 s3 : Sim} (h1 : same_ids s s2) (h2 : same_ids s2 s3) :
    same_ids s s3 :=
  ⟨h2.1.trans h1.1, h2.2.1.trans h1.2.1,
    fun r => ⟨(h2.2.2 r).1.trans (h1.2.2 r).1, (h2.2.2 r).2.trans (h1.2.2 r).2⟩⟩

/-- A store that keeps the id and the parent id of the record. -/
theorem same_ids_store (s s2 : Sim) (i : Int) (v : Process)
    (hn : s2.next_pid = s.next_pid) (hp : s2.nprocesses = s.nprocesses)
    (hs : s2.processes = store s.processes i v)
    (h1 : v.pid = (s.processes i).pid) (h2 : v.ppid = (s.processes i).ppid) :
    same_ids s s2 := by
  refine ⟨hn, hp, fun r => ?_⟩
  rw [hs, store_apply]
  split
  · rename_i h
    rw [h]
    exact ⟨h1, h2⟩
  · exact ⟨rfl, rfl⟩

theorem same_ids_append_to_READY_queue (s : Sim) (p : Int) :
    same_ids s (append_to_READY_queue s p) :=
  same_ids_store s _ p _ rfl rfl rfl rfl rfl

theorem same_ids_unblock_WAITING_loop (n : Nat) :
    ∀ (w : Int) (s : Sim), same_ids s (unblock_WAITING_loop n w s) := by
  induction n with
  | zero => intro w s; exact same_ids_refl s
  | succ n ih =>
    intro w s
    rw [unblock_WAITING_loop]
    split
    · simp only
      split
      · exact same_ids_trans (same_ids_append_to_READY_queue s _) (ih _ _)
      · exact ih _ _
    · exact same_ids_refl s

theorem same_ids_unblock_SLEEPING_loop (now : Int) (n : Nat) :
    ∀ (i : Int) (s : Sim), same_ids s (unblock_SLEEPING_loop now n i s) := by
  induction n with
  | zero => intro i s; exact same_ids_refl s
  | succ n ih =>
    intro i s
    rw [unblock_SLEEPING_loop]
    split
    · split
      · exact same_ids_trans (same_ids_append_to_READY_queue s _) (ih _ _)
      · exact ih _ _
    · exact same_ids_refl s

theorem same_ids_io_done (s : Sim) : same_ids s ( unblock_completed_IO s) := by
  unfold unblock_completed_IO
  split
  · exact same_ids_append_to_READY_queue s _
  · exact same_ids_refl s

theorem same_ids_io_start (s : Sim) : same_ids s ( start_pending_IO s) := by
  unfold start_pending_IO
  split
  · exact same_ids_refl s
  · exact same_ids_refl s

theorem same_ids_dequeue_READY_queue (s : Sim) : same_ids s (dequeue_READY_queue s).2 := by
  unfold dequeue_READY_queue
  split
  · exact same_ids_refl s
  · exact same_ids_refl s

/-- Every operation of the loop other than a spawn and an exit creates and ends
no process. -/
theorem step_ids (s s2 : Sim) (h : Step s s2) :
    same_ids s s2 ∨ (∃ c pp : Int, spawn_process s c pp = .ok s2) ∨
      (∃ p : Int, s2 = exit_process s p) := by
  cases h with
  | tick inc => exact Or.inl (same_ids_refl s)
  | clock v => exact Or.inl (same_ids_refl s)
  | spawn c pp _ hs => exact Or.inr (Or.inl ⟨_, _, hs⟩)
  | exit p => exact Or.inr (Or.inr ⟨p, rfl⟩)
  | cursor p => exact Or.inl (same_ids_store s _ p _ rfl rfl rfl rfl rfl)
  | child p => exact Or.inl (same_ids_store s _ p _ rfl rfl rfl rfl rfl)
  | cpu_time p => exact Or.inl (same_ids_store s _ p _ rfl rfl rfl rfl rfl)
  | state p => exact Or.inl (same_ids_store s _ p _ rfl rfl rfl rfl rfl)
  | ready p => exact Or.inl (same_ids_append_to_READY_queue s p)
  | dequeue => exact Or.inl (same_ids_dequeue_READY_queue s)
  | io_block p sc d n _ _ => exact Or.inl (same_ids_refl s)
  | io_done => exact Or.inl (same_ids_io_done s)
  | io_start => exact Or.inl (same_ids_io_start s)
  | wait p => exact Or.inl (same_ids_store s _ p _ rfl rfl rfl rfl rfl)
  | wait_drain => exact Or.inl (same_ids_unblock_WAITING_loop _ _ _)
  | sleep p d => exact Or.inl (same_ids_store s _ p _ rfl rfl rfl rfl rfl)
  | sleep_drain => exact Or.inl (same_ids_unblock_SLEEPING_loop _ _ _ _)

theorem pids_of_same_ids (s s2 : Sim) (h : same_ids s s2) (hp : pids_ok s) : pids_ok s2 := by
  obtain ⟨h1, _, h3⟩ := h
  obtain ⟨p1, p2, p3⟩ := hp
  refine ⟨by rw [h1]; exact p1, ?_, ?_⟩
  · intro r hr0 hr1
    rw [(h3 r).1, h1]
    exact p2 r hr0 hr1
  · intro a b ha0 ha1 hb0 hb1 la lb hab
    rw [(h3 a).1] at la hab
    rw [(h3 b).1] at lb hab
    exact p3 a b ha0 ha1 hb0 hb1 la lb hab

/-- The records of the table after `spawn_in_slot`. -/
theorem spawn_in_slot_processes (s : Sim) (q c pp r : Int) :
    (spawn_in_slot s q c pp).processes r
      = if r = q then
          { state := STATE_READY, pid := s.next_pid, ppid := pp, time_on_CPU := 0,
            command := c, next_syscall := 0, nchildren := 0 }
        else s.processes r := by
  simp only [spawn_in_slot, append_to_READY_queue, store_apply]
  split <;> simp

theorem pids_spawn_in_slot (s : Sim) (q c pp : Int) (hp : pids_ok s) :
    pids_ok (spawn_in_slot s q c pp) := by
  obtain ⟨p1, p2, p3⟩ := hp
  have hn : (spawn_in_slot s q c pp).next_pid = s.next_pid + 1 := rfl
  refine ⟨by rw [hn]; omega, ?_, ?_⟩
  · intro r hr0 hr1
    rw [hn, spawn_in_slot_processes]
    split
    · show s.next_pid < _
      omega
    · have := p2 r hr0 hr1
      omega
  · intro a b ha0 ha1 hb0 hb1
    rw [spawn_in_slot_processes, spawn_in_slot_processes]
    by_cases haq : a = q <;> by_cases hbq : b = q
    · intro _ _ _
      rw [haq, hbq]
    · rw [if_pos haq, if_neg hbq]
      intro _ _ hab
      have := p2 b hb0 hb1
      simp only at hab
      omega
    · rw [if_neg haq, if_pos hbq]
      intro _ _ hab
      have := p2 a ha0 ha1
      simp only at hab
      omega
    · rw [if_neg haq, if_neg hbq]
      exact p3 a b ha0 ha1 hb0 hb1

/-- The ids and parent ids after `exit_process`: only the exiting slot changes
its id. -/
theorem exit_process_ids (s : Sim) (p r : Int) :
    ((exit_process s p).processes r).pid = (if r = p then UNKNOWN else (s.processes r).pid) ∧
    ((exit_process s p).processes r).ppid = (s.processes r).ppid ∧
    (exit_process s p).next_pid = s.next_pid := by
  unfold exit_process
  rcases exit_scan_spec s p MAX_RUNNING_PROCESSES 0 with ⟨_, e⟩ | ⟨q, _, _, _, _, _, e⟩
  · rw [e]
    simp only [store_apply]
    by_cases hrp : r = p <;> simp [hrp]
  · rw [e]
    simp only [store_apply]
    by_cases hrp : r = p <;> by_cases hrq : r = q <;> simp_all

theorem pids_exit_process (s : Sim) (p : Int) (hp : pids_ok s) : pids_ok (exit_process s p) := by
  obtain ⟨p1, p2, p3⟩ := hp
  have hn := fun r => (exit_process_ids s p r).2.2
  have hpid := fun r => (exit_process_ids s p r).1
  refine ⟨by rw [hn 0]; exact p1, ?_, ?_⟩
  · intro r hr0 hr1
    rw [hpid r, hn 0]
    split
    · show (-1 : Int) < _
      omega
    · exact p2 r hr0 hr1
  · intro a b ha0 ha1 hb0 hb1
    rw [hpid a, hpid b]
    split
    · intro h
      exact absurd rfl h
    · split
      · intro _ h
        exact absurd rfl h
      · exact p3 a b ha0 ha1 hb0 hb1

theorem pids_step (s s2 : Sim) (h : Step s s2) (hp : pids_ok s) : pids_ok s2 := by
  rcases step_ids s s2 h with h | ⟨c, pp, h⟩ | ⟨p, h⟩
  · exact pids_of_same_ids s s2 h hp
  · obtain ⟨q, _, _, _, _, e⟩ := spawn_process_ok _ _ _ _ h
    rw [e]
    exact pids_spawn_in_slot s q c pp hp
  · rw [h]
    exact pids_exit_process s p hp

theorem pids_reachable (s : Sim) (h : Reachable s) : pids_ok s := by
  induction h with
  | init devs tq commands ncommands =>
    have hn : (init_all (load devs tq commands ncommands)).next_pid = 0 :=
      foldl_add_device_next_pid devs startup
    have hu : ∀ r : Int, 0 ≤ r → r < MAX_RUNNING_PROCESSES →
        ((init_all (load devs tq commands ncommands)).processes r).pid = UNKNOWN := by
      intro r h0 h1
      rw [init_all_processes, if_pos ⟨h0, h1⟩]
    refine ⟨by rw [hn], ?_, ?_⟩
    · intro r h0 h1
      rw [hu r h0 h1, hn]
      decide
    · intro a b ha0 ha1 _ _ la
      exact absurd (hu a ha0 ha1) la
  | step s s2 _ hs ih => exact pids_step s s2 hs ih

/-- No operation of the loop lowers `next_pid`. -/
theorem next_pid_step (s s2 : Sim) (h : Step s s2) : s.next_pid ≤ s2.next_pid := by
  rcases step_ids s s2 h with h | ⟨c, pp, h⟩ | ⟨p, h⟩
  · rw [h.1]
  · obtain ⟨q, _, _, _, _, e⟩ := spawn_process_ok _ _ _ _ h
    rw [e]
    show s.next_pid ≤ s.next_pid + 1
    omega
  · rw [h, (exit_process_ids s p 0).2.2]

theorem next_pid_steps {s s2 : Sim} (h : Steps s s2) : s.next_pid ≤ s2.next_pid := by
  induction h with
  | refl => exact le_refl _
  | tail _ hs ih => exact le_trans ih (next_pid_step _ _ hs)

/-! ## Spawn capacity and the dispatch of exit -/

/-- C12 (spawn capacity). With `MAX_RUNNING_PROCESSES = 50`: `spawn_process`
ends in the process-limit error exactly when every slot of the table holds a
live process.  Otherwise it succeeds: it fills the unused slot of lowest index,
gives the new process the id `next_pid`, increments `next_pid` and `nprocesses`
by one, and leaves the other records alone.  The id of an earlier spawn is
smaller than the `next_pid` of every later state, so a new id is greater than
every id assigned before; and in every reachable state the ids of the table are
below `next_pid` and pairwise distinct on the live slots. -/
theorem spawn_capacity (s : Sim) (command ppid : Int) :
    MAX_RUNNING_PROCESSES = 50 ∧
    (spawn_process s command ppid = .error .process_limit ↔
      ∀ q : Int, 0 ≤ q → q < MAX_RUNNING_PROCESSES → (s.processes q).pid ≠ UNKNOWN) ∧
    ((∃ q : Int, 0 ≤ q ∧ q < MAX_RUNNING_PROCESSES ∧ (s.processes q).pid = UNKNOWN) →
      ∃ q : Int, 0 ≤ q ∧ q < MAX_RUNNING_PROCESSES ∧ (s.processes q).pid = UNKNOWN ∧
        (∀ r : Int, 0 ≤ r → r < q → (s.processes r).pid ≠ UNKNOWN) ∧
        spawn_process s command ppid = .ok (spawn_in_slot s q command ppid) ∧
        ((spawn_in_slot s q command ppid).processes q).pid = s.next_pid ∧
        (spawn_in_slot s q command ppid).next_pid = s.next_pid + 1 ∧
        (spawn_in_slot s q command ppid).nprocesses = s.nprocesses + 1 ∧
        (∀ r : Int, r ≠ q → (spawn_in_slot s q command ppid).processes r = s.processes r)) ∧
    (∀ (s0 s1 : Sim) (c0 pp0 : Int), spawn_process s0 c0 pp0 = .ok s1 → Steps s1 s →
      ∃ q0 : Int, (s1.processes q0).pid = s0.next_pid ∧ s0.next_pid < s.next_pid) ∧
    (Reachable s →
      0 ≤ s.next_pid ∧
      (∀ r : Int, 0 ≤ r → r < MAX_RUNNING_PROCESSES → (s.processes r).pid < s.next_pid) ∧
      (∀ a b : Int, 0 ≤ a → a < MAX_RUNNING_PROCESSES → 0 ≤ b → b < MAX_RUNNING_PROCESSES →
        (s.processes a).pid ≠ UNKNOWN → (s.processes b).pid ≠ UNKNOWN →
        (s.processes a).pid = (s.processes b).pid → a = b)) := by
  have hsome : (∃ q : Int, 0 ≤ q ∧ q < MAX_RUNNING_PROCESSES ∧ (s.processes q).pid = UNKNOWN) →
      ∃ q : Int, 0 ≤ q ∧ q < MAX_RUNNING_PROCESSES ∧ (s.processes q).pid = UNKNOWN ∧
        (∀ r : Int, 0 ≤ r → r < q → (s.processes r).pid ≠ UNKNOWN) ∧
        spawn_process s command ppid = .ok (spawn_in_slot s q command ppid) := by
    rintro ⟨q, h0, h1, h2⟩
    obtain ⟨q2, g1, g2, g3, g4, g5⟩ :=
      spawn_scan_spec s command ppid MAX_RUNNING_PROCESSES 0 ⟨q, h0, by simpa using h1, h2⟩
    exact ⟨q2, g1, by simpa using g2, g3, g4, g5⟩
  refine ⟨rfl, ⟨?_, ?_⟩, ?_, ?_, ?_⟩
  · intro herr q h0 h1 hu
    obtain ⟨q2, _, _, _, _, hok⟩ := hsome ⟨q, h0, h1, hu⟩
    rw [hok] at herr
    cases herr
  · intro hfull
    exact spawn_scan_full s command ppid MAX_RUNNING_PROCESSES 0
      (fun q h0 h1 => hfull q h0 (by simpa using h1))
  · intro hex
    obtain ⟨q, g1, g2, g3, g4, g5⟩ := hsome hex
    refine ⟨q, g1, g2, g3, g4, g5, ?_, rfl, rfl, ?_⟩
    · rw [spawn_in_slot_processes, if_pos rfl]
    · intro r hr
      rw [spawn_in_slot_processes, if_neg hr]
  · intro s0 s1 c0 pp0 hs hsteps
    obtain ⟨q0, _, _, _, _, e⟩ := spawn_process_ok _ _ _ _ hs
    have hn : s1.next_pid = s0.next_pid + 1 := by rw [e]; rfl
    have := next_pid_steps hsteps
    refine ⟨q0, ?_, by omega⟩
    rw [e, spawn_in_slot_processes, if_pos rfl]
  · intro hr
    exact pids_reachable s hr

theorem spawn_capacity_witness :
    (∃ q : Int, 0 ≤ q ∧ q < MAX_RUNNING_PROCESSES ∧ ((scenario_D 0).processes q).pid = UNKNOWN ∧
        (∀ r : Int, 0 ≤ r → r < q → ((scenario_D 0).processes r).pid ≠ UNKNOWN) ∧
        spawn_process (scenario_D 0) 0 UNKNOWN = .ok (spawn_in_slot (scenario_D 0) q 0 UNKNOWN) ∧
        ((spawn_in_slot (scenario_D 0) q 0 UNKNOWN).processes q).pid = (scenario_D 0).next_pid ∧
        (spawn_in_slot (scenario_D 0) q 0 UNKNOWN).next_pid = (scenario_D 0).next_pid + 1 ∧
        (spawn_in_slot (scenario_D 0) q 0 UNKNOWN).nprocesses = (scenario_D 0).nprocesses + 1 ∧
        (∀ r : Int, r ≠ q →
          (spawn_in_slot (scenario_D 0) q 0 UNKNOWN).processes r = (scenario_D 0).processes r)) ∧
    0 ≤ (scenario_D 0).next_pid :=
  ⟨(spawn_capacity (scenario_D 0) 0 UNKNOWN).2.2.1 ⟨0, by decide, by decide, by decide!⟩,
    ((spawn_capacity (scenario_D 0) 0 UNKNOWN).2.2.2.2 (Reachable.init _ _ _ _)).1⟩

/-- The dispatch of an exit event. -/
theorem issue_exit (l : Loop) (c i : Int)
    (hw : ((l.sim.commands c).syscalls i).which = SYS_EXIT) :
    issue_syscall l c i = .ok
      { l with
        sim := exit_process ( incr_next_syscall l.sim l.proc_on_CPU) l.proc_on_CPU
        total_time_on_CPU := l.total_time_on_CPU + (l.sim.processes l.proc_on_CPU).time_on_CPU
        proc_on_CPU := UNKNOWN } := by
  have hn : (( incr_next_syscall l.sim l.proc_on_CPU).processes l.proc_on_CPU).time_on_CPU
      = (l.sim.processes l.proc_on_CPU).time_on_CPU := by
    simp [incr_next_syscall]
  have hcmd : ( incr_next_syscall l.sim l.proc_on_CPU).commands = l.sim.commands := rfl
  simp only [issue_syscall, dispatch, hw, hn, hcmd]
  simp [SYS_EXIT, SYS_WAIT, SYS_SPAWN, SYS_READ, SYS_WRITE, SYS_SLEEP]

/-- Outside the process table `exit_process` only lowers `nprocesses`. -/
theorem exit_process_frame (s : Sim) (p : Int) :
    exit_process s p
      = { s with processes := (exit_process s p).processes, nprocesses := s.nprocesses - 1 } := by
  unfold exit_process
  rcases exit_scan_spec s p MAX_RUNNING_PROCESSES 0 with ⟨_, e⟩ | ⟨q, _, _, _, _, _, e⟩ <;>
    rw [e]

/-- The records that `exit_process` leaves in the slots other than the exiting
one, when the live slots of the table hold distinct ids: the live slot with the
parent id has one child less, every other record is as before. -/
theorem exit_process_other (s : Sim) (p r : Int) (hr : r ≠ p)
    (huniq : ∀ a b : Int, 0 ≤ a → a < MAX_RUNNING_PROCESSES → 0 ≤ b → b < MAX_RUNNING_PROCESSES →
      (s.processes a).pid ≠ UNKNOWN → (s.processes b).pid ≠ UNKNOWN →
      (s.processes a).pid = (s.processes b).pid → a = b) :
    (exit_process s p).processes r
      = if 0 ≤ r ∧ r < MAX_RUNNING_PROCESSES ∧ (s.processes r).pid ≠ UNKNOWN ∧
            (s.processes r).pid = (s.processes p).ppid then
          { s.processes r with nchildren := (s.processes r).nchildren - 1 }
        else s.processes r := by
  unfold exit_process
  rcases exit_scan_spec s p MAX_RUNNING_PROCESSES 0 with ⟨hno, e⟩ | ⟨q, q0, q1, q2, q3, _, e⟩
  · rw [e]
    simp only [store_other _ _ _ _ hr]
    rw [if_neg]
    rintro ⟨h0, h1, h2, h3⟩
    exact hno r h0 (by simpa using h1) ⟨h2, h3⟩
  · rw [e]
    simp only [store_other _ _ _ _ hr]
    have q1b : q < MAX_RUNNING_PROCESSES := by simpa using q1
    by_cases hrq : r = q
    · rw [hrq, store_same, if_pos ⟨q0, q1b, q2, q3⟩]
    · rw [store_other _ _ _ _ hrq, if_neg]
      rintro ⟨h0, h1, h2, h3⟩
      exact hrq (huniq r q h0 h1 q0 q1b h2 q2 (h3.trans q3.symm))

/-- C11 (exit dispatch). Let the process in slot `p` be on the CPU with
`time_on_CPU` equal to the `when` of its next event, an `exit`, in a table whose
live slots hold distinct ids.  The pass through `on_CPU` succeeds and adds the
`time_on_CPU` of `p` to `total_time_on_CPU`; slot `p` gets the pid `UNKNOWN`
(unused) and the state TERMINATED, and `nprocesses` drops by one.  At most one
slot of the table holds a live process whose id is the parent id of `p`; that
record loses exactly one child, and every other record but that of `p` is as
before.  The READY, SLEEPING and WAITING queues, the devices with their queues,
the bus and the clock are unchanged (no overhead is charged), and the CPU is
left idle. -/
theorem exit_dispatch (l : Loop)
    (hcpu : l.proc_on_CPU ≠ UNKNOWN)
    (hdue : (l.sim.processes l.proc_on_CPU).time_on_CPU
      = ((l.sim.commands (l.sim.processes l.proc_on_CPU).command).syscalls
          (l.sim.processes l.proc_on_CPU).next_syscall).when)
    (hexit : ((l.sim.commands (l.sim.processes l.proc_on_CPU).command).syscalls
          (l.sim.processes l.proc_on_CPU).next_syscall).which = SYS_EXIT)
    (hpids : ∀ a b : Int, 0 ≤ a → a < MAX_RUNNING_PROCESSES → 0 ≤ b →
      b < MAX_RUNNING_PROCESSES →
      (l.sim.processes a).pid ≠ UNKNOWN → (l.sim.processes b).pid ≠ UNKNOWN →
      (l.sim.processes a).pid = (l.sim.processes b).pid → a = b) :
    ∃ l2 : Loop,
      on_CPU l = .ok l2 ∧
      l2.total_time_on_CPU
        = l.total_time_on_CPU + (l.sim.processes l.proc_on_CPU).time_on_CPU ∧
      (l2.sim.processes l.proc_on_CPU).pid = UNKNOWN ∧
      (l2.sim.processes l.proc_on_CPU).state = STATE_TERMINATED ∧
      l2.sim.nprocesses = l.sim.nprocesses - 1 ∧
      (∀ a b : Int,
        (0 ≤ a ∧ a < MAX_RUNNING_PROCESSES ∧ (l.sim.processes a).pid ≠ UNKNOWN ∧
          (l.sim.processes a).pid = (l.sim.processes l.proc_on_CPU).ppid) →
        (0 ≤ b ∧ b < MAX_RUNNING_PROCESSES ∧ (l.sim.processes b).pid ≠ UNKNOWN ∧
          (l.sim.processes b).pid = (l.sim.processes l.proc_on_CPU).ppid) → a = b) ∧
      (∀ r : Int, r ≠ l.proc_on_CPU →
        l2.sim.processes r
          = if 0 ≤ r ∧ r < MAX_RUNNING_PROCESSES ∧ (l.sim.processes r).pid ≠ UNKNOWN ∧
                (l.sim.processes r).pid = (l.sim.processes l.proc_on_CPU).ppid then
              { l.sim.processes r with nchildren := (l.sim.processes r).nchildren - 1 }
            else l.sim.processes r) ∧
      l2.sim = { l.sim with processes := l2.sim.processes, nprocesses := l.sim.nprocesses - 1 } ∧
      l2.sim.USECS_SINCE_REBOOT = l.sim.USECS_SINCE_REBOOT ∧
      view l2.sim.READY_queue l2.sim.nready = view l.sim.READY_queue l.sim.nready ∧
      view l2.sim.SLEEPING_queue l2.sim.nsleeping = view l.sim.SLEEPING_queue l.sim.nsleeping ∧
      view l2.sim.WAITING_queue l2.sim.nwaiting = view l.sim.WAITING_queue l.sim.nwaiting ∧
      l2.sim.devices = l.sim.devices ∧
      l2.sim.device_owning_databus = l.sim.device_owning_databus ∧
      l2.sim.databus_inuse_until = l.sim.databus_inuse_until ∧
      l2.proc_on_CPU = UNKNOWN := by
  have hon : on_CPU l = .ok
      { l with
        sim := exit_process ( incr_next_syscall l.sim l.proc_on_CPU) l.proc_on_CPU
        total_time_on_CPU := l.total_time_on_CPU + (l.sim.processes l.proc_on_CPU).time_on_CPU
        proc_on_CPU := UNKNOWN } :=
    (on_CPU_due l hcpu hdue).trans (issue_exit l _ _ hexit)
  have hrec : ∀ r : Int,
      (( incr_next_syscall l.sim l.proc_on_CPU).processes r).pid = (l.sim.processes r).pid ∧
      (( incr_next_syscall l.sim l.proc_on_CPU).processes r).ppid = (l.sim.processes r).ppid :=
    (same_ids_store l.sim ( incr_next_syscall l.sim l.proc_on_CPU) l.proc_on_CPU _
      rfl rfl rfl rfl rfl).2.2
  have hsame : ∀ r : Int, r ≠ l.proc_on_CPU →
      ( incr_next_syscall l.sim l.proc_on_CPU).processes r = l.sim.processes r :=
    fun r hr => store_other _ _ _ _ hr
  have huniq : ∀ a b : Int, 0 ≤ a → a < MAX_RUNNING_PROCESSES → 0 ≤ b →
      b < MAX_RUNNING_PROCESSES →
      (( incr_next_syscall l.sim l.proc_on_CPU).processes a).pid ≠ UNKNOWN →
      (( incr_next_syscall l.sim l.proc_on_CPU).processes b).pid ≠ UNKNOWN →
      (( incr_next_syscall l.sim l.proc_on_CPU).processes a).pid
        = (( incr_next_syscall l.sim l.proc_on_CPU).processes b).pid → a = b := by
    intro a b
    rw [(hrec a).1, (hrec b).1]
    exact hpids a b
  have hfr := exit_process_frame ( incr_next_syscall l.sim l.proc_on_CPU) l.proc_on_CPU
  refine ⟨_, hon, rfl, ?_, ?_, ?_, ?_, ?_, ?_, ?_, ?_, ?_, ?_, ?_, ?_, ?_, rfl⟩
  · exact (exit_process_ids _ _ _).1.trans (if_pos rfl)
  · show ((exit_process _ _).processes _).state = _
    unfold exit_process
    simp
  · show (exit_process _ _).nprocesses = _
    rw [hfr]
    rfl
  · rintro a b ⟨a0, a1, a2, a3⟩ ⟨b0, b1, b2, b3⟩
    exact hpids a b a0 a1 b0 b1 a2 b2 (a3.trans b3.symm)
  · intro r hr
    show (exit_process _ _).processes r = _
    rw [exit_process_other _ _ _ hr huniq, (hrec r).1, (hrec l.proc_on_CPU).2, hsame r hr]
  · show exit_process _ _ = _
    rw [hfr]
    rfl
  all_goals
    show _ = _
    simp only []
    rw [hfr]
    rfl

set_option maxRecDepth 100000 in
theorem exit_dispatch_witness :
    ∃ l2 : Loop, on_CPU (before_on_CPU 2 (scenario_D 0)) = .ok l2 ∧
      l2.total_time_on_CPU = 0 ∧ (l2.sim.processes 1).pid = UNKNOWN ∧
      (l2.sim.processes 0).nchildren = 0 ∧ l2.sim.nprocesses = 1 ∧
      l2.sim.USECS_SINCE_REBOOT = 22 := by
  have hlive : ∀ k : Fin 50,
      ((before_on_CPU 2 (scenario_D 0)).sim.processes ((k : Nat) : Int)).pid ≠ UNKNOWN →
      ((k : Nat) : Int) = 0 ∨ ((k : Nat) : Int) = 1 := by decide!
  have hp : ∀ a b : Int, 0 ≤ a → a < MAX_RUNNING_PROCESSES → 0 ≤ b →
      b < MAX_RUNNING_PROCESSES →
      ((before_on_CPU 2 (scenario_D 0)).sim.processes a).pid ≠ UNKNOWN →
      ((before_on_CPU 2 (scenario_D 0)).sim.processes b).pid ≠ UNKNOWN →
      ((before_on_CPU 2 (scenario_D 0)).sim.processes a).pid
        = ((before_on_CPU 2 (scenario_D 0)).sim.processes b).pid → a = b := by
    intro a b a0 a1 b0 b1 la lb hab
    have ha := forall_below 50 (fun r : Int => ((before_on_CPU 2 (scenario_D 0)).sim.processes r).pid ≠ UNKNOWN →
      r = 0 ∨ r = 1) hlive a a0 a1 la
    have hb := forall_below 50 (fun r : Int => ((before_on_CPU 2 (scenario_D 0)).sim.processes r).pid ≠ UNKNOWN →
      r = 0 ∨ r = 1) hlive b b0 b1 lb
    have h01 : ((before_on_CPU 2 (scenario_D 0)).sim.processes 0).pid
        ≠ ((before_on_CPU 2 (scenario_D 0)).sim.processes 1).pid := by decide!
    rcases ha with rfl | rfl <;> rcases hb with rfl | rfl <;>
      first | rfl | exact absurd hab h01 | exact absurd hab.symm h01
  obtain ⟨l2, h1, h2, h3, _, h5, _, h7, _, h9, _⟩ :=
    exit_dispatch (before_on_CPU 2 (scenario_D 0)) (by decide!) (by decide!) (by decide!) hp
  refine ⟨l2, h1, h2.trans (by decide!), h3, ?_, h5.trans (by decide!), h9.trans (by decide!)⟩
  rw [h7 0 (by decide!), if_pos (by decide!)]
  decide!

/-! ## The time quantum -/

/-- The pass of `on_CPU` in which the process on the CPU has no event due. -/
theorem on_CPU_compute (l : Loop) (hcpu : l.proc_on_CPU ≠ UNKNOWN)
    (hno : (l.sim.processes l.proc_on_CPU).time_on_CPU
      ≠ ((l.sim.commands (l.sim.processes l.proc_on_CPU).command).syscalls
          (l.sim.processes l.proc_on_CPU).next_syscall).when) :
    on_CPU l = .ok (consume_CPU l) := by
  unfold on_CPU
  rw [if_pos hcpu]
  simp only [if_neg hno, if_pos hcpu]

/-- One whole time quantum of a process alone on the CPU: `Q` passes, the last
of which preempts it and puts it back on the CPU. -/
theorem solo_quantum (Q : Nat) (W : Int) (hQ : 1 ≤ Q) (l : Loop) (t : Int)
    (hs : solo Q W l t) (hq : l.timequantum_expires = l.sim.USECS_SINCE_REBOOT + Q)
    (ht : t + Q ≤ W) :
    ∃ l2 : Loop, passes Q l = .ok l2 ∧ solo Q W l2 (t + Q) ∧
      l2.sim.USECS_SINCE_REBOOT = l.sim.USECS_SINCE_REBOOT + Q + 15 ∧
      l2.timequantum_expires = l2.sim.USECS_SINCE_REBOOT + Q ∧
      l2.total_time_on_CPU = l.total_time_on_CPU := by
  obtain ⟨q, rfl⟩ : ∃ q : Nat, Q = q + 1 := ⟨Q - 1, by omega⟩
  push_cast at hq ht
  obtain ⟨lb, pb, sb, cb, qb, _, tb⟩ :=
    solo_computes _ W q l t hs (by omega) (by rw [hq]; omega)
  obtain ⟨lc, hbc, sc, cc, qc, _, tc⟩ :=
    solo_preempt _ W lb _ sb (by omega) (by rw [cb, qb, hq]; omega)
  refine ⟨lc, ?_, ?_, ?_, qc, by rw [tc, tb]⟩
  · exact passes_append q 1 lc l lb pb (passes_one lb lc (by rw [sb.2.1]; decide) hbc)
  · have : t + ((q + 1 : Nat) : Int) = t + q + 1 := by push_cast; ring
    rw [this]
    exact sc
  · rw [cc, cb]
    simp only [TIME_CORE_STATE_TRANSITIONS, TIME_CONTEXT_SWITCH]
    push_cast
    ring

/-- Some whole time quanta in a row of a process alone on the CPU. -/
theorem solo_quanta (Q : Nat) (W : Int) (hQ : 1 ≤ Q) (n : Nat) :
    ∀ (l : Loop) (t : Int), solo Q W l t →
      l.timequantum_expires = l.sim.USECS_SINCE_REBOOT + Q → t + n * Q ≤ W →
      ∃ l2 : Loop, passes (n * Q) l = .ok l2 ∧ solo Q W l2 (t + n * Q) ∧
        l2.sim.USECS_SINCE_REBOOT = l.sim.USECS_SINCE_REBOOT + n * (Q + 15) ∧
        l2.timequantum_expires = l2.sim.USECS_SINCE_REBOOT + Q ∧
        l2.total_time_on_CPU = l.total_time_on_CPU := by
  induction n with
  | zero =>
    intro l t hs hq _
    refine ⟨l, ?_, ?_, ?_, hq, rfl⟩
    · rw [Nat.zero_mul]
      rfl
    · simpa using hs
    · simp
  | succ n ih =>
    intro l t hs hq ht
    push_cast at ht
    have hn : (0 : Int) ≤ (n : Int) * (Q : Int) := by positivity
    obtain ⟨l1, p1, s1, c1, q1, t1⟩ := solo_quantum Q W hQ l t hs hq (by nlinarith)
    obtain ⟨l2, p2, s2, c2, q2, t2⟩ := ih l1 (t + Q) s1 q1 (by nlinarith)
    refine ⟨l2, ?_, ?_, ?_, q2, by rw [t2, t1]⟩
    · have : (n + 1) * Q = Q + n * Q := by ring
      rw [this]
      exact passes_append Q (n * Q) l2 l l1 p1 p2
    · have : t + ((n + 1 : Nat) : Int) * Q = t + Q + n * Q := by push_cast; ring
      rw [this]
      exact s2
    · rw [c2, c1]
      push_cast
      ring

/-- Where the product `100 * total_time_on_CPU` fits a 32-bit `int`, the quotient
that `main` prints is the mathematical floor. -/
theorem utilization_exact (t u : Int) (ht : 0 ≤ t) (hfit : 100 * t < 2 ^ 31) (hu : 0 < u) :
    utilization t u = 100 * t / u := by
  unfold utilization
  have h1 : (100 * t + 2 ^ 31) % 2 ^ 32 = 100 * t + 2 ^ 31 :=
    Int.emod_eq_of_lt (by omega) (by omega)
  rw [h1, add_sub_cancel_right]
  exact Int.tdiv_eq_ediv (by omega) (by omega)

/-- C14, the code at a concrete run.  One process that computes for 30000000
microseconds at quantum 100 ends, after 30000002 passes of the loop, with a
total CPU time of 30000000 and a clock of 34500006, below 2000000000.  The
product `100 * total_time_on_CPU` is 3000000000 and does not fit a 32-bit `int`;
reduced to 32 bits it is negative and the quotient that `main` prints is -37,
while the mathematical value of `floor(100 * total / clock)` is 86. -/
theorem utilization_overflow :
    ∃ l : Loop,
      run 30000002 scenario_long 0 = .ok l ∧
      l.total_time_on_CPU = 30000000 ∧
      l.sim.USECS_SINCE_REBOOT = 34500006 ∧
      0 < l.sim.USECS_SINCE_REBOOT ∧ l.sim.USECS_SINCE_REBOOT ≤ 2000000000 ∧
      2 ^ 31 - 1 < 100 * l.total_time_on_CPU ∧
      utilization l.total_time_on_CPU l.sim.USECS_SINCE_REBOOT = -37 ∧
      100 * l.total_time_on_CPU / l.sim.USECS_SINCE_REBOOT = 86 := by
  obtain ⟨l0, la, h0, hp0, hba, sa, ca, qa, _, ta⟩ :=
    solo_start [] ((100 : Nat) : Int) 30000000 (catalog_of [[⟨30000000, SYS_EXIT, 0, 0⟩]]) 1
      rfl rfl
  have pa : passes 1 l0 = .ok la := passes_one l0 la hp0 hba
  obtain ⟨lb, pb, sb, cb, _, tb⟩ :=
    solo_quanta 100 30000000 (by decide) 300000 la 0 sa (by rw [ca, qa]) (by norm_num)
  have hW : (0 : Int) + ((300000 : Nat) : Int) * ((100 : Nat) : Int) = 30000000 := by norm_num
  rw [hW] at sb
  obtain ⟨lc, hbc, nc, cc, _, tc⟩ := solo_exit _ 30000000 lb sb
  have pc : passes (1 + 300000 * 100 + 1) l0 = .ok lc :=
    passes_append _ 1 lc l0 lb (passes_append 1 _ lb l0 la pa pb)
      (passes_one lb lc (by rw [sb.2.1]; decide) hbc)
  have hrun : run (1 + 300000 * 100 + 1 + 0) scenario_long 0 = .ok lc :=
    run_of_passes _ 0 _ 0 l0 lc h0 pc (by omega)
  have hfuel : 1 + 300000 * 100 + 1 + 0 = 30000002 := by norm_num
  rw [hfuel] at hrun
  have ht : lc.total_time_on_CPU = 30000000 := by rw [tc, tb, ta]; norm_num
  have hc : lc.sim.USECS_SINCE_REBOOT = 34500006 := by rw [cc, cb, ca]; norm_num
  refine ⟨lc, hrun, ht, hc, ?_, ?_, ?_, ?_, ?_⟩
  · rw [hc]; norm_num
  · rw [hc]; norm_num
  · rw [ht]; norm_num
  · rw [ht, hc]
    unfold utilization
    decide
  · rw [ht, hc]
    norm_num

/-! ## The drain of the WAITING queue -/

/-- The records after `mark_ready`. -/
theorem mark_ready_apply (l : List Int) :
    ∀ (procs : Int → Process) (r : Int),
      mark_ready procs l r
        = if r ∈ l then { procs r with state := STATE_READY } else procs r := by
  induction l with
  | nil => intro procs r; simp [mark_ready]
  | cons e l ih =>
    intro procs r
    have h := ih (store procs e { procs e with state := STATE_READY }) r
    simp only [mark_ready, List.foldl_cons] at h ⊢
    rw [h]
    by_cases hre : r = e
    · subst hre
      by_cases hl : r ∈ l <;> simp [hl]
    · by_cases hl : r ∈ l <;> simp [hl, hre, store_other _ _ _ _ hre]

/-- The drain of the WAITING queue from index `w`, for a queue whose entries
from there on are pairwise distinct: the entries that wait without a child left
move to the READY queue, in their order; the others stay, in their order. -/
theorem unblock_WAITING_loop_spec (rest : List Int) :
    ∀ (pre : List Int) (fuel : Nat) (w : Int) (s : Sim),
      view s.WAITING_queue s.nwaiting = pre ++ rest →
      (pre.length : Int) = w → rest.length ≤ fuel → 0 ≤ s.nready → rest.Nodup →
      let s' := unblock_WAITING_loop fuel w s
      view s'.WAITING_queue s'.nwaiting
        = pre ++ rest.filter (fun p => !ready_to_go s.processes p) ∧
      view s'.READY_queue s'.nready
        = view s.READY_queue s.nready ++ rest.filter (ready_to_go s.processes) ∧
      s' = { s with
             USECS_SINCE_REBOOT := s.USECS_SINCE_REBOOT
               + TIME_CORE_STATE_TRANSITIONS
                 * ((rest.filter (ready_to_go s.processes)).length : Int)
             processes := mark_ready s.processes (rest.filter (ready_to_go s.processes))
             READY_queue := s'.READY_queue
             nready := s.nready + ((rest.filter (ready_to_go s.processes)).length : Int)
             WAITING_queue := s'.WAITING_queue
             nwaiting := s.nwaiting - ((rest.filter (ready_to_go s.processes)).length : Int) } := by
  induction rest with
  | nil =>
    intro pre fuel w s hv hw _ _ _
    have hn : ¬ w < s.nwaiting := by
      have hl : (view s.WAITING_queue s.nwaiting).length = pre.length := by simp [hv]
      rw [view_length] at hl
      omega
    have hs : unblock_WAITING_loop fuel w s = s := by
      cases fuel with
      | zero => rfl
      | succ n => rw [unblock_WAITING_loop, if_neg hn]
    simp only [hs]
    simp [hv, mark_ready]
  | cons e rest ih =>
    intro pre fuel w s hv hw hf hr hnd
    obtain ⟨hcell, hlt⟩ := view_split_cell _ _ _ _ _ _ hv hw
    obtain ⟨hnot, hnd2⟩ := List.nodup_cons.1 hnd
    cases fuel with
    | zero => simp at hf
    | succ n =>
      have hf2 : rest.length ≤ n := by simpa using hf
      have hw0 : 0 ≤ w := by omega
      by_cases hd : (s.processes (s.WAITING_queue w)).state = STATE_WAITING ∧
          (s.processes (s.WAITING_queue w)).nchildren = 0
      · -- the entry moves to READY and the loop stays at index `w`
        have hde : ready_to_go s.processes e = true := by
          simp only [ready_to_go, ← hcell]
          exact decide_eq_true hd
        have hcongr : ∀ x ∈ rest,
            ready_to_go (store s.processes e { s.processes e with state := STATE_READY }) x
              = ready_to_go s.processes x := by
          intro x hx
          have hxe : x ≠ e := fun h => hnot (h ▸ hx)
          simp only [ready_to_go, store_other _ _ _ _ hxe]
        have hf1 : rest.filter
              (ready_to_go (store s.processes e { s.processes e with state := STATE_READY }))
            = rest.filter (ready_to_go s.processes) :=
          List.filter_congr hcongr
        have hf0 : rest.filter (fun p =>
              !ready_to_go (store s.processes e { s.processes e with state := STATE_READY }) p)
            = rest.filter (fun p => !ready_to_go s.processes p) :=
          List.filter_congr (fun x hx => by rw [hcongr x hx])
        have key := ih pre n w
          { advance_time (append_to_READY_queue s (s.WAITING_queue w))
              TIME_CORE_STATE_TRANSITIONS with
            WAITING_queue := slide_left s.WAITING_queue w s.nwaiting
            nwaiting := s.nwaiting - 1 }
          (by
            show view (slide_left s.WAITING_queue w s.nwaiting) (s.nwaiting - 1) = pre ++ rest
            rw [view_slide_left _ _ _ hw0 hlt, hv, ← hw]
            simpa using eraseIdx_append_cons pre e rest)
          hw hf2
          (by show 0 ≤ s.nready + 1; omega) hnd2
        rw [unblock_WAITING_loop, if_pos hlt]
        simp only
        rw [if_pos hd]
        have hww : w - 1 + 1 = w := by omega
        simp only [hww]
        simp only [advance_time, append_to_READY_queue, hcell] at key ⊢
        rw [hf1, hf0] at key
        obtain ⟨k1, k2, k3⟩ := key
        refine ⟨?_, ?_, ?_⟩
        · rw [k1]
          simp [hde]
        · rw [k2, view_store_append _ _ _ hr]
          simp [hde]
        · rw [k3]
          simp only [List.filter_cons, hde, if_true, List.length_cons, mark_ready,
            List.foldl_cons]
          congr 1
          · push_cast
            ring
          · push_cast
            ring
          · push_cast
            ring
      · -- the entry stays: the loop moves on to index `w + 1`
        have hde : ready_to_go s.processes e = false := by
          simp only [ready_to_go, ← hcell]
          exact decide_eq_false hd
        have key := ih (pre ++ [e]) n (w + 1) s (by simpa using hv) (by simp; omega) hf2 hr hnd2
        rw [unblock_WAITING_loop, if_pos hlt]
        simp only
        rw [if_neg hd]
        simp only at key ⊢
        obtain ⟨k1, k2, k3⟩ := key
        refine ⟨?_, ?_, ?_⟩
        · rw [k1]
          simp [hde]
        · rw [k2]
          simp [hde]
        · rw [k3]
          simp [hde]

/-- The drain of a WAITING queue with pairwise distinct entries. -/
theorem unblock_WAITING_spec (s : Sim) (hr : 0 ≤ s.nready)
    (hnd : (view s.WAITING_queue s.nwaiting).Nodup) :
    view (unblock_WAITING s).WAITING_queue (unblock_WAITING s).nwaiting
      = (view s.WAITING_queue s.nwaiting).filter (fun p => !ready_to_go s.processes p) ∧
    view (unblock_WAITING s).READY_queue (unblock_WAITING s).nready
      = view s.READY_queue s.nready
        ++ (view s.WAITING_queue s.nwaiting).filter (ready_to_go s.processes) ∧
    unblock_WAITING s
      = { s with
          USECS_SINCE_REBOOT := s.USECS_SINCE_REBOOT
            + TIME_CORE_STATE_TRANSITIONS
              * (((view s.WAITING_queue s.nwaiting).filter (ready_to_go s.processes)).length : Int)
          processes := mark_ready s.processes
            ((view s.WAITING_queue s.nwaiting).filter (ready_to_go s.processes))
          READY_queue := (unblock_WAITING s).READY_queue
          nready := (unblock_WAITING s).nready
          WAITING_queue := (unblock_WAITING s).WAITING_queue
          nwaiting := (unblock_WAITING s).nwaiting } := by
  have key := unblock_WAITING_loop_spec (view s.WAITING_queue s.nwaiting)
    [] s.nwaiting.toNat 0 s (by simp) (by simp) (by simp) hr hnd
  simp only [List.nil_append] at key
  obtain ⟨k1, k2, k3⟩ := key
  refine ⟨k1, k2, ?_⟩
  unfold unblock_WAITING
  rw [k3]

/-! ## Counting slots -/

theorem cnt_nil (r : Int) : cnt r [] = 0 := rfl

theorem cnt_cons (r e : Int) (l : List Int) :
    cnt r (e :: l) = (if r = e then 1 else 0) + cnt r l := by
  unfold cnt
  rw [List.count_cons]
  by_cases h : r = e
  · subst h
    simp
    ring
  · have : ¬ e = r := fun h2 => h h2.symm
    simp [h, this]

theorem cnt_append (r : Int) (a b : List Int) : cnt r (a ++ b) = cnt r a + cnt r b := by
  unfold cnt
  rw [List.count_append]
  push_cast
  rfl

theorem cnt_singleton (r e : Int) : cnt r [e] = if r = e then 1 else 0 := by
  rw [cnt_cons, cnt_nil, add_zero]

theorem cnt_nonneg (r : Int) (l : List Int) : 0 ≤ cnt r l := by
  unfold cnt
  exact Int.natCast_nonneg _

theorem cnt_pos_iff (r : Int) (l : List Int) : 0 < cnt r l ↔ r ∈ l := by
  unfold cnt
  rw [Int.natCast_pos, List.count_pos_iff]

theorem cnt_le_one_nodup (l : List Int) (h : ∀ r, cnt r l ≤ 1) : l.Nodup := by
  rw [List.nodup_iff_count_le_one]
  intro r
  have := h r
  unfold cnt at this
  exact_mod_cast this

/-- A filter and its complement split the occurrences. -/
theorem cnt_filter_split {α : Type} (g : α → Int) (f : α → Bool) (r : Int) (l : List α) :
    cnt r ((l.filter f).map g) + cnt r ((l.filter (fun x => !f x)).map g) = cnt r (l.map g) := by
  induction l with
  | nil => simp [cnt_nil]
  | cons e l ih =>
    by_cases h : f e = true
    · simp only [List.filter_cons, h, if_true, List.map_cons, cnt_cons, Bool.not_true]
      simp only [Bool.false_eq_true, if_false]
      omega
    · have h2 : f e = false := by simpa using h
      simp only [List.filter_cons, h2, List.map_cons, cnt_cons, Bool.not_false, if_true]
      simp only [Bool.false_eq_true, if_false]
      omega

theorem range_sum_congr (n : Int) (f g : Int → Int)
    (h : ∀ d : Int, 0 ≤ d → d < n → f d = g d) : range_sum n f = range_sum n g := by
  unfold range_sum
  congr 1
  apply List.map_congr_left
  intro k hk
  rw [List.mem_range] at hk
  exact h k (by omega) (by omega)

theorem range_sum_succ (m : Nat) (f : Int → Int) :
    range_sum ((m : Int) + 1) f = range_sum m f + f m := by
  unfold range_sum
  have : ((m : Int) + 1).toNat = m + 1 := by omega
  rw [this, List.range_succ]
  simp

/-- The sum after a change of one term. -/
theorem range_sum_update (n : Int) (f g : Int → Int) (q : Int) (h0 : 0 ≤ q) (h1 : q < n)
    (h : ∀ d : Int, d ≠ q → g d = f d) : range_sum n g = range_sum n f + (g q - f q) := by
  obtain ⟨m, rfl⟩ : ∃ m : Nat, n = m := ⟨n.toNat, by omega⟩
  induction m with
  | zero => omega
  | succ m ih =>
    push_cast at h1 ⊢
    rw [range_sum_succ, range_sum_succ]
    by_cases hq : q = m
    · have hc : range_sum m g = range_sum m f :=
        range_sum_congr _ _ _ (fun d _ hd => h d (by omega))
      rw [hc, hq]
      ring
    · rw [ih (by omega), h m (fun h2 => hq h2.symm)]
      ring

theorem range_sum_nonneg (n : Int) (f : Int → Int) (h : ∀ d : Int, 0 ≤ d → d < n → 0 ≤ f d) :
    0 ≤ range_sum n f := by
  unfold range_sum
  apply List.sum_nonneg
  intro x hx
  rw [List.mem_map] at hx
  obtain ⟨k, hk, rfl⟩ := hx
  rw [List.mem_range] at hk
  exact h k (by omega) (by omega)

/-- A term of a sum of non-negative terms is at most the sum. -/
theorem range_sum_ge (n : Int) (f : Int → Int) (h : ∀ d : Int, 0 ≤ d → d < n → 0 ≤ f d)
    (q : Int) (h0 : 0 ≤ q) (h1 : q < n) : f q ≤ range_sum n f := by
  have hu := range_sum_update n f (fun d => if d = q then 0 else f d) q h0 h1
    (fun d hd => by simp [hd])
  have hn := range_sum_nonneg n (fun d => if d = q then 0 else f d) (fun d d0 d1 => by
    show 0 ≤ if d = q then 0 else f d
    split
    · exact le_refl _
    · exact h d d0 d1)
  simp only [if_true] at hu
  omega

theorem range_sum_zero (n : Int) (f : Int → Int) (h : ∀ d : Int, 0 ≤ d → d < n → f d = 0) :
    range_sum n f = 0 := by
  rw [range_sum_congr n f (fun _ => 0) h]
  unfold range_sum
  simp

/-! ## The invariant of the process table and the queues -/

theorem live_congr (s s2 : Sim) (h : ∀ r : Int, (s2.processes r).pid = (s.processes r).pid)
    (r : Int) : live s2 r ↔ live s r := by
  unfold live
  rw [h r]

theorem live_children_congr (s s2 : Sim)
    (h : ∀ r : Int, (s2.processes r).pid = (s.processes r).pid ∧
      (s2.processes r).ppid = (s.processes r).ppid) (x : Int) :
    live_children s2 x = live_children s x := by
  unfold live_children
  apply range_sum_congr
  intro d _ _
  rw [(h d).1, (h d).2]

theorem live_count_congr (s s2 : Sim)
    (h : ∀ r : Int, (s2.processes r).pid = (s.processes r).pid) :
    live_count s2 = live_count s := by
  unfold live_count
  apply range_sum_congr
  intro d _ _
  rw [h d]

/-- The terms of `queued` are not negative. -/
theorem queued_terms_nonneg (s : Sim) (r : Int) :
    0 ≤ cnt r (view s.READY_queue s.nready) ∧
    0 ≤ cnt r ((view s.SLEEPING_queue s.nsleeping).map Sleeper.proc) ∧
    0 ≤ cnt r (view s.WAITING_queue s.nwaiting) ∧
    0 ≤ range_sum s.ndevices (fun d => cnt r (blocked_list (s.devices d))) :=
  ⟨cnt_nonneg _ _, cnt_nonneg _ _, cnt_nonneg _ _,
    range_sum_nonneg _ _ (fun _ _ _ => cnt_nonneg _ _)⟩

theorem on_cpu_nonneg (cpu r : Int) : 0 ≤ on_cpu cpu r ∧ on_cpu cpu r ≤ 1 := by
  unfold on_cpu
  split <;> omega

theorem on_cpu_unknown (r : Int) : on_cpu UNKNOWN r = 0 := by
  unfold on_cpu
  rw [if_neg]
  exact fun h => h.1 rfl

theorem on_cpu_known (cpu r : Int) (h : cpu ≠ UNKNOWN) :
    on_cpu cpu r = if r = cpu then 1 else 0 := by
  unfold on_cpu
  by_cases hr : r = cpu
  · rw [if_pos hr, if_pos ⟨h, hr.symm⟩]
  · rw [if_neg hr, if_neg (fun h2 => hr h2.2.symm)]

/-- An operation that creates and ends no process, keeps the counts of children
and moves slots between the places without loss keeps the invariant. -/
theorem core_inv_move (s s2 : Sim) (cpu cpu2 : Int) (hi : core_inv s cpu)
    (hrec : ∀ r : Int, (s2.processes r).pid = (s.processes r).pid ∧
      (s2.processes r).ppid = (s.processes r).ppid ∧
      (s2.processes r).nchildren = (s.processes r).nchildren)
    (hn : s2.nprocesses = s.nprocesses)
    (hq : ∀ r : Int, on_cpu cpu2 r + queued s2 r = on_cpu cpu r + queued s r)
    (hw : ∀ p ∈ view s2.WAITING_queue s2.nwaiting, (s2.processes p).state = STATE_WAITING)
    (hd : ∀ d : Int, 0 ≤ d → d < s2.ndevices → 0 ≤ (s2.devices d).nblocked) :
    core_inv s2 cpu2 := by
  have hpid := fun r => (hrec r).1
  have hpp : ∀ r : Int, (s2.processes r).pid = (s.processes r).pid ∧
      (s2.processes r).ppid = (s.processes r).ppid := fun r => ⟨(hrec r).1, (hrec r).2.1⟩
  refine ⟨?_, ?_, ?_, ?_, hw, hd⟩
  · intro r hr
    rw [(hrec r).1, (hrec r).2.1]
    exact hi.parent r ((live_congr s s2 hpid r).1 hr)
  · intro r hr
    rw [(hrec r).1, (hrec r).2.2, live_children_congr s s2 hpp]
    exact hi.children r ((live_congr s s2 hpid r).1 hr)
  · intro r
    rw [hq r, hi.placed r]
    by_cases hl : live s r
    · rw [if_pos hl, if_pos ((live_congr s s2 hpid r).2 hl)]
    · rw [if_neg hl, if_neg (fun h => hl ((live_congr s s2 hpid r).1 h))]
  · rw [hn, live_count_congr s s2 hpid]
    exact hi.count

/-- What the invariant says about one slot: it is in at most one place, and in
one only if it is live. -/
theorem placed_bounds (s : Sim) (cpu : Int) (hi : core_inv s cpu) (r : Int) :
    on_cpu cpu r + cnt r (view s.READY_queue s.nready)
      + cnt r ((view s.SLEEPING_queue s.nsleeping).map Sleeper.proc)
      + cnt r (view s.WAITING_queue s.nwaiting)
      + range_sum s.ndevices (fun d => cnt r (blocked_list (s.devices d)))
      = (if live s r then 1 else 0) := by
  have := hi.placed r
  unfold queued at this
  omega

/-- A slot that is somewhere is live. -/
theorem live_of_placed (s : Sim) (cpu : Int) (hi : core_inv s cpu) (r : Int)
    (h : 0 < on_cpu cpu r + queued s r) : live s r := by
  have := hi.placed r
  by_contra hl
  rw [if_neg hl] at this
  omega

theorem live_on_CPU (s : Sim) (cpu : Int) (hi : core_inv s cpu) (h : cpu ≠ UNKNOWN) :
    live s cpu := by
  apply live_of_placed s cpu hi
  have h1 : on_cpu cpu cpu = 1 := by rw [on_cpu_known _ _ h, if_pos rfl]
  have := queued_terms_nonneg s cpu
  unfold queued
  omega

/-- A slot on the CPU is in no queue. -/
theorem queued_on_CPU (s : Sim) (cpu : Int) (hi : core_inv s cpu) (h : cpu ≠ UNKNOWN) :
    queued s cpu = 0 := by
  have h1 : on_cpu cpu cpu = 1 := by rw [on_cpu_known _ _ h, if_pos rfl]
  have h2 := hi.placed cpu
  have := queued_terms_nonneg s cpu
  unfold queued at h2 ⊢
  split at h2 <;> omega

theorem not_waiting_of_queued_zero (s : Sim) (r : Int) (h : queued s r = 0) :
    r ∉ view s.WAITING_queue s.nwaiting := by
  intro hm
  have h1 := (cnt_pos_iff r _).2 hm
  have := queued_terms_nonneg s r
  unfold queued at h
  omega

/-! ## The operations on the queues, slot by slot -/

theorem queued_same (s s2 : Sim) (h : same_queues s s2) (r : Int) : queued s2 r = queued s r := by
  obtain ⟨h1, h2, h3, h4, h5, h6, h7, h8⟩ := h
  unfold queued
  rw [h1, h2, h3, h4, h5, h6, h7, h8]

/-- A non-empty array view is its first cell followed by the view of the array
slid left. -/
theorem view_cons_slide {α : Type} (a : Int → α) (n : Int) (h : 0 < n) :
    view a n = a 0 :: view (slide_left a 0 n) (n - 1) := by
  rw [view_slide_left_zero _ _ h]
  obtain ⟨m, hm⟩ : ∃ m : Nat, n = (m : Int) + 1 := ⟨(n - 1).toNat, by omega⟩
  rw [hm]
  have : ((m : Int) + 1).toNat = m + 1 := by omega
  simp [view, this, List.range_succ_eq_map]

theorem queued_append_READY (s : Sim) (p r : Int) (h : 0 ≤ s.nready) :
    queued (append_to_READY_queue s p) r = queued s r + (if r = p then 1 else 0) := by
  unfold queued
  show cnt r (view (store s.READY_queue s.nready p) (s.nready + 1)) + _ + _ + _ = _
  rw [view_store_append _ _ _ h, cnt_append, cnt_singleton]
  show _ + cnt r ((view s.SLEEPING_queue s.nsleeping).map Sleeper.proc)
    + cnt r (view s.WAITING_queue s.nwaiting)
    + range_sum s.ndevices (fun d => cnt r (blocked_list (s.devices d))) = _
  ring

theorem queued_append_WAITING (s : Sim) (p r : Int) (h : 0 ≤ s.nwaiting) :
    queued (append_to_WAITING_queue s p) r = queued s r + (if r = p then 1 else 0) := by
  unfold queued
  show _ + _ + cnt r (view (store s.WAITING_queue s.nwaiting p) (s.nwaiting + 1)) + _ = _
  rw [view_store_append _ _ _ h, cnt_append, cnt_singleton]
  show cnt r (view s.READY_queue s.nready)
    + cnt r ((view s.SLEEPING_queue s.nsleeping).map Sleeper.proc) + _
    + range_sum s.ndevices (fun d => cnt r (blocked_list (s.devices d))) = _
  ring

theorem queued_append_SLEEPING (s : Sim) (p D r : Int) (h : 0 ≤ s.nsleeping) :
    queued (append_to_SLEEPING_queue s p D) r = queued s r + (if r = p then 1 else 0) := by
  unfold queued
  show _ + cnt r ((view (store s.SLEEPING_queue s.nsleeping
      { proc := p, until_ := s.USECS_SINCE_REBOOT + D + 1 }) (s.nsleeping + 1)).map Sleeper.proc)
    + _ + _ = _
  rw [view_store_append _ _ _ h, List.map_append, cnt_append, List.map_singleton, cnt_singleton]
  show cnt r (view s.READY_queue s.nready) + _
    + cnt r (view s.WAITING_queue s.nwaiting)
    + range_sum s.ndevices (fun d => cnt r (blocked_list (s.devices d))) = _
  ring

theorem queued_io_block (s : Sim) (p sc d n r : Int) (h0 : 0 ≤ d) (h1 : d < s.ndevices)
    (hn : 0 ≤ (s.devices d).nblocked) :
    queued (append_to_IO_BLOCKED_queue s p sc d n) r
      = queued s r + (if r = p then 1 else 0) := by
  unfold queued
  have hsum := range_sum_update s.ndevices
    (fun k => cnt r (blocked_list (s.devices k)))
    (fun k => cnt r (blocked_list ((append_to_IO_BLOCKED_queue s p sc d n).devices k)))
    d h0 h1 (fun k hk => by
      show cnt r (blocked_list (store _ d _ k)) = _
      rw [store_other _ _ _ _ hk]
      rfl)
  have hterm : cnt r (blocked_list ((append_to_IO_BLOCKED_queue s p sc d n).devices d))
      = cnt r (blocked_list (s.devices d)) + (if r = p then 1 else 0) := by
    show cnt r (blocked_list (store _ d _ d)) = _
    rw [store_same]
    show cnt r ((view (store (s.devices d).blocked (s.devices d).nblocked _)
      ((s.devices d).nblocked + 1)).map Blocked.proc) = _
    rw [view_store_append _ _ _ hn, List.map_append, cnt_append, List.map_singleton,
      cnt_singleton]
    rfl
  simp only [hterm] at hsum
  show cnt r (view s.READY_queue s.nready)
    + cnt r ((view s.SLEEPING_queue s.nsleeping).map Sleeper.proc)
    + cnt r (view s.WAITING_queue s.nwaiting)
    + range_sum s.ndevices
        (fun k => cnt r (blocked_list ((append_to_IO_BLOCKED_queue s p sc d n).devices k))) = _
  rw [hsum]
  ring

theorem queued_dequeue (s : Sim) (r : Int) (h : 0 < s.nready) :
    queued (dequeue_READY_queue s).2 r
      = queued s r - (if r = s.READY_queue 0 then 1 else 0) := by
  have hd : (dequeue_READY_queue s).2
      = { advance_time s TIME_CONTEXT_SWITCH with
          READY_queue := slide_left s.READY_queue 0 s.nready
          nready := s.nready - 1 } := by
    unfold dequeue_READY_queue
    rw [if_pos h]
    rfl
  rw [hd]
  unfold queued
  rw [view_cons_slide s.READY_queue s.nready h, cnt_cons]
  show cnt r (view (slide_left s.READY_queue 0 s.nready) (s.nready - 1))
    + cnt r ((view s.SLEEPING_queue s.nsleeping).map Sleeper.proc)
    + cnt r (view s.WAITING_queue s.nwaiting)
    + range_sum s.ndevices (fun d => cnt r (blocked_list (s.devices d))) = _
  ring

/-- A completed transfer moves the head of the owner's queue to the READY queue. -/
theorem queued_io_done (s : Sim) (r : Int) (hr : 0 ≤ s.nready) (hb : bus_ok s) :
    queued ( unblock_completed_IO s) r = queued s r := by
  by_cases hcond : s.device_owning_databus ≠ UNKNOWN ∧
      s.databus_inuse_until ≤ s.USECS_SINCE_REBOOT
  · obtain ⟨h0, h1, h2⟩ : 0 ≤ s.device_owning_databus ∧ s.device_owning_databus < s.ndevices ∧
        0 < (s.devices s.device_owning_databus).nblocked := by
      rcases hb with hb | hb
      · exact absurd hb hcond.1
      · exact hb
    have he : unblock_completed_IO s
        = { advance_time (append_to_READY_queue s
              ((s.devices s.device_owning_databus).blocked 0).proc)
              TIME_CORE_STATE_TRANSITIONS with
            devices := store s.devices s.device_owning_databus
              { s.devices s.device_owning_databus with
                blocked := slide_left (s.devices s.device_owning_databus).blocked 0
                  (s.devices s.device_owning_databus).nblocked
                nblocked := (s.devices s.device_owning_databus).nblocked - 1 }
            nblocked := s.nblocked - 1
            device_owning_databus := UNKNOWN
            databus_inuse_until := UNKNOWN } := by
      unfold unblock_completed_IO
      rw [if_pos hcond]
      rfl
    rw [he]
    have hsum := range_sum_update s.ndevices
      (fun k => cnt r (blocked_list (s.devices k)))
      (fun k => cnt r (blocked_list (store s.devices s.device_owning_databus
        { s.devices s.device_owning_databus with
          blocked := slide_left (s.devices s.device_owning_databus).blocked 0
            (s.devices s.device_owning_databus).nblocked
          nblocked := (s.devices s.device_owning_databus).nblocked - 1 } k)))
      s.device_owning_databus h0 h1 (fun k hk => by
        show cnt r (blocked_list (store _ _ _ k)) = _
        rw [store_other _ _ _ _ hk])
    simp only [store_same] at hsum
    have hterm : cnt r (blocked_list (s.devices s.device_owning_databus))
        = (if r = ((s.devices s.device_owning_databus).blocked 0).proc then 1 else 0)
          + cnt r (blocked_list
              { s.devices s.device_owning_databus with
                blocked := slide_left (s.devices s.device_owning_databus).blocked 0
                  (s.devices s.device_owning_databus).nblocked
                nblocked := (s.devices s.device_owning_databus).nblocked - 1 }) := by
      unfold blocked_list
      rw [view_cons_slide _ _ h2, List.map_cons, cnt_cons]
    unfold queued
    show cnt r (view (store s.READY_queue s.nready _) (s.nready + 1))
      + cnt r ((view s.SLEEPING_queue s.nsleeping).map Sleeper.proc)
      + cnt r (view s.WAITING_queue s.nwaiting)
      + range_sum s.ndevices (fun k => cnt r (blocked_list (store s.devices
          s.device_owning_databus _ k))) = _
    rw [view_store_append _ _ _ hr, cnt_append, cnt_singleton, hsum]
    dsimp only at hterm ⊢
    omega
  · unfold unblock_completed_IO
    rw [if_neg hcond]

theorem queued_unblock_SLEEPING (s : Sim) (r : Int) (hr : 0 ≤ s.nready) :
    queued (unblock_SLEEPING s) r = queued s r := by
  obtain ⟨h1, h2, _⟩ := unblock_SLEEPING_spec s hr
  have hw : (unblock_SLEEPING s).WAITING_queue = s.WAITING_queue ∧
      (unblock_SLEEPING s).nwaiting = s.nwaiting ∧
      (unblock_SLEEPING s).devices = s.devices ∧ (unblock_SLEEPING s).ndevices = s.ndevices := by
    have key := unblock_SLEEPING_loop_spec s.USECS_SINCE_REBOOT
      (view s.SLEEPING_queue s.nsleeping) [] s.nsleeping.toNat 0 s (by simp) (by simp) (by simp) hr
    obtain ⟨_, _, k3⟩ := key
    unfold unblock_SLEEPING
    rw [k3]
    exact ⟨rfl, rfl, rfl, rfl⟩
  unfold queued
  rw [h1, h2, hw.1, hw.2.1, hw.2.2.1, hw.2.2.2, cnt_append]
  have := cnt_filter_split Sleeper.proc (due s.USECS_SINCE_REBOOT) r
    (view s.SLEEPING_queue s.nsleeping)
  omega

theorem queued_unblock_WAITING (s : Sim) (r : Int) (hr : 0 ≤ s.nready)
    (hnd : (view s.WAITING_queue s.nwaiting).Nodup) :
    queued (unblock_WAITING s) r = queued s r := by
  obtain ⟨h1, h2, h3⟩ := unblock_WAITING_spec s hr hnd
  have hw : (unblock_WAITING s).SLEEPING_queue = s.SLEEPING_queue ∧
      (unblock_WAITING s).nsleeping = s.nsleeping ∧
      (unblock_WAITING s).devices = s.devices ∧ (unblock_WAITING s).ndevices = s.ndevices := by
    rw [h3]
    exact ⟨rfl, rfl, rfl, rfl⟩
  unfold queued
  rw [h1, h2, hw.1, hw.2.1, hw.2.2.1, hw.2.2.2, cnt_append]
  have := cnt_filter_split (fun x : Int => x) (ready_to_go s.processes) r
    (view s.WAITING_queue s.nwaiting)
  simp only [List.map_id'] at this
  omega

/-! ## Spawn and exit keep the invariant -/

/-- The effect of `spawn_in_slot` on an unused slot `q` of the table. -/
theorem spawn_in_slot_effect (s : Sim) (q c pp : Int) (hn : 0 ≤ s.next_pid)
    (hq0 : 0 ≤ q) (hq1 : q < MAX_RUNNING_PROCESSES) (hqu : (s.processes q).pid = UNKNOWN)
    (hr : 0 ≤ s.nready) :
    (∀ r : Int, live (spawn_in_slot s q c pp) r ↔ live s r ∨ r = q) ∧
    (∀ x : Int, live_children (spawn_in_slot s q c pp) x
      = live_children s x + if pp = x then 1 else 0) ∧
    live_count (spawn_in_slot s q c pp) = live_count s + 1 ∧
    (∀ r : Int, queued (spawn_in_slot s q c pp) r = queued s r + if r = q then 1 else 0) := by
  have hne : s.next_pid ≠ UNKNOWN := by
    unfold UNKNOWN
    omega
  refine ⟨?_, ?_, ?_, ?_⟩
  · intro r
    unfold live
    rw [spawn_in_slot_processes]
    by_cases hrq : r = q
    · rw [if_pos hrq]
      subst hrq
      simp [hq0, hq1, hne]
    · rw [if_neg hrq]
      simp [hrq]
  · intro x
    unfold live_children
    rw [range_sum_update _ _ _ q hq0 hq1 (fun d hd => by
      show (if ((spawn_in_slot s q c pp).processes d).pid ≠ UNKNOWN ∧
          ((spawn_in_slot s q c pp).processes d).ppid = x then (1 : Int) else 0) = _
      rw [spawn_in_slot_processes, if_neg hd])]
    simp only [spawn_in_slot_processes, if_true, hqu]
    simp [hne]
  · unfold live_count
    rw [range_sum_update _ _ _ q hq0 hq1 (fun d hd => by
      show (if ((spawn_in_slot s q c pp).processes d).pid ≠ UNKNOWN then (1 : Int) else 0) = _
      rw [spawn_in_slot_processes, if_neg hd])]
    simp only [spawn_in_slot_processes, if_true, hqu]
    simp [hne]
  · intro r
    have h1 := queued_append_READY
      { s with
        processes := store s.processes q
          { state := STATE_READY, pid := s.next_pid, ppid := pp, command := c,
            next_syscall := 0, time_on_CPU := 0, nchildren := 0 }
        next_pid := s.next_pid + 1
        nprocesses := s.nprocesses + 1 } q r hr
    have h2 : queued
        { s with
          processes := store s.processes q
            { state := STATE_READY, pid := s.next_pid, ppid := pp, command := c,
              next_syscall := 0, time_on_CPU := 0, nchildren := 0 }
          next_pid := s.next_pid + 1
          nprocesses := s.nprocesses + 1 } r = queued s r :=
      queued_same _ _ ⟨rfl, rfl, rfl, rfl, rfl, rfl, rfl, rfl⟩ r
    rw [h2] at h1
    exact h1

/-- No live process has a parent id as high as `next_pid`. -/
theorem live_children_next_pid (s : Sim) (cpu : Int) (hi : core_inv s cpu) (hp : pids_ok s)
    (x : Int) (hx : s.next_pid ≤ x) : live_children s x = 0 := by
  unfold live_children
  apply range_sum_zero
  intro d d0 d1
  rw [if_neg]
  rintro ⟨h1, h2⟩
  have := hi.parent d ⟨d0, d1, h1⟩
  have := hp.2.1 d d0 d1
  omega

/-- The spawn of the root process keeps the invariant. -/
theorem core_inv_spawn_root (s : Sim) (q c : Int) (hi : core_inv s UNKNOWN) (hp : pids_ok s)
    (hq0 : 0 ≤ q) (hq1 : q < MAX_RUNNING_PROCESSES) (hqu : (s.processes q).pid = UNKNOWN)
    (hr : 0 ≤ s.nready) :
    core_inv (spawn_in_slot s q c UNKNOWN) UNKNOWN := by
  obtain ⟨e1, e2, e3, e4⟩ := spawn_in_slot_effect s q c UNKNOWN hp.1 hq0 hq1 hqu hr
  have hnl : ¬ live s q := fun h => h.2.2 hqu
  have hqz : queued s q = 0 := by
    have := hi.placed q
    rw [if_neg hnl, on_cpu_unknown] at this
    omega
  refine ⟨?_, ?_, ?_, ?_, ?_, ?_⟩
  · intro r hl
    rw [spawn_in_slot_processes]
    by_cases hrq : r = q
    · rw [if_pos hrq]
      show UNKNOWN < s.next_pid
      have := hp.1
      unfold UNKNOWN
      omega
    · rw [if_neg hrq]
      rcases (e1 r).1 hl with h | h
      · exact hi.parent r h
      · exact absurd h hrq
  · intro r hl
    rw [e2, spawn_in_slot_processes]
    by_cases hrq : r = q
    · rw [if_pos hrq]
      show (0 : Int) = live_children s s.next_pid + _
      rw [live_children_next_pid s _ hi hp _ (le_refl _), if_neg]
      · rfl
      · have := hp.1
        show ¬ UNKNOWN = s.next_pid
        unfold UNKNOWN
        omega
    · rw [if_neg hrq]
      rcases (e1 r).1 hl with h | h
      · rw [hi.children r h, if_neg (fun h2 => h.2.2 h2.symm), add_zero]
      · exact absurd h hrq
  · intro r
    rw [e4, on_cpu_unknown]
    have := hi.placed r
    rw [on_cpu_unknown] at this
    by_cases hrq : r = q
    · subst hrq
      rw [if_pos rfl, if_pos ((e1 r).2 (Or.inr rfl)), hqz]
      rfl
    · rw [if_neg hrq]
      by_cases hl : live s r
      · rw [if_pos ((e1 r).2 (Or.inl hl))]
        rw [if_pos hl] at this
        omega
      · rw [if_neg (fun h => (e1 r).1 h |>.elim hl hrq)]
        rw [if_neg hl] at this
        omega
  · rw [e3]
    show s.nprocesses + 1 = _
    rw [hi.count]
  · intro p hpw
    have hp2 : p ∈ view s.WAITING_queue s.nwaiting := hpw
    have hpq : p ≠ q := by
      intro h
      rw [h] at hp2
      exact not_waiting_of_queued_zero s q hqz hp2
    rw [spawn_in_slot_processes, if_neg hpq]
    exact hi.waiting p hp2
  · exact hi.device_counts

/-- The dispatch of a spawn by the process on the CPU keeps the invariant. -/
theorem core_inv_spawn (s : Sim) (p q c : Int) (hi : core_inv s p) (hp : pids_ok s)
    (hcpu : p ≠ UNKNOWN)
    (hq0 : 0 ≤ q) (hq1 : q < MAX_RUNNING_PROCESSES) (hqu : (s.processes q).pid = UNKNOWN)
    (hr : 0 ≤ s.nready) :
    core_inv
      (advance_time
        (append_to_READY_queue (incr_nchildren (spawn_in_slot s q c (s.processes p).pid) p) p)
        TIME_CORE_STATE_TRANSITIONS) UNKNOWN := by
  obtain ⟨e1, e2, e3, e4⟩ := spawn_in_slot_effect s q c (s.processes p).pid hp.1 hq0 hq1 hqu hr
  have hlp : live s p := live_on_CPU s p hi hcpu
  have hnl : ¬ live s q := fun h => h.2.2 hqu
  have hpq : p ≠ q := fun h => hnl (h ▸ hlp)
  have hqz : queued s q = 0 := by
    have := hi.placed q
    rw [if_neg hnl, on_cpu_known _ _ hcpu, if_neg (fun h => hpq h.symm)] at this
    omega
  have hpz : queued s p = 0 := queued_on_CPU s p hi hcpu
  have hprocs : ∀ r : Int,
      (advance_time
        (append_to_READY_queue (incr_nchildren (spawn_in_slot s q c (s.processes p).pid) p) p)
        TIME_CORE_STATE_TRANSITIONS).processes r
      = if r = p then
          { s.processes p with
            nchildren := (s.processes p).nchildren + 1, state := STATE_READY }
        else (spawn_in_slot s q c (s.processes p).pid).processes r := by
    intro r
    show store (store (spawn_in_slot s q c (s.processes p).pid).processes p _) p _ r = _
    by_cases h : r = p
    · rw [if_pos h, h, store_same]
      simp [incr_nchildren, spawn_in_slot_processes, hpq]
    · rw [if_neg h, store_other _ _ _ _ h, store_other _ _ _ _ h]
  have hids : ∀ r : Int,
      ((advance_time
        (append_to_READY_queue (incr_nchildren (spawn_in_slot s q c (s.processes p).pid) p) p)
        TIME_CORE_STATE_TRANSITIONS).processes r).pid
        = ((spawn_in_slot s q c (s.processes p).pid).processes r).pid ∧
      ((advance_time
        (append_to_READY_queue (incr_nchildren (spawn_in_slot s q c (s.processes p).pid) p) p)
        TIME_CORE_STATE_TRANSITIONS).processes r).ppid
        = ((spawn_in_slot s q c (s.processes p).pid).processes r).ppid := by
    intro r
    rw [hprocs r]
    split
    · rename_i h
      rw [h, spawn_in_slot_processes, if_neg hpq]
      exact ⟨rfl, rfl⟩
    · exact ⟨rfl, rfl⟩
  have hlive : ∀ r : Int, live (advance_time
        (append_to_READY_queue (incr_nchildren (spawn_in_slot s q c (s.processes p).pid) p) p)
        TIME_CORE_STATE_TRANSITIONS) r ↔ live s r ∨ r = q := by
    intro r
    rw [live_congr _ _ (fun r => (hids r).1) r]
    exact e1 r
  have hqd : ∀ r : Int, queued (advance_time
        (append_to_READY_queue (incr_nchildren (spawn_in_slot s q c (s.processes p).pid) p) p)
        TIME_CORE_STATE_TRANSITIONS) r
      = queued s r + (if r = q then 1 else 0) + (if r = p then 1 else 0) := by
    intro r
    have h1 := queued_append_READY
      (incr_nchildren (spawn_in_slot s q c (s.processes p).pid) p) p r
      (by show 0 ≤ s.nready + 1; omega)
    have h2 : queued (incr_nchildren (spawn_in_slot s q c (s.processes p).pid) p) r
        = queued (spawn_in_slot s q c (s.processes p).pid) r :=
      queued_same _ _ ⟨rfl, rfl, rfl, rfl, rfl, rfl, rfl, rfl⟩ r
    have h3 : queued (advance_time
        (append_to_READY_queue (incr_nchildren (spawn_in_slot s q c (s.processes p).pid) p) p)
        TIME_CORE_STATE_TRANSITIONS) r
        = queued
          (append_to_READY_queue (incr_nchildren (spawn_in_slot s q c (s.processes p).pid) p) p)
          r :=
      queued_same _ _ ⟨rfl, rfl, rfl, rfl, rfl, rfl, rfl, rfl⟩ r
    rw [h3, h1, h2, e4]
  refine ⟨?_, ?_, ?_, ?_, ?_, ?_⟩
  · intro r hl
    rw [(hids r).1, (hids r).2, spawn_in_slot_processes]
    by_cases hrq : r = q
    · rw [if_pos hrq]
      exact hp.2.1 p hlp.1 hlp.2.1
    · rw [if_neg hrq]
      rcases (hlive r).1 hl with h | h
      · exact hi.parent r h
      · exact absurd h hrq
  · intro r hl
    rw [live_children_congr _ _ hids, e2, (hids r).1, hprocs r]
    by_cases hrq : r = q
    · have hrp : r ≠ p := fun h => hpq (h.symm.trans hrq)
      rw [if_neg hrp, spawn_in_slot_processes, if_pos hrq]
      show (0 : Int) = live_children s s.next_pid + _
      rw [live_children_next_pid s _ hi hp _ (le_refl _), if_neg]
      · rfl
      · have := hp.2.1 p hlp.1 hlp.2.1
        show ¬ (s.processes p).pid = s.next_pid
        omega
    · have hlr : live s r := ((hlive r).1 hl).elim id (fun h => absurd h hrq)
      rw [spawn_in_slot_processes, if_neg hrq]
      by_cases hrp : r = p
      · rw [if_pos hrp, hrp, if_pos rfl]
        show (s.processes p).nchildren + 1 = _
        rw [hi.children p hlp]
      · rw [if_neg hrp, hi.children r hlr, if_neg, add_zero]
        intro h
        exact hrp (hp.2.2 p r hlp.1 hlp.2.1 hlr.1 hlr.2.1 hlp.2.2 hlr.2.2 h).symm
  · intro r
    rw [hqd, on_cpu_unknown]
    have := hi.placed r
    rw [on_cpu_known _ _ hcpu] at this
    by_cases hrq : r = q
    · subst hrq
      rw [if_pos rfl, if_pos ((hlive r).2 (Or.inr rfl)), hqz, if_neg (fun h => hpq h.symm)]
      rfl
    · rw [if_neg hrq]
      by_cases hl : live s r
      · rw [if_pos ((hlive r).2 (Or.inl hl))]
        rw [if_pos hl] at this
        omega
      · rw [if_neg (fun h => (hlive r).1 h |>.elim hl hrq)]
        rw [if_neg hl] at this
        omega
  · rw [live_count_congr _ _ (fun r => (hids r).1), e3]
    show s.nprocesses + 1 = _
    rw [hi.count]
  · intro w hw
    have hw2 : w ∈ view s.WAITING_queue s.nwaiting := hw
    have hwq : w ≠ q := by
      intro h
      rw [h] at hw2
      exact not_waiting_of_queued_zero s q hqz hw2
    have hwp : w ≠ p := by
      intro h
      rw [h] at hw2
      exact not_waiting_of_queued_zero s p hpz hw2
    rw [hprocs w, if_neg hwp, spawn_in_slot_processes, if_neg hwq]
    exact hi.waiting w hw2
  · exact hi.device_counts

theorem same_queues_exit_process (s : Sim) (p : Int) : same_queues s (exit_process s p) := by
  rw [exit_process_frame]
  exact ⟨rfl, rfl, rfl, rfl, rfl, rfl, rfl, rfl⟩

/-- The exit of the process on the CPU keeps the invariant. -/
theorem core_inv_exit (s : Sim) (p : Int) (hi : core_inv s p) (hp : pids_ok s)
    (hcpu : p ≠ UNKNOWN) : core_inv (exit_process s p) UNKNOWN := by
  have hlp : live s p := live_on_CPU s p hi hcpu
  have hpz : queued s p = 0 := queued_on_CPU s p hi hcpu
  have hpid : ∀ r : Int, ((exit_process s p).processes r).pid
      = if r = p then UNKNOWN else (s.processes r).pid := fun r => (exit_process_ids s p r).1
  have hppid : ∀ r : Int, ((exit_process s p).processes r).ppid = (s.processes r).ppid :=
    fun r => (exit_process_ids s p r).2.1
  have hother := fun r hr => exit_process_other s p r hr hp.2.2
  have hlive : ∀ r : Int, live (exit_process s p) r ↔ live s r ∧ r ≠ p := by
    intro r
    unfold live
    rw [hpid r]
    by_cases hrp : r = p
    · rw [if_pos hrp]
      simp [hrp]
    · rw [if_neg hrp]
      simp [hrp]
  have hch : ∀ x : Int, live_children (exit_process s p) x
      = live_children s x - if (s.processes p).ppid = x then 1 else 0 := by
    intro x
    unfold live_children
    rw [range_sum_update _ _ _ p hlp.1 hlp.2.1 (fun d hd => by
      show (if ((exit_process s p).processes d).pid ≠ UNKNOWN ∧
          ((exit_process s p).processes d).ppid = x then (1 : Int) else 0) = _
      rw [hpid d, hppid d, if_neg hd])]
    simp only [hpid p, hppid p, if_true]
    have := hlp.2.2
    simp [this]
    ring
  have hcount : live_count (exit_process s p) = live_count s - 1 := by
    unfold live_count
    rw [range_sum_update _ _ _ p hlp.1 hlp.2.1 (fun d hd => by
      show (if ((exit_process s p).processes d).pid ≠ UNKNOWN then (1 : Int) else 0) = _
      rw [hpid d, if_neg hd])]
    simp only [hpid p, if_true]
    have := hlp.2.2
    simp [this]
    ring
  have hq := queued_same s _ (same_queues_exit_process s p)
  refine ⟨?_, ?_, ?_, ?_, ?_, ?_⟩
  · intro r hl
    obtain ⟨hl1, hrp⟩ := (hlive r).1 hl
    rw [hpid r, if_neg hrp, hppid r]
    exact hi.parent r hl1
  · intro r hl
    obtain ⟨hl1, hrp⟩ := (hlive r).1 hl
    rw [hch, hpid r, if_neg hrp, hother r hrp, ← hi.children r hl1]
    by_cases hm : (s.processes r).pid = (s.processes p).ppid
    · rw [if_pos ⟨hl1.1, hl1.2.1, hl1.2.2, hm⟩, if_pos hm.symm]
    · rw [if_neg (fun h => hm h.2.2.2), if_neg (fun h => hm h.symm), sub_zero]
  · intro r
    rw [hq r, on_cpu_unknown]
    have := hi.placed r
    rw [on_cpu_known _ _ hcpu] at this
    by_cases hrp : r = p
    · rw [if_neg (fun h => ((hlive r).1 h).2 hrp), hrp, hpz]
      rfl
    · rw [if_neg hrp] at this
      by_cases hl : live s r
      · rw [if_pos ((hlive r).2 ⟨hl, hrp⟩)]
        rw [if_pos hl] at this
        omega
      · rw [if_neg (fun h => hl ((hlive r).1 h).1)]
        rw [if_neg hl] at this
        omega
  · rw [hcount, exit_process_frame]
    show s.nprocesses - 1 = _
    rw [hi.count]
  · intro w hw
    have hw2 : w ∈ view s.WAITING_queue s.nwaiting := by
      have := same_queues_exit_process s p
      rw [this.2.2.2.2.1, this.2.2.2.2.2.1] at hw
      exact hw
    have hwp : w ≠ p := by
      intro h
      rw [h] at hw2
      exact not_waiting_of_queued_zero s p hpz hw2
    rw [hother w hwp]
    split
    · exact hi.waiting w hw2
    · exact hi.waiting w hw2
  · intro d d0 d1
    have := same_queues_exit_process s p
    rw [this.2.2.2.2.2.2.1]
    rw [this.2.2.2.2.2.2.2] at d1
    exact hi.device_counts d d0 d1

/-! ## Leaving the CPU keeps the invariant -/

/-- The invariant does not depend on the clock. -/
theorem core_inv_clock (s : Sim) (cpu v : Int) (hi : core_inv s cpu) :
    core_inv { s with USECS_SINCE_REBOOT := v } cpu := by
  have hq : ∀ r : Int, queued { s with USECS_SINCE_REBOOT := v } r = queued s r :=
    fun r => queued_same s _ ⟨rfl, rfl, rfl, rfl, rfl, rfl, rfl, rfl⟩ r
  exact core_inv_move s _ cpu cpu hi (fun _ => ⟨rfl, rfl, rfl⟩) rfl
    (fun r => by rw [hq r]) hi.waiting hi.device_counts

/-- A change of one record that keeps its ids, its count of children and its
state keeps the invariant. -/
theorem core_inv_touch (s s2 : Sim) (cpu p : Int) (v : Process) (hi : core_inv s cpu)
    (hs : s2 = { s with processes := store s.processes p v })
    (h1 : v.pid = (s.processes p).pid) (h2 : v.ppid = (s.processes p).ppid)
    (h3 : v.nchildren = (s.processes p).nchildren) (h4 : v.state = (s.processes p).state) :
    core_inv s2 cpu := by
  rw [hs]
  have hq : ∀ r : Int, queued { s with processes := store s.processes p v } r = queued s r :=
    fun r => queued_same s _ ⟨rfl, rfl, rfl, rfl, rfl, rfl, rfl, rfl⟩ r
  refine core_inv_move s _ cpu cpu hi ?_ rfl (fun r => by rw [hq r]) ?_ hi.device_counts
  · intro r
    show (store s.processes p v r).pid = _ ∧ (store s.processes p v r).ppid = _ ∧
      (store s.processes p v r).nchildren = _
    rw [store_apply]
    split
    · rename_i h
      rw [h]
      exact ⟨h1, h2, h3⟩
    · exact ⟨rfl, rfl, rfl⟩
  · intro w hw
    show (store s.processes p v w).state = _
    rw [store_apply]
    split
    · rename_i h
      rw [h4, ← h]
      exact hi.waiting w hw
    · exact hi.waiting w hw

/-- The process on the CPU leaves it for a queue: an operation that only
changes its record, keeping the ids and the count of children, and queues its
slot once. -/
theorem core_inv_leave (s s2 : Sim) (p : Int) (v : Process) (hi : core_inv s p)
    (hcpu : p ≠ UNKNOWN)
    (hprocs : s2.processes = store s.processes p v)
    (h1 : v.pid = (s.processes p).pid) (h2 : v.ppid = (s.processes p).ppid)
    (h3 : v.nchildren = (s.processes p).nchildren)
    (hn : s2.nprocesses = s.nprocesses)
    (hq : ∀ r : Int, queued s2 r = queued s r + if r = p then 1 else 0)
    (hw : ∀ w ∈ view s2.WAITING_queue s2.nwaiting,
      w ∈ view s.WAITING_queue s.nwaiting ∨ (w = p ∧ v.state = STATE_WAITING))
    (hd : ∀ d : Int, 0 ≤ d → d < s2.ndevices → 0 ≤ (s2.devices d).nblocked) :
    core_inv s2 UNKNOWN := by
  have hpz : queued s p = 0 := queued_on_CPU s p hi hcpu
  refine core_inv_move s s2 p UNKNOWN hi ?_ hn ?_ ?_ hd
  · intro r
    rw [hprocs, store_apply]
    split
    · rename_i h
      rw [h]
      exact ⟨h1, h2, h3⟩
    · exact ⟨rfl, rfl, rfl⟩
  · intro r
    rw [hq r, on_cpu_unknown, on_cpu_known _ _ hcpu]
    ring
  · intro w hw2
    rw [hprocs]
    rcases hw w hw2 with h | ⟨h, hst⟩
    · have hwp : w ≠ p := by
        intro e
        rw [e] at h
        exact not_waiting_of_queued_zero s p hpz h
      rw [store_other _ _ _ _ hwp]
      exact hi.waiting w h
    · rw [h, store_same]
      exact hst

theorem core_inv_append_READY (s : Sim) (p : Int) (hi : core_inv s p) (hcpu : p ≠ UNKNOWN)
    (hr : 0 ≤ s.nready) : core_inv (append_to_READY_queue s p) UNKNOWN :=
  core_inv_leave s _ p _ hi hcpu rfl rfl rfl rfl rfl
    (fun r => queued_append_READY s p r hr) (fun _ hw => Or.inl hw) hi.device_counts

theorem core_inv_append_SLEEPING (s : Sim) (p D : Int) (hi : core_inv s p) (hcpu : p ≠ UNKNOWN)
    (hr : 0 ≤ s.nsleeping) : core_inv (append_to_SLEEPING_queue s p D) UNKNOWN :=
  core_inv_leave s _ p _ hi hcpu rfl rfl rfl rfl rfl
    (fun r => queued_append_SLEEPING s p D r hr) (fun _ hw => Or.inl hw) hi.device_counts

theorem core_inv_append_WAITING (s : Sim) (p : Int) (hi : core_inv s p) (hcpu : p ≠ UNKNOWN)
    (hr : 0 ≤ s.nwaiting) : core_inv (append_to_WAITING_queue s p) UNKNOWN := by
  refine core_inv_leave s _ p _ hi hcpu rfl rfl rfl rfl rfl
    (fun r => queued_append_WAITING s p r hr) ?_ hi.device_counts
  intro w hw
  have hv : view (append_to_WAITING_queue s p).WAITING_queue (append_to_WAITING_queue s p).nwaiting
      = view s.WAITING_queue s.nwaiting ++ [p] := view_store_append _ _ _ hr
  rw [hv, List.mem_append, List.mem_singleton] at hw
  rcases hw with h | h
  · exact Or.inl h
  · exact Or.inr ⟨h, rfl⟩

/-- The dispatch of a read or write keeps the invariant. -/
theorem core_inv_io_block (s : Sim) (p sc d n : Int) (hi : core_inv s p) (hcpu : p ≠ UNKNOWN)
    (h0 : 0 ≤ d) (h1 : d < s.ndevices) :
    core_inv (set_state (append_to_IO_BLOCKED_queue s p sc d n) p STATE_IO_BLOCKED) UNKNOWN := by
  have hq := fun r => queued_io_block s p sc d n r h0 h1 (hi.device_counts d h0 h1)
  refine core_inv_leave s _ p { s.processes p with state := STATE_IO_BLOCKED } hi hcpu rfl rfl
    rfl rfl rfl ?_ (fun _ hw => Or.inl hw) ?_
  · intro r
    rw [← hq r]
    exact queued_same _ _ ⟨rfl, rfl, rfl, rfl, rfl, rfl, rfl, rfl⟩ r
  · intro k k0 k1
    show 0 ≤ (store s.devices d _ k).nblocked
    rw [store_apply]
    split
    · have := hi.device_counts d h0 h1
      show 0 ≤ (s.devices d).nblocked + 1
      omega
    · exact hi.device_counts k k0 k1

/-! ## The idle block keeps the invariant -/

/-- Slots move between queues and those that move get the state READY: an
operation of this kind keeps the invariant when no slot that moves stays in the
WAITING queue. -/
theorem core_inv_mark (s s2 : Sim) (cpu : Int) (moved : List Int) (hi : core_inv s cpu)
    (hprocs : s2.processes = mark_ready s.processes moved)
    (hn : s2.nprocesses = s.nprocesses)
    (hq : ∀ r : Int, queued s2 r = queued s r)
    (hw : ∀ w ∈ view s2.WAITING_queue s2.nwaiting,
      w ∈ view s.WAITING_queue s.nwaiting ∧ w ∉ moved)
    (hd : ∀ d : Int, 0 ≤ d → d < s2.ndevices → 0 ≤ (s2.devices d).nblocked) :
    core_inv s2 cpu := by
  refine core_inv_move s s2 cpu cpu hi ?_ hn (fun r => by rw [hq r]) ?_ hd
  · intro r
    rw [hprocs, mark_ready_apply]
    split
    · exact ⟨rfl, rfl, rfl⟩
    · exact ⟨rfl, rfl, rfl⟩
  · intro w hw2
    obtain ⟨h1, h2⟩ := hw w hw2
    rw [hprocs, mark_ready_apply, if_neg h2]
    exact hi.waiting w h1

/-- All that `unblock_SLEEPING` changes. -/
theorem unblock_SLEEPING_frame (s : Sim) (hr : 0 ≤ s.nready) :
    unblock_SLEEPING s
      = { s with
          USECS_SINCE_REBOOT := (unblock_SLEEPING s).USECS_SINCE_REBOOT
          processes := mark_ready s.processes
            (((view s.SLEEPING_queue s.nsleeping).filter (due s.USECS_SINCE_REBOOT)).map
              Sleeper.proc)
          READY_queue := (unblock_SLEEPING s).READY_queue
          nready := (unblock_SLEEPING s).nready
          SLEEPING_queue := (unblock_SLEEPING s).SLEEPING_queue
          nsleeping := (unblock_SLEEPING s).nsleeping } := by
  have key := unblock_SLEEPING_loop_spec s.USECS_SINCE_REBOOT
    (view s.SLEEPING_queue s.nsleeping) [] s.nsleeping.toNat 0 s (by simp) (by simp) (by simp) hr
  obtain ⟨_, _, k3⟩ := key
  unfold unblock_SLEEPING
  rw [k3]

theorem core_inv_unblock_SLEEPING (s : Sim) (cpu : Int) (hi : core_inv s cpu)
    (hr : 0 ≤ s.nready) : core_inv (unblock_SLEEPING s) cpu := by
  have hf := unblock_SLEEPING_frame s hr
  refine core_inv_mark s _ cpu
    (((view s.SLEEPING_queue s.nsleeping).filter (due s.USECS_SINCE_REBOOT)).map Sleeper.proc)
    hi (by rw [hf]) (by rw [hf]) (fun r => queued_unblock_SLEEPING s r hr) ?_ ?_
  · intro w hw
    have hw2 : w ∈ view s.WAITING_queue s.nwaiting := by
      rw [hf] at hw
      exact hw
    refine ⟨hw2, ?_⟩
    intro hm
    have hm2 : w ∈ (view s.SLEEPING_queue s.nsleeping).map Sleeper.proc := by
      rw [List.mem_map] at hm ⊢
      obtain ⟨e, he, hpe⟩ := hm
      exact ⟨e, (List.mem_filter.1 he).1, hpe⟩
    have h1 := (cnt_pos_iff w _).2 hw2
    have h2 := (cnt_pos_iff w _).2 hm2
    have h3 := placed_bounds s cpu hi w
    have h4 := queued_terms_nonneg s w
    have h5 := on_cpu_nonneg cpu w
    split at h3 <;> omega
  · intro d d0 d1
    rw [hf] at d1 ⊢
    exact hi.device_counts d d0 d1

/-- Under the invariant the entries of the WAITING queue are pairwise distinct. -/
theorem waiting_nodup (s : Sim) (cpu : Int) (hi : core_inv s cpu) :
    (view s.WAITING_queue s.nwaiting).Nodup := by
  apply cnt_le_one_nodup
  intro r
  have h3 := placed_bounds s cpu hi r
  have h4 := queued_terms_nonneg s r
  have h5 := on_cpu_nonneg cpu r
  split at h3 <;> omega

theorem core_inv_unblock_WAITING (s : Sim) (cpu : Int) (hi : core_inv s cpu)
    (hr : 0 ≤ s.nready) : core_inv (unblock_WAITING s) cpu := by
  have hnd := waiting_nodup s cpu hi
  obtain ⟨h1, _, hf⟩ := unblock_WAITING_spec s hr hnd
  refine core_inv_mark s _ cpu
    ((view s.WAITING_queue s.nwaiting).filter (ready_to_go s.processes))
    hi (by rw [hf]) (by rw [hf]) (fun r => queued_unblock_WAITING s r hr hnd) ?_ ?_
  · intro w hw
    rw [h1, List.mem_filter] at hw
    refine ⟨hw.1, ?_⟩
    intro hm
    have := (List.mem_filter.1 hm).2
    rw [this] at hw
    simp at hw
  · intro d d0 d1
    rw [hf] at d1 ⊢
    exact hi.device_counts d d0 d1

theorem core_inv_io_start (s : Sim) (cpu : Int) (hi : core_inv s cpu) :
    core_inv ( start_pending_IO s) cpu := by
  unfold start_pending_IO
  split
  · have hq : ∀ r : Int, queued
        { s with
          device_owning_databus := find_fastest_ready_device s
          databus_inuse_until := s.USECS_SINCE_REBOOT + TIME_ACQUIRE_BUS
            + transfer_usecs ((s.devices ( find_fastest_ready_device s)).blocked 0).nbytes
                (if ((s.devices ( find_fastest_ready_device s)).blocked 0).syscall = SYS_READ then
                  (s.devices ( find_fastest_ready_device s)).read_speed
                else (s.devices ( find_fastest_ready_device s)).write_speed) } r = queued s r :=
      fun r => queued_same s _ ⟨rfl, rfl, rfl, rfl, rfl, rfl, rfl, rfl⟩ r
    exact core_inv_move s _ cpu cpu hi (fun _ => ⟨rfl, rfl, rfl⟩) rfl
      (fun r => by rw [hq r]) hi.waiting hi.device_counts
  · exact hi

/-- A completed transfer keeps the invariant. -/
theorem core_inv_io_done (s : Sim) (cpu : Int) (hi : core_inv s cpu) (hr : 0 ≤ s.nready)
    (hb : bus_ok s) : core_inv ( unblock_completed_IO s) cpu := by
  by_cases hcond : s.device_owning_databus ≠ UNKNOWN ∧
      s.databus_inuse_until ≤ s.USECS_SINCE_REBOOT
  · obtain ⟨h0, h1, h2⟩ : 0 ≤ s.device_owning_databus ∧ s.device_owning_databus < s.ndevices ∧
        0 < (s.devices s.device_owning_databus).nblocked := by
      rcases hb with hb | hb
      · exact absurd hb hcond.1
      · exact hb
    have he : unblock_completed_IO s
        = { advance_time (append_to_READY_queue s
              ((s.devices s.device_owning_databus).blocked 0).proc)
              TIME_CORE_STATE_TRANSITIONS with
            devices := store s.devices s.device_owning_databus
              { s.devices s.device_owning_databus with
                blocked := slide_left (s.devices s.device_owning_databus).blocked 0
                  (s.devices s.device_owning_databus).nblocked
                nblocked := (s.devices s.device_owning_databus).nblocked - 1 }
            nblocked := s.nblocked - 1
            device_owning_databus := UNKNOWN
            databus_inuse_until := UNKNOWN } := by
      unfold unblock_completed_IO
      rw [if_pos hcond]
      rfl
    refine core_inv_mark s _ cpu [((s.devices s.device_owning_databus).blocked 0).proc] hi
      (by rw [he]; rfl) (by rw [he]; rfl) (fun r => queued_io_done s r hr hb) ?_ ?_
    · intro w hw
      have hw2 : w ∈ view s.WAITING_queue s.nwaiting := by
        rw [he] at hw
        exact hw
      refine ⟨hw2, ?_⟩
      intro hm
      rw [List.mem_singleton] at hm
      have hin : w ∈ blocked_list (s.devices s.device_owning_databus) := by
        unfold blocked_list
        rw [view_cons_slide _ _ h2, List.map_cons, hm]
        exact List.mem_cons_self _ _
      have h3 := (cnt_pos_iff w _).2 hw2
      have h4 := (cnt_pos_iff w _).2 hin
      have h5 := range_sum_ge s.ndevices (fun d => cnt w (blocked_list (s.devices d)))
        (fun _ _ _ => cnt_nonneg _ _) s.device_owning_databus h0 h1
      have h6 := placed_bounds s cpu hi w
      have h7 := queued_terms_nonneg s w
      have h8 := on_cpu_nonneg cpu w
      simp only at h5
      split at h6 <;> omega
    · intro d d0 d1
      rw [he] at d1 ⊢
      show 0 ≤ (store s.devices s.device_owning_databus _ d).nblocked
      rw [store_apply]
      split
      · show 0 ≤ (s.devices s.device_owning_databus).nblocked - 1
        omega
      · exact hi.device_counts d d0 d1
  · unfold unblock_completed_IO
    rw [if_neg hcond]
    exact hi

/-- The dequeue of the head of a non-empty READY queue onto an idle CPU keeps
the invariant. -/
theorem core_inv_dequeue (s : Sim) (hi : core_inv s UNKNOWN) (h : 0 < s.nready) :
    core_inv (dequeue_READY_queue s).2 (dequeue_READY_queue s).1 ∧
    (dequeue_READY_queue s).1 ≠ UNKNOWN := by
  have hd : dequeue_READY_queue s
      = (s.READY_queue 0,
          { advance_time s TIME_CONTEXT_SWITCH with
            READY_queue := slide_left s.READY_queue 0 s.nready
            nready := s.nready - 1 }) := by
    unfold dequeue_READY_queue
    rw [if_pos h]
    rfl
  have hq := fun r => queued_dequeue s r h
  have hin : s.READY_queue 0 ∈ view s.READY_queue s.nready := by
    rw [view_cons_slide _ _ h]
    exact List.mem_cons_self _ _
  have hl : live s (s.READY_queue 0) := by
    apply live_of_placed s UNKNOWN hi
    have h1 := (cnt_pos_iff _ _).2 hin
    have h2 := queued_terms_nonneg s (s.READY_queue 0)
    have h3 := on_cpu_nonneg UNKNOWN (s.READY_queue 0)
    unfold queued
    omega
  have hne : s.READY_queue 0 ≠ UNKNOWN := by
    have := hl.1
    unfold UNKNOWN
    omega
  rw [hd] at hq ⊢
  refine ⟨?_, hne⟩
  refine core_inv_move s _ UNKNOWN (s.READY_queue 0) hi (fun _ => ⟨rfl, rfl, rfl⟩) rfl ?_
    hi.waiting hi.device_counts
  intro r
  rw [hq r, on_cpu_unknown, on_cpu_known _ _ hne]
  ring

/-! ## The invariant at every boundary between passes -/

/-- The dispatch of a read or write event. -/
theorem issue_io (l : Loop) (c i : Int)
    (hw : ((l.sim.commands c).syscalls i).which = SYS_READ ∨
      ((l.sim.commands c).syscalls i).which = SYS_WRITE) :
    issue_syscall l c i = .ok
      { l with
        sim := set_state
          (append_to_IO_BLOCKED_queue ( incr_next_syscall l.sim l.proc_on_CPU) l.proc_on_CPU
            ((l.sim.commands c).syscalls i).which ((l.sim.commands c).syscalls i).arg0
            ((l.sim.commands c).syscalls i).arg1)
          l.proc_on_CPU STATE_IO_BLOCKED
        proc_on_CPU := UNKNOWN } := by
  have hcmd : ( incr_next_syscall l.sim l.proc_on_CPU).commands = l.sim.commands := rfl
  have hns : ((l.sim.commands c).syscalls i).which ≠ SYS_SPAWN := by
    rcases hw with h | h <;> rw [h] <;> decide
  simp only [issue_syscall, dispatch, hcmd, if_neg hns, if_pos hw]

/-- An event other than the six known ones stops the run. -/
theorem issue_unknown (l : Loop) (c i : Int)
    (h0 : ((l.sim.commands c).syscalls i).which ≠ SYS_SPAWN)
    (h1 : ¬ (((l.sim.commands c).syscalls i).which = SYS_READ ∨
      ((l.sim.commands c).syscalls i).which = SYS_WRITE))
    (h2 : ((l.sim.commands c).syscalls i).which ≠ SYS_SLEEP)
    (h3 : ((l.sim.commands c).syscalls i).which ≠ SYS_WAIT)
    (h4 : ((l.sim.commands c).syscalls i).which ≠ SYS_EXIT) :
    issue_syscall l c i = .error .unknown_syscall := by
  have hcmd : ( incr_next_syscall l.sim l.proc_on_CPU).commands = l.sim.commands := rfl
  simp only [issue_syscall, dispatch, hcmd, if_neg h0, if_neg h1, if_neg h2, if_neg h3, if_neg h4]

/-- The dispatch of an event keeps the invariant of the table and the queues. -/
theorem core_inv_issue_syscall (l l2 : Loop) (c i : Int) (hi : loop_inv l)
    (hcpu : l.proc_on_CPU ≠ UNKNOWN) (h : issue_syscall l c i = .ok l2) :
    core_inv l2.sim l2.proc_on_CPU := by
  obtain ⟨hR, hk, hc⟩ := hi
  have hR1 : Reachable ( incr_next_syscall l.sim l.proc_on_CPU) :=
    Reachable.step _ _ hR (Step.cursor _ _)
  have hp1 := pids_reachable _ hR1
  obtain ⟨c1, c2, c3⟩ := reachable_counters _ hR1
  have hc1 : core_inv ( incr_next_syscall l.sim l.proc_on_CPU) l.proc_on_CPU :=
    core_inv_touch l.sim _ l.proc_on_CPU l.proc_on_CPU _ hc rfl rfl rfl rfl rfl
  by_cases w0 : ((l.sim.commands c).syscalls i).which = SYS_SPAWN
  · cases hs : spawn_process ( incr_next_syscall l.sim l.proc_on_CPU)
        ((l.sim.commands c).syscalls i).arg0 (l.sim.processes l.proc_on_CPU).pid with
    | error e =>
      have hcmd : ( incr_next_syscall l.sim l.proc_on_CPU).commands = l.sim.commands := rfl
      have hpid : (( incr_next_syscall l.sim l.proc_on_CPU).processes l.proc_on_CPU).pid
          = (l.sim.processes l.proc_on_CPU).pid := by simp [incr_next_syscall]
      simp only [issue_syscall, dispatch, hcmd, w0, if_true, hpid, hs] at h
      cases h
    | ok s1 =>
      rw [issue_spawn l c i s1 w0 hs] at h
      cases h
      obtain ⟨q, q0, q1, qu, _, e⟩ := spawn_process_ok _ _ _ _ hs
      have hpid : (l.sim.processes l.proc_on_CPU).pid
          = (( incr_next_syscall l.sim l.proc_on_CPU).processes l.proc_on_CPU).pid := by
        simp [incr_next_syscall]
      rw [hpid] at e
      rw [e]
      exact core_inv_spawn _ _ q _ hc1 hp1 hcpu q0 q1 qu c1
  · by_cases w1 : ((l.sim.commands c).syscalls i).which = SYS_READ ∨
        ((l.sim.commands c).syscalls i).which = SYS_WRITE
    · rw [issue_io l c i w1] at h
      cases h
      obtain ⟨d0, d1⟩ := hk c i w1
      exact core_inv_io_block _ _ _ _ _ hc1 hcpu d0 d1
    · by_cases w2 : ((l.sim.commands c).syscalls i).which = SYS_SLEEP
      · rw [issue_sleep l c i w2] at h
        cases h
        exact core_inv_clock _ _ _ (core_inv_append_SLEEPING _ _ _ hc1 hcpu c2)
      · by_cases w3 : ((l.sim.commands c).syscalls i).which = SYS_WAIT
        · rw [issue_wait l c i w3] at h
          cases h
          show core_inv (advance_time (if _ then _ else _) _) UNKNOWN
          split
          · exact core_inv_clock _ _ _ (core_inv_append_READY _ _ hc1 hcpu c1)
          · exact core_inv_clock _ _ _ (core_inv_append_WAITING _ _ hc1 hcpu c3)
        · by_cases w4 : ((l.sim.commands c).syscalls i).which = SYS_EXIT
          · rw [issue_exit l c i w4] at h
            cases h
            exact core_inv_exit _ _ hc1 hp1 hcpu
          · rw [issue_unknown l c i w0 w1 w2 w3 w4] at h
            cases h

/-- The block `on_CPU` keeps the invariant of the loop. -/
theorem loop_inv_on_CPU (l l2 : Loop) (hi : loop_inv l) (h : on_CPU l = .ok l2) :
    loop_inv l2 := by
  have hst := steps_on_CPU l l2 hi.2.1 h
  refine ⟨reachable_steps hi.1 hst, devices_known_steps hst hi.2.1, ?_⟩
  by_cases hcpu : l.proc_on_CPU = UNKNOWN
  · have : on_CPU l = .ok l := by
      unfold on_CPU
      rw [if_neg (not_not.2 hcpu)]
    rw [this] at h
    cases h
    exact hi.2.2
  · by_cases hdue : (l.sim.processes l.proc_on_CPU).time_on_CPU
        = ((l.sim.commands (l.sim.processes l.proc_on_CPU).command).syscalls
            (l.sim.processes l.proc_on_CPU).next_syscall).when
    · rw [on_CPU_due l hcpu hdue] at h
      exact core_inv_issue_syscall l l2 _ _ hi hcpu h
    · rw [on_CPU_compute l hcpu hdue] at h
      cases h
      have hc1 : core_inv ( incr_time_on_CPU l.sim l.proc_on_CPU) l.proc_on_CPU :=
        core_inv_touch l.sim _ l.proc_on_CPU l.proc_on_CPU _ hi.2.2 rfl rfl rfl rfl rfl
      have hr : 0 ≤ l.sim.nready := (reachable_counters _ hi.1).1
      unfold consume_CPU
      simp only
      split
      · exact core_inv_clock _ _ _ (core_inv_append_READY _ _ hc1 hcpu hr)
      · exact hc1

/-- The idle block keeps the invariant of the loop. -/
theorem loop_inv_idle_CPU (l : Loop) (hi : loop_inv l) : loop_inv (idle_CPU l) := by
  have hst := steps_idle_CPU l
  refine ⟨reachable_steps hi.1 hst, devices_known_steps hst hi.2.1, ?_⟩
  obtain ⟨hR, _, hc⟩ := hi
  unfold idle_CPU
  split
  · rename_i hcond
    rw [hcond.1] at hc
    have hR1 : Reachable (unblock_SLEEPING l.sim) := Reachable.step _ _ hR (Step.sleep_drain _)
    have hR2 : Reachable (unblock_WAITING (unblock_SLEEPING l.sim)) :=
      Reachable.step _ _ hR1 (Step.wait_drain _)
    have hR3 : Reachable ( unblock_completed_IO (unblock_WAITING (unblock_SLEEPING l.sim))) :=
      Reachable.step _ _ hR2 (Step.io_done _)
    have hc1 := core_inv_unblock_SLEEPING _ _ hc (reachable_counters _ hR).1
    have hc2 := core_inv_unblock_WAITING _ _ hc1 (reachable_counters _ hR1).1
    have hc3 := core_inv_io_done _ _ hc2 (reachable_counters _ hR2).1 (inv_reachable _ hR2).2
    have hc4 := core_inv_io_start _ _ hc3
    simp only
    split
    · rename_i hready
      exact (core_inv_dequeue _ hc4 hready).1
    · show core_inv _ l.proc_on_CPU
      rw [hcond.1]
      exact hc4
  · exact hc

/-- A pass of the loop keeps its invariant. -/
theorem loop_inv_loop_body (l l2 : Loop) (hi : loop_inv l) (h : loop_body l = .ok l2) :
    loop_inv l2 := by
  unfold loop_body at h
  have ht : loop_inv { l with sim := advance_time l.sim 1 } :=
    ⟨Reachable.step _ _ hi.1 (Step.tick _ _), hi.2.1, core_inv_clock _ _ _ hi.2.2⟩
  cases hon : on_CPU { l with sim := advance_time l.sim 1 } with
  | error e =>
    rw [hon] at h
    cases h
  | ok l1 =>
    rw [hon] at h
    cases h
    exact loop_inv_idle_CPU l1 (loop_inv_on_CPU _ l1 ht hon)

/-- The invariant of the table and the queues holds when `main` calls
`execute_commands`: the table and every queue are empty. -/
theorem core_inv_init (s : Sim) : core_inv (init_all s) UNKNOWN := by
  have hu : ∀ r : Int, 0 ≤ r → r < MAX_RUNNING_PROCESSES →
      ((init_all s).processes r).pid = UNKNOWN := by
    intro r h0 h1
    rw [init_all_processes, if_pos ⟨h0, h1⟩]
  have hnl : ∀ r : Int, ¬ live (init_all s) r := fun r h => h.2.2 (hu r h.1 h.2.1)
  obtain ⟨i1, _, _, i4⟩ := init_all_io s
  have hdev : ∀ d : Int, 0 ≤ d → d < (init_all s).ndevices → ((init_all s).devices d).nblocked = 0 := by
    intro d d0 d1
    rw [i1] at d1
    have h := for_loop_store_apply (fun v : Device => { v with nblocked := 0 })
      s.ndevices.toNat 0 s.devices d
    rw [if_pos ⟨d0, by omega⟩] at h
    rw [i4]
    exact congrArg Device.nblocked h
  refine ⟨fun r h => absurd h (hnl r), fun r h => absurd h (hnl r), ?_, ?_, ?_, ?_⟩
  · intro r
    rw [if_neg (hnl r), on_cpu_unknown]
    unfold queued
    have h1 : (init_all s).nready = 0 := rfl
    have h2 : (init_all s).nsleeping = 0 := rfl
    have h3 : (init_all s).nwaiting = 0 := rfl
    rw [h1, h2, h3, view_nonpos _ _ (le_refl _), view_nonpos _ _ (le_refl _),
      view_nonpos _ _ (le_refl _)]
    rw [range_sum_zero _ _ (fun d d0 d1 => by
      show cnt r (blocked_list ((init_all s).devices d)) = 0
      unfold blocked_list
      rw [hdev d d0 d1, view_nonpos _ _ (le_refl _)]
      rfl)]
    rfl
  · show (0 : Int) = _
    unfold live_count
    rw [range_sum_zero]
    intro d d0 d1
    rw [if_neg (not_not.2 (hu d d0 d1))]
  · intro p hp
    have h3 : (init_all s).nwaiting = 0 := rfl
    rw [h3, view_nonpos _ _ (le_refl _)] at hp
    cases hp
  · intro d d0 d1
    rw [hdev d d0 d1]

/-- The invariant of the loop holds when the loop is entered. -/
theorem loop_inv_enter (devs : List (Int × Int)) (timequantum : Int)
    (commands : Int → Command) (ncommands first : Int) (l : Loop)
    (hk : devices_known (init_all (load devs timequantum commands ncommands)))
    (h : enter_loop (init_all (load devs timequantum commands ncommands)) first = .ok l) :
    loop_inv l := by
  have hR0 : Reachable (init_all (load devs timequantum commands ncommands)) :=
    Reachable.init _ _ _ _
  have hst := steps_enter_loop _ _ _ h
  refine ⟨reachable_steps hR0 hst, devices_known_steps hst hk, ?_⟩
  unfold enter_loop at h
  cases hs : spawn_process
      { init_all (load devs timequantum commands ncommands) with USECS_SINCE_REBOOT := 0 }
      first UNKNOWN with
  | error e =>
    rw [hs] at h
    cases h
  | ok s1 =>
    rw [hs] at h
    cases h
    obtain ⟨q, q0, q1, qu, _, e⟩ := spawn_process_ok _ _ _ _ hs
    have hR1 : Reachable
        { init_all (load devs timequantum commands ncommands) with USECS_SINCE_REBOOT := 0 } :=
      Reachable.step _ _ hR0 (Step.clock _ 0)
    rw [e]
    exact core_inv_clock _ _ _
      (core_inv_spawn_root _ q first (core_inv_clock _ _ _ (core_inv_init _))
        (pids_reachable _ hR1) q0 q1 qu (reachable_counters _ hR1).1)

/-- The invariant of the loop holds at every boundary between passes. -/
theorem boundary_inv (l : Loop) (h : Boundary l) : loop_inv l := by
  induction h with
  | enter devs tq commands ncommands first l hk h => exact loop_inv_enter _ _ _ _ _ _ hk h
  | pass l l2 _ _ hb ih => exact loop_inv_loop_body l l2 ih hb

/-! ## Progress of the live processes, and the claims on the invariant -/

theorem grows_refl (s : Sim) : grows s s :=
  fun _ => ⟨rfl, le_refl _, le_refl _⟩

theorem grows_trans {s s2 s3 : Sim} (h1 : grows s s2) (h2 : grows s2 s3) : grows s s3 :=
  fun r => ⟨(h2 r).1.trans (h1 r).1, le_trans (h1 r).2.1 (h2 r).2.1,
    le_trans (h1 r).2.2 (h2 r).2.2⟩

theorem progress_of_grows {s s2 : Sim} (h : grows s s2) : progress s s2 :=
  fun r _ _ => h r

theorem grows_progress {s s2 s3 : Sim} (h1 : grows s s2) (h2 : progress s2 s3) :
    progress s s3 := by
  intro r l1 l3
  have l2 : (s2.processes r).pid ≠ UNKNOWN := by rw [(h1 r).1]; exact l1
  obtain ⟨a, b, c⟩ := h2 r l2 l3
  exact ⟨a.trans (h1 r).1, le_trans (h1 r).2.1 b, le_trans (h1 r).2.2 c⟩

theorem progress_grows {s s2 s3 : Sim} (h1 : progress s s2) (h2 : grows s2 s3) :
    progress s s3 := by
  intro r l1 l3
  have l2 : (s2.processes r).pid ≠ UNKNOWN := by rw [← (h2 r).1]; exact l3
  obtain ⟨a, b, c⟩ := h1 r l1 l2
  exact ⟨(h2 r).1.trans a, le_trans b (h2 r).2.1, le_trans c (h2 r).2.2⟩

/-- A store of a record with the same id, and a cursor and a time on the CPU
that are not lower. -/
theorem grows_store (s s2 : Sim) (i : Int) (v : Process)
    (hs : s2.processes = store s.processes i v)
    (h1 : v.pid = (s.processes i).pid)
    (h2 : (s.processes i).next_syscall ≤ v.next_syscall)
    (h3 : (s.processes i).time_on_CPU ≤ v.time_on_CPU) : grows s s2 := by
  intro r
  rw [hs, store_apply]
  split
  · rename_i h
    rw [h]
    exact ⟨h1, h2, h3⟩
  · exact ⟨rfl, le_refl _, le_refl _⟩

theorem grows_append_READY (s : Sim) (p : Int) : grows s (append_to_READY_queue s p) :=
  grows_store s _ p _ rfl rfl (le_refl _) (le_refl _)

theorem grows_unblock_WAITING_loop (n : Nat) :
    ∀ (w : Int) (s : Sim), grows s (unblock_WAITING_loop n w s) := by
  induction n with
  | zero => intro w s; exact grows_refl s
  | succ n ih =>
    intro w s
    rw [unblock_WAITING_loop]
    split
    · simp only
      split
      · exact grows_trans (grows_append_READY s _) (ih _ _)
      · exact ih _ _
    · exact grows_refl s

theorem grows_unblock_SLEEPING_loop (now : Int) (n : Nat) :
    ∀ (i : Int) (s : Sim), grows s (unblock_SLEEPING_loop now n i s) := by
  induction n with
  | zero => intro i s; exact grows_refl s
  | succ n ih =>
    intro i s
    rw [unblock_SLEEPING_loop]
    split
    · split
      · exact grows_trans (grows_append_READY s _) (ih _ _)
      · exact ih _ _
    · exact grows_refl s

theorem grows_io_done (s : Sim) : grows s ( unblock_completed_IO s) := by
  unfold unblock_completed_IO
  split
  · exact grows_append_READY s _
  · exact grows_refl s

theorem grows_io_start (s : Sim) : grows s ( start_pending_IO s) := by
  unfold start_pending_IO
  split
  · exact grows_refl s
  · exact grows_refl s

theorem grows_dequeue (s : Sim) : grows s (dequeue_READY_queue s).2 := by
  unfold dequeue_READY_queue
  split
  · exact grows_refl s
  · exact grows_refl s

theorem grows_idle_CPU (l : Loop) : grows l.sim (idle_CPU l).sim := by
  unfold idle_CPU
  have h4 : grows l.sim
      ( start_pending_IO ( unblock_completed_IO (unblock_WAITING (unblock_SLEEPING l.sim)))) :=
    grows_trans (grows_trans (grows_trans (grows_unblock_SLEEPING_loop _ _ _ _)
      (grows_unblock_WAITING_loop _ _ _)) (grows_io_done _)) (grows_io_start _)
  split
  · simp only
    split
    · exact grows_trans h4 (grows_dequeue _)
    · exact h4
  · exact grows_refl _

theorem grows_consume_CPU (l : Loop) : grows l.sim (consume_CPU l).sim := by
  have h1 : grows l.sim ( incr_time_on_CPU l.sim l.proc_on_CPU) :=
    grows_store l.sim _ l.proc_on_CPU _ rfl rfl (le_refl _) (by
      show (l.sim.processes l.proc_on_CPU).time_on_CPU
        ≤ (l.sim.processes l.proc_on_CPU).time_on_CPU + 1
      omega)
  unfold consume_CPU
  simp only
  split
  · exact grows_trans h1 (grows_append_READY _ _)
  · exact h1

/-- The fields that `exit_process` leaves alone in every record. -/
theorem exit_process_fields (s : Sim) (p r : Int) :
    ((exit_process s p).processes r).next_syscall = (s.processes r).next_syscall ∧
    ((exit_process s p).processes r).time_on_CPU = (s.processes r).time_on_CPU ∧
    ((exit_process s p).processes r).command = (s.processes r).command := by
  unfold exit_process
  rcases exit_scan_spec s p MAX_RUNNING_PROCESSES 0 with ⟨_, e⟩ | ⟨q, _, _, _, _, _, e⟩
  · rw [e]
    simp only [store_apply]
    by_cases hrp : r = p <;> simp [hrp]
  · rw [e]
    simp only [store_apply]
    by_cases hrp : r = p <;> by_cases hrq : r = q <;> simp_all

theorem progress_exit_process (s : Sim) (p : Int) : progress s (exit_process s p) := by
  intro r _ l2
  have h := exit_process_ids s p r
  have hf := exit_process_fields s p r
  by_cases hrp : r = p
  · rw [h.1, if_pos hrp] at l2
    exact absurd rfl l2
  · rw [h.1, if_neg hrp, hf.1, hf.2.1]
    exact ⟨rfl, le_refl _, le_refl _⟩

theorem progress_spawn_in_slot (s : Sim) (q c pp : Int) (hq : (s.processes q).pid = UNKNOWN) :
    progress s (spawn_in_slot s q c pp) := by
  intro r l1 _
  have hrq : r ≠ q := fun h => l1 (h ▸ hq)
  rw [spawn_in_slot_processes, if_neg hrq]
  exact ⟨rfl, le_refl _, le_refl _⟩

/-- The dispatch of an event lets the live processes progress. -/
theorem progress_issue_syscall (l l2 : Loop) (c i : Int) (h : issue_syscall l c i = .ok l2) :
    progress l.sim l2.sim := by
  have h1 : grows l.sim ( incr_next_syscall l.sim l.proc_on_CPU) :=
    grows_store l.sim _ l.proc_on_CPU _ rfl rfl (by
      show (l.sim.processes l.proc_on_CPU).next_syscall
        ≤ (l.sim.processes l.proc_on_CPU).next_syscall + 1
      omega) (le_refl _)
  refine grows_progress h1 ?_
  by_cases w0 : ((l.sim.commands c).syscalls i).which = SYS_SPAWN
  · cases hs : spawn_process ( incr_next_syscall l.sim l.proc_on_CPU)
        ((l.sim.commands c).syscalls i).arg0 (l.sim.processes l.proc_on_CPU).pid with
    | error e =>
      have hcmd : ( incr_next_syscall l.sim l.proc_on_CPU).commands = l.sim.commands := rfl
      have hpid : (( incr_next_syscall l.sim l.proc_on_CPU).processes l.proc_on_CPU).pid
          = (l.sim.processes l.proc_on_CPU).pid := by simp [incr_next_syscall]
      simp only [issue_syscall, dispatch, hcmd, w0, if_true, hpid, hs] at h
      cases h
    | ok s1 =>
      rw [issue_spawn l c i s1 w0 hs] at h
      cases h
      obtain ⟨q, _, _, qu, _, e⟩ := spawn_process_ok _ _ _ _ hs
      rw [e]
      have hA := progress_spawn_in_slot ( incr_next_syscall l.sim l.proc_on_CPU) q
        ((l.sim.commands c).syscalls i).arg0 (l.sim.processes l.proc_on_CPU).pid qu
      have hB : grows
          (spawn_in_slot ( incr_next_syscall l.sim l.proc_on_CPU) q
            ((l.sim.commands c).syscalls i).arg0 (l.sim.processes l.proc_on_CPU).pid)
          (advance_time
            (append_to_READY_queue
              (incr_nchildren
                (spawn_in_slot ( incr_next_syscall l.sim l.proc_on_CPU) q
                  ((l.sim.commands c).syscalls i).arg0 (l.sim.processes l.proc_on_CPU).pid)
                l.proc_on_CPU)
              l.proc_on_CPU)
            TIME_CORE_STATE_TRANSITIONS) :=
        grows_trans
          (grows_store _ (incr_nchildren _ l.proc_on_CPU) l.proc_on_CPU _ rfl rfl (le_refl _)
            (le_refl _))
          (grows_append_READY _ _)
      exact progress_grows hA hB
  · by_cases w1 : ((l.sim.commands c).syscalls i).which = SYS_READ ∨
        ((l.sim.commands c).syscalls i).which = SYS_WRITE
    · rw [issue_io l c i w1] at h
      cases h
      exact progress_of_grows
        (grows_store _ (set_state (append_to_IO_BLOCKED_queue _ _ _ _ _) l.proc_on_CPU _)
          l.proc_on_CPU _ rfl rfl (le_refl _) (le_refl _))
    · by_cases w2 : ((l.sim.commands c).syscalls i).which = SYS_SLEEP
      · rw [issue_sleep l c i w2] at h
        cases h
        exact progress_of_grows
          (grows_store _ (advance_time (append_to_SLEEPING_queue _ _ _) _) l.proc_on_CPU _
            rfl rfl (le_refl _) (le_refl _))
      · by_cases w3 : ((l.sim.commands c).syscalls i).which = SYS_WAIT
        · rw [issue_wait l c i w3] at h
          cases h
          apply progress_of_grows
          show grows _ (advance_time (if _ then _ else _) _)
          split
          · exact grows_append_READY _ _
          · exact grows_store _ (append_to_WAITING_queue _ _) l.proc_on_CPU _ rfl rfl
              (le_refl _) (le_refl _)
        · by_cases w4 : ((l.sim.commands c).syscalls i).which = SYS_EXIT
          · rw [issue_exit l c i w4] at h
            cases h
            exact progress_exit_process _ _
          · rw [issue_unknown l c i w0 w1 w2 w3 w4] at h
            cases h

theorem progress_on_CPU (l l2 : Loop) (h : on_CPU l = .ok l2) : progress l.sim l2.sim := by
  by_cases hcpu : l.proc_on_CPU = UNKNOWN
  · have : on_CPU l = .ok l := by
      unfold on_CPU
      rw [if_neg (not_not.2 hcpu)]
    rw [this] at h
    cases h
    exact progress_of_grows (grows_refl _)
  · by_cases hdue : (l.sim.processes l.proc_on_CPU).time_on_CPU
        = ((l.sim.commands (l.sim.processes l.proc_on_CPU).command).syscalls
            (l.sim.processes l.proc_on_CPU).next_syscall).when
    · rw [on_CPU_due l hcpu hdue] at h
      exact progress_issue_syscall l l2 _ _ h
    · rw [on_CPU_compute l hcpu hdue] at h
      cases h
      exact progress_of_grows (grows_consume_CPU l)

/-- A pass of the loop lets the live processes progress. -/
theorem progress_loop_body (l l2 : Loop) (h : loop_body l = .ok l2) :
    progress l.sim l2.sim := by
  unfold loop_body at h
  cases hon : on_CPU { l with sim := advance_time l.sim 1 } with
  | error e =>
    rw [hon] at h
    cases h
  | ok l1 =>
    rw [hon] at h
    cases h
    have ht : grows l.sim (advance_time l.sim 1) := fun _ => ⟨rfl, le_refl _, le_refl _⟩
    have h1 : progress (advance_time l.sim 1) l1.sim :=
      progress_on_CPU { l with sim := advance_time l.sim 1 } l1 hon
    exact grows_progress ht (progress_grows h1 (grows_idle_CPU l1))

/-- The loop is always entered: the first slot of the empty table takes the
root process. -/
theorem enter_loop_ok (devs : List (Int × Int)) (timequantum : Int)
    (commands : Int → Command) (ncommands first : Int) :
    ∃ l : Loop, enter_loop (init_all (load devs timequantum commands ncommands)) first = .ok l := by
  have hu : PROCESS_SLOT_UNUSED
      { init_all (load devs timequantum commands ncommands) with USECS_SINCE_REBOOT := 0 } 0 := by
    show ((init_all (load devs timequantum commands ncommands)).processes 0).pid = UNKNOWN
    rw [init_all_processes, if_pos ⟨le_refl _, by decide⟩]
  obtain ⟨q, _, _, _, _, hs⟩ := spawn_scan_spec
    { init_all (load devs timequantum commands ncommands) with USECS_SINCE_REBOOT := 0 }
    first UNKNOWN MAX_RUNNING_PROCESSES 0 ⟨0, le_refl _, by decide, hu⟩
  have hs2 : spawn_process
      { init_all (load devs timequantum commands ncommands) with USECS_SINCE_REBOOT := 0 }
      first UNKNOWN = .ok _ := hs
  unfold enter_loop
  rw [hs2]
  exact ⟨_, rfl⟩

/-- A catalog without read and write events names no device at all. -/
theorem devices_known_of_no_io (devs : List (Int × Int)) (timequantum : Int)
    (cat : List (List Syscall)) (ncommands : Int)
    (h : ∀ cmd ∈ cat, ∀ sc ∈ cmd, sc.which ≠ SYS_READ ∧ sc.which ≠ SYS_WRITE) :
    devices_known (init_all (load devs timequantum (catalog_of cat) ncommands)) := by
  intro c i hw
  exfalso
  have hc : (init_all (load devs timequantum (catalog_of cat) ncommands)).commands
      = catalog_of cat := rfl
  rw [hc] at hw
  have hcmd : ∀ cmd : List Syscall,
      (∀ sc ∈ cmd, sc.which ≠ SYS_READ ∧ sc.which ≠ SYS_WRITE) →
      ∀ j : Int, ((command_of cmd).syscalls j).which ≠ SYS_READ ∧
        ((command_of cmd).syscalls j).which ≠ SYS_WRITE := by
    intro cmd hcmd j
    unfold command_of
    simp only
    split
    · by_cases hj : j.toNat < cmd.length
      · rw [List.getD_eq_getElem _ _ hj]
        exact hcmd _ (List.getElem_mem _)
      · rw [List.getD_eq_default _ _ (by omega)]
        exact ⟨by decide, by decide⟩
    · exact ⟨by decide, by decide⟩
  have hnil : ∀ sc ∈ ([] : List Syscall), sc.which ≠ SYS_READ ∧ sc.which ≠ SYS_WRITE :=
    fun _ hm => absurd hm (List.not_mem_nil _)
  have hall : ((catalog_of cat c).syscalls i).which ≠ SYS_READ ∧
      ((catalog_of cat c).syscalls i).which ≠ SYS_WRITE := by
    unfold catalog_of
    split
    · by_cases hj : c.toNat < cat.length
      · rw [List.getD_eq_getElem _ _ hj]
        exact hcmd _ (h _ (List.getElem_mem _)) i
      · rw [List.getD_eq_default _ _ (by omega)]
        exact hcmd _ hnil i
    · exact hcmd _ hnil i
  rcases hw with hw | hw
  · exact hall.1 hw
  · exact hall.2 hw

/-- Passes of the loop lead from boundary to boundary. -/
theorem boundary_passes (n : Nat) :
    ∀ l l2 : Loop, Boundary l → passes n l = .ok l2 → Boundary l2 := by
  induction n with
  | zero =>
    intro l l2 hb h
    cases h
    exact hb
  | succ n ih =>
    intro l l2 hb h
    rw [passes] at h
    by_cases hp : l.sim.nprocesses > 0
    · rw [if_pos hp] at h
      cases hl : loop_body l with
      | error e =>
        rw [hl] at h
        cases h
      | ok l1 =>
        rw [hl] at h
        exact ih l1 l2 (Boundary.pass l l1 hb hp hl) h
    · rw [if_neg hp] at h
      cases h
      exact hb

/-- The state after `n` passes of a run is a boundary of the loop; the test on
`proc_on_CPU` only serves to tell it from the value that `after_passes` gives to
a run that has stopped with an error. -/
theorem boundary_after_passes (devs : List (Int × Int)) (timequantum : Int)
    (commands : Int → Command) (ncommands : Int) (n : Nat)
    (hk : devices_known (init_all (load devs timequantum commands ncommands)))
    (hne : (after_passes n (init_all (load devs timequantum commands ncommands))).proc_on_CPU
      ≠ UNKNOWN) :
    Boundary (after_passes n (init_all (load devs timequantum commands ncommands))) := by
  unfold after_passes at hne ⊢
  cases h0 : enter_loop (init_all (load devs timequantum commands ncommands)) 0 with
  | error e =>
    rw [h0] at hne
    exact absurd rfl hne
  | ok l0 =>
    rw [h0] at hne
    simp only at hne ⊢
    cases hp : passes n l0 with
    | error e =>
      rw [hp] at hne
      exact absurd rfl hne
    | ok l =>
      exact boundary_passes n l0 l (Boundary.enter _ _ _ _ _ l0 hk h0) hp

set_option maxRecDepth 100000 in
/-- Scenario D with a child that exits at 150: the state after 153 passes, in
which the child is on the CPU and about to exit, is a boundary of the loop. -/
theorem boundary_scenario_D : Boundary (after_passes 153 (scenario_D 150)) :=
  boundary_after_passes [] 100 _ 2 153
    (devices_known_of_no_io [] 100 _ 2 (by decide)) (by decide!)

/-- A sum of indicators is the number of indices that satisfy the test. -/
theorem range_sum_indicator (n : Nat) (P : Int → Prop) [DecidablePred P] :
    range_sum n (fun r => if P r then 1 else 0)
      = (((List.range n).filter (fun k : Nat => decide (P k))).length : Int) := by
  induction n with
  | zero => rfl
  | succ n ih =>
    push_cast
    rw [range_sum_succ, ih, List.range_succ, List.filter_append, List.length_append]
    by_cases h : P n
    · simp [h]
    · simp [h]

/-- C18 (live-child count). At every boundary between passes of the loop, the
`nchildren` of every live process equals the number of live processes of the
table whose parent id is its id, and is therefore not negative.  Over a pass of
the loop, a slot that is live before and after holds the same process, and
neither its cursor `next_syscall` nor its `time_on_CPU` has decreased. -/
theorem live_child_count (l : Loop) (h : Boundary l) :
    (∀ r : Int, live l.sim r →
      (l.sim.processes r).nchildren
        = (((List.range MAX_RUNNING_PROCESSES).filter (fun k : Nat =>
            decide ((l.sim.processes k).pid ≠ UNKNOWN ∧
              (l.sim.processes k).ppid = (l.sim.processes r).pid))).length : Int) ∧
      0 ≤ (l.sim.processes r).nchildren) ∧
    (∀ l2 : Loop, 0 < l.sim.nprocesses → loop_body l = .ok l2 →
      ∀ r : Int, live l.sim r → live l2.sim r →
        (l2.sim.processes r).pid = (l.sim.processes r).pid ∧
        (l.sim.processes r).next_syscall ≤ (l2.sim.processes r).next_syscall ∧
        (l.sim.processes r).time_on_CPU ≤ (l2.sim.processes r).time_on_CPU) := by
  have hi := boundary_inv l h
  constructor
  · intro r hl
    have hc := hi.2.2.children r hl
    have hcount : live_children l.sim (l.sim.processes r).pid
        = (((List.range MAX_RUNNING_PROCESSES).filter (fun k : Nat =>
            decide ((l.sim.processes k).pid ≠ UNKNOWN ∧
              (l.sim.processes k).ppid = (l.sim.processes r).pid))).length : Int) :=
      range_sum_indicator MAX_RUNNING_PROCESSES
        (fun k => (l.sim.processes k).pid ≠ UNKNOWN ∧
          (l.sim.processes k).ppid = (l.sim.processes r).pid)
    rw [hc, hcount]
    exact ⟨rfl, Int.natCast_nonneg _⟩
  · intro l2 _ hb r hl hl2
    exact progress_loop_body l l2 hb r hl.2.2 hl2.2.2

set_option maxRecDepth 100000 in
theorem live_child_count_witness :
    ((after_passes 153 (scenario_D 150)).sim.processes 0).nchildren
        = (((List.range MAX_RUNNING_PROCESSES).filter (fun k : Nat =>
            decide (((after_passes 153 (scenario_D 150)).sim.processes k).pid ≠ UNKNOWN ∧
              ((after_passes 153 (scenario_D 150)).sim.processes k).ppid
                = ((after_passes 153 (scenario_D 150)).sim.processes 0).pid))).length : Int) ∧
    0 ≤ ((after_passes 153 (scenario_D 150)).sim.processes 0).nchildren :=
  (live_child_count (after_passes 153 (scenario_D 150)) boundary_scenario_D).1 0 (by decide!)

/-- C16 (single occupancy). At every boundary between passes of the loop, and
in every state of the globals that further operations of the loop lead to, no
process record has the state RUNNING, so that at most one has it (the program
never assigns that state).  The local `proc_on_CPU` names at most one slot; at a
boundary the slot it names holds a live process that is in no queue. -/
theorem single_occupancy (l : Loop) (h : Boundary l) :
    (∀ s2 : Sim, Steps l.sim s2 →
      (∀ r : Int, (s2.processes r).state ≠ STATE_RUNNING) ∧
      ((List.range MAX_RUNNING_PROCESSES).filter (fun k : Nat =>
        decide ((s2.processes k).state = STATE_RUNNING))).length ≤ 1) ∧
    (∀ a b : Int, on_cpu l.proc_on_CPU a = 1 → on_cpu l.proc_on_CPU b = 1 → a = b) ∧
    (l.proc_on_CPU ≠ UNKNOWN →
      live l.sim l.proc_on_CPU ∧ queued l.sim l.proc_on_CPU = 0) := by
  have hi := boundary_inv l h
  refine ⟨?_, ?_, ?_⟩
  · intro s2 hs
    have hn := no_running_reachable s2 (reachable_steps hi.1 hs)
    refine ⟨hn, ?_⟩
    have : (List.range MAX_RUNNING_PROCESSES).filter (fun k : Nat =>
        decide ((s2.processes k).state = STATE_RUNNING)) = [] := by
      rw [List.filter_eq_nil_iff]
      intro k _
      simpa using hn k
    rw [this]
    exact Nat.zero_le _
  · intro a b ha hb
    unfold on_cpu at ha hb
    split at ha
    · split at hb
      · rename_i h1 h2
        exact h1.2.symm.trans h2.2
      · cases hb
    · cases ha
  · intro hcpu
    exact ⟨live_on_CPU _ _ hi.2.2 hcpu, queued_on_CPU _ _ hi.2.2 hcpu⟩

set_option maxRecDepth 100000 in
theorem single_occupancy_witness :
    (∀ r : Int, ((after_passes 153 (scenario_D 150)).sim.processes r).state ≠ STATE_RUNNING) ∧
    live (after_passes 153 (scenario_D 150)).sim 1 ∧
    queued (after_passes 153 (scenario_D 150)).sim 1 = 0 := by
  have h := single_occupancy (after_passes 153 (scenario_D 150)) boundary_scenario_D
  have hp : (after_passes 153 (scenario_D 150)).proc_on_CPU = 1 := by decide!
  have h3 := h.2.2 (by rw [hp]; decide)
  rw [hp] at h3
  exact ⟨(h.1 _ (steps_refl _)).1, h3⟩

/-! ## The wake-up of a waiting parent -/

theorem live_count_pos (s : Sim) (r : Int) (h : live s r) : 0 < live_count s := by
  have := range_sum_ge MAX_RUNNING_PROCESSES
    (fun k => if (s.processes k).pid ≠ UNKNOWN then (1 : Int) else 0)
    (fun _ _ _ => by show (0 : Int) ≤ if _ then 1 else 0; split <;> omega) r h.1 h.2.1
  simp only [if_pos h.2.2] at this
  unfold live_count
  omega

/-- The idle block when the CPU is idle and processes remain. -/
theorem idle_CPU_run (l : Loop) (h0 : l.proc_on_CPU = UNKNOWN) (h1 : 0 < l.sim.nprocesses) :
    idle_CPU l
      = if ( start_pending_IO ( unblock_completed_IO
            (unblock_WAITING (unblock_SLEEPING l.sim)))).nready > 0 then
          { l with
            sim := (dequeue_READY_queue ( start_pending_IO ( unblock_completed_IO
              (unblock_WAITING (unblock_SLEEPING l.sim))))).2
            proc_on_CPU := (dequeue_READY_queue ( start_pending_IO ( unblock_completed_IO
              (unblock_WAITING (unblock_SLEEPING l.sim))))).1
            timequantum_expires :=
              (dequeue_READY_queue ( start_pending_IO ( unblock_completed_IO
                (unblock_WAITING (unblock_SLEEPING l.sim))))).2.USECS_SINCE_REBOOT
              + (dequeue_READY_queue ( start_pending_IO ( unblock_completed_IO
                (unblock_WAITING (unblock_SLEEPING l.sim))))).2.timequantum }
        else
          { l with
            sim := start_pending_IO ( unblock_completed_IO
              (unblock_WAITING (unblock_SLEEPING l.sim))) } := by
  unfold idle_CPU
  rw [if_pos ⟨h0, h1⟩]

/-- What the rest of the idle block keeps of a slot in the READY queue: after
the completion and the start of transfers and the dequeue, the slot is still in
the READY queue or has been put on the CPU, its state is READY, and the WAITING
queue is as before. -/
theorem ready_after_drains (s : Sim) (P : Int) (hr : 0 ≤ s.nready)
    (hP : P ∈ view s.READY_queue s.nready) (hst : (s.processes P).state = STATE_READY) :
    0 < ( start_pending_IO ( unblock_completed_IO s)).nready ∧
    (P ∈ view (dequeue_READY_queue ( start_pending_IO ( unblock_completed_IO s))).2.READY_queue
          (dequeue_READY_queue ( start_pending_IO ( unblock_completed_IO s))).2.nready ∨
      (dequeue_READY_queue ( start_pending_IO ( unblock_completed_IO s))).1 = P) ∧
    ((dequeue_READY_queue ( start_pending_IO ( unblock_completed_IO s))).2.processes P).state
      = STATE_READY ∧
    view (dequeue_READY_queue ( start_pending_IO ( unblock_completed_IO s))).2.WAITING_queue
        (dequeue_READY_queue ( start_pending_IO ( unblock_completed_IO s))).2.nwaiting
      = view s.WAITING_queue s.nwaiting := by
  -- the completion of a transfer
  have h3 : P ∈ view ( unblock_completed_IO s).READY_queue ( unblock_completed_IO s).nready ∧
      (( unblock_completed_IO s).processes P).state = STATE_READY ∧
      view ( unblock_completed_IO s).WAITING_queue ( unblock_completed_IO s).nwaiting
        = view s.WAITING_queue s.nwaiting := by
    unfold unblock_completed_IO
    split
    · refine ⟨?_, ?_, rfl⟩
      · show P ∈ view (store s.READY_queue s.nready _) (s.nready + 1)
        rw [view_store_append _ _ _ hr]
        exact List.mem_append_left _ hP
      · show (store s.processes _ _ P).state = STATE_READY
        rw [store_apply]
        split
        · rfl
        · exact hst
    · exact ⟨hP, hst, rfl⟩
  -- the start of a transfer
  have h4 : P ∈ view ( start_pending_IO ( unblock_completed_IO s)).READY_queue
        ( start_pending_IO ( unblock_completed_IO s)).nready ∧
      (( start_pending_IO ( unblock_completed_IO s)).processes P).state = STATE_READY ∧
      view ( start_pending_IO ( unblock_completed_IO s)).WAITING_queue
          ( start_pending_IO ( unblock_completed_IO s)).nwaiting
        = view s.WAITING_queue s.nwaiting := by
    unfold start_pending_IO
    split
    · exact h3
    · exact h3
  have hpos : 0 < ( start_pending_IO ( unblock_completed_IO s)).nready := by
    by_contra hn
    have := h4.1
    rw [view_nonpos _ _ (by omega)] at this
    cases this
  have hd : dequeue_READY_queue ( start_pending_IO ( unblock_completed_IO s))
      = (( start_pending_IO ( unblock_completed_IO s)).READY_queue 0,
          { advance_time ( start_pending_IO ( unblock_completed_IO s)) TIME_CONTEXT_SWITCH with
            READY_queue := slide_left ( start_pending_IO ( unblock_completed_IO s)).READY_queue 0
              ( start_pending_IO ( unblock_completed_IO s)).nready
            nready := ( start_pending_IO ( unblock_completed_IO s)).nready - 1 }) := by
    unfold dequeue_READY_queue
    rw [if_pos hpos]
    rfl
  rw [hd]
  refine ⟨hpos, ?_, h4.2.1, h4.2.2⟩
  have := h4.1
  rw [view_cons_slide _ _ hpos, List.mem_cons] at this
  rcases this with h | h
  · exact Or.inr h.symm
  · exact Or.inl h

/-- C13 (scenario D, wake-up of the parent). At a boundary between passes of any
run, let the process in slot `P` be in the WAITING queue with `nchildren = 1`,
and let its child be on the CPU (the parent id of the process on the CPU is the
id of `P`) with `time_on_CPU` equal to the `when` of its next event, an `exit`.
Then in the next pass `on_CPU` dispatches the exit and leaves the CPU idle with
a process left, `P` still in the WAITING queue, now with `nchildren = 0`; so the
idle block of the same pass runs, and its drain of the WAITING queue (after the
drain of the SLEEPING queue) removes `P` from the WAITING queue and appends it
to the READY queue with state READY, at a charge of
`TIME_CORE_STATE_TRANSITIONS = 10` for every entry it moves.  At the end of the
pass `P` is not in the WAITING queue, its state is READY, and it is in the READY
queue or has already been put on the CPU. -/
theorem scenario_D_wakeup (l : Loop) (P : Int) (h : Boundary l)
    (hcpu : l.proc_on_CPU ≠ UNKNOWN)
    (hdue : (l.sim.processes l.proc_on_CPU).time_on_CPU
      = ((l.sim.commands (l.sim.processes l.proc_on_CPU).command).syscalls
          (l.sim.processes l.proc_on_CPU).next_syscall).when)
    (hexit : ((l.sim.commands (l.sim.processes l.proc_on_CPU).command).syscalls
          (l.sim.processes l.proc_on_CPU).next_syscall).which = SYS_EXIT)
    (hP : P ∈ view l.sim.WAITING_queue l.sim.nwaiting)
    (hone : (l.sim.processes P).nchildren = 1)
    (hchild : (l.sim.processes l.proc_on_CPU).ppid = (l.sim.processes P).pid) :
    ∃ l1 : Loop,
      on_CPU { l with sim := advance_time l.sim 1 } = .ok l1 ∧
      loop_body l = .ok (idle_CPU l1) ∧
      (l1.proc_on_CPU = UNKNOWN ∧ 0 < l1.sim.nprocesses) ∧
      (l1.sim.processes P).nchildren = 0 ∧
      P ∈ view l1.sim.WAITING_queue l1.sim.nwaiting ∧
      P ∈ view (unblock_SLEEPING l1.sim).WAITING_queue (unblock_SLEEPING l1.sim).nwaiting ∧
      P ∉ view (unblock_WAITING (unblock_SLEEPING l1.sim)).WAITING_queue
        (unblock_WAITING (unblock_SLEEPING l1.sim)).nwaiting ∧
      view (unblock_WAITING (unblock_SLEEPING l1.sim)).READY_queue
          (unblock_WAITING (unblock_SLEEPING l1.sim)).nready
        = view (unblock_SLEEPING l1.sim).READY_queue (unblock_SLEEPING l1.sim).nready
          ++ (view (unblock_SLEEPING l1.sim).WAITING_queue (unblock_SLEEPING l1.sim).nwaiting).filter
              (ready_to_go (unblock_SLEEPING l1.sim).processes) ∧
      P ∈ (view (unblock_SLEEPING l1.sim).WAITING_queue (unblock_SLEEPING l1.sim).nwaiting).filter
          (ready_to_go (unblock_SLEEPING l1.sim).processes) ∧
      ((unblock_WAITING (unblock_SLEEPING l1.sim)).processes P).state = STATE_READY ∧
      (unblock_WAITING (unblock_SLEEPING l1.sim)).USECS_SINCE_REBOOT
        = (unblock_SLEEPING l1.sim).USECS_SINCE_REBOOT
          + TIME_CORE_STATE_TRANSITIONS
            * (((view (unblock_SLEEPING l1.sim).WAITING_queue
                  (unblock_SLEEPING l1.sim).nwaiting).filter
                (ready_to_go (unblock_SLEEPING l1.sim).processes)).length : Int) ∧
      TIME_CORE_STATE_TRANSITIONS = 10 ∧
      P ∉ view (idle_CPU l1).sim.WAITING_queue (idle_CPU l1).sim.nwaiting ∧
      ((idle_CPU l1).sim.processes P).state = STATE_READY ∧
      (P ∈ view (idle_CPU l1).sim.READY_queue (idle_CPU l1).sim.nready ∨
        (idle_CPU l1).proc_on_CPU = P) := by
  have hi := boundary_inv l h
  -- the state handed to `on_CPU`, and the dispatch of the exit
  have hit : loop_inv { l with sim := advance_time l.sim 1 } :=
    ⟨Reachable.step _ _ hi.1 (Step.tick _ _), hi.2.1, core_inv_clock _ _ _ hi.2.2⟩
  have hon : on_CPU { l with sim := advance_time l.sim 1 } = .ok
      { l with
        sim := exit_process ( incr_next_syscall (advance_time l.sim 1) l.proc_on_CPU)
          l.proc_on_CPU
        total_time_on_CPU := l.total_time_on_CPU + (l.sim.processes l.proc_on_CPU).time_on_CPU
        proc_on_CPU := UNKNOWN } :=
    (on_CPU_due { l with sim := advance_time l.sim 1 } hcpu hdue).trans
      (issue_exit { l with sim := advance_time l.sim 1 } _ _ hexit)
  have hi1 := loop_inv_on_CPU _ _ hit hon
  -- the parent: a live slot other than that of the child
  have hzero : queued l.sim l.proc_on_CPU = 0 := queued_on_CPU _ _ hi.2.2 hcpu
  have hPC : P ≠ l.proc_on_CPU := by
    intro e
    rw [e] at hP
    exact not_waiting_of_queued_zero _ _ hzero hP
  have hlP : live l.sim P := by
    apply live_of_placed _ _ hi.2.2
    have h1 := (cnt_pos_iff P _).2 hP
    have h2 := queued_terms_nonneg l.sim P
    have h3 := on_cpu_nonneg l.proc_on_CPU P
    unfold queued
    omega
  have hstP : (l.sim.processes P).state = STATE_WAITING := hi.2.2.waiting P hP
  have hR1 : Reachable ( incr_next_syscall (advance_time l.sim 1) l.proc_on_CPU) :=
    Reachable.step _ _ hit.1 (Step.cursor _ _)
  have hrecP : (exit_process ( incr_next_syscall (advance_time l.sim 1) l.proc_on_CPU)
      l.proc_on_CPU).processes P
      = { l.sim.processes P with nchildren := (l.sim.processes P).nchildren - 1 } := by
    rw [exit_process_other _ _ _ hPC (pids_reachable _ hR1).2.2]
    have e1 : ( incr_next_syscall (advance_time l.sim 1) l.proc_on_CPU).processes P
        = l.sim.processes P := store_other _ _ _ _ hPC
    have e2 : (( incr_next_syscall (advance_time l.sim 1) l.proc_on_CPU).processes
        l.proc_on_CPU).ppid = (l.sim.processes l.proc_on_CPU).ppid := by
      simp [incr_next_syscall, advance_time]
    rw [e1, e2, if_pos ⟨hlP.1, hlP.2.1, hlP.2.2, hchild.symm⟩]
  have hP1 : P ∈ view (exit_process ( incr_next_syscall (advance_time l.sim 1) l.proc_on_CPU)
        l.proc_on_CPU).WAITING_queue
      (exit_process ( incr_next_syscall (advance_time l.sim 1) l.proc_on_CPU)
        l.proc_on_CPU).nwaiting := by
    rw [exit_process_frame]
    exact hP
  have hlP1 : live (exit_process ( incr_next_syscall (advance_time l.sim 1) l.proc_on_CPU)
      l.proc_on_CPU) P := ⟨hlP.1, hlP.2.1, by rw [hrecP]; exact hlP.2.2⟩
  have hn1 : 0 < (exit_process ( incr_next_syscall (advance_time l.sim 1) l.proc_on_CPU)
      l.proc_on_CPU).nprocesses := by
    rw [hi1.2.2.count]
    exact live_count_pos _ P hlP1
  -- the drain of the SLEEPING queue leaves the parent alone
  have hr1 := (reachable_counters _ hi1.1).1
  have hf1 := unblock_SLEEPING_frame _ hr1
  have hc1 := core_inv_unblock_SLEEPING _ _ hi1.2.2 hr1
  have hRs : Reachable (unblock_SLEEPING (exit_process
      ( incr_next_syscall (advance_time l.sim 1) l.proc_on_CPU) l.proc_on_CPU)) :=
    Reachable.step _ _ hi1.1 (Step.sleep_drain _)
  have hPs : P ∈ view (unblock_SLEEPING (exit_process
        ( incr_next_syscall (advance_time l.sim 1) l.proc_on_CPU) l.proc_on_CPU)).WAITING_queue
      (unblock_SLEEPING (exit_process
        ( incr_next_syscall (advance_time l.sim 1) l.proc_on_CPU) l.proc_on_CPU)).nwaiting := by
    rw [hf1]
    exact hP1
  have hstS : ((unblock_SLEEPING (exit_process
      ( incr_next_syscall (advance_time l.sim 1) l.proc_on_CPU) l.proc_on_CPU)).processes P).state
      = STATE_WAITING := hc1.waiting P hPs
  have hchS : ((unblock_SLEEPING (exit_process
      ( incr_next_syscall (advance_time l.sim 1) l.proc_on_CPU) l.proc_on_CPU)).processes P).nchildren
      = 0 := by
    rw [hf1]
    simp only
    rw [mark_ready_apply]
    split
    · show ((exit_process _ _).processes P).nchildren = 0
      rw [hrecP]
      show (l.sim.processes P).nchildren - 1 = 0
      omega
    · rw [hrecP]
      show (l.sim.processes P).nchildren - 1 = 0
      omega
  have hgo : ready_to_go (unblock_SLEEPING (exit_process
      ( incr_next_syscall (advance_time l.sim 1) l.proc_on_CPU) l.proc_on_CPU)).processes P
      = true := by
    unfold ready_to_go
    exact decide_eq_true ⟨hstS, hchS⟩
  -- the drain of the WAITING queue moves the parent
  obtain ⟨w1, w2, w3⟩ := unblock_WAITING_spec _ (reachable_counters _ hRs).1
    (waiting_nodup _ _ hc1)
  have hmoved : P ∈ (view (unblock_SLEEPING (exit_process
        ( incr_next_syscall (advance_time l.sim 1) l.proc_on_CPU) l.proc_on_CPU)).WAITING_queue
      (unblock_SLEEPING (exit_process
        ( incr_next_syscall (advance_time l.sim 1) l.proc_on_CPU) l.proc_on_CPU)).nwaiting).filter
      (ready_to_go (unblock_SLEEPING (exit_process
        ( incr_next_syscall (advance_time l.sim 1) l.proc_on_CPU) l.proc_on_CPU)).processes) :=
    List.mem_filter.2 ⟨hPs, hgo⟩
  have hnot : P ∉ view (unblock_WAITING (unblock_SLEEPING (exit_process
        ( incr_next_syscall (advance_time l.sim 1) l.proc_on_CPU) l.proc_on_CPU))).WAITING_queue
      (unblock_WAITING (unblock_SLEEPING (exit_process
        ( incr_next_syscall (advance_time l.sim 1) l.proc_on_CPU) l.proc_on_CPU))).nwaiting := by
    rw [w1, List.mem_filter]
    rintro ⟨_, hf⟩
    rw [hgo] at hf
    cases hf
  have hstW : ((unblock_WAITING (unblock_SLEEPING (exit_process
      ( incr_next_syscall (advance_time l.sim 1) l.proc_on_CPU) l.proc_on_CPU))).processes P).state
      = STATE_READY := by
    rw [w3]
    simp only
    rw [mark_ready_apply, if_pos hmoved]
  have hclock : (unblock_WAITING (unblock_SLEEPING (exit_process
      ( incr_next_syscall (advance_time l.sim 1) l.proc_on_CPU) l.proc_on_CPU))).USECS_SINCE_REBOOT
      = (unblock_SLEEPING (exit_process
          ( incr_next_syscall (advance_time l.sim 1) l.proc_on_CPU) l.proc_on_CPU)).USECS_SINCE_REBOOT
        + TIME_CORE_STATE_TRANSITIONS
          * (((view (unblock_SLEEPING (exit_process
                ( incr_next_syscall (advance_time l.sim 1) l.proc_on_CPU)
                l.proc_on_CPU)).WAITING_queue
              (unblock_SLEEPING (exit_process
                ( incr_next_syscall (advance_time l.sim 1) l.proc_on_CPU)
                l.proc_on_CPU)).nwaiting).filter
              (ready_to_go (unblock_SLEEPING (exit_process
                ( incr_next_syscall (advance_time l.sim 1) l.proc_on_CPU)
                l.proc_on_CPU)).processes)).length : Int) := by
    rw [w3]
  -- the rest of the idle block
  have hRw : Reachable (unblock_WAITING (unblock_SLEEPING (exit_process
      ( incr_next_syscall (advance_time l.sim 1) l.proc_on_CPU) l.proc_on_CPU))) :=
    Reachable.step _ _ hRs (Step.wait_drain _)
  have hPr : P ∈ view (unblock_WAITING (unblock_SLEEPING (exit_process
        ( incr_next_syscall (advance_time l.sim 1) l.proc_on_CPU) l.proc_on_CPU))).READY_queue
      (unblock_WAITING (unblock_SLEEPING (exit_process
        ( incr_next_syscall (advance_time l.sim 1) l.proc_on_CPU) l.proc_on_CPU))).nready := by
    rw [w2]
    exact List.mem_append_right _ hmoved
  obtain ⟨d1, d2, d3, d4⟩ := ready_after_drains _ P (reachable_counters _ hRw).1 hPr hstW
  have hidle := idle_CPU_run
    { l with
      sim := exit_process ( incr_next_syscall (advance_time l.sim 1) l.proc_on_CPU)
        l.proc_on_CPU
      total_time_on_CPU := l.total_time_on_CPU + (l.sim.processes l.proc_on_CPU).time_on_CPU
      proc_on_CPU := UNKNOWN } rfl hn1
  rw [if_pos d1] at hidle
  refine ⟨_, hon, ?_, ⟨rfl, hn1⟩, ?_, hP1, hPs, hnot, w2, hmoved, hstW, hclock, rfl, ?_, ?_, ?_⟩
  · unfold loop_body
    rw [hon]
  · show ((exit_process _ _).processes P).nchildren = 0
    rw [hrecP]
    show (l.sim.processes P).nchildren - 1 = 0
    omega
  · rw [hidle]
    show P ∉ view (dequeue_READY_queue _).2.WAITING_queue (dequeue_READY_queue _).2.nwaiting
    rw [d4]
    exact hnot
  · rw [hidle]
    exact d3
  · rw [hidle]
    exact d2

set_option maxRecDepth 100000 in
theorem scenario_D_wakeup_witness :
    ∃ l1 : Loop,
      on_CPU { after_passes 153 (scenario_D 150) with
          sim := advance_time (after_passes 153 (scenario_D 150)).sim 1 } = .ok l1 ∧
      loop_body (after_passes 153 (scenario_D 150)) = .ok (idle_CPU l1) ∧
      (l1.sim.processes 0).nchildren = 0 ∧
      0 ∉ view (idle_CPU l1).sim.WAITING_queue (idle_CPU l1).sim.nwaiting ∧
      ((idle_CPU l1).sim.processes 0).state = STATE_READY := by
  obtain ⟨l1, h1, h2, _, h4, _, _, _, _, _, _, _, _, h13, h14, _⟩ :=
    scenario_D_wakeup (after_passes 153 (scenario_D 150)) 0 boundary_scenario_D
      (by decide!) (by decide!) (by decide!) (by decide!) (by decide!) (by decide!)
  exact ⟨l1, h1, h2, h4, h13, h14⟩

/-! ## Claim C21: the drain of the SLEEPING queue -/

/-- Claim C21: a call of `unblock_SLEEPING` that starts with clock value `now`
removes from the SLEEPING queue exactly the entries whose wake time is at most
`now` (the clock at the start of the call, whatever the call adds to it), keeps
the other entries in their order, appends the processes of the removed entries
to the READY queue in the order they had in the SLEEPING queue, sets their state
to READY and leaves every other record alone, and advances the clock by exactly
10 for each removed entry; nothing else changes. -/
theorem sleeping_drain (s : Sim) (hr : 0 ≤ s.nready) :
    let now := s.USECS_SINCE_REBOOT
    let before := view s.SLEEPING_queue s.nsleeping
    let removed := before.filter (fun e => decide (e.until_ ≤ now))
    let s2 := unblock_SLEEPING s
    view s2.SLEEPING_queue s2.nsleeping = before.filter (fun e => !decide (e.until_ ≤ now)) ∧
    (∀ e, e ∈ view s2.SLEEPING_queue s2.nsleeping ↔ e ∈ before ∧ now < e.until_) ∧
    (∀ e, e ∈ removed ↔ e ∈ before ∧ e.until_ ≤ now) ∧
    (view s2.SLEEPING_queue s2.nsleeping).Sublist before ∧
    removed.Sublist before ∧
    view s2.READY_queue s2.nready = view s.READY_queue s.nready ++ removed.map Sleeper.proc ∧
    (∀ e ∈ removed, (s2.processes e.proc).state = STATE_READY) ∧
    (∀ r, s2.processes r
        = if r ∈ removed.map Sleeper.proc then { s.processes r with state := STATE_READY }
          else s.processes r) ∧
    s2.USECS_SINCE_REBOOT = now + 10 * (removed.length : Int) ∧
    s2 = { s with
           USECS_SINCE_REBOOT := s2.USECS_SINCE_REBOOT
           processes := s2.processes
           READY_queue := s2.READY_queue
           nready := s2.nready
           SLEEPING_queue := s2.SLEEPING_queue
           nsleeping := s2.nsleeping } := by
  intro now before removed s2
  obtain ⟨k1, k2, k3⟩ := unblock_SLEEPING_spec s hr
  have hf := unblock_SLEEPING_frame s hr
  have hdue : (fun e : Sleeper => decide (e.until_ ≤ now)) = due s.USECS_SINCE_REBOOT := by
    funext e
    rfl
  have hprocs : s2.processes = mark_ready s.processes (removed.map Sleeper.proc) := by
    show (unblock_SLEEPING s).processes = _
    rw [hf]
    show mark_ready s.processes _ = mark_ready s.processes _
    rw [← hdue]
  have hrec : ∀ r, s2.processes r
        = if r ∈ removed.map Sleeper.proc then { s.processes r with state := STATE_READY }
          else s.processes r := by
    intro r
    rw [hprocs, mark_ready_apply]
  have hview : view s2.SLEEPING_queue s2.nsleeping
      = before.filter (fun e => !decide (e.until_ ≤ now)) := by
    show view (unblock_SLEEPING s).SLEEPING_queue (unblock_SLEEPING s).nsleeping = _
    rw [k1]
    rfl
  refine ⟨hview, ?_, ?_, ?_, List.filter_sublist _, ?_, ?_, hrec, ?_, ?_⟩
  · intro e
    rw [hview, List.mem_filter]
    simp
  · intro e
    show e ∈ before.filter _ ↔ _
    rw [List.mem_filter]
    simp
  · rw [hview]
    exact List.filter_sublist _
  · show view (unblock_SLEEPING s).READY_queue (unblock_SLEEPING s).nready = _
    rw [k2, ← hdue]
  · intro e he
    rw [hrec, if_pos (List.mem_map_of_mem _ he)]
  · show (unblock_SLEEPING s).USECS_SINCE_REBOOT = _
    rw [k3, ← hdue]
    rfl
  · have hp : (unblock_SLEEPING s).processes = mark_ready s.processes
        (((view s.SLEEPING_queue s.nsleeping).filter (due s.USECS_SINCE_REBOOT)).map
          Sleeper.proc) := by
      rw [hf]
    show unblock_SLEEPING s = { s with
           USECS_SINCE_REBOOT := (unblock_SLEEPING s).USECS_SINCE_REBOOT
           processes := (unblock_SLEEPING s).processes
           READY_queue := (unblock_SLEEPING s).READY_queue
           nready := (unblock_SLEEPING s).nready
           SLEEPING_queue := (unblock_SLEEPING s).SLEEPING_queue
           nsleeping := (unblock_SLEEPING s).nsleeping }
    rw [hp]
    exact hf

set_option maxRecDepth 100000 in
/-- Witness of C21: at clock 100 the sleeper due at 100 leaves and the sleeper due
at 105 stays, although the call ends with the clock at 110. -/
theorem sleeping_drain_witness :
    0 ≤ two_sleepers.nready ∧
    view two_sleepers.SLEEPING_queue two_sleepers.nsleeping = [⟨0, 100⟩, ⟨1, 105⟩] ∧
    view (unblock_SLEEPING two_sleepers).SLEEPING_queue (unblock_SLEEPING two_sleepers).nsleeping
      = [⟨1, 105⟩] ∧
    view (unblock_SLEEPING two_sleepers).READY_queue (unblock_SLEEPING two_sleepers).nready
      = [0] ∧
    (unblock_SLEEPING two_sleepers).USECS_SINCE_REBOOT = 110 :=
  ⟨by decide!, by decide!,
   (sleeping_drain two_sleepers (by decide!)).1.trans (by decide!),
   (sleeping_drain two_sleepers (by decide!)).2.2.2.2.2.1.trans (by decide!),
   (sleeping_drain two_sleepers (by decide!)).2.2.2.2.2.2.2.2.1.trans (by decide!)⟩

/-! ## Claim C22: the drain of the WAITING queue -/

/-- The invariant of the loop after the tick of the clock that starts a pass. -/
theorem loop_inv_tick (l : Loop) (hi : loop_inv l) :
    loop_inv { l with sim := advance_time l.sim 1 } :=
  ⟨Reachable.step _ _ hi.1 (Step.tick _ _), hi.2.1, core_inv_clock _ _ _ hi.2.2⟩

theorem live_children_nonneg (s : Sim) (x : Int) : 0 ≤ live_children s x := by
  unfold live_children
  apply range_sum_nonneg
  intro d _ _
  split <;> omega

/-- When the loop calls `unblock_WAITING`, the READY counter is not negative, the
entries of the WAITING queue are pairwise distinct, and each of them is a live
process in the state WAITING whose count of children is not negative. -/
theorem waiting_queue_at_drain (l l1 : Loop) (hb : Boundary l)
    (hon : on_CPU { l with sim := advance_time l.sim 1 } = .ok l1) :
    0 ≤ (unblock_SLEEPING l1.sim).nready ∧
    (view (unblock_SLEEPING l1.sim).WAITING_queue (unblock_SLEEPING l1.sim).nwaiting).Nodup ∧
    ∀ p ∈ view (unblock_SLEEPING l1.sim).WAITING_queue (unblock_SLEEPING l1.sim).nwaiting,
      ((unblock_SLEEPING l1.sim).processes p).state = STATE_WAITING ∧
      0 ≤ ((unblock_SLEEPING l1.sim).processes p).nchildren := by
  have hi := loop_inv_on_CPU _ l1 (loop_inv_tick l (boundary_inv l hb)) hon
  obtain ⟨hR, _, hc⟩ := hi
  have hR1 : Reachable (unblock_SLEEPING l1.sim) := Reachable.step _ _ hR (Step.sleep_drain _)
  have hc1 := core_inv_unblock_SLEEPING _ _ hc (reachable_counters _ hR).1
  refine ⟨(reachable_counters _ hR1).1, waiting_nodup _ _ hc1, ?_⟩
  intro p hp
  refine ⟨hc1.waiting p hp, ?_⟩
  have hl : live (unblock_SLEEPING l1.sim) p := by
    apply live_of_placed _ _ hc1
    have h1 := (cnt_pos_iff p _).2 hp
    have h2 := queued_terms_nonneg (unblock_SLEEPING l1.sim) p
    have h3 := on_cpu_nonneg l1.proc_on_CPU p
    unfold queued
    omega
  rw [hc1.children p hl]
  exact live_children_nonneg _ _

/-- Claim C22: a call of `unblock_WAITING` on a WAITING queue of pairwise distinct
slots in the state WAITING removes exactly the entries whose process has no live
child (`nchildren = 0`), keeps the other entries in their order, appends the
removed slots to the READY queue in the order they had in the WAITING queue,
sets their state to READY and leaves every other record alone, and advances the
clock by exactly 10 for each removed entry; nothing else changes.  The second
part shows that the loop calls it on such a queue only: in every pass of a run
the entries are distinct, in the state WAITING, with `nchildren ≥ 0`. -/
theorem waiting_drain :
    (∀ s : Sim, 0 ≤ s.nready → (view s.WAITING_queue s.nwaiting).Nodup →
      (∀ p ∈ view s.WAITING_queue s.nwaiting, (s.processes p).state = STATE_WAITING) →
      let before := view s.WAITING_queue s.nwaiting
      let removed := before.filter (fun p => decide ((s.processes p).nchildren = 0))
      let s2 := unblock_WAITING s
      view s2.WAITING_queue s2.nwaiting
        = before.filter (fun p => !decide ((s.processes p).nchildren = 0)) ∧
      (∀ p, p ∈ view s2.WAITING_queue s2.nwaiting ↔ p ∈ before ∧ (s.processes p).nchildren ≠ 0) ∧
      (∀ p, p ∈ removed ↔ p ∈ before ∧ (s.processes p).nchildren = 0) ∧
      (view s2.WAITING_queue s2.nwaiting).Sublist before ∧
      removed.Sublist before ∧
      view s2.READY_queue s2.nready = view s.READY_queue s.nready ++ removed ∧
      (∀ p ∈ removed, (s2.processes p).state = STATE_READY) ∧
      (∀ r, s2.processes r
          = if r ∈ removed then { s.processes r with state := STATE_READY }
            else s.processes r) ∧
      s2.USECS_SINCE_REBOOT = s.USECS_SINCE_REBOOT + 10 * (removed.length : Int) ∧
      s2 = { s with
             USECS_SINCE_REBOOT := s2.USECS_SINCE_REBOOT
             processes := s2.processes
             READY_queue := s2.READY_queue
             nready := s2.nready
             WAITING_queue := s2.WAITING_queue
             nwaiting := s2.nwaiting }) ∧
    (∀ l l1 : Loop, Boundary l →
      on_CPU { l with sim := advance_time l.sim 1 } = .ok l1 →
      0 ≤ (unblock_SLEEPING l1.sim).nready ∧
      (view (unblock_SLEEPING l1.sim).WAITING_queue (unblock_SLEEPING l1.sim).nwaiting).Nodup ∧
      ∀ p ∈ view (unblock_SLEEPING l1.sim).WAITING_queue (unblock_SLEEPING l1.sim).nwaiting,
        ((unblock_SLEEPING l1.sim).processes p).state = STATE_WAITING ∧
        0 ≤ ((unblock_SLEEPING l1.sim).processes p).nchildren) := by
  refine ⟨?_, fun l l1 hb hon => waiting_queue_at_drain l l1 hb hon⟩
  intro s hr hnd hst before removed s2
  obtain ⟨k1, k2, k3⟩ := unblock_WAITING_spec s hr hnd
  have hgo : ∀ p ∈ before, ready_to_go s.processes p = decide ((s.processes p).nchildren = 0) := by
    intro p hp
    unfold ready_to_go
    simp [hst p hp]
  have hrem : before.filter (ready_to_go s.processes) = removed :=
    List.filter_congr hgo
  have hkeep : before.filter (fun p => !ready_to_go s.processes p)
      = before.filter (fun p => !decide ((s.processes p).nchildren = 0)) :=
    List.filter_congr (fun p hp => by rw [hgo p hp])
  have hview : view s2.WAITING_queue s2.nwaiting
      = before.filter (fun p => !decide ((s.processes p).nchildren = 0)) := by
    show view (unblock_WAITING s).WAITING_queue (unblock_WAITING s).nwaiting = _
    rw [k1]
    exact hkeep
  have hprocs : s2.processes = mark_ready s.processes removed := by
    show (unblock_WAITING s).processes = _
    rw [k3]
    show mark_ready s.processes _ = _
    rw [hrem]
  have hclock : s2.USECS_SINCE_REBOOT = s.USECS_SINCE_REBOOT + 10 * (removed.length : Int) := by
    show (unblock_WAITING s).USECS_SINCE_REBOOT = _
    rw [k3]
    show s.USECS_SINCE_REBOOT + TIME_CORE_STATE_TRANSITIONS * _ = _
    rw [hrem]
    rfl
  have hrec : ∀ r, s2.processes r
        = if r ∈ removed then { s.processes r with state := STATE_READY }
          else s.processes r := by
    intro r
    rw [hprocs, mark_ready_apply]
  refine ⟨hview, ?_, ?_, ?_, List.filter_sublist _, ?_, ?_, hrec, hclock, ?_⟩
  · intro p
    rw [hview, List.mem_filter]
    simp
  · intro p
    show p ∈ before.filter _ ↔ _
    rw [List.mem_filter]
    simp
  · rw [hview]
    exact List.filter_sublist _
  · show view (unblock_WAITING s).READY_queue (unblock_WAITING s).nready = _
    rw [k2]
    exact congrArg _ hrem
  · intro p hp
    rw [hrec, if_pos hp]
  · have hp : (unblock_WAITING s).processes = mark_ready s.processes removed := hprocs
    have hc : (unblock_WAITING s).USECS_SINCE_REBOOT
        = s.USECS_SINCE_REBOOT + 10 * (removed.length : Int) := hclock
    show unblock_WAITING s = { s with
             USECS_SINCE_REBOOT := (unblock_WAITING s).USECS_SINCE_REBOOT
             processes := (unblock_WAITING s).processes
             READY_queue := (unblock_WAITING s).READY_queue
             nready := (unblock_WAITING s).nready
             WAITING_queue := (unblock_WAITING s).WAITING_queue
             nwaiting := (unblock_WAITING s).nwaiting }
    rw [hp, hc, ← hrem]
    exact k3

set_option maxRecDepth 100000 in
/-- Witness of C22: of the waiting slots 0, 1, 2 the slots 0 and 2 have no live
child and move to the READY queue in that order; slot 1 stays; the clock gains 20. -/
theorem waiting_drain_witness :
    view three_waiting.WAITING_queue three_waiting.nwaiting = [0, 1, 2] ∧
    (three_waiting.processes 1).nchildren = 1 ∧
    view (unblock_WAITING three_waiting).WAITING_queue (unblock_WAITING three_waiting).nwaiting
      = [1] ∧
    view (unblock_WAITING three_waiting).READY_queue (unblock_WAITING three_waiting).nready
      = [0, 2] ∧
    (unblock_WAITING three_waiting).USECS_SINCE_REBOOT = three_waiting.USECS_SINCE_REBOOT + 20 :=
  ⟨by decide!, by decide!,
   (waiting_drain.1 three_waiting (by decide!) (by decide!) (by decide!)).1.trans (by decide!),
   (waiting_drain.1 three_waiting (by decide!) (by decide!) (by decide!)).2.2.2.2.2.1.trans
     (by decide!),
   (waiting_drain.1 three_waiting (by decide!) (by decide!) (by decide!)).2.2.2.2.2.2.2.2.1.trans
     (by decide!)⟩

/-! ## Claim C23: every live process is in exactly one place -/

theorem range_sum_add (n : Int) (f g : Int → Int) :
    range_sum n (fun r => f r + g r) = range_sum n f + range_sum n g := by
  unfold range_sum
  generalize n.toNat = m
  induction m with
  | zero => simp
  | succ m ih =>
    rw [List.range_succ]
    simp only [List.map_append, List.sum_append, List.map_cons, List.map_nil, List.sum_cons,
      List.sum_nil, add_zero]
    rw [ih]
    ring

theorem range_sum_le (n : Int) (f g : Int → Int)
    (h : ∀ d : Int, 0 ≤ d → d < n → f d ≤ g d) : range_sum n f ≤ range_sum n g := by
  have h1 := range_sum_nonneg n (fun d => g d - f d) (fun d d0 d1 => by
    have := h d d0 d1
    show 0 ≤ g d - f d
    omega)
  have h2 := range_sum_add n f (fun d => g d - f d)
  have h3 : range_sum n (fun r => f r + (g r - f r)) = range_sum n g :=
    range_sum_congr _ _ _ (fun d _ _ => by ring)
  omega

theorem range_sum_const (n : Int) (h : 0 ≤ n) (c : Int) : range_sum n (fun _ => c) = n * c := by
  obtain ⟨m, rfl⟩ : ∃ m : Nat, n = m := ⟨n.toNat, by omega⟩
  induction m with
  | zero => simp [range_sum]
  | succ m ih =>
    push_cast
    rw [range_sum_succ, ih (by omega)]
    ring

/-- Sums over two indices can be taken in either order. -/
theorem range_sum_comm (n m : Int) (f : Int → Int → Int) :
    range_sum n (fun r => range_sum m (fun d => f r d))
      = range_sum m (fun d => range_sum n (fun r => f r d)) := by
  obtain ⟨k, hk⟩ : ∃ k : Nat, n.toNat = k := ⟨_, rfl⟩
  have key : ∀ k : Nat, ((List.range k).map (fun (j : Nat) => range_sum m (fun d => f j d))).sum
      = range_sum m (fun d => ((List.range k).map (fun (j : Nat) => f j d)).sum) := by
    intro k
    induction k with
    | zero =>
      simp only [List.range_zero, List.map_nil, List.sum_nil]
      exact (range_sum_zero m _ (fun _ _ _ => rfl)).symm
    | succ k ih =>
      simp only [List.range_succ, List.map_append, List.sum_append, List.map_cons, List.map_nil,
        List.sum_cons, List.sum_nil, add_zero]
      rw [ih, ← range_sum_add]
  unfold range_sum at key ⊢
  rw [hk]
  exact key k

/-- The sum over the slots of an indicator of one slot. -/
theorem range_sum_single (n e : Int) (h0 : 0 ≤ e) (h1 : e < n) :
    range_sum n (fun r => if r = e then 1 else 0) = 1 := by
  have hu := range_sum_update n (fun _ => 0) (fun r => if r = e then 1 else 0) e h0 h1
    (fun d hd => by simp [hd])
  rw [hu, range_sum_zero n _ (fun _ _ _ => rfl)]
  simp

/-- The occurrences of all slots in a list of slots of the table add up to its
length. -/
theorem range_sum_cnt (n : Int) (L : List Int) (h : ∀ x ∈ L, 0 ≤ x ∧ x < n) :
    range_sum n (fun r => cnt r L) = (L.length : Int) := by
  induction L with
  | nil =>
    have := range_sum_zero n (fun r => cnt r []) (fun _ _ _ => rfl)
    simpa using this
  | cons e L ih =>
    have he := h e (List.mem_cons_self _ _)
    have hc : range_sum n (fun r => cnt r (e :: L))
        = range_sum n (fun r => (if r = e then 1 else 0) + cnt r L) :=
      range_sum_congr _ _ _ (fun d _ _ => cnt_cons d e L)
    rw [hc, range_sum_add, range_sum_single n e he.1 he.2,
      ih (fun x hx => h x (List.mem_cons_of_mem _ hx))]
    simp only [List.length_cons]
    push_cast
    ring

theorem total_blocked_range_sum (s : Sim) :
    total_blocked s = range_sum s.ndevices (fun d => (s.devices d).nblocked) := by
  unfold total_blocked range_sum view
  rw [List.map_map]
  rfl

theorem range_sum_on_cpu (cpu : Int) (h : cpu ≠ UNKNOWN → 0 ≤ cpu ∧ cpu < MAX_RUNNING_PROCESSES) :
    range_sum MAX_RUNNING_PROCESSES (fun r => on_cpu cpu r)
      = if cpu ≠ UNKNOWN then 1 else 0 := by
  by_cases hc : cpu = UNKNOWN
  · rw [if_neg (not_not.2 hc)]
    exact range_sum_zero _ _ (fun d _ _ => by rw [hc, on_cpu_unknown])
  · rw [if_pos hc]
    have h2 := h hc
    rw [range_sum_congr _ _ (fun r => if r = cpu then 1 else 0)
      (fun d _ _ => on_cpu_known cpu d hc)]
    exact range_sum_single _ _ h2.1 h2.2

/-- A slot that occurs in a queue is live. -/
theorem live_of_queued (s : Sim) (cpu : Int) (hi : core_inv s cpu) (r : Int) :
    (r ∈ view s.READY_queue s.nready → live s r) ∧
    (r ∈ (view s.SLEEPING_queue s.nsleeping).map Sleeper.proc → live s r) ∧
    (r ∈ view s.WAITING_queue s.nwaiting → live s r) ∧
    (∀ d : Int, 0 ≤ d → d < s.ndevices → r ∈ blocked_list (s.devices d) → live s r) := by
  have h2 := queued_terms_nonneg s r
  have h3 := on_cpu_nonneg cpu r
  refine ⟨?_, ?_, ?_, ?_⟩
  · intro hm
    have h1 := (cnt_pos_iff r _).2 hm
    apply live_of_placed s cpu hi
    unfold queued
    omega
  · intro hm
    have h1 := (cnt_pos_iff r _).2 hm
    apply live_of_placed s cpu hi
    unfold queued
    omega
  · intro hm
    have h1 := (cnt_pos_iff r _).2 hm
    apply live_of_placed s cpu hi
    unfold queued
    omega
  · intro d d0 d1 hm
    have h1 := (cnt_pos_iff r _).2 hm
    have h4 := range_sum_ge s.ndevices (fun d => cnt r (blocked_list (s.devices d)))
      (fun _ _ _ => cnt_nonneg _ _) d d0 d1
    simp only at h4
    apply live_of_placed s cpu hi
    unfold queued
    omega

theorem live_count_le (s : Sim) : live_count s ≤ MAX_RUNNING_PROCESSES := by
  unfold live_count
  have h := range_sum_le MAX_RUNNING_PROCESSES
    (fun r => if (s.processes r).pid ≠ UNKNOWN then 1 else 0) (fun _ => 1)
    (fun d _ _ => by
      show (if (s.processes d).pid ≠ UNKNOWN then (1 : Int) else 0) ≤ 1
      split <;> omega)
  rw [range_sum_const _ (by decide) 1] at h
  simpa using h

/-- The counters of a consistent state: the queue lengths and the occupied CPU add
up to `nprocesses`, which is at most 50. -/
theorem placement_counts (s : Sim) (cpu : Int) (hi : core_inv s cpu) (hcons : conserved s)
    (hcnt : counters_ok s) :
    s.nready + s.nsleeping + s.nwaiting + s.nblocked + (if cpu ≠ UNKNOWN then 1 else 0)
      = s.nprocesses ∧
    s.nprocesses ≤ MAX_RUNNING_PROCESSES ∧
    0 ≤ s.nblocked ∧
    ∀ d : Int, 0 ≤ d → d < s.ndevices → (s.devices d).nblocked ≤ s.nblocked := by
  obtain ⟨c1, c2, c3⟩ := hcnt
  have hlq := live_of_queued s cpu hi
  have hR : range_sum MAX_RUNNING_PROCESSES (fun r => cnt r (view s.READY_queue s.nready))
      = s.nready := by
    rw [range_sum_cnt _ _ (fun x hx => ⟨((hlq x).1 hx).1, ((hlq x).1 hx).2.1⟩), view_length]
    omega
  have hS : range_sum MAX_RUNNING_PROCESSES
      (fun r => cnt r ((view s.SLEEPING_queue s.nsleeping).map Sleeper.proc)) = s.nsleeping := by
    rw [range_sum_cnt _ _ (fun x hx => ⟨((hlq x).2.1 hx).1, ((hlq x).2.1 hx).2.1⟩),
      List.length_map, view_length]
    omega
  have hW : range_sum MAX_RUNNING_PROCESSES (fun r => cnt r (view s.WAITING_queue s.nwaiting))
      = s.nwaiting := by
    rw [range_sum_cnt _ _ (fun x hx => ⟨((hlq x).2.2.1 hx).1, ((hlq x).2.2.1 hx).2.1⟩),
      view_length]
    omega
  have hD : range_sum MAX_RUNNING_PROCESSES
      (fun r => range_sum s.ndevices (fun d => cnt r (blocked_list (s.devices d))))
      = s.nblocked := by
    rw [range_sum_comm, hcons, total_blocked_range_sum]
    apply range_sum_congr
    intro d d0 d1
    rw [range_sum_cnt _ _ (fun x hx =>
      ⟨((hlq x).2.2.2 d d0 d1 hx).1, ((hlq x).2.2.2 d d0 d1 hx).2.1⟩)]
    unfold blocked_list
    rw [List.length_map, view_length]
    have := hi.device_counts d d0 d1
    omega
  have hC := range_sum_on_cpu cpu (fun h => ⟨(live_on_CPU s cpu hi h).1, (live_on_CPU s cpu hi h).2.1⟩)
  have hL : range_sum MAX_RUNNING_PROCESSES (fun r => on_cpu cpu r + queued s r)
      = live_count s := by
    unfold live_count
    apply range_sum_congr
    intro d d0 d1
    rw [hi.placed d]
    by_cases hp : (s.processes d).pid = UNKNOWN
    · rw [if_neg (fun hl : live s d => hl.2.2 hp), if_neg (not_not.2 hp)]
    · rw [if_pos (show live s d from ⟨d0, d1, hp⟩), if_pos hp]
  have hsplit : range_sum MAX_RUNNING_PROCESSES (fun r => on_cpu cpu r + queued s r)
      = range_sum MAX_RUNNING_PROCESSES (fun r => on_cpu cpu r)
        + (range_sum MAX_RUNNING_PROCESSES (fun r => cnt r (view s.READY_queue s.nready))
        + range_sum MAX_RUNNING_PROCESSES
            (fun r => cnt r ((view s.SLEEPING_queue s.nsleeping).map Sleeper.proc))
        + range_sum MAX_RUNNING_PROCESSES (fun r => cnt r (view s.WAITING_queue s.nwaiting))
        + range_sum MAX_RUNNING_PROCESSES
            (fun r => range_sum s.ndevices (fun d => cnt r (blocked_list (s.devices d))))) := by
    have h1 := range_sum_add MAX_RUNNING_PROCESSES (fun r => on_cpu cpu r) (fun r => queued s r)
    have h2 := range_sum_add MAX_RUNNING_PROCESSES
      (fun r => cnt r (view s.READY_queue s.nready)
        + cnt r ((view s.SLEEPING_queue s.nsleeping).map Sleeper.proc)
        + cnt r (view s.WAITING_queue s.nwaiting))
      (fun r => range_sum s.ndevices (fun d => cnt r (blocked_list (s.devices d))))
    have h3 := range_sum_add MAX_RUNNING_PROCESSES
      (fun r => cnt r (view s.READY_queue s.nready)
        + cnt r ((view s.SLEEPING_queue s.nsleeping).map Sleeper.proc))
      (fun r => cnt r (view s.WAITING_queue s.nwaiting))
    have h4 := range_sum_add MAX_RUNNING_PROCESSES
      (fun r => cnt r (view s.READY_queue s.nready))
      (fun r => cnt r ((view s.SLEEPING_queue s.nsleeping).map Sleeper.proc))
    have h5 : range_sum MAX_RUNNING_PROCESSES (fun r => queued s r)
        = range_sum MAX_RUNNING_PROCESSES (fun r =>
            cnt r (view s.READY_queue s.nready)
            + cnt r ((view s.SLEEPING_queue s.nsleeping).map Sleeper.proc)
            + cnt r (view s.WAITING_queue s.nwaiting)
            + range_sum s.ndevices (fun d => cnt r (blocked_list (s.devices d)))) :=
      range_sum_congr _ _ _ (fun d _ _ => rfl)
    omega
  have hb0 : 0 ≤ s.nblocked := by
    rw [hcons, total_blocked_range_sum]
    exact range_sum_nonneg _ _ hi.device_counts
  refine ⟨?_, ?_, hb0, ?_⟩
  · rw [hsplit, hR, hS, hW, hD, hC] at hL
    have := hi.count
    omega
  · rw [hi.count]
    exact live_count_le s
  · intro d d0 d1
    rw [hcons, total_blocked_range_sum]
    exact range_sum_ge _ _ hi.device_counts d d0 d1

theorem queues_within_of_inv (s : Sim) (cpu : Int) (hR : Reachable s) (hi : core_inv s cpu) :
    queues_within s := by
  have hcnt := reachable_counters s hR
  obtain ⟨h1, h2, h3, h4⟩ := placement_counts s cpu hi (inv_reachable s hR).1 hcnt
  obtain ⟨c1, c2, c3⟩ := hcnt
  have h5 : (0 : Int) ≤ if cpu ≠ UNKNOWN then 1 else 0 := by
    split <;> omega
  refine ⟨⟨c1, by omega⟩, ⟨c2, by omega⟩, ⟨c3, by omega⟩, ?_⟩
  intro d d0 d1
  have := h4 d d0 d1
  have := hi.device_counts d d0 d1
  constructor <;> omega

/-- The places of a slot that is not live: none. -/
theorem nowhere_of_not_live (s : Sim) (cpu : Int) (hi : core_inv s cpu) (r : Int)
    (hl : ¬ live s r) :
    ¬ (cpu ≠ UNKNOWN ∧ cpu = r) ∧
    r ∉ view s.READY_queue s.nready ∧
    r ∉ (view s.SLEEPING_queue s.nsleeping).map Sleeper.proc ∧
    r ∉ view s.WAITING_queue s.nwaiting ∧
    ∀ d : Int, 0 ≤ d → d < s.ndevices → r ∉ blocked_list (s.devices d) := by
  have hlq := live_of_queued s cpu hi r
  refine ⟨?_, fun h => hl (hlq.1 h), fun h => hl (hlq.2.1 h), fun h => hl (hlq.2.2.1 h),
    fun d d0 d1 h => hl (hlq.2.2.2 d d0 d1 h)⟩
  rintro ⟨h1, h2⟩
  rw [← h2] at hl
  exact hl (live_on_CPU s cpu hi h1)

/-- Claim C23: at every boundary between passes of the loop each live slot occurs
exactly once among the CPU, the READY, SLEEPING and WAITING queues and the
queues of the registered devices, and a slot that is not live occurs in none of
them; hence `nready + nsleeping + nwaiting + nblocked`, plus one if a process is
on the CPU, equals `nprocesses`, and no queue holds more than
`MAX_RUNNING_PROCESSES = 50` entries.  The bound on the queues also holds inside
a pass: after the block of the process on the CPU and after each of the four
queue operations of the idle block. -/
theorem exactly_one_place (l : Loop) (h : Boundary l) :
    (∀ r : Int, live l.sim r →
      (if l.proc_on_CPU ≠ UNKNOWN ∧ l.proc_on_CPU = r then 1 else 0)
        + ((view l.sim.READY_queue l.sim.nready).count r : Int)
        + ((((view l.sim.SLEEPING_queue l.sim.nsleeping).map Sleeper.proc).count r : Nat) : Int)
        + ((view l.sim.WAITING_queue l.sim.nwaiting).count r : Int)
        + range_sum l.sim.ndevices
            (fun d => (((view (l.sim.devices d).blocked (l.sim.devices d).nblocked).map
              Blocked.proc).count r : Int)) = 1) ∧
    (∀ r : Int, ¬ live l.sim r →
      ¬ (l.proc_on_CPU ≠ UNKNOWN ∧ l.proc_on_CPU = r) ∧
      r ∉ view l.sim.READY_queue l.sim.nready ∧
      r ∉ (view l.sim.SLEEPING_queue l.sim.nsleeping).map Sleeper.proc ∧
      r ∉ view l.sim.WAITING_queue l.sim.nwaiting ∧
      ∀ d : Int, 0 ≤ d → d < l.sim.ndevices →
        r ∉ (view (l.sim.devices d).blocked (l.sim.devices d).nblocked).map Blocked.proc) ∧
    l.sim.nready + l.sim.nsleeping + l.sim.nwaiting + l.sim.nblocked
      + (if l.proc_on_CPU ≠ UNKNOWN then 1 else 0) = l.sim.nprocesses ∧
    l.sim.nprocesses ≤ 50 ∧
    (l.sim.nready ≤ 50 ∧ l.sim.nsleeping ≤ 50 ∧ l.sim.nwaiting ≤ 50 ∧ l.sim.nblocked ≤ 50 ∧
      ∀ d : Int, 0 ≤ d → d < l.sim.ndevices → (l.sim.devices d).nblocked ≤ 50) ∧
    MAX_RUNNING_PROCESSES = 50 ∧
    (∀ l1 : Loop, on_CPU { l with sim := advance_time l.sim 1 } = .ok l1 →
      queues_within l1.sim ∧
      queues_within (unblock_SLEEPING l1.sim) ∧
      queues_within (unblock_WAITING (unblock_SLEEPING l1.sim)) ∧
      queues_within ( unblock_completed_IO (unblock_WAITING (unblock_SLEEPING l1.sim))) ∧
      queues_within ( start_pending_IO
        ( unblock_completed_IO (unblock_WAITING (unblock_SLEEPING l1.sim)))) ∧
      queues_within (idle_CPU l1).sim) := by
  have hi := boundary_inv l h
  obtain ⟨hR, hdk, hc⟩ := hi
  have hcnt := reachable_counters _ hR
  obtain ⟨h1, h2, h3, h4⟩ := placement_counts _ _ hc (inv_reachable _ hR).1 hcnt
  have h5 : (0 : Int) ≤ if l.proc_on_CPU ≠ UNKNOWN then 1 else 0 := by
    split <;> omega
  have h50 : MAX_RUNNING_PROCESSES = 50 := rfl
  rw [h50] at h2
  refine ⟨?_, fun r hl => nowhere_of_not_live _ _ hc r hl, h1, h2, ?_, rfl, ?_⟩
  · intro r hl
    have hp := placed_bounds _ _ hc r
    rw [if_pos hl] at hp
    exact hp
  · obtain ⟨c1, c2, c3⟩ := hcnt
    refine ⟨by omega, by omega, by omega, by omega, ?_⟩
    intro d d0 d1
    have := h4 d d0 d1
    omega
  · intro l1 hon
    have hi1 := loop_inv_on_CPU _ l1 (loop_inv_tick l ⟨hR, hdk, hc⟩) hon
    obtain ⟨hR0, _, hc0⟩ := hi1
    have hR1 : Reachable (unblock_SLEEPING l1.sim) :=
      Reachable.step _ _ hR0 (Step.sleep_drain _)
    have hR2 : Reachable (unblock_WAITING (unblock_SLEEPING l1.sim)) :=
      Reachable.step _ _ hR1 (Step.wait_drain _)
    have hR3 : Reachable ( unblock_completed_IO (unblock_WAITING (unblock_SLEEPING l1.sim))) :=
      Reachable.step _ _ hR2 (Step.io_done _)
    have hR4 : Reachable ( start_pending_IO
        ( unblock_completed_IO (unblock_WAITING (unblock_SLEEPING l1.sim)))) :=
      Reachable.step _ _ hR3 (Step.io_start _)
    have hc1 := core_inv_unblock_SLEEPING _ _ hc0 (reachable_counters _ hR0).1
    have hc2 := core_inv_unblock_WAITING _ _ hc1 (reachable_counters _ hR1).1
    have hc3 := core_inv_io_done _ _ hc2 (reachable_counters _ hR2).1 (inv_reachable _ hR2).2
    have hc4 := core_inv_io_start _ _ hc3
    have hi2 := loop_inv_idle_CPU l1 ⟨hR0, by assumption, hc0⟩
    exact ⟨queues_within_of_inv _ _ hR0 hc0, queues_within_of_inv _ _ hR1 hc1,
      queues_within_of_inv _ _ hR2 hc2, queues_within_of_inv _ _ hR3 hc3,
      queues_within_of_inv _ _ hR4 hc4, queues_within_of_inv _ _ hi2.1 hi2.2.2⟩

set_option maxRecDepth 100000 in
/-- Witness of C23: after 153 passes of the parent-and-child scenario the child
(slot 1) is on the CPU and the parent (slot 0) is the one entry of the WAITING
queue: two live processes, and the counters add up to two. -/
theorem exactly_one_place_witness :
    (after_passes 153 (scenario_D 150)).proc_on_CPU = 1 ∧
    view (after_passes 153 (scenario_D 150)).sim.WAITING_queue
      (after_passes 153 (scenario_D 150)).sim.nwaiting = [0] ∧
    (after_passes 153 (scenario_D 150)).sim.nprocesses = 2 ∧
    (after_passes 153 (scenario_D 150)).sim.nready
      + (after_passes 153 (scenario_D 150)).sim.nsleeping
      + (after_passes 153 (scenario_D 150)).sim.nwaiting
      + (after_passes 153 (scenario_D 150)).sim.nblocked
      + (if (after_passes 153 (scenario_D 150)).proc_on_CPU ≠ UNKNOWN then 1 else 0)
      = (after_passes 153 (scenario_D 150)).sim.nprocesses :=
  ⟨by decide!, by decide!, by decide!,
   (exactly_one_place (after_passes 153 (scenario_D 150)) boundary_scenario_D).2.2.1⟩

/-! ## The records over a pass of the loop -/

theorem same_work_refl (s : Sim) : same_work s s :=
  ⟨rfl, le_refl _, fun _ => ⟨rfl, rfl, rfl, rfl⟩⟩

theorem same_work_trans {s s2 s3 : Sim} (h1 : same_work s s2) (h2 : same_work s2 s3) :
    same_work s s3 :=
  ⟨h2.1.trans h1.1, le_trans h1.2.1 h2.2.1, fun r =>
    ⟨(h2.2.2 r).1.trans (h1.2.2 r).1, (h2.2.2 r).2.1.trans (h1.2.2 r).2.1,
      (h2.2.2 r).2.2.1.trans (h1.2.2 r).2.2.1, (h2.2.2 r).2.2.2.trans (h1.2.2 r).2.2.2⟩⟩

/-- A store of a record with the same id, command, cursor and time. -/
theorem same_work_store (s s2 : Sim) (i : Int) (v : Process)
    (hs : s2.processes = store s.processes i v) (hc : s2.commands = s.commands)
    (hk : s.USECS_SINCE_REBOOT ≤ s2.USECS_SINCE_REBOOT)
    (h1 : v.pid = (s.processes i).pid) (h2 : v.command = (s.processes i).command)
    (h3 : v.next_syscall = (s.processes i).next_syscall)
    (h4 : v.time_on_CPU = (s.processes i).time_on_CPU) : same_work s s2 := by
  refine ⟨hc, hk, ?_⟩
  intro r
  rw [hs, store_apply]
  split
  · rename_i h
    rw [h]
    exact ⟨h1, h2, h3, h4⟩
  · exact ⟨rfl, rfl, rfl, rfl⟩

theorem same_work_clock (s : Sim) (k : Int) (hk : 0 ≤ k) : same_work s (advance_time s k) :=
  ⟨rfl, by show s.USECS_SINCE_REBOOT ≤ s.USECS_SINCE_REBOOT + k; omega,
    fun _ => ⟨rfl, rfl, rfl, rfl⟩⟩

theorem same_work_append_READY (s : Sim) (p : Int) : same_work s (append_to_READY_queue s p) :=
  same_work_store s _ p _ rfl rfl (le_refl _) rfl rfl rfl rfl

theorem same_work_move (s : Sim) (p : Int) :
    same_work s (advance_time (append_to_READY_queue s p) TIME_CORE_STATE_TRANSITIONS) :=
  same_work_trans (same_work_append_READY s p) (same_work_clock _ _ (by decide))

theorem same_work_unblock_WAITING_loop (n : Nat) :
    ∀ (w : Int) (s : Sim), same_work s (unblock_WAITING_loop n w s) := by
  induction n with
  | zero => intro w s; exact same_work_refl s
  | succ n ih =>
    intro w s
    rw [unblock_WAITING_loop]
    split
    · simp only
      split
      · exact same_work_trans (same_work_move s _) (ih _ _)
      · exact ih _ _
    · exact same_work_refl s

theorem same_work_unblock_SLEEPING_loop (now : Int) (n : Nat) :
    ∀ (i : Int) (s : Sim), same_work s (unblock_SLEEPING_loop now n i s) := by
  induction n with
  | zero => intro i s; exact same_work_refl s
  | succ n ih =>
    intro i s
    rw [unblock_SLEEPING_loop]
    split
    · split
      · exact same_work_trans (same_work_move s _) (ih _ _)
      · exact ih _ _
    · exact same_work_refl s

theorem same_work_io_done (s : Sim) : same_work s ( unblock_completed_IO s) := by
  unfold unblock_completed_IO
  split
  · exact same_work_move s _
  · exact same_work_refl s

theorem same_work_io_start (s : Sim) : same_work s ( start_pending_IO s) := by
  unfold start_pending_IO
  split
  · exact same_work_refl s
  · exact same_work_refl s

theorem same_work_dequeue (s : Sim) : same_work s (dequeue_READY_queue s).2 := by
  unfold dequeue_READY_queue
  split
  · exact same_work_clock s _ (by decide)
  · exact same_work_refl s

theorem same_work_idle_CPU (l : Loop) : same_work l.sim (idle_CPU l).sim := by
  unfold idle_CPU
  have h4 : same_work l.sim
      ( start_pending_IO ( unblock_completed_IO (unblock_WAITING (unblock_SLEEPING l.sim)))) :=
    same_work_trans (same_work_trans (same_work_trans (same_work_unblock_SLEEPING_loop _ _ _ _)
      (same_work_unblock_WAITING_loop _ _ _)) (same_work_io_done _)) (same_work_io_start _)
  split
  · simp only
    split
    · exact same_work_trans h4 (same_work_dequeue _)
    · exact h4
  · exact same_work_refl _

theorem idle_CPU_total (l : Loop) : (idle_CPU l).total_time_on_CPU = l.total_time_on_CPU := by
  unfold idle_CPU
  split
  · simp only
    split <;> rfl
  · rfl

/-- A step followed by operations that leave the work of every record alone. -/
theorem records_step_extend (l l1 l2 : Loop) (h : records_step l l1)
    (hw : same_work l1.sim l2.sim) (ht : l2.total_time_on_CPU = l1.total_time_on_CPU) :
    records_step l l2 := by
  obtain ⟨a, k, b, c, d⟩ := h
  obtain ⟨w1, w2, w3⟩ := hw
  refine ⟨w1.trans a, le_trans k w2, ht.trans b, ?_, ?_⟩
  · intro r hr
    obtain ⟨c1, c2, c3, c4⟩ := c r hr
    obtain ⟨x1, x2, x3, x4⟩ := w3 r
    exact ⟨x2.trans c1, x3.trans c2, x4.trans c3, x1.trans c4⟩
  · intro r hr
    obtain ⟨x1, x2, x3, x4⟩ := w3 r
    rcases d r hr with d1 | ⟨d1, d2, d3, d4, d5⟩
    · exact Or.inl (x1.trans d1)
    · exact Or.inr ⟨d1, d2, x2.trans d3, x3.trans d4, x4.trans d5⟩

/-- A pass in which no process is on the CPU. -/
theorem records_step_idle (l : Loop) (h : l.proc_on_CPU = UNKNOWN) : records_step l l := by
  have hnd : ¬ event_due l := fun hd => hd.1 h
  refine ⟨rfl, le_refl _, ?_, ?_, ?_⟩
  · rw [if_neg (fun hx => hnd hx.1)]
    omega
  · intro r _
    refine ⟨rfl, ?_, ?_, ?_⟩
    · rw [if_neg (fun hx => hnd hx.1)]
      omega
    · rw [if_neg (fun hx => hx.1 h)]
      omega
    · rw [if_neg (fun hx => hnd hx.1)]
  · intro r hr
    exact Or.inl hr

/-- The microsecond of computation of the process on the CPU. -/
theorem records_step_compute (l : Loop) (hcpu : l.proc_on_CPU ≠ UNKNOWN) (hnd : ¬ event_due l) :
    records_step l { l with sim := incr_time_on_CPU l.sim l.proc_on_CPU } := by
  refine ⟨rfl, le_refl _, ?_, ?_, ?_⟩
  · rw [if_neg (fun hx => hnd hx.1)]
    show l.total_time_on_CPU = _
    omega
  · intro r _
    by_cases hrp : r = l.proc_on_CPU
    · subst hrp
      simp [incr_time_on_CPU, store_apply, hnd, hcpu]
    · simp [incr_time_on_CPU, store_apply, hnd, hrp]
  · intro r hr
    left
    show (store l.sim.processes l.proc_on_CPU _ r).pid = UNKNOWN
    rw [store_apply]
    split
    · rename_i hrp
      rw [← hrp]
      exact hr
    · exact hr

/-- The move of the cursor for an event other than `exit`. -/
theorem records_step_cursor (l : Loop) (hd : event_due l)
    (hne : (next_event l).which ≠ SYS_EXIT) :
    records_step l { l with sim := incr_next_syscall l.sim l.proc_on_CPU } := by
  refine ⟨rfl, le_refl _, ?_, ?_, ?_⟩
  · rw [if_neg (fun hx => hne hx.2)]
    show l.total_time_on_CPU = _
    omega
  · intro r _
    by_cases hrp : r = l.proc_on_CPU
    · subst hrp
      simp [incr_next_syscall, store_apply, hd, hne]
    · simp [incr_next_syscall, store_apply, hrp]
  · intro r hr
    left
    show (store l.sim.processes l.proc_on_CPU _ r).pid = UNKNOWN
    rw [store_apply]
    split
    · rename_i hrp
      rw [← hrp]
      exact hr
    · exact hr

/-- The new record of a spawn, after the move of the cursor. -/
theorem records_step_spawn (l l1 : Loop) (h : records_step l l1) (q pp : Int)
    (hq : (l.sim.processes q).pid = UNKNOWN) (hd : event_due l)
    (hw : (next_event l).which = SYS_SPAWN) :
    records_step l { l1 with sim := spawn_in_slot l1.sim q (next_event l).arg0 pp } := by
  obtain ⟨a, k, b, c, d⟩ := h
  refine ⟨a, k, b, ?_, ?_⟩
  · intro r hr
    have hrq : r ≠ q := fun hx => hr (hx ▸ hq)
    show ((spawn_in_slot l1.sim q (next_event l).arg0 pp).processes r).command = _ ∧
      ((spawn_in_slot l1.sim q (next_event l).arg0 pp).processes r).next_syscall = _ ∧
      ((spawn_in_slot l1.sim q (next_event l).arg0 pp).processes r).time_on_CPU = _ ∧
      ((spawn_in_slot l1.sim q (next_event l).arg0 pp).processes r).pid = _
    rw [spawn_in_slot_processes, if_neg hrq]
    exact c r hr
  · intro r hr
    show ((spawn_in_slot l1.sim q (next_event l).arg0 pp).processes r).pid = UNKNOWN ∨
      (event_due l ∧ (next_event l).which = SYS_SPAWN ∧
        ((spawn_in_slot l1.sim q (next_event l).arg0 pp).processes r).command = _ ∧
        ((spawn_in_slot l1.sim q (next_event l).arg0 pp).processes r).next_syscall = 0 ∧
        ((spawn_in_slot l1.sim q (next_event l).arg0 pp).processes r).time_on_CPU = 0)
    rw [spawn_in_slot_processes]
    by_cases hrq : r = q
    · rw [if_pos hrq]
      exact Or.inr ⟨hd, hw, rfl, rfl, rfl⟩
    · rw [if_neg hrq]
      exact d r hr

/-- The exit of the process on the CPU, after the move of the cursor. -/
theorem records_step_exit (l : Loop) (hd : event_due l)
    (hw : (next_event l).which = SYS_EXIT) :
    records_step l
      { l with
        sim := exit_process ( incr_next_syscall l.sim l.proc_on_CPU) l.proc_on_CPU
        total_time_on_CPU := l.total_time_on_CPU + (l.sim.processes l.proc_on_CPU).time_on_CPU } := by
  have hf := exit_process_frame ( incr_next_syscall l.sim l.proc_on_CPU) l.proc_on_CPU
  have hrec : ∀ r : Int,
      ((exit_process ( incr_next_syscall l.sim l.proc_on_CPU) l.proc_on_CPU).processes r).command
        = (l.sim.processes r).command ∧
      ((exit_process ( incr_next_syscall l.sim l.proc_on_CPU) l.proc_on_CPU).processes r).next_syscall
        = (l.sim.processes r).next_syscall + (if r = l.proc_on_CPU then 1 else 0) ∧
      ((exit_process ( incr_next_syscall l.sim l.proc_on_CPU) l.proc_on_CPU).processes r).time_on_CPU
        = (l.sim.processes r).time_on_CPU ∧
      ((exit_process ( incr_next_syscall l.sim l.proc_on_CPU) l.proc_on_CPU).processes r).pid
        = (if r = l.proc_on_CPU then UNKNOWN else (l.sim.processes r).pid) := by
    intro r
    obtain ⟨f1, f2, f3⟩ := exit_process_fields ( incr_next_syscall l.sim l.proc_on_CPU)
      l.proc_on_CPU r
    obtain ⟨g1, _, _⟩ := exit_process_ids ( incr_next_syscall l.sim l.proc_on_CPU)
      l.proc_on_CPU r
    rw [f1, f2, f3, g1]
    by_cases hrp : r = l.proc_on_CPU
    · subst hrp
      simp [incr_next_syscall, store_apply]
    · simp [incr_next_syscall, store_apply, hrp]
  refine ⟨?_, ?_, ?_, ?_, ?_⟩
  · show (exit_process ( incr_next_syscall l.sim l.proc_on_CPU) l.proc_on_CPU).commands = _
    rw [hf]
    rfl
  · show _ ≤ (exit_process ( incr_next_syscall l.sim l.proc_on_CPU) l.proc_on_CPU).USECS_SINCE_REBOOT
    rw [hf]
    exact le_refl _
  · rw [if_pos ⟨hd, hw⟩]
  · intro r _
    obtain ⟨r1, r2, r3, r4⟩ := hrec r
    refine ⟨r1, ?_, ?_, ?_⟩
    · rw [r2]
      by_cases hrp : r = l.proc_on_CPU
      · rw [if_pos hrp, if_pos ⟨hd, hrp⟩]
      · rw [if_neg hrp, if_neg (fun hx => hrp hx.2)]
    · rw [r3, if_neg (fun hx => hx.2.1 hd)]
      omega
    · rw [r4]
      by_cases hrp : r = l.proc_on_CPU
      · rw [if_pos hrp, if_pos ⟨hd, hw, hrp⟩]
      · rw [if_neg hrp, if_neg (fun hx => hrp hx.2.2)]
  · intro r hr
    left
    rw [(hrec r).2.2.2]
    split
    · rfl
    · exact hr

/-- The records over the dispatch of the event at the cursor. -/
theorem records_issue_syscall (l l2 : Loop) (hd : event_due l)
    (hlive : (l.sim.processes l.proc_on_CPU).pid ≠ UNKNOWN)
    (h : issue_syscall l (l.sim.processes l.proc_on_CPU).command
      (l.sim.processes l.proc_on_CPU).next_syscall = .ok l2) : records_step l l2 := by
  have hev : ((l.sim.commands (l.sim.processes l.proc_on_CPU).command).syscalls
      (l.sim.processes l.proc_on_CPU).next_syscall) = next_event l := rfl
  by_cases w0 : (next_event l).which = SYS_SPAWN
  · have hne : (next_event l).which ≠ SYS_EXIT := by
      rw [w0]
      decide
    cases hs : spawn_process ( incr_next_syscall l.sim l.proc_on_CPU)
        (next_event l).arg0 (l.sim.processes l.proc_on_CPU).pid with
    | error e =>
      have hcmd : ( incr_next_syscall l.sim l.proc_on_CPU).commands = l.sim.commands := rfl
      have hpid : (( incr_next_syscall l.sim l.proc_on_CPU).processes l.proc_on_CPU).pid
          = (l.sim.processes l.proc_on_CPU).pid := by simp [incr_next_syscall]
      simp only [issue_syscall, dispatch, hcmd, hev, w0, if_true, hpid, hs] at h
      cases h
    | ok s1 =>
      rw [issue_spawn l _ _ s1 w0 hs] at h
      cases h
      obtain ⟨q, _, _, qu, _, e⟩ := spawn_process_ok _ _ _ _ hs
      have hq : (l.sim.processes q).pid = UNKNOWN := by
        have hqp : q ≠ l.proc_on_CPU := by
          intro hx
          rw [hx] at qu
          apply hlive
          simpa [incr_next_syscall] using qu
        simpa [incr_next_syscall, store_apply, hqp] using qu
      have hA := records_step_spawn l _ (records_step_cursor l hd hne) q
        (l.sim.processes l.proc_on_CPU).pid hq hd w0
      refine records_step_extend l _ _ hA ?_ rfl
      show same_work (spawn_in_slot ( incr_next_syscall l.sim l.proc_on_CPU) q
        (next_event l).arg0 (l.sim.processes l.proc_on_CPU).pid) _
      rw [← e]
      exact same_work_trans
        (same_work_store s1 (incr_nchildren s1 l.proc_on_CPU) l.proc_on_CPU _ rfl rfl
          (le_refl _) rfl rfl rfl rfl)
        (same_work_move _ _)
  · by_cases w1 : (next_event l).which = SYS_READ ∨ (next_event l).which = SYS_WRITE
    · have hne : (next_event l).which ≠ SYS_EXIT := by
        rcases w1 with w | w <;> rw [w] <;> decide
      rw [issue_io l _ _ w1] at h
      cases h
      refine records_step_extend l _ _ (records_step_cursor l hd hne) ?_ rfl
      exact same_work_store _ (set_state (append_to_IO_BLOCKED_queue _ _ _ _ _) l.proc_on_CPU _)
        l.proc_on_CPU _ rfl rfl (by
          show ( incr_next_syscall l.sim l.proc_on_CPU).USECS_SINCE_REBOOT
            ≤ ( incr_next_syscall l.sim l.proc_on_CPU).USECS_SINCE_REBOOT
              + TIME_CORE_STATE_TRANSITIONS
          have : (0 : Int) ≤ TIME_CORE_STATE_TRANSITIONS := by decide
          omega) rfl rfl rfl rfl
    · by_cases w2 : (next_event l).which = SYS_SLEEP
      · have hne : (next_event l).which ≠ SYS_EXIT := by
          rw [w2]
          decide
        rw [issue_sleep l _ _ w2] at h
        cases h
        refine records_step_extend l _ _ (records_step_cursor l hd hne) ?_ rfl
        exact same_work_trans
          (same_work_store _ (append_to_SLEEPING_queue _ _ _) l.proc_on_CPU _ rfl rfl
            (le_refl _) rfl rfl rfl rfl)
          (same_work_clock _ _ (by decide))
      · by_cases w3 : (next_event l).which = SYS_WAIT
        · have hne : (next_event l).which ≠ SYS_EXIT := by
            rw [w3]
            decide
          rw [issue_wait l _ _ w3] at h
          cases h
          refine records_step_extend l _ _ (records_step_cursor l hd hne) ?_ rfl
          show same_work _ (advance_time (if _ then _ else _) _)
          split
          · exact same_work_move _ _
          · exact same_work_trans
              (same_work_store _ (append_to_WAITING_queue _ _) l.proc_on_CPU _ rfl rfl
                (le_refl _) rfl rfl rfl rfl)
              (same_work_clock _ _ (by decide))
        · by_cases w4 : (next_event l).which = SYS_EXIT
          · rw [issue_exit l _ _ w4] at h
            cases h
            exact records_step_exit l hd w4
          · rw [issue_unknown l _ _ w0 w1 w2 w3 w4] at h
            cases h

/-- The records over the block of the process on the CPU. -/
theorem records_on_CPU (l l2 : Loop)
    (hlive : l.proc_on_CPU ≠ UNKNOWN → (l.sim.processes l.proc_on_CPU).pid ≠ UNKNOWN)
    (h : on_CPU l = .ok l2) : records_step l l2 := by
  by_cases hcpu : l.proc_on_CPU = UNKNOWN
  · have : on_CPU l = .ok l := by
      unfold on_CPU
      rw [if_neg (not_not.2 hcpu)]
    rw [this] at h
    cases h
    exact records_step_idle l hcpu
  · by_cases hdue : (l.sim.processes l.proc_on_CPU).time_on_CPU
        = ((l.sim.commands (l.sim.processes l.proc_on_CPU).command).syscalls
            (l.sim.processes l.proc_on_CPU).next_syscall).when
    · rw [on_CPU_due l hcpu hdue] at h
      exact records_issue_syscall l l2 ⟨hcpu, hdue⟩ (hlive hcpu) h
    · rw [on_CPU_compute l hcpu hdue] at h
      cases h
      have hnd : ¬ event_due l := fun hx => hdue hx.2
      refine records_step_extend l _ _ (records_step_compute l hcpu hnd) ?_ ?_
      · show same_work ( incr_time_on_CPU l.sim l.proc_on_CPU) (consume_CPU l).sim
        unfold consume_CPU
        simp only
        split
        · exact same_work_move _ _
        · exact same_work_refl _
      · unfold consume_CPU
        simp only
        split <;> rfl

/-- The records over a pass of the loop; the clock gains at least the tick. -/
theorem records_loop_body (l l2 : Loop) (hi : loop_inv l) (h : loop_body l = .ok l2) :
    records_step l l2 ∧ l.sim.USECS_SINCE_REBOOT + 1 ≤ l2.sim.USECS_SINCE_REBOOT := by
  unfold loop_body at h
  cases hon : on_CPU { l with sim := advance_time l.sim 1 } with
  | error e =>
    rw [hon] at h
    cases h
  | ok l1 =>
    rw [hon] at h
    cases h
    have hlive : l.proc_on_CPU ≠ UNKNOWN → (l.sim.processes l.proc_on_CPU).pid ≠ UNKNOWN :=
      fun hc => (live_on_CPU _ _ hi.2.2 hc).2.2
    have h1 : records_step { l with sim := advance_time l.sim 1 } l1 :=
      records_on_CPU _ l1 hlive hon
    have h2 : records_step { l with sim := advance_time l.sim 1 } (idle_CPU l1) :=
      records_step_extend _ l1 _ h1 (same_work_idle_CPU l1) (idle_CPU_total l1)
    obtain ⟨a, k, b, c, d⟩ := h2
    have k2 : l.sim.USECS_SINCE_REBOOT + 1 ≤ (idle_CPU l1).sim.USECS_SINCE_REBOOT := k
    exact ⟨⟨a, by omega, b, c, d⟩, k2⟩

/-! ## Claim C24: the time on the CPU and the clock -/

/-- A step adds one to the accounted time exactly if the process on the CPU
computes. -/
theorem cpu_time_step (l l2 : Loop) (h : records_step l l2)
    (hp : l.proc_on_CPU ≠ UNKNOWN → live l.sim l.proc_on_CPU) :
    cpu_time l2 = cpu_time l + (if l.proc_on_CPU ≠ UNKNOWN ∧ ¬ event_due l then 1 else 0) := by
  obtain ⟨_, _, b, c, d⟩ := h
  have hother : ∀ r : Int, r ≠ l.proc_on_CPU →
      (if (l2.sim.processes r).pid ≠ UNKNOWN then (l2.sim.processes r).time_on_CPU else 0)
        = (if (l.sim.processes r).pid ≠ UNKNOWN then (l.sim.processes r).time_on_CPU else 0) := by
    intro r hr
    by_cases hu : (l.sim.processes r).pid = UNKNOWN
    · rw [if_neg (not_not.2 hu)]
      rcases d r hu with d1 | ⟨_, _, _, _, d5⟩
      · rw [if_neg (not_not.2 d1)]
      · rw [d5]
        split <;> rfl
    · obtain ⟨_, _, c3, c4⟩ := c r hu
      rw [if_neg (fun hx => hr hx.2.2)] at c3 c4
      rw [c4, c3, if_pos hu]
      omega
  unfold cpu_time
  by_cases hcpu : l.proc_on_CPU = UNKNOWN
  · have hnd : ¬ event_due l := fun hx => hx.1 hcpu
    rw [if_neg (fun hx => hnd hx.1)] at b
    rw [if_neg (fun hx => hx.1 hcpu), b]
    have hall : range_sum MAX_RUNNING_PROCESSES
        (fun r => if (l2.sim.processes r).pid ≠ UNKNOWN then (l2.sim.processes r).time_on_CPU
          else 0)
        = range_sum MAX_RUNNING_PROCESSES
        (fun r => if (l.sim.processes r).pid ≠ UNKNOWN then (l.sim.processes r).time_on_CPU
          else 0) := by
      apply range_sum_congr
      intro r _ _
      by_cases hu : (l.sim.processes r).pid = UNKNOWN
      · simp only [if_neg (not_not.2 hu)]
        rcases d r hu with d1 | ⟨d0, _⟩
        · rw [if_neg (not_not.2 d1)]
        · exact absurd d0 hnd
      · obtain ⟨_, _, c3, c4⟩ := c r hu
        rw [if_neg (fun hx => hx.1 hcpu)] at c3
        rw [if_neg (fun hx => hnd hx.1)] at c4
        simp only [c4, c3, if_pos hu]
        omega
    rw [hall]
    omega
  · obtain ⟨p0, p1, pl⟩ := hp hcpu
    have hu := range_sum_update MAX_RUNNING_PROCESSES
      (fun r => if (l.sim.processes r).pid ≠ UNKNOWN then (l.sim.processes r).time_on_CPU else 0)
      (fun r => if (l2.sim.processes r).pid ≠ UNKNOWN then (l2.sim.processes r).time_on_CPU
        else 0)
      l.proc_on_CPU p0 p1 hother
    simp only at hu
    have fp : (if (l.sim.processes l.proc_on_CPU).pid ≠ UNKNOWN then
        (l.sim.processes l.proc_on_CPU).time_on_CPU else 0)
        = (l.sim.processes l.proc_on_CPU).time_on_CPU := if_pos pl
    rw [hu, fp]
    obtain ⟨_, _, c3, c4⟩ := c l.proc_on_CPU pl
    by_cases hd : event_due l
    · have e1 : (if l.proc_on_CPU ≠ UNKNOWN ∧ ¬ event_due l then (1 : Int) else 0) = 0 :=
        if_neg (fun hx => hx.2 hd)
      have e2 : (if l.proc_on_CPU ≠ UNKNOWN ∧ ¬ event_due l ∧ l.proc_on_CPU = l.proc_on_CPU
          then (1 : Int) else 0) = 0 := if_neg (fun hx => hx.2.1 hd)
      rw [e2] at c3
      rw [e1]
      by_cases hw : (next_event l).which = SYS_EXIT
      · have e3 : (if event_due l ∧ (next_event l).which = SYS_EXIT then
            (l.sim.processes l.proc_on_CPU).time_on_CPU else 0)
            = (l.sim.processes l.proc_on_CPU).time_on_CPU := if_pos ⟨hd, hw⟩
        have e4 : (l2.sim.processes l.proc_on_CPU).pid = UNKNOWN := by
          rw [c4]
          exact if_pos ⟨hd, hw, rfl⟩
        have gp : (if (l2.sim.processes l.proc_on_CPU).pid ≠ UNKNOWN then
            (l2.sim.processes l.proc_on_CPU).time_on_CPU else 0) = 0 :=
          if_neg (not_not.2 e4)
        rw [e3] at b
        rw [gp, b]
        omega
      · have e3 : (if event_due l ∧ (next_event l).which = SYS_EXIT then
            (l.sim.processes l.proc_on_CPU).time_on_CPU else 0) = 0 :=
          if_neg (fun hx => hw hx.2)
        have e4 : (l2.sim.processes l.proc_on_CPU).pid ≠ UNKNOWN := by
          rw [c4, if_neg (fun hx => hw hx.2.1)]
          exact pl
        have gp : (if (l2.sim.processes l.proc_on_CPU).pid ≠ UNKNOWN then
            (l2.sim.processes l.proc_on_CPU).time_on_CPU else 0)
            = (l2.sim.processes l.proc_on_CPU).time_on_CPU := if_pos e4
        rw [e3] at b
        rw [gp, b, c3]
        omega
    · have e1 : (if l.proc_on_CPU ≠ UNKNOWN ∧ ¬ event_due l then (1 : Int) else 0) = 1 :=
        if_pos ⟨hcpu, hd⟩
      have e2 : (if l.proc_on_CPU ≠ UNKNOWN ∧ ¬ event_due l ∧ l.proc_on_CPU = l.proc_on_CPU
          then (1 : Int) else 0) = 1 := if_pos ⟨hcpu, hd, rfl⟩
      have e3 : (if event_due l ∧ (next_event l).which = SYS_EXIT then
          (l.sim.processes l.proc_on_CPU).time_on_CPU else 0) = 0 :=
        if_neg (fun hx => hd hx.1)
      have e4 : (l2.sim.processes l.proc_on_CPU).pid ≠ UNKNOWN := by
        rw [c4, if_neg (fun hx => hd hx.1)]
        exact pl
      have gp : (if (l2.sim.processes l.proc_on_CPU).pid ≠ UNKNOWN then
          (l2.sim.processes l.proc_on_CPU).time_on_CPU else 0)
          = (l2.sim.processes l.proc_on_CPU).time_on_CPU := if_pos e4
      rw [e2] at c3
      rw [e3] at b
      rw [e1, gp, b, c3]
      omega

/-- A step keeps the running total and the times of the live slots non-negative. -/
theorem times_step (l l2 : Loop) (h : records_step l l2)
    (hp : l.proc_on_CPU ≠ UNKNOWN → live l.sim l.proc_on_CPU)
    (ht : 0 ≤ l.total_time_on_CPU)
    (hr : ∀ r : Int, live l.sim r → 0 ≤ (l.sim.processes r).time_on_CPU) :
    0 ≤ l2.total_time_on_CPU ∧
    ∀ r : Int, live l2.sim r → 0 ≤ (l2.sim.processes r).time_on_CPU := by
  obtain ⟨_, _, b, c, d⟩ := h
  constructor
  · rw [b]
    split
    · rename_i hx
      have := hr _ (hp hx.1.1)
      omega
    · omega
  · intro r hl
    by_cases hu : (l.sim.processes r).pid = UNKNOWN
    · rcases d r hu with d1 | ⟨_, _, _, _, d5⟩
      · exact absurd d1 hl.2.2
      · rw [d5]
    · obtain ⟨_, _, c3, _⟩ := c r hu
      have := hr r ⟨hl.1, hl.2.1, hu⟩
      rw [c3]
      split <;> omega

/-- If a process is on the CPU after a pass, then it was dequeued in the pass,
which costs the tick and the context switch, or it was on the CPU before and has
computed. -/
theorem on_CPU_after_pass (l l2 : Loop) (hi : loop_inv l) (h : loop_body l = .ok l2)
    (h2 : l2.proc_on_CPU ≠ UNKNOWN) :
    l.sim.USECS_SINCE_REBOOT + 6 ≤ l2.sim.USECS_SINCE_REBOOT ∨
    (l.proc_on_CPU ≠ UNKNOWN ∧ ¬ event_due l) := by
  unfold loop_body at h
  cases hon : on_CPU { l with sim := advance_time l.sim 1 } with
  | error e =>
    rw [hon] at h
    cases h
  | ok l1 =>
    rw [hon] at h
    cases h
    have hlive : l.proc_on_CPU ≠ UNKNOWN → (l.sim.processes l.proc_on_CPU).pid ≠ UNKNOWN :=
      fun hc => (live_on_CPU _ _ hi.2.2 hc).2.2
    have h1 : records_step { l with sim := advance_time l.sim 1 } l1 :=
      records_on_CPU _ l1 hlive hon
    have hk : l.sim.USECS_SINCE_REBOOT + 1 ≤ l1.sim.USECS_SINCE_REBOOT := h1.2.1
    by_cases hc1 : l1.proc_on_CPU = UNKNOWN
    · left
      by_cases hnp : 0 < l1.sim.nprocesses
      · rw [idle_CPU_run l1 hc1 hnp] at h2 ⊢
        have h4 : same_work l1.sim
            ( start_pending_IO ( unblock_completed_IO (unblock_WAITING (unblock_SLEEPING l1.sim)))) :=
          same_work_trans (same_work_trans (same_work_trans
            (same_work_unblock_SLEEPING_loop _ _ _ _)
            (same_work_unblock_WAITING_loop _ _ _)) (same_work_io_done _)) (same_work_io_start _)
        by_cases hready : ( start_pending_IO ( unblock_completed_IO
            (unblock_WAITING (unblock_SLEEPING l1.sim)))).nready > 0
        · rw [if_pos hready]
          have hq : (dequeue_READY_queue ( start_pending_IO ( unblock_completed_IO
              (unblock_WAITING (unblock_SLEEPING l1.sim))))).2.USECS_SINCE_REBOOT
              = ( start_pending_IO ( unblock_completed_IO
                (unblock_WAITING (unblock_SLEEPING l1.sim)))).USECS_SINCE_REBOOT
                + TIME_CONTEXT_SWITCH := by
            unfold dequeue_READY_queue
            rw [if_pos hready]
            rfl
          show _ ≤ (dequeue_READY_queue _).2.USECS_SINCE_REBOOT
          rw [hq]
          have := h4.2.1
          have h5 : TIME_CONTEXT_SWITCH = 5 := rfl
          omega
        · rw [if_neg hready] at h2
          exact absurd hc1 h2
      · have hskip : idle_CPU l1 = l1 := by
          unfold idle_CPU
          rw [if_neg (fun hx => hnp hx.2)]
        rw [hskip] at h2
        exact absurd hc1 h2
    · right
      by_cases hcpu : l.proc_on_CPU = UNKNOWN
      · have : on_CPU { l with sim := advance_time l.sim 1 }
            = .ok { l with sim := advance_time l.sim 1 } := by
          unfold on_CPU
          rw [if_neg (not_not.2 hcpu)]
        rw [this] at hon
        cases hon
        exact absurd hcpu hc1
      · refine ⟨hcpu, ?_⟩
        intro hd
        have hon2 := on_CPU_due { l with sim := advance_time l.sim 1 } hcpu hd.2
        rw [hon2] at hon
        exact hc1 (issue_syscall_leaves_CPU _ _ _ _ hon)

theorem exists_live (s : Sim) (h : 0 < live_count s) : ∃ r : Int, live s r := by
  by_contra hne
  have hz : live_count s = 0 := by
    unfold live_count
    apply range_sum_zero
    intro d d0 d1
    by_cases hu : (s.processes d).pid = UNKNOWN
    · rw [if_neg (not_not.2 hu)]
    · exact absurd ⟨d, d0, d1, hu⟩ hne
  omega

/-- A pass after which no process is left has dispatched an exit. -/
theorem last_pass_exits (l l2 : Loop) (hi : loop_inv l) (hi2 : loop_inv l2)
    (h0 : 0 < l.sim.nprocesses) (hs : records_step l l2) (h2 : l2.sim.nprocesses ≤ 0) :
    event_due l ∧ (next_event l).which = SYS_EXIT := by
  by_contra hne
  rw [hi.2.2.count] at h0
  obtain ⟨r, hl⟩ := exists_live _ h0
  obtain ⟨_, _, _, c4⟩ := hs.2.2.2.1 r hl.2.2
  rw [if_neg (fun hx => hne ⟨hx.1, hx.2.1⟩)] at c4
  have hl2 : live l2.sim r := ⟨hl.1, hl.2.1, by rw [c4]; exact hl.2.2⟩
  have := live_count_pos _ r hl2
  rw [hi2.2.2.count] at h2
  omega

/-- The state in which the loop is entered: the clock is -1, no process is on the
CPU, the running total and the accounted time are 0, every live process has
time 0, and there is a live process. -/
theorem cpu_time_enter (devs : List (Int × Int)) (timequantum : Int)
    (commands : Int → Command) (ncommands first : Int) (l : Loop)
    (he : enter_loop (init_all (load devs timequantum commands ncommands)) first = .ok l) :
    l.sim.USECS_SINCE_REBOOT = -1 ∧ l.proc_on_CPU = UNKNOWN ∧ l.total_time_on_CPU = 0 ∧
    cpu_time l = 0 ∧
    (∀ r : Int, live l.sim r → (l.sim.processes r).time_on_CPU = 0) ∧
    ∃ q : Int, live l.sim q := by
  unfold enter_loop at he
  cases hs : spawn_process
      { init_all (load devs timequantum commands ncommands) with USECS_SINCE_REBOOT := 0 }
      first UNKNOWN with
  | error e =>
    rw [hs] at he
    cases he
  | ok s1 =>
    rw [hs] at he
    cases he
    obtain ⟨q, q0, q1, qu, _, e⟩ := spawn_process_ok _ _ _ _ hs
    have hR1 : Reachable
        { init_all (load devs timequantum commands ncommands) with USECS_SINCE_REBOOT := 0 } :=
      Reachable.step _ _ (Reachable.init _ _ _ _) (Step.clock _ 0)
    have hnp := (pids_reachable _ hR1).1
    have hrec : ∀ r : Int, 0 ≤ r → r < MAX_RUNNING_PROCESSES →
        (s1.processes r).pid = UNKNOWN ∨ (s1.processes r).time_on_CPU = 0 := by
      intro r r0 r1
      rw [e, spawn_in_slot_processes]
      by_cases hrq : r = q
      · rw [if_pos hrq]
        exact Or.inr rfl
      · rw [if_neg hrq]
        left
        show ((init_all (load devs timequantum commands ncommands)).processes r).pid = UNKNOWN
        rw [init_all_processes, if_pos ⟨r0, r1⟩]
    have hsum : cpu_time
        { sim := { s1 with USECS_SINCE_REBOOT := -1 }, proc_on_CPU := UNKNOWN,
          total_time_on_CPU := 0, timequantum_expires := UNKNOWN, expired := [] } = 0 := by
      unfold cpu_time
      simp only [zero_add]
      apply range_sum_zero
      intro d d0 d1
      rcases hrec d d0 d1 with h1 | h1
      · rw [if_neg (not_not.2 h1)]
      · show (if (s1.processes d).pid ≠ UNKNOWN then (s1.processes d).time_on_CPU else 0) = 0
        rw [h1]
        split <;> rfl
    have hlq : live s1 q := by
      refine ⟨q0, q1, ?_⟩
      rw [e, spawn_in_slot_processes, if_pos rfl]
      show ({ init_all (load devs timequantum commands ncommands) with
        USECS_SINCE_REBOOT := 0 } : Sim).next_pid ≠ UNKNOWN
      have hU : UNKNOWN = -1 := rfl
      omega
    refine ⟨rfl, rfl, rfl, hsum, ?_, q, hlq⟩
    intro r hl
    rcases hrec r hl.1 hl.2.1 with h1 | h1
    · exact absurd h1 hl.2.2
    · exact h1

/-- The accounted time at the boundaries of the passes: the total and the times
are not negative; the accounted time is at most the clock plus one, and at most
the clock minus five while a process is on the CPU; when no process is left it
is at most the clock minus six. -/
theorem accounted (l : Loop) (h : Boundary l) :
    (0 ≤ l.total_time_on_CPU ∧
      ∀ r : Int, live l.sim r → 0 ≤ (l.sim.processes r).time_on_CPU) ∧
    cpu_time l + (if l.proc_on_CPU ≠ UNKNOWN then 6 else 0) ≤ l.sim.USECS_SINCE_REBOOT + 1 ∧
    (l.sim.nprocesses ≤ 0 → cpu_time l + 6 ≤ l.sim.USECS_SINCE_REBOOT) := by
  induction h with
  | enter devs tq commands ncommands first l hk he =>
    have hinv := loop_inv_enter devs tq commands ncommands first l hk he
    obtain ⟨e1, e2, e3, e4, e5, q, hq⟩ := cpu_time_enter devs tq commands ncommands first l he
    refine ⟨⟨by omega, fun r hl => by rw [e5 r hl]⟩, ?_, ?_⟩
    · rw [e4, e1, if_neg (not_not.2 e2)]
      omega
    · intro hz
      exfalso
      have hc := hinv.2.2.count
      have hpos := live_count_pos l.sim q hq
      omega
  | pass l l2 hb hp hl ih =>
    have hi := boundary_inv l hb
    have hi2 := boundary_inv l2 (Boundary.pass l l2 hb hp hl)
    obtain ⟨hs, hk⟩ := records_loop_body l l2 hi hl
    have hlive : l.proc_on_CPU ≠ UNKNOWN → live l.sim l.proc_on_CPU :=
      fun hc => live_on_CPU _ _ hi.2.2 hc
    have hct := cpu_time_step l l2 hs hlive
    obtain ⟨⟨t1, t2⟩, i6, _⟩ := ih
    refine ⟨times_step l l2 hs hlive t1 t2, ?_, ?_⟩
    · by_cases hc2 : l2.proc_on_CPU = UNKNOWN
      · rw [if_neg (not_not.2 hc2)]
        rw [hct]
        split at i6 <;> split <;> omega
      · rw [if_pos hc2, hct]
        rcases on_CPU_after_pass l l2 hi hl hc2 with hd | ⟨hc, hnd⟩
        · split at i6 <;> split <;> omega
        · rw [if_pos hc] at i6
          rw [if_pos ⟨hc, hnd⟩]
          omega
    · intro hz
      obtain ⟨hd, _⟩ := last_pass_exits l l2 hi hi2 hp hs hz
      rw [hct, if_neg (fun hx => hx.2 hd)]
      rw [if_pos hd.1] at i6
      omega

/-- The loop ends at a boundary without processes. -/
theorem while_loop_boundary (fuel : Nat) :
    ∀ l l2 : Loop, Boundary l → while_loop fuel l = .ok l2 →
      Boundary l2 ∧ l2.sim.nprocesses ≤ 0 := by
  induction fuel with
  | zero =>
    intro l l2 hb h
    rw [while_loop] at h
    split at h
    · cases h
    · cases h
      exact ⟨hb, by omega⟩
  | succ n ih =>
    intro l l2 hb h
    rw [while_loop] at h
    by_cases hp : l.sim.nprocesses > 0
    · rw [if_pos hp] at h
      cases hl : loop_body l with
      | error e =>
        rw [hl] at h
        cases h
      | ok l1 =>
        rw [hl] at h
        exact ih l1 l2 (Boundary.pass l l1 hb hp hl) h
    · rw [if_neg hp] at h
      cases h
      exact ⟨hb, by omega⟩

/-- When no process is left, the accounted time is the running total. -/
theorem cpu_time_at_end (l : Loop) (hi : loop_inv l) (hz : l.sim.nprocesses ≤ 0) :
    cpu_time l = l.total_time_on_CPU := by
  unfold cpu_time
  have hzero : range_sum MAX_RUNNING_PROCESSES
      (fun r => if (l.sim.processes r).pid ≠ UNKNOWN then (l.sim.processes r).time_on_CPU else 0)
      = 0 := by
    apply range_sum_zero
    intro d d0 d1
    by_cases hu : (l.sim.processes d).pid = UNKNOWN
    · rw [if_neg (not_not.2 hu)]
    · have := live_count_pos l.sim d ⟨d0, d1, hu⟩
      have := hi.2.2.count
      omega
  rw [hzero]
  omega

/-- Claim C24, with the loop entry set apart.  The loop is entered with the clock
at -1 (the statement marked `not a mistake` in the source) and an accounted time
(running total plus the `time_on_CPU` of the live processes) of 0, so the bound
`accounted time ≤ clock` of the claim fails at that first boundary and holds at
every boundary reached by a pass; at every boundary the accounted time is at
most the clock plus one, and at most the clock minus five while a process is on
the CPU, and the total and the times are not negative.  Whenever
`execute_commands` returns, the final clock is at least 6, and the returned
total is at least 0 and at most the clock minus six: the division of `main` is
not a division by zero, the quotient `100 * total / clock` lies between 0 and
100, and it is the value of the 32-bit expression of `main` when the product
fits. -/
theorem cpu_time_within_clock :
    (∀ (devs : List (Int × Int)) (timequantum : Int) (commands : Int → Command)
        (ncommands first : Int) (l : Loop),
      enter_loop (init_all (load devs timequantum commands ncommands)) first = .ok l →
      l.sim.USECS_SINCE_REBOOT = -1 ∧ cpu_time l = 0) ∧
    (∀ l l2 : Loop, Boundary l → 0 < l.sim.nprocesses → loop_body l = .ok l2 →
      cpu_time l2 ≤ l2.sim.USECS_SINCE_REBOOT) ∧
    (∀ l : Loop, Boundary l →
      0 ≤ l.total_time_on_CPU ∧
      (∀ r : Int, live l.sim r → 0 ≤ (l.sim.processes r).time_on_CPU) ∧
      cpu_time l ≤ l.sim.USECS_SINCE_REBOOT + 1 ∧
      (l.proc_on_CPU ≠ UNKNOWN → cpu_time l + 5 ≤ l.sim.USECS_SINCE_REBOOT)) ∧
    (∀ (devs : List (Int × Int)) (timequantum : Int) (commands : Int → Command)
        (ncommands first : Int) (fuel : Nat) (total : Int) (s : Sim),
      devices_known (init_all (load devs timequantum commands ncommands)) →
      execute_commands fuel (init_all (load devs timequantum commands ncommands)) first
        = .ok (total, s) →
      6 ≤ s.USECS_SINCE_REBOOT ∧ 0 ≤ total ∧ total + 6 ≤ s.USECS_SINCE_REBOOT ∧
      0 ≤ 100 * total / s.USECS_SINCE_REBOOT ∧ 100 * total / s.USECS_SINCE_REBOOT ≤ 100 ∧
      (0 : ℚ) ≤ 100 * (total : ℚ) / (s.USECS_SINCE_REBOOT : ℚ) ∧
      100 * (total : ℚ) / (s.USECS_SINCE_REBOOT : ℚ) ≤ 100 ∧
      (100 * total < 2 ^ 31 →
        utilization total s.USECS_SINCE_REBOOT = 100 * total / s.USECS_SINCE_REBOOT)) := by
  refine ⟨?_, ?_, ?_, ?_⟩
  · intro devs tq commands ncommands first l he
    obtain ⟨e1, _, _, e4, _⟩ := cpu_time_enter devs tq commands ncommands first l he
    exact ⟨e1, e4⟩
  · intro l l2 hb hp hl
    have hi := boundary_inv l hb
    obtain ⟨hs, hk⟩ := records_loop_body l l2 hi hl
    have hct := cpu_time_step l l2 hs (fun hc => live_on_CPU _ _ hi.2.2 hc)
    obtain ⟨_, i6, _⟩ := accounted l hb
    rw [hct]
    split at i6 <;> split <;> omega
  · intro l hb
    obtain ⟨⟨t1, t2⟩, i6, _⟩ := accounted l hb
    refine ⟨t1, t2, ?_, ?_⟩
    · split at i6 <;> omega
    · intro hc
      rw [if_pos hc] at i6
      omega
  · intro devs tq commands ncommands first fuel total s hk he
    unfold execute_commands run at he
    cases h0 : enter_loop (init_all (load devs tq commands ncommands)) first with
    | error e =>
      rw [h0] at he
      cases he
    | ok l0 =>
      rw [h0] at he
      simp only at he
      cases hw : while_loop fuel l0 with
      | error e =>
        rw [hw] at he
        cases he
      | ok l =>
        rw [hw] at he
        cases he
        have hb0 : Boundary l0 := Boundary.enter _ _ _ _ _ l0 hk h0
        obtain ⟨hb, hz⟩ := while_loop_boundary fuel l0 l hb0 hw
        obtain ⟨⟨t1, _⟩, _, i7⟩ := accounted l hb
        have hend := cpu_time_at_end l (boundary_inv l hb) hz
        have h6 := i7 hz
        rw [hend] at h6
        have hpos : (0 : Int) < l.sim.USECS_SINCE_REBOOT := by omega
        have hposq : (0 : ℚ) < (l.sim.USECS_SINCE_REBOOT : ℚ) := by exact_mod_cast hpos
        have htq : (0 : ℚ) ≤ (l.total_time_on_CPU : ℚ) := by exact_mod_cast t1
        have hleq : (l.total_time_on_CPU : ℚ) ≤ (l.sim.USECS_SINCE_REBOOT : ℚ) := by
          have : l.total_time_on_CPU ≤ l.sim.USECS_SINCE_REBOOT := by omega
          exact_mod_cast this
        refine ⟨by omega, t1, h6, ?_, ?_, ?_, ?_, ?_⟩
        · exact Int.ediv_nonneg (by omega) (by omega)
        · apply Int.ediv_le_of_le_mul hpos
          omega
        · exact div_nonneg (by linarith) (le_of_lt hposq)
        · rw [div_le_iff₀ hposq]
          linarith
        · intro hfit
          exact utilization_exact _ _ t1 hfit hpos

/-- The loop entry of scenario A is a boundary at which the accounted time, 0,
is not at most the clock, -1. -/
theorem entry_clock_counterexample :
    ∃ l : Loop, enter_loop scenario_A 0 = .ok l ∧ Boundary l ∧
      l.sim.USECS_SINCE_REBOOT = -1 ∧ cpu_time l = 0 ∧
      ¬ (cpu_time l ≤ l.sim.USECS_SINCE_REBOOT) := by
  obtain ⟨l, he⟩ := enter_loop_ok [] 100 (catalog_of [[⟨0, SYS_EXIT, 0, 0⟩]]) 1 0
  have hb : Boundary l :=
    Boundary.enter [] 100 _ 1 0 l (devices_known_of_no_io [] 100 _ 1 (by decide)) he
  obtain ⟨e1, _, _, e4, _⟩ := cpu_time_enter [] 100 _ 1 0 l he
  refine ⟨l, he, hb, e1, e4, ?_⟩
  rw [e1, e4]
  decide

/-- Witness of C24: scenario A.  After its first pass the accounted time is
within the clock, which reads 5; the run returns the total 0 with the clock at
6. -/
theorem cpu_time_within_clock_witness :
    (∃ l0 l1 : Loop, enter_loop scenario_A 0 = .ok l0 ∧ loop_body l0 = .ok l1 ∧
      l1.sim.USECS_SINCE_REBOOT = 5 ∧ cpu_time l1 ≤ l1.sim.USECS_SINCE_REBOOT) ∧
    (∃ s : Sim, execute_commands 2 scenario_A 0 = .ok (0, s) ∧ s.USECS_SINCE_REBOOT = 6 ∧
      6 ≤ s.USECS_SINCE_REBOOT ∧ (0 : Int) + 6 ≤ s.USECS_SINCE_REBOOT) := by
  have hk := devices_known_of_no_io [] 100 [[⟨0, SYS_EXIT, 0, 0⟩]] 1 (by decide)
  obtain ⟨l0, l1, h0, hp0, hb1, s1, c1, _, _, t1⟩ :=
    solo_start [] 100 0 (catalog_of [[⟨0, SYS_EXIT, 0, 0⟩]]) 1 rfl rfl
  obtain ⟨l2, hb2, n2, c2, _, t2⟩ := solo_exit 100 0 l1 s1
  have hp1 : l1.sim.nprocesses > 0 := by rw [s1.2.1]; decide
  have hpasses : passes 2 l0 = .ok l2 :=
    passes_append 1 1 l2 l0 l1 (passes_one l0 l1 hp0 hb1) (passes_one l1 l2 hp1 hb2)
  have hrun := run_of_passes _ 0 2 0 l0 l2 h0 hpasses (by omega)
  have hc : l2.sim.USECS_SINCE_REBOOT = 6 := by rw [c2, c1]; rfl
  have ht : l2.total_time_on_CPU = 0 := by rw [t2, t1]; rfl
  have hex : execute_commands 2 (init_all (load [] 100 (catalog_of [[⟨0, SYS_EXIT, 0, 0⟩]]) 1)) 0
      = .ok (0, l2.sim) := by
    simp [execute_commands, hrun, ht]
  have hb : Boundary l0 := Boundary.enter [] 100 _ 1 0 l0 hk h0
  have h4 := cpu_time_within_clock.2.2.2 [] 100 _ 1 0 2 0 l2.sim hk hex
  exact ⟨⟨l0, l1, h0, hb1, c1, cpu_time_within_clock.2.1 l0 l1 hb hp0 hb1⟩,
    ⟨l2.sim, hex, hc, h4.1, h4.2.2.1⟩⟩

/-! ## Claim C25: the cursor stays inside the script -/

/-- A command with an `exit` event has a first one. -/
theorem first_exit_exists (cmd : Command)
    (h : ∃ e : Int, 0 ≤ e ∧ e < cmd.nsyscalls ∧ (cmd.syscalls e).which = SYS_EXIT) :
    ∃ e : Int, first_exit cmd e := by
  obtain ⟨e, e0, e1, e2⟩ := h
  have hex : ∃ k : Nat, (k : Int) < cmd.nsyscalls ∧ (cmd.syscalls k).which = SYS_EXIT :=
    ⟨e.toNat, by omega, by rw [Int.toNat_of_nonneg e0]; exact e2⟩
  classical
  have hspec := Nat.find_spec hex
  have hmin : ∀ k : Nat, k < Nat.find hex →
      ¬ ((k : Int) < cmd.nsyscalls ∧ (cmd.syscalls k).which = SYS_EXIT) :=
    fun k hk => Nat.find_min hex hk
  generalize Nat.find hex = m at hspec hmin
  refine ⟨(m : Int), by omega, hspec.1, hspec.2, ?_⟩
  intro j j0 j1 hj
  apply hmin j.toNat (by omega)
  rw [Int.toNat_of_nonneg j0]
  exact ⟨by omega, hj⟩

/-- A cursor with no `exit` before it is at most the index of the first `exit`. -/
theorem cursor_le_first_exit (cmd : Command) (i e : Int) (he : first_exit cmd e)
    (hi : ∀ j : Int, 0 ≤ j → j < i → (cmd.syscalls j).which ≠ SYS_EXIT) : i ≤ e := by
  by_contra hlt
  exact hi e he.1 (by omega) he.2.2.1

/-- A step of the records keeps the cursors inside the scripts. -/
theorem cursors_step (commands : Int → Command) (ncommands : Int) (l l2 : Loop)
    (hs : records_step l l2) (hlive : l.proc_on_CPU ≠ UNKNOWN → live l.sim l.proc_on_CPU)
    (hx : exits_present commands ncommands) (hk : commands_known commands ncommands)
    (hi : cursors_ok commands ncommands l) : cursors_ok commands ncommands l2 := by
  obtain ⟨a, _, _, c, d⟩ := hs
  obtain ⟨hc, hr⟩ := hi
  refine ⟨a.trans hc, ?_⟩
  intro r hl2
  by_cases hu : (l.sim.processes r).pid = UNKNOWN
  · rcases d r hu with d1 | ⟨hd, hw, d3, d4, _⟩
    · exact absurd d1 hl2.2.2
    · obtain ⟨p0, p1, p2, p3⟩ := hr _ (hlive hd.1)
      have hev : next_event l
          = (commands (l.sim.processes l.proc_on_CPU).command).syscalls
              (l.sim.processes l.proc_on_CPU).next_syscall := by
        unfold next_event
        rw [hc]
      obtain ⟨e, he⟩ := first_exit_exists _ (hx _ p0 p1)
      have hle := cursor_le_first_exit _ _ e he p3
      have hne : (l.sim.processes l.proc_on_CPU).next_syscall ≠ e := by
        intro heq
        have h1 := he.2.2.1
        rw [← heq, ← hev, hw] at h1
        exact absurd h1 (by decide)
      have hlt : (l.sim.processes l.proc_on_CPU).next_syscall
          < (commands (l.sim.processes l.proc_on_CPU).command).nsyscalls := by
        have := he.2.1
        omega
      have hk2 := hk _ _ p0 p1 p2 hlt (by rw [← hev]; exact hw)
      rw [← hev] at hk2
      rw [d3, d4]
      exact ⟨hk2.1, hk2.2, le_refl _, fun j j0 j1 => by omega⟩
  · have hl : live l.sim r := ⟨hl2.1, hl2.2.1, hu⟩
    obtain ⟨p0, p1, p2, p3⟩ := hr r hl
    obtain ⟨c1, c2, _, c4⟩ := c r hu
    rw [c1]
    refine ⟨p0, p1, ?_, ?_⟩
    · rw [c2]
      split <;> omega
    · intro j j0 j1
      rw [c2] at j1
      by_cases hdr : event_due l ∧ r = l.proc_on_CPU
      · rw [if_pos hdr] at j1
        by_cases hj : j < (l.sim.processes r).next_syscall
        · exact p3 j j0 hj
        · have hje : j = (l.sim.processes r).next_syscall := by omega
          intro hex
          have hw : (next_event l).which = SYS_EXIT := by
            unfold next_event
            rw [hc, ← hdr.2, ← hje]
            exact hex
          rw [if_pos ⟨hdr.1, hw, hdr.2⟩] at c4
          exact hl2.2.2 c4
      · rw [if_neg hdr] at j1
        exact p3 j j0 (by omega)

/-- The cursors when the loop is entered with a command of the catalog. -/
theorem cursors_enter (devs : List (Int × Int)) (timequantum : Int)
    (commands : Int → Command) (ncommands first : Int) (l : Loop)
    (hf : 0 ≤ first ∧ first < ncommands)
    (he : enter_loop (init_all (load devs timequantum commands ncommands)) first = .ok l) :
    cursors_ok commands ncommands l := by
  unfold enter_loop at he
  cases hs : spawn_process
      { init_all (load devs timequantum commands ncommands) with USECS_SINCE_REBOOT := 0 }
      first UNKNOWN with
  | error e =>
    rw [hs] at he
    cases he
  | ok s1 =>
    rw [hs] at he
    cases he
    obtain ⟨q, q0, q1, qu, _, e⟩ := spawn_process_ok _ _ _ _ hs
    constructor
    · show s1.commands = commands
      rw [e]
      rfl
    · intro r hl
      have hl1 : (s1.processes r).pid ≠ UNKNOWN := hl.2.2
      show 0 ≤ (s1.processes r).command ∧ (s1.processes r).command < ncommands ∧
        0 ≤ (s1.processes r).next_syscall ∧
        ∀ j : Int, 0 ≤ j → j < (s1.processes r).next_syscall →
          ((commands (s1.processes r).command).syscalls j).which ≠ SYS_EXIT
      rw [e, spawn_in_slot_processes] at hl1 ⊢
      by_cases hrq : r = q
      · rw [if_pos hrq]
        exact ⟨hf.1, hf.2, le_refl _, fun j j0 j1 => by
          have : j < 0 := j1
          omega⟩
      · rw [if_neg hrq] at hl1
        exfalso
        apply hl1
        show ((init_all (load devs timequantum commands ncommands)).processes r).pid = UNKNOWN
        rw [init_all_processes, if_pos ⟨hl.1, hl.2.1⟩]

/-- The cursors after any number of passes. -/
theorem cursors_passes (commands : Int → Command) (ncommands : Int)
    (hx : exits_present commands ncommands) (hk : commands_known commands ncommands) (n : Nat) :
    ∀ l l2 : Loop, Boundary l → cursors_ok commands ncommands l → passes n l = .ok l2 →
      cursors_ok commands ncommands l2 := by
  induction n with
  | zero =>
    intro l l2 _ hi h
    cases h
    exact hi
  | succ n ih =>
    intro l l2 hb hi h
    rw [passes] at h
    by_cases hp : l.sim.nprocesses > 0
    · rw [if_pos hp] at h
      cases hl : loop_body l with
      | error e =>
        rw [hl] at h
        cases h
      | ok l1 =>
        rw [hl] at h
        have hinv := boundary_inv l hb
        have hs := (records_loop_body l l1 hinv hl).1
        exact ih l1 l2 (Boundary.pass l l1 hb hp hl)
          (cursors_step commands ncommands l l1 hs
            (fun hc => live_on_CPU _ _ hinv.2.2 hc) hx hk hi) h
    · rw [if_neg hp] at h
      cases h
      exact hi

/-- Claim C25, with the root command in the catalog.  Take a catalog in which
every command contains an `exit` event and every spawn event names a command of
the catalog (what `find_command_byname` returns), devices known to the device
table, and a root command of the catalog: `main` passes `first = 0`, so this
asks for a command file with at least one command, which the claim leaves out.
At every boundary between passes of the run, every live process runs a command
of the catalog and its cursor is at least 0 and at most the index of the first
`exit` event of that command, hence below its number of events; this holds in
particular for the process on the CPU, whose event the next pass reads.  Over a
pass the cursor of a live process moves on by exactly one if it is the process
on the CPU and its event is due (the pass dispatches it), and is unchanged
otherwise. -/
theorem cursor_in_script (devs : List (Int × Int)) (timequantum : Int)
    (commands : Int → Command) (ncommands first : Int) (n : Nat) (l0 l : Loop)
    (hdev : devices_known (init_all (load devs timequantum commands ncommands)))
    (hx : exits_present commands ncommands) (hk : commands_known commands ncommands)
    (hf : 0 ≤ first ∧ first < ncommands)
    (he : enter_loop (init_all (load devs timequantum commands ncommands)) first = .ok l0)
    (hp : passes n l0 = .ok l) :
    l.sim.commands = commands ∧
    (∀ r : Int, live l.sim r →
      0 ≤ (l.sim.processes r).command ∧ (l.sim.processes r).command < ncommands ∧
      ∃ e : Int, first_exit (l.sim.commands (l.sim.processes r).command) e ∧
        0 ≤ (l.sim.processes r).next_syscall ∧ (l.sim.processes r).next_syscall ≤ e ∧
        (l.sim.processes r).next_syscall
          < (l.sim.commands (l.sim.processes r).command).nsyscalls) ∧
    (l.proc_on_CPU ≠ UNKNOWN →
      live l.sim l.proc_on_CPU ∧
      ∃ e : Int, first_exit (l.sim.commands (l.sim.processes l.proc_on_CPU).command) e ∧
        0 ≤ (l.sim.processes l.proc_on_CPU).next_syscall ∧
        (l.sim.processes l.proc_on_CPU).next_syscall ≤ e ∧
        (l.sim.processes l.proc_on_CPU).next_syscall
          < (l.sim.commands (l.sim.processes l.proc_on_CPU).command).nsyscalls) ∧
    (∀ l2 : Loop, 0 < l.sim.nprocesses → loop_body l = .ok l2 →
      ∀ r : Int, live l.sim r →
        (l2.sim.processes r).next_syscall
          = (l.sim.processes r).next_syscall
            + (if event_due l ∧ r = l.proc_on_CPU then 1 else 0)) := by
  have hb0 : Boundary l0 := Boundary.enter _ _ _ _ _ l0 hdev he
  have hb : Boundary l := boundary_passes n l0 l hb0 hp
  have hinv := boundary_inv l hb
  have hc0 := cursors_enter devs timequantum commands ncommands first l0 hf he
  obtain ⟨hcmd, hr⟩ := cursors_passes commands ncommands hx hk n l0 l hb0 hc0 hp
  have hall : ∀ r : Int, live l.sim r →
      0 ≤ (l.sim.processes r).command ∧ (l.sim.processes r).command < ncommands ∧
      ∃ e : Int, first_exit (l.sim.commands (l.sim.processes r).command) e ∧
        0 ≤ (l.sim.processes r).next_syscall ∧ (l.sim.processes r).next_syscall ≤ e ∧
        (l.sim.processes r).next_syscall
          < (l.sim.commands (l.sim.processes r).command).nsyscalls := by
    intro r hl
    obtain ⟨p0, p1, p2, p3⟩ := hr r hl
    obtain ⟨e, hfe⟩ := first_exit_exists _ (hx _ p0 p1)
    have hle := cursor_le_first_exit _ _ e hfe p3
    rw [hcmd]
    exact ⟨p0, p1, e, hfe, p2, hle, lt_of_le_of_lt hle hfe.2.1⟩
  refine ⟨hcmd, hall, ?_, ?_⟩
  · intro hc
    have hl := live_on_CPU _ _ hinv.2.2 hc
    exact ⟨hl, (hall _ hl).2.2⟩
  · intro l2 _ hl2 r hl
    exact ((records_loop_body l l2 hinv hl2).1.2.2.2.1 r hl.2.2).2.1

/-- A run that has a process on the CPU after `n` passes has reached that state
without error. -/
theorem after_passes_ok (s : Sim) (n : Nat) (hne : (after_passes n s).proc_on_CPU ≠ UNKNOWN) :
    ∃ l0 : Loop, enter_loop s 0 = .ok l0 ∧ passes n l0 = .ok (after_passes n s) := by
  unfold after_passes at hne ⊢
  cases h0 : enter_loop s 0 with
  | error e =>
    rw [h0] at hne
    exact absurd rfl hne
  | ok l0 =>
    rw [h0] at hne
    simp only at hne ⊢
    cases hp : passes n l0 with
    | error e =>
      rw [hp] at hne
      exact absurd rfl hne
    | ok l => exact ⟨l0, rfl, hp⟩

set_option maxRecDepth 100000 in
/-- Witness of C25: the parent-and-child scenario after 153 passes.  The child
(slot 1) is on the CPU with its cursor at 0, the index of its `exit`; the root
(slot 0) has dispatched its spawn and its wait, and its cursor 2 is the index of
the first `exit` of its command of three events. -/
theorem cursor_in_script_witness :
    (after_passes 153 (scenario_D 150)).proc_on_CPU = 1 ∧
    ((after_passes 153 (scenario_D 150)).sim.processes 0).next_syscall = 2 ∧
    first_exit ((after_passes 153 (scenario_D 150)).sim.commands
      ((after_passes 153 (scenario_D 150)).sim.processes 0).command) 2 ∧
    ((after_passes 153 (scenario_D 150)).sim.commands
      ((after_passes 153 (scenario_D 150)).sim.processes 0).command).nsyscalls = 3 ∧
    (∃ e : Int, first_exit ((after_passes 153 (scenario_D 150)).sim.commands
        ((after_passes 153 (scenario_D 150)).sim.processes 0).command) e ∧
      0 ≤ ((after_passes 153 (scenario_D 150)).sim.processes 0).next_syscall ∧
      ((after_passes 153 (scenario_D 150)).sim.processes 0).next_syscall ≤ e ∧
      ((after_passes 153 (scenario_D 150)).sim.processes 0).next_syscall
        < ((after_passes 153 (scenario_D 150)).sim.commands
            ((after_passes 153 (scenario_D 150)).sim.processes 0).command).nsyscalls) := by
  obtain ⟨l0, he, hp⟩ := after_passes_ok (scenario_D 150) 153 (by decide!)
  have hx : exits_present
      (catalog_of [[⟨0, SYS_SPAWN, 1, 0⟩, ⟨0, SYS_WAIT, 0, 0⟩, ⟨0, SYS_EXIT, 0, 0⟩],
        [⟨150, SYS_EXIT, 0, 0⟩]]) 2 := by
    intro c c0 c1
    have hc : c = 0 ∨ c = 1 := by omega
    rcases hc with rfl | rfl
    · exact ⟨2, by decide, by decide!, by decide!⟩
    · exact ⟨0, by decide, by decide!, by decide!⟩
  have hk : commands_known
      (catalog_of [[⟨0, SYS_SPAWN, 1, 0⟩, ⟨0, SYS_WAIT, 0, 0⟩, ⟨0, SYS_EXIT, 0, 0⟩],
        [⟨150, SYS_EXIT, 0, 0⟩]]) 2 := by
    intro c i c0 c1 i0 i1 _
    have hc : c = 0 ∨ c = 1 := by omega
    rcases hc with rfl | rfl
    · have h3 : ((catalog_of [[⟨0, SYS_SPAWN, 1, 0⟩, ⟨0, SYS_WAIT, 0, 0⟩, ⟨0, SYS_EXIT, 0, 0⟩],
          [⟨150, SYS_EXIT, 0, 0⟩]]) 0).nsyscalls = 3 := by decide!
      rw [h3] at i1
      have hi : i = 0 ∨ i = 1 ∨ i = 2 := by omega
      rcases hi with rfl | rfl | rfl <;> exact ⟨by decide!, by decide!⟩
    · have h3 : ((catalog_of [[⟨0, SYS_SPAWN, 1, 0⟩, ⟨0, SYS_WAIT, 0, 0⟩, ⟨0, SYS_EXIT, 0, 0⟩],
          [⟨150, SYS_EXIT, 0, 0⟩]]) 1).nsyscalls = 1 := by decide!
      rw [h3] at i1
      have hi : i = 0 := by omega
      rw [hi]
      exact ⟨by decide!, by decide!⟩
  have h := cursor_in_script [] 100 _ 2 0 153 l0 (after_passes 153 (scenario_D 150))
    (devices_known_of_no_io [] 100 _ 2 (by decide)) hx hk ⟨by decide, by decide⟩ he hp
  exact ⟨by decide!, by decide!, by decide!, by decide!, (h.2.1 0 (by decide!)).2.2⟩

/-! ## A transfer longer than an `int` can hold -/

set_option maxRecDepth 100000 in
/-- C25, the claim at an explicit input: a command file without commands.  Every
command of the catalog has an `exit` (there is none), and `main` still calls
`execute_commands(0)`: after the first pass the root process is on the CPU,
running the zero-initialised `commands[0]` of no events, and its event is due,
so the next pass reads `commands[0].syscalls[0]` with the cursor 0 not below the
number of events, 0; that script has no first `exit`. -/
theorem empty_catalog_counterexample :
    exits_present (catalog_of []) 0 ∧ commands_known (catalog_of []) 0 ∧
    devices_known scenario_empty ∧
    (∃ l0 : Loop, enter_loop scenario_empty 0 = .ok l0 ∧
      passes 1 l0 = .ok (after_passes 1 scenario_empty)) ∧
    Boundary (after_passes 1 scenario_empty) ∧
    (after_passes 1 scenario_empty).proc_on_CPU = 0 ∧
    0 < (after_passes 1 scenario_empty).sim.nprocesses ∧
    event_due (after_passes 1 scenario_empty) ∧
    ((after_passes 1 scenario_empty).sim.processes 0).command = 0 ∧
    ((after_passes 1 scenario_empty).sim.processes 0).next_syscall = 0 ∧
    ((after_passes 1 scenario_empty).sim.commands 0).nsyscalls = 0 ∧
    ¬ (((after_passes 1 scenario_empty).sim.processes 0).next_syscall
        < ((after_passes 1 scenario_empty).sim.commands 0).nsyscalls) ∧
    ∀ e : Int, ¬ first_exit ((after_passes 1 scenario_empty).sim.commands 0) e := by
  have hk := devices_known_of_no_io [] 100 [] 0 (by decide)
  have hns : ((after_passes 1 scenario_empty).sim.commands 0).nsyscalls = 0 := by decide!
  refine ⟨fun c c0 c1 => by omega, fun c i c0 c1 => by omega, hk,
    after_passes_ok scenario_empty 1 (by decide!),
    boundary_after_passes [] 100 _ 0 1 hk (by decide!),
    by decide!, by decide!, by decide!, by decide!, by decide!, hns, by decide!, ?_⟩
  intro e he
  have h0 := he.1
  have h1 := he.2.1
  rw [hns] at h1
  omega

end MyScheduler
